import Mathlib

/-!
# Digital clock control core (`main.c`): shallow embedding and verified properties

Machine integers are natural numbers or integers with the wrap-around of their C type made
explicit (`uint8_t`: `% 256`, `uint32_t`: `% 2 ^ 32`, `int8_t`: `toInt8`).  Peripheral
traffic (display, buzzer, real-time counter, EEPROM) has no influence on the values modelled
here and is left out, except for the UART text emitted by the command interpreter.
-/

namespace Clock

/-! ## Constants (the `#define`s of `main.c`) -/

def BUTTON_UP : Fin 8 := 4
def BUTTON_DOWN : Fin 8 := 3
def BUTTON_LEFT : Fin 8 := 6
def BUTTON_RIGHT : Fin 8 := 5
def BUTTON_DISCARD : Fin 8 := 0
def BUTTON_1 : Fin 8 := 0
def BUTTON_2 : Fin 8 := 1
def BUTTON_3 : Fin 8 := 2
def BUTTON_BACK : Fin 8 := 7

def KEY_CONFIG_PRESS : Nat := 0x01
def KEY_DELAY : Nat := 10

def MODE_DISPLAY : Int := 0x01
def MODE_SETDATE : Int := 0x02
def MODE_SETTIME : Int := 0x04
def MODE_SETALARM : Int := 0x08

def ERROR_SUCCESS : Nat := 0x0000
def ERROR_NOT_DIGIT : Nat := 0x0100
def ERROR_NO_DELIM : Nat := 0x0200
def ERROR_NOT_MATCH : Nat := 0x0400
def ERROR_PARTIAL : Nat := 0x0800
def ERROR_FORMAT : Nat := 0x1000

def ROM_MAGIC : Nat := 0xbeefcafe

/-! ## Data model -/

/-- The C struct `datetime_t`: `month`, `day` are `uint8_t`, `year` is `uint16_t`, `time` is
`uint32_t` (seconds since midnight). -/
structure datetime_t where
  month : Nat
  day : Nat
  year : Nat
  time : Nat
deriving DecidableEq, Repr

/-- The C struct `keystate_t`, four `uint8_t` fields. -/
structure keystate_t where
  config : Nat
  state : Nat
  timer : Nat
  flag : Nat
deriving DecidableEq, Repr

/-- The array `int8_t setting_digit[8]`, one field per cell. -/
structure EditBuffer where
  c0 : Int
  c1 : Int
  c2 : Int
  c3 : Int
  c4 : Int
  c5 : Int
  c6 : Int
  c7 : Int
deriving DecidableEq, Repr

/-- The global variables of `main.c` that the control core reads and writes.  `restart`
records that `SysCtlReset` has been called. -/
structure State where
  datetime : datetime_t
  alarm_time : Nat
  keystate : Fin 8 → keystate_t
  mode : Int
  flow_offset : Nat
  flow_speed : Int
  focus_digit : Nat
  focus_flash : Nat
  setting_digit : EditBuffer
  alarming : Nat
  restart : Bool

/-! ## Integer conversions of C -/

/-- Conversion of an `int` value to `uint8_t`. -/
def toUInt8 (x : Int) : Nat := (x % 256).toNat

/-- Conversion of an `int` value to `uint16_t`. -/
def toUInt16 (x : Int) : Nat := (x % 65536).toNat

/-- Conversion of an `int` value to `int8_t` (two's complement wrap-around). -/
def toInt8 (x : Int) : Int := (x + 128) % 256 - 128

/-- Conversion of a value to `int` (32 bits, two's complement wrap-around). -/
def toInt32 (x : Int) : Int := (x + 2147483648) % 4294967296 - 2147483648

/-- The C operator `%` on `int`: the remainder of the division that truncates toward zero. -/
def cmod (a b : Int) : Int := Int.tmod a b

/-! ## Calendar arithmetic -/

/-- The table `month_day` local to `GetDayOfMonth`. -/
def month_day : List Nat := [31, 28, 31, 30, 31, 30, 31, 31, 30, 31, 30, 31]

/-- The function `GetDayOfMonth`.  The table is indexed with `month - 1` whatever `month` is;
`oob i` is the byte that an access at an index `i` outside `0..11` finds in memory. -/
def GetDayOfMonth (oob : Int → Nat) (year month : Nat) : Nat :=
  let is_leap : Bool := if year % 100 = 0 then year % 400 = 0 else year % 4 = 0
  if month = 2 ∧ is_leap = true then 29
  else
    let idx : Int := (month : Int) - 1
    if 0 ≤ idx ∧ idx < 12 then month_day.getD idx.toNat 0 else oob idx % 256

/-- The date and time part of the one-second branch of the main loop (`++datetime.time` and
the roll-over cascade that follows it). -/
def advanceDatetime (oob : Int → Nat) (d : datetime_t) : datetime_t :=
  let time := (d.time + 1) % 2 ^ 32
  if time ≥ 86400 then
    let day_of_month := GetDayOfMonth oob d.year d.month
    let time := time - 86400
    let day := (d.day + 1) % 256
    if day > day_of_month then
      let day := day - day_of_month
      let month := (d.month + 1) % 256
      if month > 12 then
        { month := month, day := day, year := (d.year + 1) % 10000, time := time }
      else
        { month := month, day := day, year := d.year, time := time }
    else
      { month := d.month, day := day, year := d.year, time := time }
  else
    { month := d.month, day := d.day, year := d.year, time := time }

/-- The one-second branch of the main loop (`if (systick_1s_flag) ...`): advance the clock,
then compare it with the alarm time. -/
def oneSecondTick (oob : Int → Nat) (s : State) : State :=
  let dt := advanceDatetime oob s.datetime
  { s with datetime := dt, alarming := if dt.time = s.alarm_time then 1 else s.alarming }

/-- The Gregorian reference for the length of a month, as the specification words it. -/
def gregorianDays (y m : Nat) : Nat :=
  if m = 2 then (if y % 4 = 0 ∧ (y % 100 ≠ 0 ∨ y % 400 = 0) then 29 else 28)
  else if m = 4 ∨ m = 6 ∨ m = 9 ∨ m = 11 then 30
  else 31

/-- A `DateTime` of the data model: year `0..9999`, month `1..12`, day within the month,
time of day `0..86399`. -/
def ValidDateTime (oob : Int → Nat) (d : datetime_t) : Prop :=
  d.year ≤ 9999 ∧ 1 ≤ d.month ∧ d.month ≤ 12 ∧ 1 ≤ d.day ∧
    d.day ≤ GetDayOfMonth oob d.year d.month ∧ d.time ≤ 86399

instance (oob : Int → Nat) (d : datetime_t) : Decidable (ValidDateTime oob d) := by
  unfold ValidDateTime
  infer_instance

/-- The roll-over cascade of the one-second branch with the time of day left alone: what the
code does to the date when a day ends. -/
def dayRoll (oob : Int → Nat) (d : datetime_t) : datetime_t :=
  let day_of_month := GetDayOfMonth oob d.year d.month
  let day := (d.day + 1) % 256
  if day > day_of_month then
    let month := (d.month + 1) % 256
    if month > 12 then
      { month := month, day := day - day_of_month, year := (d.year + 1) % 10000, time := d.time }
    else
      { month := month, day := day - day_of_month, year := d.year, time := d.time }
  else
    { month := d.month, day := day, year := d.year, time := d.time }

/-! ## Edit buffer and key flags -/

/-- Read `setting_digit[i]`.  Only the eight cells of the array are modelled. -/
def EditBuffer.get (b : EditBuffer) (i : Nat) : Int :=
  match i with
  | 0 => b.c0
  | 1 => b.c1
  | 2 => b.c2
  | 3 => b.c3
  | 4 => b.c4
  | 5 => b.c5
  | 6 => b.c6
  | 7 => b.c7
  | _ => 0

/-- Write `setting_digit[i] = v`, the value converted to `int8_t`.  Only the eight cells of the
array are modelled. -/
def EditBuffer.set (b : EditBuffer) (i : Nat) (v : Int) : EditBuffer :=
  match i with
  | 0 => { b with c0 := toInt8 v }
  | 1 => { b with c1 := toInt8 v }
  | 2 => { b with c2 := toInt8 v }
  | 3 => { b with c3 := toInt8 v }
  | 4 => { b with c4 := toInt8 v }
  | 5 => { b with c5 := toInt8 v }
  | 6 => { b with c6 := toInt8 v }
  | 7 => { b with c7 := toInt8 v }
  | _ => b

/-- The year the date cells encode, as `ProcSetDate` computes it into a `uint16_t`. -/
def EditBuffer.year (b : EditBuffer) : Nat :=
  toUInt16 (b.get 0 * 1000 + b.get 1 * 100 + b.get 2 * 10 + b.get 3)

/-- The month the date cells encode, as `ProcSetDate` computes it into a `uint8_t`. -/
def EditBuffer.month (b : EditBuffer) : Nat := toUInt8 (b.get 4 * 10 + b.get 5)

/-- The day the date cells encode, as `ProcSetDate` computes it into a `uint8_t`. -/
def EditBuffer.day (b : EditBuffer) : Nat := toUInt8 (b.get 6 * 10 + b.get 7)

/-- The hour the time cells encode, as `ProcSetTime` computes it into a `uint8_t`. -/
def EditBuffer.hour (b : EditBuffer) : Nat := toUInt8 (b.get 0 * 10 + b.get 1)

/-- The minute the time cells encode, as `ProcSetTime` computes it into a `uint8_t`. -/
def EditBuffer.min (b : EditBuffer) : Nat := toUInt8 (b.get 2 * 10 + b.get 3)

/-- The second the time cells encode, as `ProcSetTime` computes it into a `uint8_t`. -/
def EditBuffer.sec (b : EditBuffer) : Nat := toUInt8 (b.get 4 * 10 + b.get 5)

/-- The statement `keystate[i].flag = 0`. -/
def clearFlag (ks : Fin 8 → keystate_t) (i : Fin 8) : Fin 8 → keystate_t :=
  fun k => if k = i then { ks k with flag := 0 } else ks k

/-- The function `ClearKeyFlags`. -/
def ClearKeyFlags (ks : Fin 8 → keystate_t) : Fin 8 → keystate_t :=
  fun k => { ks k with flag := 0 }

/-- Whether `keystate[i].flag` is set. -/
def pending (ks : Fin 8 → keystate_t) (i : Fin 8) : Bool := (ks i).flag != 0

/-- The statement `keystate[i].flag = 1` of `DetectKey`. -/
def setFlag (ks : Fin 8 → keystate_t) (i : Fin 8) : Fin 8 → keystate_t :=
  fun k => if k = i then { ks k with flag := 1 } else ks k

/-! ## Display mode -/

/-- The first three key handlers of `ProcDisplay`: LEFT and RIGHT change the scroll speed,
BACK acknowledges an active alarm. -/
def displayKeys (s : State) : State :=
  let s : State :=
    if pending s.keystate BUTTON_LEFT then
      { s with keystate := clearFlag s.keystate BUTTON_LEFT
               flow_speed := if s.flow_speed < 2 then toInt8 (s.flow_speed + 1) else s.flow_speed }
    else s
  let s : State :=
    if pending s.keystate BUTTON_RIGHT then
      { s with keystate := clearFlag s.keystate BUTTON_RIGHT
               flow_speed := if s.flow_speed > -2 then toInt8 (s.flow_speed - 1) else s.flow_speed }
    else s
  if pending s.keystate BUTTON_BACK then
    { s with keystate := clearFlag s.keystate BUTTON_BACK
             alarming := if s.alarming ≠ 0 then 0 else s.alarming }
  else s

/-- The branch `if (keystate[BUTTON_1].flag)` of `ProcDisplay`: enter Set-Date mode and seed
the edit buffer from the date. -/
def enterSetDate (s : State) : State :=
  let b := s.setting_digit
  let b := b.set 0 (s.datetime.year / 1000 % 10 : Nat)
  let b := b.set 1 (s.datetime.year / 100 % 10 : Nat)
  let b := b.set 2 (s.datetime.year / 10 % 10 : Nat)
  let b := b.set 3 (s.datetime.year % 10 : Nat)
  let b := b.set 4 (s.datetime.month / 10 % 10 : Nat)
  let b := b.set 5 (s.datetime.month % 10 : Nat)
  let b := b.set 6 (s.datetime.day / 10 : Nat)
  let b := b.set 7 (s.datetime.day % 10 : Nat)
  { s with mode := MODE_SETDATE, focus_digit := 0, keystate := ClearKeyFlags s.keystate
           setting_digit := b }

/-- The branch `if (keystate[BUTTON_2].flag || keystate[BUTTON_3].flag)` of `ProcDisplay`:
enter Set-Time or Set-Alarm mode and seed the edit buffer from the time or the alarm time. -/
def enterSetTime (s : State) : State :=
  let time := if pending s.keystate BUTTON_2 then s.datetime.time else s.alarm_time
  let hour := time / 3600 % 256
  let min := time / 60 % 60
  let sec := time % 60
  let b := s.setting_digit
  let b := b.set 0 (hour / 10 % 10 : Nat)
  let b := b.set 1 (hour % 10 : Nat)
  let b := b.set 2 (min / 10 % 10 : Nat)
  let b := b.set 3 (min % 10 : Nat)
  let b := b.set 4 (sec / 10 % 10 : Nat)
  let b := b.set 5 (sec % 10 : Nat)
  { s with mode := if pending s.keystate BUTTON_2 then MODE_SETTIME else MODE_SETALARM
           focus_digit := 0, keystate := ClearKeyFlags s.keystate, setting_digit := b }

/-- The function `ProcDisplay`, without the rendering call at its end. -/
def ProcDisplay (s : State) : State :=
  let s := displayKeys s
  if pending s.keystate BUTTON_1 then enterSetDate s
  else if pending s.keystate BUTTON_2 || pending s.keystate BUTTON_3 then enterSetTime s
  else if pending s.keystate BUTTON_DOWN then
    { s with keystate := clearFlag s.keystate BUTTON_DOWN, restart := true }
  else s

/-- The four key handlers that open `ProcSetDate` (`cells = 8`) and `ProcSetTime`
(`cells = 6`): LEFT and RIGHT move the focus and wrap, UP and DOWN increment and decrement
the focused cell.  `(focus_digit - 1 + cells) % cells` is computed on `int`; the focus is never
negative, so it is `(focus_digit + cells - 1) % cells` on natural numbers. -/
def editKeys (cells : Nat) (s : State) : State :=
  let s : State :=
    if pending s.keystate BUTTON_LEFT then
      { s with keystate := clearFlag s.keystate BUTTON_LEFT
               focus_digit := (s.focus_digit + cells - 1) % cells }
    else s
  let s : State :=
    if pending s.keystate BUTTON_RIGHT then
      { s with keystate := clearFlag s.keystate BUTTON_RIGHT
               focus_digit := (s.focus_digit + 1) % cells }
    else s
  let s : State :=
    if pending s.keystate BUTTON_UP then
      { s with keystate := clearFlag s.keystate BUTTON_UP
               setting_digit := s.setting_digit.set s.focus_digit
                 (s.setting_digit.get s.focus_digit + 1) }
    else s
  if pending s.keystate BUTTON_DOWN then
    { s with keystate := clearFlag s.keystate BUTTON_DOWN
             setting_digit := s.setting_digit.set s.focus_digit
               (s.setting_digit.get s.focus_digit - 1) }
  else s

/-- The branch `if (keystate[BUTTON_DISCARD].flag)` that closes `ProcSetDate` and
`ProcSetTime`. -/
def discardEdit (s : State) : State :=
  if pending s.keystate BUTTON_DISCARD then
    { s with mode := MODE_DISPLAY, keystate := ClearKeyFlags s.keystate }
  else s

/-! ## Date editing -/

/-- The validation block of `ProcSetDate` (the `if (focus_digit == 4) ... else ...` chain). -/
def validateDate (oob : Int → Nat) (focus : Nat) (b : EditBuffer) : EditBuffer :=
  if focus = 4 then
    let b := b.set focus (cmod (b.get focus + 2) 2)
    if b.get focus = 1 then
      if b.get (focus + 1) > 2 then b.set (focus + 1) 2 else b
    else
      if b.get (focus + 1) = 0 then b.set (focus + 1) 1 else b
  else if focus = 5 then
    if b.get (focus - 1) = 0 then
      b.set focus (cmod (b.get focus - 1 + 9) 9 + 1)
    else
      let b := b.set focus (b.get focus + 3)
      b.set focus (cmod (b.get focus) 3)
  else if focus = 6 then
    let day_of_month : Nat := GetDayOfMonth oob b.year b.month
    let b := b.set focus (b.get focus + (day_of_month / 10 + 1 : Nat))
    let b := b.set focus (cmod (b.get focus) (day_of_month / 10 + 1 : Nat))
    if b.get focus = (day_of_month / 10 : Nat) then
      if b.get (focus + 1) > (day_of_month % 10 : Nat) then
        b.set (focus + 1) (day_of_month % 10 : Nat)
      else b
    else if b.get focus = 0 then
      if b.get (focus + 1) = 0 then b.set (focus + 1) 1 else b
    else b
  else if focus = 7 then
    let day_of_month : Nat := GetDayOfMonth oob b.year b.month
    if b.get (focus - 1) = 0 then
      b.set focus (cmod (b.get focus - 1) 9 + 1)
    else if b.get (focus - 1) = (day_of_month / 10 : Nat) then
      let b := b.set focus (b.get focus + (day_of_month % 10 + 1 : Nat))
      b.set focus (cmod (b.get focus) (day_of_month % 10 + 1 : Nat))
    else b
  else
    b.set focus (cmod (b.get focus + 10) 10)

/-- The block `// update day range` of `ProcSetDate`. -/
def updateDayRange (oob : Int → Nat) (b : EditBuffer) : EditBuffer :=
  let day_of_month : Nat := GetDayOfMonth oob b.year b.month
  if b.day > day_of_month then
    let b := b.set 6 (day_of_month / 10 : Nat)
    b.set 7 (day_of_month % 10 : Nat)
  else b

/-- The branch `if (keystate[BUTTON_BACK].flag)` of `ProcSetDate`: save the date. -/
def confirmDate (s : State) : State :=
  if pending s.keystate BUTTON_BACK then
    { s with datetime := { s.datetime with year := s.setting_digit.year
                                           month := s.setting_digit.month
                                           day := s.setting_digit.day }
             mode := MODE_DISPLAY, keystate := ClearKeyFlags s.keystate }
  else s

/-- The function `ProcSetDate`, without the rendering loop at its end. -/
def ProcSetDate (oob : Int → Nat) (s : State) : State :=
  let s := editKeys 8 s
  let s : State :=
    { s with setting_digit := updateDayRange oob (validateDate oob s.focus_digit s.setting_digit) }
  discardEdit (confirmDate s)

/-! ## Time and alarm editing -/

/-- The validation block of `ProcSetTime` (the `if (focus_digit == 0) ... else ...` chain). -/
def validateTime (focus : Nat) (b : EditBuffer) : EditBuffer :=
  if focus = 0 then
    let b := b.set focus (cmod (b.get focus + 3) 3)
    if b.get focus = 2 then
      if b.get (focus + 1) > 3 then b.set (focus + 1) 3 else b
    else b
  else if focus = 1 then
    if b.get (focus - 1) = 2 then
      b.set focus (cmod (b.get focus + 4) 4)
    else
      b.set focus (cmod (b.get focus + 10) 10)
  else if focus = 2 ∨ focus = 4 then
    b.set focus (cmod (b.get focus + 6) 6)
  else
    b.set focus (cmod (b.get focus + 10) 10)

/-- The branch `if (keystate[BUTTON_BACK].flag)` of `ProcSetTime`: save the time or the
alarm time. -/
def confirmTime (s : State) : State :=
  if pending s.keystate BUTTON_BACK then
    let hour := s.setting_digit.hour
    let min := s.setting_digit.min
    let sec := s.setting_digit.sec
    let s : State :=
      if s.mode = MODE_SETTIME then
        { s with datetime := { s.datetime with time := hour * 3600 + min * 60 + sec } }
      else
        { s with alarm_time := hour * 3600 + min * 60 + sec }
    { s with mode := MODE_DISPLAY, keystate := ClearKeyFlags s.keystate }
  else s

/-- The function `ProcSetTime`, without the rendering loop at its end. -/
def ProcSetTime (s : State) : State :=
  let s := editKeys 6 s
  let s : State := { s with setting_digit := validateTime s.focus_digit s.setting_digit }
  discardEdit (confirmTime s)

/-- An `EditBuffer` that encodes a valid date: every cell in `0..9`, month in `1..12`, day in
`1..GetDayOfMonth(year, month)`. -/
def ValidDateBuffer (oob : Int → Nat) (b : EditBuffer) : Prop :=
  (0 ≤ b.c0 ∧ b.c0 ≤ 9) ∧ (0 ≤ b.c1 ∧ b.c1 ≤ 9) ∧ (0 ≤ b.c2 ∧ b.c2 ≤ 9) ∧
    (0 ≤ b.c3 ∧ b.c3 ≤ 9) ∧ (0 ≤ b.c4 ∧ b.c4 ≤ 9) ∧ (0 ≤ b.c5 ∧ b.c5 ≤ 9) ∧
    (0 ≤ b.c6 ∧ b.c6 ≤ 9) ∧ (0 ≤ b.c7 ∧ b.c7 ≤ 9) ∧
    1 ≤ b.month ∧ b.month ≤ 12 ∧ 1 ≤ b.day ∧ b.day ≤ GetDayOfMonth oob b.year b.month

instance (oob : Int → Nat) (b : EditBuffer) : Decidable (ValidDateBuffer oob b) := by
  unfold ValidDateBuffer
  infer_instance

/-- An `EditBuffer` whose first six cells encode a valid time: every cell in `0..9`,
hour at most 23, minute and second at most 59. -/
def ValidTimeBuffer (b : EditBuffer) : Prop :=
  (0 ≤ b.c0 ∧ b.c0 ≤ 9) ∧ (0 ≤ b.c1 ∧ b.c1 ≤ 9) ∧ (0 ≤ b.c2 ∧ b.c2 ≤ 9) ∧
    (0 ≤ b.c3 ∧ b.c3 ≤ 9) ∧ (0 ≤ b.c4 ∧ b.c4 ≤ 9) ∧ (0 ≤ b.c5 ∧ b.c5 ≤ 9) ∧
    b.hour ≤ 23 ∧ b.min ≤ 59 ∧ b.sec ≤ 59

instance (b : EditBuffer) : Decidable (ValidTimeBuffer b) := by
  unfold ValidTimeBuffer
  infer_instance

/-! ## Command interpreter -/

/-- The bytes of a string literal, without the terminating NUL. -/
def bytes (s : String) : List Nat := s.toList.map Char.toNat

/-- The byte `mem[i]` of a character array.  An array is the list of the bytes it starts
with; the bytes behind the list read as NUL, so a list without a zero is a C string with its
terminator, and a list that goes on after a zero shows what the memory behind the terminator
holds. -/
def byteAt (mem : List Nat) (i : Nat) : Nat := mem.getD i 0

/-- The C string that starts an array: the bytes before the first NUL. -/
def cstring (mem : List Nat) : List Nat := mem.takeWhile (fun c => c ≠ 0)

/-- The function `ToUpperCase`. -/
def ToUpperCase (x : Nat) : Nat :=
  if 97 ≤ x ∧ x ≤ 122 then x - 97 + 65 else x

/-- The digit loop of `UART0NumberPutNonBlocking`: `while (cur > 0 && data)`, filling the
buffer from its end; `fuel` is `cur`, and `acc` the digits written so far. -/
def numberDigits : Nat → Nat → List Nat → List Nat
  | 0, _, acc => acc
  | fuel + 1, data, acc =>
    if data = 0 then acc else numberDigits fuel (data / 10) ((data % 10 + 48) :: acc)

/-- The text `UART0NumberPutNonBlocking` sends: `0`, or an optional minus sign and the
decimal digits (`cur` starts at 19). -/
def UART0NumberPut (data : Int) : List Nat :=
  if data = 0 then bytes "0"
  else (if data < 0 then [45] else []) ++ numberDigits 19 data.natAbs []

/-- The loop and the tail of `ParseIntegerUntil`, from a given `*index` and `*result`; the
result is the error code, the final `*index` and the final `*result`.  The arguments behind
`delim` are the fuel, `*index` and `*result`; the fuel bounds the number of loop iterations,
and `none` means that it ran out. -/
def ParseIntegerUntilLoop (str : List Nat) (delim : Nat) :
    Nat → Nat → Int → Option (Nat × Nat × Int)
  | 0, _, _ => none
  | fuel + 1, index, result =>
    if byteAt str index ≠ 0 ∧ byteAt str index ≠ delim then
      if 48 ≤ byteAt str index ∧ byteAt str index ≤ 57 then
        ParseIntegerUntilLoop str delim fuel ((index + 1) % 256)
          (toInt32 (result * 10 + byteAt str index - 48))
      else some (ERROR_NOT_DIGIT, index, result)
    else if byteAt str index = delim then some (ERROR_SUCCESS, (index + 1) % 256, result)
    else some (ERROR_NO_DELIM, index, result)

/-- The function `ParseIntegerUntil`: `*result = 0`, then the loop. -/
def ParseIntegerUntil (fuel : Nat) (str : List Nat) (delim : Nat) (index : Nat) :
    Option (Nat × Nat × Int) :=
  ParseIntegerUntilLoop str delim fuel index 0

/-- What `ParseCommand` returns and does: the error code, `args[0]`, and the text it sends
on UART0. -/
structure ParseResult where
  error : Nat
  args : datetime_t
  uart : List Nat
deriving DecidableEq, Repr

/-- The outcome of reading one placeholder: either the scan goes on with a new input index
and new arguments, or `ParseCommand` returns `ERROR_FORMAT` after sending a diagnostic, with
the arguments as far as they were written. -/
inductive Placeholder where
  | next (i : Nat) (args : datetime_t)
  | format (uart : List Nat) (args : datetime_t)
deriving DecidableEq, Repr

/-- The diagnostic of a group that is not `digits` then delimiter: `Invalid Format: `, the
command, and the expected shape. -/
def invalidFormat (command : List Nat) (shape : String) : List Nat :=
  bytes "Invalid Format: " ++ cstring command ++ bytes shape

/-- The diagnostic of a group out of range: its name, its value, and the bounds. -/
def invalidValue (name : String) (temp : Int) (bounds : List Nat) : List Nat :=
  bytes name ++ UART0NumberPut temp ++ bounds

/-- The branch `pattern_type == 'T'` of `ParseCommand`: three groups `HH:MM:SS`, the last one
ended by `delim`, the pattern character behind the placeholder. -/
def parseTime (fuel : Nat) (command : List Nat) (delim : Nat) (i : Nat) (args : datetime_t) :
    Option Placeholder :=
  match ParseIntegerUntil fuel command 58 i with
  | none => none
  | some (error, i, temp) =>
    if error ≠ ERROR_SUCCESS then
      some (.format (invalidFormat command "\r\nTime should be HH:MM:SS\r\n") args)
    else if ¬ (temp ≥ 0 ∧ temp ≤ 23) then
      some (.format
        (invalidValue "Invalid Hour: " temp (bytes "\r\nShould between 00 and 23\r\n")) args)
    else
      let args := { args with time := (args.time + (temp * 60 * 60).toNat) % 2 ^ 32 }
      match ParseIntegerUntil fuel command 58 i with
      | none => none
      | some (error, i, temp) =>
        if error ≠ ERROR_SUCCESS then
          some (.format (invalidFormat command "\r\nTime should be HH:MM:SS\r\n") args)
        else if ¬ (temp ≥ 0 ∧ temp ≤ 59) then
          some (.format
            (invalidValue "Invalid Minute: " temp (bytes "\r\nShould between 00 and 59\r\n")) args)
        else
          let args := { args with time := (args.time + (temp * 60).toNat) % 2 ^ 32 }
          match ParseIntegerUntil fuel command delim i with
          | none => none
          | some (error, i, temp) =>
            if error ≠ ERROR_SUCCESS then
              some (.format (invalidFormat command "\r\nTime should be HH:MM:SS\r\n") args)
            else if ¬ (temp ≥ 0 ∧ temp ≤ 59) then
              some (.format
                (invalidValue "Invalid Second: " temp (bytes "\r\nShould between 00 and 59\r\n")) args)
            else
              some (.next i { args with time := (args.time + temp.toNat) % 2 ^ 32 })

/-- The branch `pattern_type == 'D'` of `ParseCommand`: three groups `YYYY/MM/DD`, the last
one ended by `delim`, the pattern character behind the placeholder. -/
def parseDate (oob : Int → Nat) (fuel : Nat) (command : List Nat) (delim : Nat) (i : Nat)
    (args : datetime_t) : Option Placeholder :=
  match ParseIntegerUntil fuel command 47 i with
  | none => none
  | some (error, i, temp) =>
    if error ≠ ERROR_SUCCESS then
      some (.format (invalidFormat command "\r\nDate should be YYYY/MM/DD\r\n") args)
    else if ¬ (temp ≥ 0 ∧ temp ≤ 9999) then
      some (.format
        (invalidValue "Invalid Year: " temp (bytes "\r\nShould between 0000 and 9999\r\n")) args)
    else
      let args := { args with year := toUInt16 temp }
      match ParseIntegerUntil fuel command 47 i with
      | none => none
      | some (error, i, temp) =>
        if error ≠ ERROR_SUCCESS then
          some (.format (invalidFormat command "\r\nDate should be YYYY/MM/DD\r\n") args)
        else if ¬ (temp ≥ 0 ∧ temp ≤ 12) then
          some (.format
            (invalidValue "Invalid Month: " temp (bytes "\r\nShould between 01 and 12\r\n")) args)
        else
          let args := { args with month := toUInt8 temp }
          match ParseIntegerUntil fuel command delim i with
          | none => none
          | some (error, i, temp) =>
            if error ≠ ERROR_SUCCESS then
              some (.format (invalidFormat command "\r\nDate should be YYYY/MM/DD\r\n") args)
            else
              let day_of_month : Nat := GetDayOfMonth oob args.year args.month
              if ¬ (temp ≥ 0 ∧ temp ≤ (day_of_month : Int)) then
                some (.format
                  (invalidValue "Invalid Day: " temp
                    (bytes "\r\nShould between 00 and " ++ UART0NumberPut day_of_month ++
                      bytes "\r\n")) args)
              else
                some (.next i { args with day := toUInt8 temp })

/-- The `for` loop of `ParseCommand` and the statements behind it, from a given value of the
local variables.  `args` is `args[0]`; the templates of the command set have at most one
placeholder, and the arguments of a second one are not modelled.  The arguments behind
`command` are the fuel, `i`, `j`, `skip_space`, `has_space`, `current_arg` and `args[0]`; the
fuel bounds the number of loop iterations (and of those of each `ParseIntegerUntil`), and
`none` means that it ran out. -/
def ParseCommandLoop (oob : Int → Nat) (pattern command : List Nat) :
    Nat → Nat → Nat → Nat → Nat → Nat → datetime_t → Option ParseResult
  | 0, _, _, _, _, _, _ => none
  | fuel + 1, i, j, skip_space, has_space, current_arg, args =>
    if byteAt command i ≠ 0 ∧ byteAt pattern j ≠ 0 then
      let comp_1 := ToUpperCase (byteAt pattern j)
      let comp_2 := ToUpperCase (byteAt command i)
      if comp_2 = 32 ∧ skip_space ≠ 0 then
        ParseCommandLoop oob pattern command fuel ((i + 1) % 256) j skip_space has_space
          current_arg args
      else
        let skip_space := if comp_2 = 32 then 1 else 0
        let has_space := if comp_2 = 32 then 1 else has_space
        if comp_1 = 36 then
          let pattern_type := ToUpperCase (byteAt pattern (j + 1))
          let j := (j + 1) % 256
          let args : datetime_t :=
            if current_arg = 0 then { month := 0, day := 0, year := 0, time := 0 } else args
          let step : Option Placeholder :=
            if pattern_type = 84 then
              parseTime fuel command (byteAt pattern (j + 1)) i
                { month := 0, day := 0, year := 0, time := 0 }
            else if pattern_type = 68 then
              parseDate oob fuel command (byteAt pattern (j + 1)) i
                { month := 0, day := 0, year := 0, time := 0 }
            else some (.next i { month := 0, day := 0, year := 0, time := 0 })
          match step with
          | none => none
          | some (.format uart parsed) =>
            some { error := ERROR_FORMAT, args := if current_arg = 0 then parsed else args
                   uart := uart }
          | some (.next i parsed) =>
            ParseCommandLoop oob pattern command fuel ((i + 1) % 256) ((j + 1) % 256)
              skip_space has_space ((current_arg + 1) % 256)
              (if current_arg = 0 then parsed else args)
        else if comp_1 ≠ comp_2 then
          some { error := (if has_space ≠ 0 then ERROR_PARTIAL else ERROR_NOT_MATCH) |||
                            (i &&& 0x00ff)
                 args := args, uart := [] }
        else
          ParseCommandLoop oob pattern command fuel ((i + 1) % 256) ((j + 1) % 256) skip_space
            has_space current_arg args
    else if byteAt command i ≠ 0 ∨ byteAt pattern j ≠ 0 then
      some { error := (if has_space ≠ 0 ∨ byteAt pattern j = 32 then ERROR_PARTIAL
                       else ERROR_NOT_MATCH) ||| (i &&& 0x00ff)
             args := args, uart := [] }
    else some { error := ERROR_SUCCESS, args := args, uart := [] }

/-- The function `ParseCommand`.  `args` is the content of `args[0]` before the call. -/
def ParseCommand (oob : Int → Nat) (fuel : Nat) (pattern command : List Nat)
    (args : datetime_t) : Option ParseResult :=
  ParseCommandLoop oob pattern command fuel 0 0 0 0 0 args

/-- The value of a decimal group scanned from an accumulator `acc`: what the loop of
`ParseIntegerUntil` computes over the digit bytes `ds` when nothing overflows. -/
def digitsFold (acc : Int) (ds : List Nat) : Int :=
  ds.foldl (fun (a : Int) (c : Nat) => a * 10 + (c : Int) - 48) acc

/-- The value of a decimal digit string. -/
def digitsValue (ds : List Nat) : Int := digitsFold 0 ds

/-- Every byte of the list is a decimal digit `'0'..'9'`. -/
def IsDigits (ds : List Nat) : Prop := ∀ c ∈ ds, 48 ≤ c ∧ c ≤ 57

instance (ds : List Nat) : Decidable (IsDigits ds) := by
  unfold IsDigits
  infer_instance

/-- An `EditBuffer` whose cells are all in `0..9`, with a month in `1..12` and a day of at
least 1: a valid date buffer but for the upper bound of the day. -/
def DateCellsInRange (b : EditBuffer) : Prop :=
  (0 ≤ b.c0 ∧ b.c0 ≤ 9) ∧ (0 ≤ b.c1 ∧ b.c1 ≤ 9) ∧ (0 ≤ b.c2 ∧ b.c2 ≤ 9) ∧
    (0 ≤ b.c3 ∧ b.c3 ≤ 9) ∧ (0 ≤ b.c4 ∧ b.c4 ≤ 9) ∧ (0 ≤ b.c5 ∧ b.c5 ≤ 9) ∧
    (0 ≤ b.c6 ∧ b.c6 ≤ 9) ∧ (0 ≤ b.c7 ∧ b.c7 ≤ 9) ∧
    1 ≤ b.c4 * 10 + b.c5 ∧ b.c4 * 10 + b.c5 ≤ 12 ∧ 1 ≤ b.c6 * 10 + b.c7

/-! ## Key detection -/

/-- The masked bit `is_press = key_press & (0x01 << i)` of `DetectKey`, where
`key_press = ~I2C0ReadByte(...)` is the complement, as a `uint8_t`, of the byte `port` read
from the button port. -/
def is_press (port : Nat) (i : Fin 8) : Nat := (255 - port % 256) &&& (0x01 <<< i.val)

/-- The body of the loop of `DetectKey` for one button, `pressed` being its `is_press`.  The
decrement `--keystate[i].timer` is the one of a `uint8_t`. -/
def detectButton (pressed : Nat) (k : keystate_t) : keystate_t :=
  let k : keystate_t :=
    { k with state := ((k.state <<< 1) ||| (if pressed ≠ 0 then 0x01 else 0x00)) % 256 }
  if pressed ≠ 0 then
    if k.config &&& KEY_CONFIG_PRESS ≠ 0 then
      if k.state &&& 0x02 = 0 then
        { k with flag := 1, timer := KEY_DELAY * 2 }
      else
        let k : keystate_t := { k with timer := (k.timer + 255) % 256 }
        if k.timer = 0 then { k with flag := 1, timer := KEY_DELAY } else k
    else
      if k.state &&& 0x02 = 0 then { k with flag := 1 } else k
  else k

/-- The function `DetectKey`: the loop `for (i = 0; i < 8; ++i)` over the eight buttons.
`port` is the byte that `I2C0ReadByte` returns. -/
def DetectKey (port : Nat) (ks : Fin 8 → keystate_t) : Fin 8 → keystate_t :=
  (List.finRange 8).foldl
    (fun ks i => fun k => if k = i then detectButton (is_press port i) (ks i) else ks k) ks

/-- The key state before sample `t` of a run in which `DetectKey` reads the bytes `ports 0`,
`ports 1`, ... and a consumer clears the pending flag of button `i` after every sample. -/
def sampledAndConsumed (ports : Nat → Nat) (i : Fin 8) (ks : Fin 8 → keystate_t) :
    Nat → Fin 8 → keystate_t
  | 0 => ks
  | t + 1 => clearFlag (DetectKey (ports t) (sampledAndConsumed ports i ks t)) i

/-! ## Where the command matcher stops -/

/-- The statement at which `ParseCommand` returns: the literal comparison inside the loop
(`literal`), the test behind the loop when the template or the input has not ended (`ended`),
the final `return ERROR_SUCCESS` (`success`), or one of the `return ERROR_FORMAT` of a
placeholder (`format`). -/
inductive ExitSite where
  | literal
  | ended
  | success
  | format
deriving DecidableEq, Repr

/-- The local variables `i`, `j` and `has_space` of `ParseCommand` when it returns, and the
statement at which it does.  `aligned` is not a variable of the code: it counts the template
spaces that the literal comparison has matched with the first space of an input run. -/
structure ParseExit where
  site : ExitSite
  i : Nat
  j : Nat
  has_space : Nat
  aligned : Nat
deriving DecidableEq, Repr

/-- The loop of `ParseCommand` once more, branch for branch as in `ParseCommandLoop`, keeping
where and with which local variables the function returns instead of the value returned.
The arguments behind `command` are the fuel, `i`, `j`, `skip_space`, `has_space` and the
counter `aligned`. -/
def ParseCommandExitLoop (oob : Int → Nat) (pattern command : List Nat) :
    Nat → Nat → Nat → Nat → Nat → Nat → Option ParseExit
  | 0, _, _, _, _, _ => none
  | fuel + 1, i, j, skip_space, has_space, aligned =>
    if byteAt command i ≠ 0 ∧ byteAt pattern j ≠ 0 then
      let comp_1 := ToUpperCase (byteAt pattern j)
      let comp_2 := ToUpperCase (byteAt command i)
      if comp_2 = 32 ∧ skip_space ≠ 0 then
        ParseCommandExitLoop oob pattern command fuel ((i + 1) % 256) j skip_space has_space
          aligned
      else
        let skip_space := if comp_2 = 32 then 1 else 0
        let has_space := if comp_2 = 32 then 1 else has_space
        if comp_1 = 36 then
          let pattern_type := ToUpperCase (byteAt pattern (j + 1))
          let j := (j + 1) % 256
          let step : Option Placeholder :=
            if pattern_type = 84 then
              parseTime fuel command (byteAt pattern (j + 1)) i
                { month := 0, day := 0, year := 0, time := 0 }
            else if pattern_type = 68 then
              parseDate oob fuel command (byteAt pattern (j + 1)) i
                { month := 0, day := 0, year := 0, time := 0 }
            else some (.next i { month := 0, day := 0, year := 0, time := 0 })
          match step with
          | none => none
          | some (.format _ _) =>
            some { site := .format, i := i, j := j, has_space := has_space, aligned := aligned }
          | some (.next i _) =>
            ParseCommandExitLoop oob pattern command fuel ((i + 1) % 256) ((j + 1) % 256)
              skip_space has_space aligned
        else if comp_1 ≠ comp_2 then
          some { site := .literal, i := i, j := j, has_space := has_space, aligned := aligned }
        else
          ParseCommandExitLoop oob pattern command fuel ((i + 1) % 256) ((j + 1) % 256) skip_space
            has_space (if comp_1 = 32 then aligned + 1 else aligned)
    else if byteAt command i ≠ 0 ∨ byteAt pattern j ≠ 0 then
      some { site := .ended, i := i, j := j, has_space := has_space, aligned := aligned }
    else some { site := .success, i := i, j := j, has_space := has_space, aligned := aligned }

/-- Where `ParseCommand` returns, from the initial values of its local variables. -/
def ParseCommandExit (oob : Int → Nat) (fuel : Nat) (pattern command : List Nat) :
    Option ParseExit :=
  ParseCommandExitLoop oob pattern command fuel 0 0 0 0 0

/-- The value `ParseCommand` returns at each of its `return` statements. -/
def exitError (pattern : List Nat) (e : ParseExit) : Nat :=
  match e.site with
  | .literal => (if e.has_space ≠ 0 then ERROR_PARTIAL else ERROR_NOT_MATCH) ||| (e.i &&& 0x00ff)
  | .ended =>
    (if e.has_space ≠ 0 ∨ byteAt pattern e.j = 32 then ERROR_PARTIAL else ERROR_NOT_MATCH) |||
      (e.i &&& 0x00ff)
  | .success => ERROR_SUCCESS
  | .format => ERROR_FORMAT

/-! ## Command dispatcher -/

/-- The function `ROMLoadData`; `data` are the four words that `EEPROMRead` delivers. -/
def ROMLoadData (data : Fin 4 → Nat) (s : State) : State :=
  if data 0 ≠ ROM_MAGIC then s
  else
    { s with datetime := { year := (data 1 >>> 16) % 65536
                           month := (data 1 >>> 8) &&& 0xff
                           day := data 1 &&& 0xff
                           time := data 2 }
             alarm_time := data 3 }

/-- The UTF-8 encoding of a code point. -/
def utf8Char (c : Nat) : List Nat :=
  if c ≤ 0x7f then [c]
  else if c ≤ 0x7ff then [0xc0 + c / 64, 0x80 + c % 64]
  else if c ≤ 0xffff then [0xe0 + c / 4096, 0x80 + c / 64 % 64, 0x80 + c % 64]
  else [0xf0 + c / 262144, 0x80 + c / 4096 % 64, 0x80 + c / 64 % 64, 0x80 + c % 64]

/-- The bytes of a string literal of the source file, which is encoded in UTF-8, without the
terminating NUL. -/
def utf8 (s : String) : List Nat := (s.toList.map (fun c => utf8Char c.toNat)).flatten

/-- The string `help_message`. -/
def help_message : List Nat :=
  utf8 ("EST2506 课程大作业 V1.0.0 指令帮助\r\n" ++
    "UART串口波特率115200，数据帧8+0+1\r\n" ++
    "    CLOCK INIT          - 初始化时钟到默认状态，包括时间、日期、闹铃\r\n" ++
    "    CLOCK RESTART       - 重新启动时钟\r\n" ++
    "    CLOCK HIB           - 将处理器切入休眠状态\r\n" ++
    "    GET DATE            - 获取当前日期\r\n" ++
    "    GET TIME            - 获取当前时间\r\n" ++
    "    GET ALARM           - 获取闹铃时间\r\n" ++
    "    SET DATE <DATE>     - 设置当前日期，<DATE>为YYYY/MM/DD格式\r\n" ++
    "    SET TIME <TIME>     - 设置当前时间，<TIME>为HH:MM:SS格式\r\n" ++
    "    SET ALARM <TIME>    - 设置闹铃时间，<TIME>为HH:MM:SS格式\r\n" ++
    "    MUTE                - 关闭正在响铃的闹钟\r\n" ++
    "    ?                   - 输出帮助文本\r\n" ++
    "示例：\r\n" ++
    "    SET DATE 2024/06/18\r\n" ++
    "    SET ALARM 13:00:50")

/-- The function `StringifyDate`: the cells `buffer[0..11]` it writes before the NUL.  The
parameter `day` is not used by the code. -/
def StringifyDate (year month _day : Nat) : List Nat :=
  [year / 1000 % 10 + 48, year / 100 % 10 + 48, year / 10 % 10 + 48, year % 10 + 48, 47,
    month / 10 % 10 + 48, month % 10 + 48, 47,
    month / 10 % 10 + 48, month % 10 + 48, 13, 10]

/-- The function `StringifyTime`: the cells `buffer[0..9]` it writes before the NUL; `hour`,
`min` and `sec` are `uint8_t`. -/
def StringifyTime (time : Nat) : List Nat :=
  let hour := time / 3600 % 256
  let min := time / 60 % 60
  let sec := time % 60
  [hour / 10 % 10 + 48, hour % 10 + 48, 58, min / 10 % 10 + 48, min % 10 + 48, 58,
    sec / 10 % 10 + 48, sec % 10 + 48, 13, 10]

/-- The first loop of the diagnostic block of `ProcessCommand`,
`for (...; i < partical_error + 18; ++i)`, from given values of `i`, `last_space` and
`buffer`: it blanks the marker line and records the place behind the last space of the
command.  `buffer` is the array with the memory behind it; `none` means that the fuel ran
out. -/
def markerSpaces (command : List Nat) (partical_error j : Nat) :
    Nat → Nat → Nat → (Nat → Nat) → Option (Nat × Nat × (Nat → Nat))
  | 0, _, _, _ => none
  | fuel + 1, i, last_space, buffer =>
    if i < partical_error + 18 then
      markerSpaces command partical_error j fuel ((i + 1) % 256)
        (if i > 17 ∧ byteAt command (i - 18) = 32 then (i + 1) % 256 else last_space)
        (Function.update buffer (i + j) 32)
    else some (i, last_space, buffer)

/-- The second loop of the diagnostic block of `ProcessCommand`,
`for (i = last_space; i < j - 2 || i <= last_space; ++i)`, from given values of `i` and
`buffer`: it underlines with `~` what is not the caret.  `none` means that the fuel ran
out. -/
def markerTildes (j last_space : Nat) : Nat → Nat → (Nat → Nat) → Option (Nat × (Nat → Nat))
  | 0, _, _ => none
  | fuel + 1, i, buffer =>
    if (i : Int) < (j : Int) - 2 ∨ i ≤ last_space then
      markerTildes j last_space fuel ((i + 1) % 256)
        (if buffer (i + j) ≠ 94 then Function.update buffer (i + j) 126 else buffer)
    else some (i, buffer)

/-- What the diagnostic block of `ProcessCommand` comes to.  The local array `buffer` has 128
cells and the code checks no index: either every store of the block lies in the array, and
the block sends a text, or a store lies behind cell 127 (`last` is the largest index stored
at), and from there on C defines no behaviour of the program. -/
inductive Diagnostic where
  | text (t : List Nat)
  | overrun (last : Nat)

/-- The block `if (partical_error) { ... }` of `ProcessCommand`, the same for the three
command families: the text it sends, made of the echo of the command, the marker line and
the usage hint.  `stack` is what the array `char buffer[128]` and the memory behind it hold
when the block starts (the array is not initialised).  The stores of the block are those of
`strcpy` and of the two `strcat` before the loops (cells 0 to `strlen(buffer)`, the NUL
included), those of the first loop (below the caret), the caret, those of the second loop
(below the last NUL), that NUL, and those of the last `strcat` (from the first NUL `n` of
the array to `n + strlen(usage)`); when the largest of these indices is not below 128, the
result is `overrun`.  The indices `i`, `j` and `last_space` are `uint8_t`, so a loop that has
not ended after 256 rounds never ends, and the result is `none`. -/
def partialDiagnostic (stack : Nat → Nat) (command : List Nat) (partical_error : Nat)
    (usage : List Nat) : Option Diagnostic :=
  let text := bytes "Invalid Argument: " ++ cstring command ++ bytes "\r\n"
  let buffer : Nat → Nat :=
    fun k => if k < text.length then text.getD k 0 else if k = text.length then 0 else stack k
  let j := text.length % 256
  match markerSpaces command partical_error j 257 0 (18 + 3) buffer with
  | none => none
  | some (i, last_space, buffer) =>
    let caret := i + j
    let buffer := Function.update buffer (i + j) 94
    match markerTildes j last_space 257 last_space buffer with
    | none => none
    | some (i, buffer) =>
      let buffer := Function.update buffer (i + j) 0
      match (List.range (i + j + 1)).find? (fun k => buffer k = 0) with
      | none => none
      | some n =>
        let last := max (max text.length caret) (max (i + j) (n + usage.length))
        if last < 128 then some (.text ((List.range n).map buffer ++ usage))
        else some (.overrun last)

/-- What `ProcessCommand` leaves: the globals, the text sent on UART0, and whether
`HibernateRequest` was called.  `overrun` tells that the diagnostic block has stored behind
the array `buffer`: C then defines no behaviour of the program, and the other fields say
nothing about what the device does. -/
structure CommandResult where
  state : State
  uart : List Nat
  hibernate : Bool
  overrun : Bool := false

/-- A group of templates of `ProcessCommand` either ends the function or hands on `args[0]`
and the text sent so far. -/
inductive Stage where
  | done (r : CommandResult)
  | more (args : datetime_t) (uart : List Nat)

/-- The statement `partical_error = MAX(partical_error, error & 0x00ff)` under its guard
`error & ERROR_PARTIAL`. -/
def notePartial (partical_error error : Nat) : Nat :=
  if error &&& ERROR_PARTIAL ≠ 0 then max partical_error (error &&& 0x00ff) else partical_error

/-- The end of a group of templates of `ProcessCommand`: the diagnostic block when
`partical_error` is not zero, else the next group.  A block that stores behind `buffer` ends
the function with `overrun` set. -/
def familyEnd (stack : Nat → Nat) (command : List Nat) (s : State) (partical_error : Nat)
    (usage : String) (args : datetime_t) (uart : List Nat) : Option Stage :=
  if partical_error ≠ 0 then
    match partialDiagnostic stack command partical_error (bytes usage) with
    | none => none
    | some (.text text) => some (.done { state := s, uart := uart ++ text, hibernate := false })
    | some (.overrun _) =>
      some (.done { state := s, uart := uart, hibernate := false, overrun := true })
  else some (.more args uart)

/-- The templates `CLOCK INIT`, `CLOCK RESTART` and `CLOCK HIB` of `ProcessCommand`. -/
def clockFamily (oob : Int → Nat) (stack : Nat → Nat) (fuel : Nat) (command : List Nat)
    (s : State) (args : datetime_t) (uart : List Nat) : Option Stage :=
  match ParseCommand oob fuel (bytes "CLOCK INIT") command args with
  | none => none
  | some r1 =>
    if r1.error = ERROR_SUCCESS then
      some (.done { state := { s with datetime := { month := 1, day := 1, year := 2000, time := 0 }
                                      alarm_time := 999, restart := true }
                    uart := uart ++ r1.uart, hibernate := false })
    else
      match ParseCommand oob fuel (bytes "CLOCK RESTART") command r1.args with
      | none => none
      | some r2 =>
        if r2.error = ERROR_SUCCESS then
          some (.done { state := { s with restart := true }, uart := uart ++ r1.uart ++ r2.uart
                        hibernate := false })
        else
          match ParseCommand oob fuel (bytes "CLOCK HIB") command r2.args with
          | none => none
          | some r3 =>
            if r3.error = ERROR_SUCCESS then
              some (.done { state := s, uart := uart ++ r1.uart ++ r2.uart ++ r3.uart
                            hibernate := true })
            else
              familyEnd stack command s
                (notePartial (notePartial (notePartial 0 r1.error) r2.error) r3.error)
                "\r\nUsage: CLOCK INIT|RESTART|HIB\r\n" r3.args
                (uart ++ r1.uart ++ r2.uart ++ r3.uart)

/-- The templates `GET DATE`, `GET TIME` and `GET ALARM` of `ProcessCommand`. -/
def getFamily (oob : Int → Nat) (stack : Nat → Nat) (fuel : Nat) (command : List Nat)
    (s : State) (args : datetime_t) (uart : List Nat) : Option Stage :=
  match ParseCommand oob fuel (bytes "GET DATE") command args with
  | none => none
  | some r1 =>
    if r1.error = ERROR_SUCCESS then
      some (.done { state := s
                    uart := uart ++ r1.uart ++
                      StringifyDate s.datetime.year s.datetime.month s.datetime.day
                    hibernate := false })
    else
      match ParseCommand oob fuel (bytes "GET TIME") command r1.args with
      | none => none
      | some r2 =>
        if r2.error = ERROR_SUCCESS then
          some (.done { state := s
                        uart := uart ++ r1.uart ++ r2.uart ++ StringifyTime s.datetime.time
                        hibernate := false })
        else
          match ParseCommand oob fuel (bytes "GET ALARM") command r2.args with
          | none => none
          | some r3 =>
            if r3.error = ERROR_SUCCESS then
              some (.done { state := s
                            uart := uart ++ r1.uart ++ r2.uart ++ r3.uart ++
                              StringifyTime s.alarm_time
                            hibernate := false })
            else
              familyEnd stack command s
                (notePartial (notePartial (notePartial 0 r1.error) r2.error) r3.error)
                "\r\nUsage: GET DATE|TIME|ALARM\r\n" r3.args
                (uart ++ r1.uart ++ r2.uart ++ r3.uart)

/-- The templates `SET DATE $D`, `SET TIME $T` and `SET ALARM $T` of `ProcessCommand`. -/
def setFamily (oob : Int → Nat) (stack : Nat → Nat) (fuel : Nat) (command : List Nat)
    (s : State) (args : datetime_t) (uart : List Nat) : Option Stage :=
  match ParseCommand oob fuel (bytes "SET DATE $D") command args with
  | none => none
  | some r1 =>
    if r1.error = ERROR_SUCCESS then
      some (.done { state := { s with datetime := { s.datetime with year := r1.args.year
                                                                    month := r1.args.month
                                                                    day := r1.args.day } }
                    uart := uart ++ r1.uart, hibernate := false })
    else if r1.error &&& ERROR_PARTIAL = 0 ∧ r1.error &&& ERROR_FORMAT ≠ 0 then
      some (.done { state := s, uart := uart ++ r1.uart, hibernate := false })
    else
      match ParseCommand oob fuel (bytes "SET TIME $T") command r1.args with
      | none => none
      | some r2 =>
        if r2.error = ERROR_SUCCESS then
          some (.done { state := { s with datetime := { s.datetime with time := r2.args.time } }
                        uart := uart ++ r1.uart ++ r2.uart, hibernate := false })
        else if r2.error &&& ERROR_PARTIAL = 0 ∧ r2.error &&& ERROR_FORMAT ≠ 0 then
          some (.done { state := s, uart := uart ++ r1.uart ++ r2.uart, hibernate := false })
        else
          match ParseCommand oob fuel (bytes "SET ALARM $T") command r2.args with
          | none => none
          | some r3 =>
            if r3.error = ERROR_SUCCESS then
              some (.done { state := { s with alarm_time := r3.args.time }
                            uart := uart ++ r1.uart ++ r2.uart ++ r3.uart, hibernate := false })
            else if r3.error &&& ERROR_PARTIAL = 0 ∧ r3.error &&& ERROR_FORMAT ≠ 0 then
              some (.done { state := s, uart := uart ++ r1.uart ++ r2.uart ++ r3.uart
                            hibernate := false })
            else
              familyEnd stack command s
                (notePartial (notePartial (notePartial 0 r1.error) r2.error) r3.error)
                "\r\nUsage: SET DATE <YYYY/MM/DD> Or SET ALARM|TIME <HH:MM:SS>\r\n" r3.args
                (uart ++ r1.uart ++ r2.uart ++ r3.uart)

/-- The function `ProcessCommand` on the line held by the array `command`.  `args` is what
the local array `args` holds when the function starts (it is not initialised), `stack` what
the local array `buffer` and the memory behind it hold.  The calls that store the clock in
the real-time counter are left out; `SysCtlReset` is recorded in `restart`.  `none` means
that the fuel given to `ParseCommand` ran out, or that a loop of the diagnostic block does
not end; a result with `overrun` set means that the diagnostic block has stored behind the
128 cells of `buffer`. -/
def ProcessCommand (oob : Int → Nat) (stack : Nat → Nat) (fuel : Nat) (command : List Nat)
    (args : datetime_t) (s : State) : Option CommandResult :=
  match ParseCommand oob fuel (bytes "?") command args with
  | none => none
  | some r0 =>
    if r0.error = ERROR_SUCCESS then
      some { state := s, uart := r0.uart ++ help_message, hibernate := false }
    else
      match ParseCommand oob fuel (bytes "MUTE") command r0.args with
      | none => none
      | some r1 =>
        if r1.error = ERROR_SUCCESS then
          some { state := { s with alarming := 0 }, uart := r0.uart ++ r1.uart
                 hibernate := false }
        else
          match clockFamily oob stack fuel command s r1.args (r0.uart ++ r1.uart) with
          | none => none
          | some (.done r) => some r
          | some (.more args uart) =>
            match getFamily oob stack fuel command s args uart with
            | none => none
            | some (.done r) => some r
            | some (.more args uart) =>
              match setFamily oob stack fuel command s args uart with
              | none => none
              | some (.done r) => some r
              | some (.more _ uart) =>
                some { state := s
                       uart := uart ++ bytes "Invalid Command: " ++ cstring command ++
                         bytes "\r\n" ++ help_message
                       hibernate := false }

/-! ## The alignment of the specification -/

/-- The alignment of a template text without placeholder and an input text, as the
specification words it: a template space stands for a run of one or more input spaces, and
any other template character for the same input character up to the case of letters. -/
def aligns : List Nat → List Nat → Bool
  | [], c => c.isEmpty
  | a :: p, c =>
    match c with
    | [] => false
    | b :: c =>
      if a = 32 then decide (b = 32) && aligns p (c.dropWhile (fun x => x = 32))
      else decide (b ≠ 32) && decide (ToUpperCase a = ToUpperCase b) && aligns p c

/-- A template whose placeholder, if it has one, is its last item: a `$` stands in the last
place or in the last but one.  The templates of the command set are of this kind. -/
def PlaceholderLast (pattern : List Nat) : Prop :=
  ∀ k < pattern.length, byteAt pattern k = 36 → pattern.length ≤ k + 2

instance (pattern : List Nat) : Decidable (PlaceholderLast pattern) := by
  unfold PlaceholderLast
  infer_instance

/-- The templates of the command set that have no placeholder. -/
def placeholderFreeTemplates : List (List Nat) :=
  [bytes "?", bytes "MUTE", bytes "CLOCK INIT", bytes "CLOCK RESTART", bytes "CLOCK HIB",
    bytes "GET DATE", bytes "GET TIME", bytes "GET ALARM"]

/-- One group of a placeholder as the specification reads it: decimal digits up to the
delimiter `delim`.  The result is the input behind the delimiter; it is `none` when the group
holds a character that is not a decimal digit before its delimiter, and when the input ends
before the delimiter is reached (the end of the input ends the group whose delimiter is
NUL). -/
def scanGroup (delim : Nat) : List Nat → Option (List Nat)
  | [] => if delim = 0 then some [] else none
  | c :: t =>
    if c = delim then some t
    else if 48 ≤ c ∧ c ≤ 57 then scanGroup delim t
    else none

/-- The input `rest` scanned for a placeholder with the delimiter `delim` (`:` or `/`) is
malformed: one of its three groups holds a character that is not a decimal digit before its
delimiter, or the input ends before one of the two delimiters is reached. -/
def groupsMalformed (delim : Nat) (rest : List Nat) : Bool :=
  match scanGroup delim rest with
  | none => true
  | some r1 =>
    match scanGroup delim r1 with
    | none => true
    | some r2 => (scanGroup 0 r2).isNone

/-- The templates of the command set that have a placeholder, each with its literal part and
the delimiter of the groups of its placeholder. -/
def setTemplates : List (List Nat × List Nat × Nat) :=
  [(bytes "SET DATE $D", bytes "SET DATE ", 47), (bytes "SET TIME $T", bytes "SET TIME ", 58),
    (bytes "SET ALARM $T", bytes "SET ALARM ", 58)]

/-! ## Mode state machine -/

/-- The statement `switch (mode)` of the main loop: the poll step of the active mode. -/
def ProcMode (oob : Int → Nat) (s : State) : State :=
  if s.mode = MODE_DISPLAY then ProcDisplay s
  else if s.mode = MODE_SETDATE then ProcSetDate oob s
  else if s.mode = MODE_SETTIME ∨ s.mode = MODE_SETALARM then ProcSetTime s
  else s

/-- A value of `mode` that is one of the four modes. -/
def ValidMode (mode : Int) : Prop :=
  mode = MODE_DISPLAY ∨ mode = MODE_SETDATE ∨ mode = MODE_SETTIME ∨ mode = MODE_SETALARM

instance (mode : Int) : Decidable (ValidMode mode) := by
  unfold ValidMode
  infer_instance

/-- An `EditBuffer` whose eight cells are decimal digits. -/
def DigitCells (b : EditBuffer) : Prop :=
  (0 ≤ b.c0 ∧ b.c0 ≤ 9) ∧ (0 ≤ b.c1 ∧ b.c1 ≤ 9) ∧ (0 ≤ b.c2 ∧ b.c2 ≤ 9) ∧
    (0 ≤ b.c3 ∧ b.c3 ≤ 9) ∧ (0 ≤ b.c4 ∧ b.c4 ≤ 9) ∧ (0 ≤ b.c5 ∧ b.c5 ≤ 9) ∧
    (0 ≤ b.c6 ∧ b.c6 ≤ 9) ∧ (0 ≤ b.c7 ∧ b.c7 ≤ 9)

instance (b : EditBuffer) : Decidable (DigitCells b) := by
  unfold DigitCells
  infer_instance

/-- The key state after `n` calls of `DetectKey`, on the port bytes `ports 0`, `ports 1`, ...,
when no flag is consumed in between. -/
def sampled (ports : Nat → Nat) (ks : Fin 8 → keystate_t) : Nat → Fin 8 → keystate_t
  | 0 => ks
  | t + 1 => DetectKey (ports t) (sampled ports ks t)

/-- One round of the main loop, as far as the keys and the mode are concerned: `DetectKey` on
the port byte when the 20 ms flag is set (`port = some b`), then the poll step of the active
mode. -/
def mainRound (oob : Int → Nat) (port : Option Nat) (s : State) : State :=
  match port with
  | some b => ProcMode oob { s with keystate := DetectKey b s.keystate }
  | none => ProcMode oob s

/-- The state after `n` rounds of the main loop. -/
def mainRounds (oob : Int → Nat) (ports : Nat → Option Nat) (s : State) : Nat → State
  | 0 => s
  | t + 1 => mainRound oob (ports t) (mainRounds oob ports s t)

/-! ## Letter case -/

/-- The eleven templates of the command set, in the order `ProcessCommand` tries them. -/
def commandTemplates : List (List Nat) :=
  [bytes "?", bytes "MUTE", bytes "CLOCK INIT", bytes "CLOCK RESTART", bytes "CLOCK HIB",
    bytes "GET DATE", bytes "GET TIME", bytes "GET ALARM", bytes "SET DATE $D",
    bytes "SET TIME $T", bytes "SET ALARM $T"]

/-- The conversion of an ASCII letter to lower case, as the specification words it. -/
def toLowerCase (x : Nat) : Nat :=
  if 65 ≤ x ∧ x ≤ 90 then x - 65 + 97 else x

/-- The conversion of an ASCII letter to upper case, as the specification words it. -/
def toUpperCase (x : Nat) : Nat :=
  if 97 ≤ x ∧ x ≤ 122 then x - 97 + 65 else x

/-- The outcome of `ParseCommand` that the caller sees: the error code (class and offset) and
`args[0]`. -/
def ParseResult.outcome (r : ParseResult) : Nat × datetime_t := (r.error, r.args)

/-- The outcome of reading a placeholder without the text sent: the input index at which the
scan goes on, if it does, and the arguments written. -/
def Placeholder.core : Placeholder → Option Nat × datetime_t
  | .next i args => (some i, args)
  | .format _ args => (none, args)

/-- A template in which the character that ends the last group of every placeholder (the one
two places behind the `$`) is not a letter. -/
def DelimitersPlain (pattern : List Nat) : Prop :=
  ∀ k < pattern.length, ToUpperCase (byteAt pattern k) = 36 →
    byteAt pattern ((k + 1) % 256 + 1) < 65

instance (pattern : List Nat) : Decidable (DelimitersPlain pattern) := by
  unfold DelimitersPlain
  infer_instance

/-! ## Serial input -/

/-- What `UART0_Handler` reads and writes: the array `command` with the memory behind it (the
`uint8_t` cursor addresses the cells 0 to 255, the array has the cells 0 to 127), the static
cursor `uart_receive_cmd_cur`, and the flag `command_ready`. -/
structure UartState where
  command : Nat → Nat
  uart_receive_cmd_cur : Nat
  command_ready : Nat

/-- The body of the `while` loop of `UART0_Handler` for one received byte `b`: store it at the
cursor; on `'\n'` behind `'\r'` put NUL in place of both, reset the cursor and set
`command_ready`; on any other byte advance the cursor (the branch
`if (uart_receive_cmd_cur > 128)` is empty). -/
def receiveByte (u : UartState) (b : Nat) : UartState :=
  let cur := u.uart_receive_cmd_cur
  let command := Function.update u.command cur b
  if command cur = 10 then
    if cur > 0 ∧ command (cur - 1) = 13 then
      { command := Function.update (Function.update command (cur - 1) 0) cur 0
        uart_receive_cmd_cur := 0
        command_ready := 1 }
    else { u with command := command }
  else
    { u with command := command, uart_receive_cmd_cur := (cur + 1) % 256 }

/-- The function `UART0_Handler` on the bytes that the receive FIFO delivers, in order. -/
def UART0_Handler (u : UartState) (fifo : List Nat) : UartState :=
  fifo.foldl receiveByte u

/-- The first `n` cells of the array `command`. -/
def commandCells (u : UartState) (n : Nat) : List Nat :=
  (List.range n).map u.command

/-- The serial input at the start of `main`: the array zero-initialised, the cursor 0, no
command ready. -/
def uartStart : UartState :=
  { command := fun _ => 0, uart_receive_cmd_cur := 0, command_ready := 0 }

/-! ## Key configuration and scroll ticks -/

/-- The statement `keystate[BUTTON_UP].config = keystate[BUTTON_DOWN].config &=
KEY_CONFIG_PRESS;` of `main`. -/
def configureKeys (ks : Fin 8 → keystate_t) : Fin 8 → keystate_t :=
  let down := (ks BUTTON_DOWN).config &&& KEY_CONFIG_PRESS
  fun k =>
    if k = BUTTON_UP then { ks k with config := down }
    else if k = BUTTON_DOWN then { ks k with config := down }
    else ks k

/-- The branch `if (systick_250ms_flag)` of the main loop, without the buzzer calls: the fast
scroll in Display mode, the flashing of the focus in the edit modes, and the stages of the
alarm.  The arithmetic on `flow_offset` is done on `int`, and the result is stored in a
`uint8_t`. -/
def tick250ms (s : State) : State :=
  let s : State :=
    if s.mode = MODE_DISPLAY then
      if s.flow_speed = 2 then
        { s with flow_offset := toUInt8 (cmod ((s.flow_offset : Int) + 1) 16) }
      else if s.flow_speed = -2 then
        { s with flow_offset := toUInt8 (cmod ((s.flow_offset : Int) - 1) 16) }
      else s
    else { s with focus_flash := if s.focus_flash = 0 then 1 else 0 }
  if s.alarming = 1 then { s with alarming := 2 }
  else if s.alarming = 2 then { s with alarming := 1 }
  else s

/-- The branch `if (systick_500ms_flag)` of the main loop: the slow scroll in Display mode. -/
def tick500ms (s : State) : State :=
  if s.mode = MODE_DISPLAY then
    if s.flow_speed = 1 then
      { s with flow_offset := toUInt8 (cmod ((s.flow_offset : Int) + 1) 16) }
    else if s.flow_speed = -1 then
      { s with flow_offset := toUInt8 (cmod ((s.flow_offset : Int) - 1 + 16) 16) }
    else s
  else s

/-! ## States used to evaluate the code -/

/-- The globals as their initialisers and the assignments at the start of `main` leave them
(date 2000-01-01, time 0, `alarm_time = 999`, Display mode, key state all zero). -/
def defaultState : State :=
  { datetime := { month := 1, day := 1, year := 2000, time := 0 }
    alarm_time := 999
    keystate := fun _ => { config := 0, state := 0, timer := 0, flag := 0 }
    mode := MODE_DISPLAY
    flow_offset := 0
    flow_speed := 1
    focus_digit := 0
    focus_flash := 0
    setting_digit := ⟨0, 0, 0, 0, 0, 0, 0, 0⟩
    alarming := 0
    restart := false }

/-- A date-editing state used to evaluate the code: Set-Date mode, focus on the last cell,
buffer 2024-02-29. -/
def setDateExample : State :=
  { defaultState with mode := MODE_SETDATE, focus_digit := 7,
                      setting_digit := ⟨2, 0, 2, 4, 0, 2, 2, 9⟩ }

/-- A time-editing state used to evaluate the code: Set-Time mode, focus on the second cell,
buffer 23:59:59. -/
def setTimeExample : State :=
  { defaultState with mode := MODE_SETTIME, focus_digit := 1,
                      setting_digit := ⟨2, 3, 5, 9, 5, 9, 0, 0⟩ }

/-- A Display-mode state used to evaluate the code: 2024-02-29, 12:34:56, alarm at 07:30:00. -/
def displayExample : State :=
  { defaultState with datetime := { month := 2, day := 29, year := 2024, time := 45296 }
                      alarm_time := 27000 }

/-! ## Theorems

### Calendar and the one-second tick -/

/-- For a month in `1..12`, `GetDayOfMonth` is the Gregorian reference. -/
theorem GetDayOfMonth_eq_gregorian (oob : Int → Nat) (y m : Nat) (h1 : 1 ≤ m) (h12 : m ≤ 12) :
    GetDayOfMonth oob y m = gregorianDays y m := by
  have hm : m = 1 ∨ m = 2 ∨ m = 3 ∨ m = 4 ∨ m = 5 ∨ m = 6 ∨ m = 7 ∨ m = 8 ∨ m = 9 ∨ m = 10 ∨
      m = 11 ∨ m = 12 := by omega
  rcases hm with rfl | rfl | rfl | rfl | rfl | rfl | rfl | rfl | rfl | rfl | rfl | rfl <;>
    simp [GetDayOfMonth, gregorianDays, month_day]
  by_cases h100 : y % 100 = 0
  · by_cases h400 : y % 400 = 0
    · have : y % 4 = 0 := by omega
      simp [h100, h400, this]
    · simp [h100, h400]
  · by_cases h4 : y % 4 = 0
    · simp [h100, h4]
    · simp [h100, h4]

/-- A tick before the last second of the day only increments the time of day. -/
theorem advanceDatetime_of_lt (oob : Int → Nat) (d : datetime_t) (h : d.time + 1 < 86400) :
    advanceDatetime oob d = { d with time := d.time + 1 } := by
  have h1 : (d.time + 1) % 2 ^ 32 = d.time + 1 := Nat.mod_eq_of_lt (by omega)
  have h2 : ¬ (d.time + 1 ≥ 86400) := by omega
  simp only [advanceDatetime, h1, h2, if_false]

/-- The tick at 23:59:59 sets the time of day to 0 and runs the roll-over cascade. -/
theorem advanceDatetime_of_last (oob : Int → Nat) (d : datetime_t) (h : d.time = 86399) :
    advanceDatetime oob d = dayRoll oob { d with time := 0 } := by
  simp only [advanceDatetime, dayRoll, h]
  norm_num

/-- Ticks that stay inside the day add up in the time of day. -/
theorem iterate_advanceDatetime_of_lt (oob : Int → Nat) (n : Nat) (d : datetime_t)
    (h : d.time + n < 86400) :
    (advanceDatetime oob)^[n] d = { d with time := d.time + n } := by
  induction n generalizing d with
  | zero => simp
  | succ k ih =>
    rw [Function.iterate_succ_apply, advanceDatetime_of_lt oob d (by omega)]
    rw [ih _ (by simp only; omega)]
    simp only [datetime_t.mk.injEq, true_and]
    omega

/-- From a time of day in `0..86399`, 86400 ticks run the roll-over cascade once and come
back to the same time of day. -/
theorem iterate_advanceDatetime_day (oob : Int → Nat) (d : datetime_t) (h : d.time ≤ 86399) :
    (advanceDatetime oob)^[86400] d = dayRoll oob d := by
  have e : 86400 = d.time + (1 + (86399 - d.time)) := by omega
  rw [e, Function.iterate_add_apply, Function.iterate_add_apply,
    iterate_advanceDatetime_of_lt oob (86399 - d.time) d (by omega)]
  rw [Function.iterate_one, advanceDatetime_of_last oob _ (by simp only; omega)]
  rw [iterate_advanceDatetime_of_lt oob d.time _ (by simp only [dayRoll]; split_ifs <;> simp only <;> omega)]
  simp only [dayRoll]
  split_ifs <;> simp

/-- The date and time after `n` ticks of the main loop depend on the date and time alone. -/
theorem iterate_oneSecondTick_datetime (oob : Int → Nat) (n : Nat) (s : State) :
    ((oneSecondTick oob)^[n] s).datetime = (advanceDatetime oob)^[n] s.datetime := by
  induction n generalizing s with
  | zero => rfl
  | succ k ih =>
    rw [Function.iterate_succ_apply, Function.iterate_succ_apply, ih]
    rfl

/-- For a month in `1..12`, `GetDayOfMonth` is in `28..31`. -/
theorem GetDayOfMonth_le_31 (oob : Int → Nat) (y m : Nat) (h1 : 1 ≤ m) (h12 : m ≤ 12) :
    28 ≤ GetDayOfMonth oob y m ∧ GetDayOfMonth oob y m ≤ 31 := by
  rw [GetDayOfMonth_eq_gregorian oob y m h1 h12]
  unfold gregorianDays
  split_ifs <;> omega

/-- The one-second tick never writes `alarm_time`. -/
theorem iterate_oneSecondTick_alarm_time (oob : Int → Nat) (n : Nat) (s : State) :
    ((oneSecondTick oob)^[n] s).alarm_time = s.alarm_time := by
  induction n generalizing s with
  | zero => rfl
  | succ k ih =>
    rw [Function.iterate_succ_apply, ih]
    rfl

/-- Whole days inside a month: from day 1 at midnight, `k` days of ticks lead to day `1 + k`
at midnight as long as that day exists. -/
theorem iterate_advanceDatetime_days (oob : Int → Nat) (y m k : Nat) (h1 : 1 ≤ m)
    (h12 : m ≤ 12) (hk : k < GetDayOfMonth oob y m) :
    (advanceDatetime oob)^[k * 86400] { month := m, day := 1, year := y, time := 0 } =
      { month := m, day := 1 + k, year := y, time := 0 } := by
  have hb := (GetDayOfMonth_le_31 oob y m h1 h12).2
  induction k with
  | zero => simp
  | succ j ih =>
    have e : (j + 1) * 86400 = 86400 + j * 86400 := by ring
    rw [e, Function.iterate_add_apply, ih (by omega),
      iterate_advanceDatetime_day oob _ (by simp only; omega)]
    have hmod : (1 + j + 1) % 256 = 1 + j + 1 := Nat.mod_eq_of_lt (by omega)
    have hle : ¬ (1 + j + 1 > GetDayOfMonth oob y m) := by omega
    simp only [dayRoll, hmod, hle, if_false, datetime_t.mk.injEq, true_and, and_true]
    omega

/-- A whole month of ticks from the first of the month at midnight, as the code computes it:
the month number is incremented and never reset. -/
theorem iterate_advanceDatetime_month (oob : Int → Nat) (y m : Nat) (h1 : 1 ≤ m)
    (h12 : m ≤ 12) :
    (advanceDatetime oob)^[GetDayOfMonth oob y m * 86400]
        { month := m, day := 1, year := y, time := 0 } =
      { month := m + 1, day := 1, year := if m = 12 then (y + 1) % 10000 else y, time := 0 } := by
  have hb := GetDayOfMonth_le_31 oob y m h1 h12
  obtain ⟨j, hj⟩ : ∃ j, GetDayOfMonth oob y m = j + 1 := ⟨GetDayOfMonth oob y m - 1, by omega⟩
  have e : GetDayOfMonth oob y m * 86400 = 86400 + j * 86400 := by rw [hj]; ring
  rw [e, Function.iterate_add_apply, iterate_advanceDatetime_days oob y m j h1 h12 (by omega),
    iterate_advanceDatetime_day oob _ (by simp only; omega)]
  have hmod : (1 + j + 1) % 256 = 1 + j + 1 := Nat.mod_eq_of_lt (by omega)
  have hgt : 1 + j + 1 > GetDayOfMonth oob y m := by omega
  have hm : (m + 1) % 256 = m + 1 := Nat.mod_eq_of_lt (by omega)
  have hsub : 1 + j + 1 - GetDayOfMonth oob y m = 1 := by omega
  simp only [dayRoll, hmod, hgt, if_true, hm, hsub]
  by_cases h : m = 12
  · subst h; simp
  · have : ¬ (m + 1 > 12) := by omega
    simp [this, h]

/-- One day of ticks from a valid date and time that is not the last day of December: the
result is the next calendar day, at the same time of day, and is valid again. -/
theorem iterate_oneSecondTick_next_day (oob : Int → Nat) (s : State)
    (hv : ValidDateTime oob s.datetime)
    (hne : ¬ (s.datetime.month = 12 ∧ s.datetime.day = GetDayOfMonth oob s.datetime.year 12)) :
    ((oneSecondTick oob)^[86400] s).datetime =
        (if s.datetime.day < GetDayOfMonth oob s.datetime.year s.datetime.month then
          { month := s.datetime.month, day := s.datetime.day + 1, year := s.datetime.year
            time := s.datetime.time }
        else
          { month := s.datetime.month + 1, day := 1, year := s.datetime.year
            time := s.datetime.time }) ∧
      ValidDateTime oob ((oneSecondTick oob)^[86400] s).datetime := by
  obtain ⟨hy, hm1, hm12, hd1, hd, ht⟩ := hv
  have hb := GetDayOfMonth_le_31 oob s.datetime.year s.datetime.month hm1 hm12
  rw [iterate_oneSecondTick_datetime, iterate_advanceDatetime_day oob _ ht]
  have hmod : (s.datetime.day + 1) % 256 = s.datetime.day + 1 := Nat.mod_eq_of_lt (by omega)
  by_cases hlt : s.datetime.day < GetDayOfMonth oob s.datetime.year s.datetime.month
  · have hle : ¬ (s.datetime.day + 1 > GetDayOfMonth oob s.datetime.year s.datetime.month) := by
      omega
    simp only [dayRoll, hmod, hle, if_false, hlt, if_true, true_and]
    exact ⟨hy, hm1, hm12, by simp only; omega, by simp only; omega, ht⟩
  · have hgt : s.datetime.day + 1 > GetDayOfMonth oob s.datetime.year s.datetime.month := by
      omega
    have hm : s.datetime.month ≠ 12 := by
      intro h12
      apply hne
      refine ⟨h12, ?_⟩
      rw [h12] at hd hlt
      omega
    have hmm : (s.datetime.month + 1) % 256 = s.datetime.month + 1 := Nat.mod_eq_of_lt (by omega)
    have hmle : ¬ (s.datetime.month + 1 > 12) := by omega
    have hsub : s.datetime.day + 1 - GetDayOfMonth oob s.datetime.year s.datetime.month = 1 := by
      omega
    simp only [dayRoll, hmod, hgt, if_true, hmm, hmle, if_false, hlt, hsub, true_and]
    have hb2 := GetDayOfMonth_le_31 oob s.datetime.year (s.datetime.month + 1) (by omega)
      (by omega)
    exact ⟨hy, by simp only; omega, by simp only; omega, by simp only; omega,
      by simp only; omega, ht⟩

/-- One month of ticks from the first of a month before December at midnight reaches the
first of the following month at midnight. -/
theorem iterate_oneSecondTick_next_month (oob : Int → Nat) (s : State) (y m : Nat)
    (h1 : 1 ≤ m) (h11 : m < 12) :
    ((oneSecondTick oob)^[GetDayOfMonth oob y m * 86400]
        { s with datetime := { month := m, day := 1, year := y, time := 0 } }).datetime =
      { month := m + 1, day := 1, year := y, time := 0 } := by
  rw [iterate_oneSecondTick_datetime, iterate_advanceDatetime_month oob y m h1 (by omega)]
  have : m ≠ 12 := by omega
  simp [this]

/-- Claim C1, at December: `GetDayOfMonth(y, 12) * 86400` one-second updates from 1 December
of any year, time 0, leave month 13, day 1 of the following year (mod 10000): the month is
incremented past 12 and not set back to 1. -/
theorem december_month_rollover_leaves_month_13 :
    ∀ (oob : Int → Nat) (y : Nat) (s : State),
      ((oneSecondTick oob)^[GetDayOfMonth oob y 12 * 86400]
          { s with datetime := { month := 12, day := 1, year := y, time := 0 } }).datetime =
        { month := 13, day := 1, year := (y + 1) % 10000, time := 0 } := by
  intro oob y s
  rw [iterate_oneSecondTick_datetime,
    iterate_advanceDatetime_month oob y 12 (by omega) (by omega)]
  simp

/-- Claim C2, at 31 December: 86400 one-second updates from the valid date 31 December of any
year `y ≤ 9999`, time 0, leave month 13, day 1, which is not a valid `DateTime`. -/
theorem year_end_day_rollover_leaves_month_13 :
    ∀ (oob : Int → Nat) (y : Nat) (s : State), y ≤ 9999 →
      ValidDateTime oob { month := 12, day := 31, year := y, time := 0 } ∧
      ((oneSecondTick oob)^[86400]
          { s with datetime := { month := 12, day := 31, year := y, time := 0 } }).datetime =
          { month := 13, day := 1, year := (y + 1) % 10000, time := 0 } ∧
      ¬ ValidDateTime oob
          ((oneSecondTick oob)^[86400]
            { s with datetime := { month := 12, day := 31, year := y, time := 0 } }).datetime := by
  intro oob y s hy
  have hdom : GetDayOfMonth oob y 12 = 31 := by
    rw [GetDayOfMonth_eq_gregorian oob y 12 (by omega) (by omega)]
    simp [gregorianDays]
  have hres : ((oneSecondTick oob)^[86400]
      { s with datetime := { month := 12, day := 31, year := y, time := 0 } }).datetime =
      { month := 13, day := 1, year := (y + 1) % 10000, time := 0 } := by
    rw [iterate_oneSecondTick_datetime, iterate_advanceDatetime_day oob _ (by simp only; omega)]
    simp [dayRoll, hdom]
  refine ⟨⟨hy, by simp only; omega, by simp only; omega, by simp only; omega,
    by simp only; omega, by simp only; omega⟩, hres, ?_⟩
  rw [hres]
  rintro ⟨-, -, h, -⟩
  simp only at h
  omega

/-- Claim C2, evaluated at 31 December 2000, time 0. -/
theorem year_end_day_rollover_leaves_month_13_witness :
    ValidDateTime (fun _ => 0) { month := 12, day := 31, year := 2000, time := 0 } ∧
      ((oneSecondTick (fun _ => 0))^[86400]
          { defaultState with
            datetime := { month := 12, day := 31, year := 2000, time := 0 } }).datetime =
        { month := 13, day := 1, year := 2001, time := 0 } ∧
      ¬ ValidDateTime (fun _ => 0)
          ((oneSecondTick (fun _ => 0))^[86400]
            { defaultState with
              datetime := { month := 12, day := 31, year := 2000, time := 0 } }).datetime :=
  year_end_day_rollover_leaves_month_13 (fun _ => 0) 2000 defaultState (by decide)

/-- Claim C3: for every year and every month `1..12`, `GetDayOfMonth` is the Gregorian
reference: 31 for months 1, 3, 5, 7, 8, 10, 12; 30 for months 4, 6, 9, 11; for February 29
exactly when the year is divisible by 4 and (not by 100 or by 400), otherwise 28; the result
is in `28..31`. -/
theorem GetDayOfMonth_gregorian (oob : Int → Nat) (y m : Nat) (h1 : 1 ≤ m) (h12 : m ≤ 12) :
    GetDayOfMonth oob y m = gregorianDays y m ∧
      (m = 1 ∨ m = 3 ∨ m = 5 ∨ m = 7 ∨ m = 8 ∨ m = 10 ∨ m = 12 → GetDayOfMonth oob y m = 31) ∧
      (m = 4 ∨ m = 6 ∨ m = 9 ∨ m = 11 → GetDayOfMonth oob y m = 30) ∧
      (m = 2 → (GetDayOfMonth oob y m = 29 ↔ (y % 4 = 0 ∧ (y % 100 ≠ 0 ∨ y % 400 = 0))) ∧
        (¬ (y % 4 = 0 ∧ (y % 100 ≠ 0 ∨ y % 400 = 0)) → GetDayOfMonth oob y m = 28)) ∧
      28 ≤ GetDayOfMonth oob y m ∧ GetDayOfMonth oob y m ≤ 31 := by
  have hb := GetDayOfMonth_le_31 oob y m h1 h12
  rw [GetDayOfMonth_eq_gregorian oob y m h1 h12] at hb ⊢
  refine ⟨rfl, ?_, ?_, ?_, hb.1, hb.2⟩
  · intro h
    unfold gregorianDays
    split_ifs <;> omega
  · intro h
    unfold gregorianDays
    split_ifs <;> omega
  · intro h
    subst h
    by_cases hl : y % 4 = 0 ∧ (y % 100 ≠ 0 ∨ y % 400 = 0)
    · simp [gregorianDays, hl]
    · simp only [gregorianDays, if_true, hl, if_false]
      simp

/-- Claim C3, evaluated at February 2024. -/
theorem GetDayOfMonth_gregorian_witness :
    GetDayOfMonth (fun _ => 0) 2024 2 = gregorianDays 2024 2 ∧
      (2 = 1 ∨ 2 = 3 ∨ 2 = 5 ∨ 2 = 7 ∨ 2 = 8 ∨ 2 = 10 ∨ 2 = 12 →
        GetDayOfMonth (fun _ => 0) 2024 2 = 31) ∧
      (2 = 4 ∨ 2 = 6 ∨ 2 = 9 ∨ 2 = 11 → GetDayOfMonth (fun _ => 0) 2024 2 = 30) ∧
      (2 = 2 → (GetDayOfMonth (fun _ => 0) 2024 2 = 29 ↔
          (2024 % 4 = 0 ∧ (2024 % 100 ≠ 0 ∨ 2024 % 400 = 0))) ∧
        (¬ (2024 % 4 = 0 ∧ (2024 % 100 ≠ 0 ∨ 2024 % 400 = 0)) →
          GetDayOfMonth (fun _ => 0) 2024 2 = 28)) ∧
      28 ≤ GetDayOfMonth (fun _ => 0) 2024 2 ∧ GetDayOfMonth (fun _ => 0) 2024 2 ≤ 31 :=
  GetDayOfMonth_gregorian (fun _ => 0) 2024 2 (by decide) (by decide)

/-- The alarm flag after one tick: set when the new time of day equals `alarm_time`. -/
theorem oneSecondTick_alarming (oob : Int → Nat) (s : State) :
    (oneSecondTick oob s).alarming =
      if (advanceDatetime oob s.datetime).time = s.alarm_time then 1 else s.alarming := rfl

/-- The time of day after one tick is `(time + 1) mod 86400`. -/
theorem advanceDatetime_time (oob : Int → Nat) (d : datetime_t) (h : d.time ≤ 86399) :
    (advanceDatetime oob d).time = (d.time + 1) % 86400 := by
  by_cases hl : d.time + 1 < 86400
  · rw [advanceDatetime_of_lt oob d hl]
    simp only
    omega
  · have h1 : d.time = 86399 := by omega
    rw [advanceDatetime_of_last oob d h1, h1]
    simp only [dayRoll]
    split_ifs <;> rfl

/-- Claim C10 as stated fails: in the default state with `alarm_time` set to the current time
of day (0), the next one-second tick leaves `alarming` at 0. -/
theorem alarm_at_current_time_not_fired_by_next_tick :
    ({ defaultState with alarm_time := 0 } : State).alarm_time =
        ({ defaultState with alarm_time := 0 } : State).datetime.time ∧
      (oneSecondTick (fun _ => 0) { defaultState with alarm_time := 0 }).alarming = 0 := by
  constructor <;> rfl

/-- Claim C10, amended: with a time of day in `0..86399`, the one-second tick sets `alarming`
to 1 when `alarm_time` equals the time of day the tick produces, `(time + 1) mod 86400`; when
`alarm_time` equals the time of day before the tick, that tick leaves `alarming` as it was
and the 86400th tick sets it to 1. -/
theorem alarm_fires_when_tick_reaches_alarm_time (oob : Int → Nat) (s : State)
    (ht : s.datetime.time ≤ 86399) :
    (s.alarm_time = (s.datetime.time + 1) % 86400 → (oneSecondTick oob s).alarming = 1) ∧
      (s.alarm_time = s.datetime.time →
        (oneSecondTick oob s).alarming = s.alarming ∧
          ((oneSecondTick oob)^[86400] s).alarming = 1) := by
  constructor
  · intro h
    rw [oneSecondTick_alarming, advanceDatetime_time oob _ ht, ← h]
    simp
  · intro h
    constructor
    · rw [oneSecondTick_alarming, advanceDatetime_time oob _ ht, h]
      have : (s.datetime.time + 1) % 86400 ≠ s.datetime.time := by omega
      simp [this]
    · have e : (86400 : Nat) = 86399 + 1 := rfl
      have hd : advanceDatetime oob ((oneSecondTick oob)^[86399] s).datetime =
          dayRoll oob s.datetime := by
        rw [iterate_oneSecondTick_datetime, ← Function.iterate_succ_apply' (advanceDatetime oob)]
        exact iterate_advanceDatetime_day oob _ ht
      rw [e, Function.iterate_succ_apply', oneSecondTick_alarming, hd,
        iterate_oneSecondTick_alarm_time]
      have : (dayRoll oob s.datetime).time = s.alarm_time := by
        rw [h]
        simp only [dayRoll]
        split_ifs <;> rfl
      simp [this]

/-- Claim C10, amended, evaluated in the default state with `alarm_time = 1`. -/
theorem alarm_fires_when_tick_reaches_alarm_time_witness :
    (({ defaultState with alarm_time := 1 } : State).alarm_time =
          (({ defaultState with alarm_time := 1 } : State).datetime.time + 1) % 86400 →
        (oneSecondTick (fun _ => 0) { defaultState with alarm_time := 1 }).alarming = 1) ∧
      (({ defaultState with alarm_time := 1 } : State).alarm_time =
          ({ defaultState with alarm_time := 1 } : State).datetime.time →
        (oneSecondTick (fun _ => 0) { defaultState with alarm_time := 1 }).alarming =
            ({ defaultState with alarm_time := 1 } : State).alarming ∧
          ((oneSecondTick (fun _ => 0))^[86400]
            { defaultState with alarm_time := 1 }).alarming = 1) :=
  alarm_fires_when_tick_reaches_alarm_time (fun _ => 0) { defaultState with alarm_time := 1 }
    (by decide)

/-! ### Edit buffers -/

/-- On non-negative operands the C remainder is the Euclidean remainder. -/
theorem cmod_of_nonneg {a b : Int} (ha : 0 ≤ a) (hb : 0 ≤ b) : cmod a b = a % b :=
  Int.tmod_eq_emod ha hb

/-- A value in `-128..127` is unchanged by the conversion to `int8_t`. -/
theorem toInt8_of_small {x : Int} (h0 : -128 ≤ x) (h1 : x ≤ 127) : toInt8 x = x := by
  unfold toInt8
  omega

/-- A value in `0..255` is unchanged by the conversion to `uint8_t`. -/
theorem toUInt8_of_small {x : Int} (h0 : 0 ≤ x) (h1 : x ≤ 255) : toUInt8 x = x.toNat := by
  unfold toUInt8
  rw [Int.emod_eq_of_lt h0 (by omega)]

/-- The linear content of `ValidTimeBuffer`. -/
theorem ValidTimeBuffer_iff (c0 c1 c2 c3 c4 c5 c6 c7 : Int) :
    ValidTimeBuffer ⟨c0, c1, c2, c3, c4, c5, c6, c7⟩ ↔
      (0 ≤ c0 ∧ c0 ≤ 2) ∧ (0 ≤ c1 ∧ c1 ≤ 9) ∧ (0 ≤ c2 ∧ c2 ≤ 5) ∧ (0 ≤ c3 ∧ c3 ≤ 9) ∧
        (0 ≤ c4 ∧ c4 ≤ 5) ∧ (0 ≤ c5 ∧ c5 ≤ 9) ∧ (c0 ≤ 1 ∨ c1 ≤ 3) := by
  simp only [ValidTimeBuffer, EditBuffer.hour, EditBuffer.min, EditBuffer.sec, EditBuffer.get]
  constructor
  · rintro ⟨⟨h0, h0'⟩, ⟨h1, h1'⟩, ⟨h2, h2'⟩, ⟨h3, h3'⟩, ⟨h4, h4'⟩, ⟨h5, h5'⟩, hh, hm, hs⟩
    rw [toUInt8_of_small (by omega) (by omega)] at hh hm hs
    refine ⟨⟨h0, by omega⟩, ⟨h1, h1'⟩, ⟨h2, by omega⟩, ⟨h3, h3'⟩, ⟨h4, by omega⟩, ⟨h5, h5'⟩, ?_⟩
    omega
  · rintro ⟨⟨h0, h0'⟩, ⟨h1, h1'⟩, ⟨h2, h2'⟩, ⟨h3, h3'⟩, ⟨h4, h4'⟩, ⟨h5, h5'⟩, hh⟩
    have hh' : c0 * 10 + c1 ≤ 23 := by omega
    rw [toUInt8_of_small (by omega) (by omega), toUInt8_of_small (by omega) (by omega),
      toUInt8_of_small (by omega) (by omega)]
    refine ⟨⟨h0, by omega⟩, ⟨h1, h1'⟩, ⟨h2, by omega⟩, ⟨h3, h3'⟩, ⟨h4, by omega⟩, ⟨h5, h5'⟩, ?_, ?_, ?_⟩ <;> omega

/-- The validation block of `ProcSetTime` leaves a valid time buffer unchanged, for every focus
index `0..5`. -/
theorem validateTime_idem (focus : Nat) (b : EditBuffer) (hf : focus < 6)
    (hv : ValidTimeBuffer b) : validateTime focus b = b := by
  obtain ⟨c0, c1, c2, c3, c4, c5, c6, c7⟩ := b
  rw [ValidTimeBuffer_iff] at hv
  interval_cases focus <;>
    simp (disch := omega) only [validateTime, EditBuffer.get, EditBuffer.set, cmod_of_nonneg,
      toInt8_of_small, Nat.reduceEqDiff, if_true, if_false, or_false, or_true, true_or,
      false_or, Nat.reduceAdd, Nat.reduceSub] <;>
    (try split_ifs) <;> simp only [EditBuffer.mk.injEq, and_true, true_and] <;> omega

/-- One Inc or Dec on a cell `0..5` of a valid time buffer, followed by the validation block of
`ProcSetTime`, leaves a valid time buffer. -/
theorem validateTime_step_valid (focus : Nat) (b : EditBuffer) (δ : Int) (hf : focus < 6)
    (hδ : δ = 1 ∨ δ = -1)
    (hv : ValidTimeBuffer b) :
    ValidTimeBuffer (validateTime focus (b.set focus (b.get focus + δ))) := by
  obtain ⟨c0, c1, c2, c3, c4, c5, c6, c7⟩ := b
  rw [ValidTimeBuffer_iff] at hv
  rcases hδ with rfl | rfl <;> interval_cases focus <;>
    simp (disch := omega) only [validateTime, EditBuffer.get, EditBuffer.set, cmod_of_nonneg,
      toInt8_of_small, Nat.reduceEqDiff, if_true, if_false, or_false, or_true, true_or,
      false_or, Nat.reduceAdd, Nat.reduceSub] <;>
    (try split_ifs) <;> rw [ValidTimeBuffer_iff] <;> omega
/-- A value in `0..65535` is unchanged by the conversion to `uint16_t`. -/
theorem toUInt16_of_small {x : Int} (h0 : 0 ≤ x) (h1 : x ≤ 65535) : toUInt16 x = x.toNat := by
  unfold toUInt16
  rw [Int.emod_eq_of_lt h0 (by omega)]

/-- The linear content of `ValidDateBuffer`, with the month length kept as the code computes
it. -/
theorem ValidDateBuffer_iff (oob : Int → Nat) (c0 c1 c2 c3 c4 c5 c6 c7 : Int) :
    ValidDateBuffer oob ⟨c0, c1, c2, c3, c4, c5, c6, c7⟩ ↔
      (0 ≤ c0 ∧ c0 ≤ 9) ∧ (0 ≤ c1 ∧ c1 ≤ 9) ∧ (0 ≤ c2 ∧ c2 ≤ 9) ∧ (0 ≤ c3 ∧ c3 ≤ 9) ∧
        (0 ≤ c4 ∧ c4 ≤ 9) ∧ (0 ≤ c5 ∧ c5 ≤ 9) ∧ (0 ≤ c6 ∧ c6 ≤ 9) ∧ (0 ≤ c7 ∧ c7 ≤ 9) ∧
        1 ≤ c4 * 10 + c5 ∧ c4 * 10 + c5 ≤ 12 ∧ 1 ≤ c6 * 10 + c7 ∧
        c6 * 10 + c7 ≤ (GetDayOfMonth oob (toUInt16 (c0 * 1000 + c1 * 100 + c2 * 10 + c3))
          (toUInt8 (c4 * 10 + c5)) : Nat) := by
  simp only [ValidDateBuffer, EditBuffer.year, EditBuffer.month, EditBuffer.day, EditBuffer.get]
  constructor
  · rintro ⟨⟨h0, h0'⟩, ⟨h1, h1'⟩, ⟨h2, h2'⟩, ⟨h3, h3'⟩, ⟨h4, h4'⟩, ⟨h5, h5'⟩, ⟨h6, h6'⟩,
      ⟨h7, h7'⟩, hm, hm', hd, hd'⟩
    rw [toUInt8_of_small (by omega) (by omega)] at hm hm' hd hd'
    refine ⟨⟨h0, h0'⟩, ⟨h1, h1'⟩, ⟨h2, h2'⟩, ⟨h3, h3'⟩, ⟨h4, h4'⟩, ⟨h5, h5'⟩, ⟨h6, h6'⟩,
      ⟨h7, h7'⟩, ?_, ?_, ?_, ?_⟩ <;> omega
  · rintro ⟨⟨h0, h0'⟩, ⟨h1, h1'⟩, ⟨h2, h2'⟩, ⟨h3, h3'⟩, ⟨h4, h4'⟩, ⟨h5, h5'⟩, ⟨h6, h6'⟩,
      ⟨h7, h7'⟩, hm, hm', hd, hd'⟩
    rw [toUInt8_of_small (x := c6 * 10 + c7) (by omega) (by omega)]
    refine ⟨⟨h0, h0'⟩, ⟨h1, h1'⟩, ⟨h2, h2'⟩, ⟨h3, h3'⟩, ⟨h4, h4'⟩, ⟨h5, h5'⟩, ⟨h6, h6'⟩,
      ⟨h7, h7'⟩, ?_, ?_, ?_, ?_⟩
    · rw [toUInt8_of_small (by omega) (by omega)]; omega
    · rw [toUInt8_of_small (by omega) (by omega)]; omega
    · omega
    · omega

/-- A month value in `1..12` survives the conversion to `uint8_t`. -/
theorem toUInt8_month_bounds {x : Int} (h1 : 1 ≤ x) (h12 : x ≤ 12) :
    1 ≤ toUInt8 x ∧ toUInt8 x ≤ 12 := by
  rw [toUInt8_of_small (by omega) (by omega)]
  omega

set_option maxHeartbeats 1000000 in
/-- The validation block of `ProcSetDate` leaves a valid date buffer unchanged, for every focus
index `0..7`. -/
theorem validateDate_idem (oob : Int → Nat) (focus : Nat) (b : EditBuffer) (hf : focus < 8)
    (hv : ValidDateBuffer oob b) : validateDate oob focus b = b := by
  obtain ⟨c0, c1, c2, c3, c4, c5, c6, c7⟩ := b
  rw [ValidDateBuffer_iff] at hv
  have hD := GetDayOfMonth_le_31 oob (toUInt16 (c0 * 1000 + c1 * 100 + c2 * 10 + c3))
    (toUInt8 (c4 * 10 + c5)) (toUInt8_month_bounds hv.2.2.2.2.2.2.2.2.1 hv.2.2.2.2.2.2.2.2.2.1).1
    (toUInt8_month_bounds hv.2.2.2.2.2.2.2.2.1 hv.2.2.2.2.2.2.2.2.2.1).2
  obtain ⟨D, hDdef⟩ : ∃ D, GetDayOfMonth oob (toUInt16 (c0 * 1000 + c1 * 100 + c2 * 10 + c3))
    (toUInt8 (c4 * 10 + c5)) = D := ⟨_, rfl⟩
  rw [hDdef] at hv hD
  have hD' : D = 28 ∨ D = 29 ∨ D = 30 ∨ D = 31 := by omega
  interval_cases focus
  case «6» | «7» =>
    simp only [validateDate, EditBuffer.year, EditBuffer.month, EditBuffer.get, EditBuffer.set,
      hDdef, Nat.reduceEqDiff, if_true, if_false, Nat.reduceAdd, Nat.reduceSub]
    clear hDdef
    rcases hD' with rfl | rfl | rfl | rfl <;>
    simp (disch := omega) only [cmod_of_nonneg, toInt8_of_small, Nat.reduceAdd, Nat.reduceSub,
      Nat.reduceDiv, Nat.reduceMod, Nat.cast_ofNat, Nat.cast_zero, Nat.cast_one,
      Int.emod_one] <;>
    (try split_ifs) <;> simp only [EditBuffer.mk.injEq, and_true, true_and] <;> omega
  all_goals
    clear hDdef
    simp (disch := omega) only [validateDate, EditBuffer.get, EditBuffer.set, cmod_of_nonneg,
      toInt8_of_small, Nat.reduceEqDiff, if_true, if_false, or_false, or_true, true_or,
      false_or, Nat.reduceAdd, Nat.reduceSub] <;>
    (try split_ifs) <;> simp only [EditBuffer.mk.injEq, and_true, true_and] <;> omega

/-- The day-range update of `ProcSetDate` leaves a valid date buffer unchanged. -/
theorem updateDayRange_idem (oob : Int → Nat) (b : EditBuffer) (hv : ValidDateBuffer oob b) :
    updateDayRange oob b = b := by
  have h : ¬ (b.day > GetDayOfMonth oob b.year b.month) := by
    have := hv.2.2.2.2.2.2.2.2.2.2.2
    omega
  simp only [updateDayRange, h, if_false]

/-- Clearing the flag of button `j` clears it and leaves the other flags. -/
theorem pending_clearFlag (ks : Fin 8 → keystate_t) (i j : Fin 8) :
    pending (clearFlag ks j) i = if i = j then false else pending ks i := by
  unfold pending clearFlag
  split_ifs <;> simp

/-- No flag is set after `ClearKeyFlags`. -/
theorem pending_ClearKeyFlags (ks : Fin 8 → keystate_t) (i : Fin 8) :
    pending (ClearKeyFlags ks) i = false := by
  simp [pending, ClearKeyFlags]

/-- With no key pending, `ProcSetTime` only runs its validation block. -/
theorem ProcSetTime_no_key (s : State) (hk : ∀ i, pending s.keystate i = false) :
    ProcSetTime s = { s with setting_digit := validateTime s.focus_digit s.setting_digit } := by
  simp [ProcSetTime, editKeys, confirmTime, discardEdit, hk]

/-- With no key pending, `ProcSetDate` only runs its validation block and day-range update. -/
theorem ProcSetDate_no_key (oob : Int → Nat) (s : State)
    (hk : ∀ i, pending s.keystate i = false) :
    ProcSetDate oob s =
      { s with setting_digit :=
          updateDayRange oob (validateDate oob s.focus_digit s.setting_digit) } := by
  simp [ProcSetDate, editKeys, confirmDate, discardEdit, hk]
/-- Claim C8: with no key pending, `ProcSetDate` (validation and day-range update) leaves a
buffer that encodes a valid date unchanged for every focus index `0..7`, and `ProcSetTime`
(validation) leaves a buffer that encodes a valid time unchanged for every focus index
`0..5`; the rest of the state is unchanged as well. -/
theorem validators_idempotent (oob : Int → Nat) (s : State)
    (hk : ∀ i, pending s.keystate i = false) :
    (s.focus_digit < 8 → ValidDateBuffer oob s.setting_digit →
        updateDayRange oob (validateDate oob s.focus_digit s.setting_digit) = s.setting_digit ∧
          ProcSetDate oob s = s) ∧
      (s.focus_digit < 6 → ValidTimeBuffer s.setting_digit →
        validateTime s.focus_digit s.setting_digit = s.setting_digit ∧ ProcSetTime s = s) := by
  constructor
  · intro hf hv
    have h : updateDayRange oob (validateDate oob s.focus_digit s.setting_digit) =
        s.setting_digit := by
      rw [validateDate_idem oob _ _ hf hv, updateDayRange_idem oob _ hv]
    exact ⟨h, by rw [ProcSetDate_no_key oob s hk, h]⟩
  · intro hf hv
    have h := validateTime_idem _ _ hf hv
    exact ⟨h, by rw [ProcSetTime_no_key s hk, h]⟩

/-- Claim C8, evaluated on the buffers 2024-02-29 (focus 7) and 23:59:59 (focus 1). -/
theorem validators_idempotent_witness :
    ProcSetDate (fun _ => 0) setDateExample = setDateExample ∧
      ProcSetTime setTimeExample = setTimeExample :=
  ⟨((validators_idempotent (fun _ => 0) setDateExample (by decide)).1 (by decide)
      (by decide)).2,
    ((validators_idempotent (fun _ => 0) setTimeExample (by decide)).2 (by decide)
      (by decide)).2⟩

/-- The buttons that the key handlers tell apart are pairwise different. -/
theorem button_ne :
    BUTTON_LEFT ≠ BUTTON_RIGHT ∧ BUTTON_LEFT ≠ BUTTON_UP ∧ BUTTON_LEFT ≠ BUTTON_DOWN ∧
      BUTTON_LEFT ≠ BUTTON_BACK ∧ BUTTON_LEFT ≠ BUTTON_1 ∧ BUTTON_LEFT ≠ BUTTON_2 ∧
      BUTTON_LEFT ≠ BUTTON_3 ∧ BUTTON_RIGHT ≠ BUTTON_LEFT ∧ BUTTON_RIGHT ≠ BUTTON_UP ∧
      BUTTON_RIGHT ≠ BUTTON_DOWN ∧ BUTTON_RIGHT ≠ BUTTON_BACK ∧ BUTTON_RIGHT ≠ BUTTON_1 ∧
      BUTTON_RIGHT ≠ BUTTON_2 ∧ BUTTON_RIGHT ≠ BUTTON_3 ∧ BUTTON_UP ≠ BUTTON_LEFT ∧
      BUTTON_UP ≠ BUTTON_RIGHT ∧ BUTTON_UP ≠ BUTTON_DOWN ∧ BUTTON_UP ≠ BUTTON_BACK ∧
      BUTTON_DOWN ≠ BUTTON_LEFT ∧ BUTTON_DOWN ≠ BUTTON_RIGHT ∧ BUTTON_DOWN ≠ BUTTON_UP ∧
      BUTTON_DOWN ≠ BUTTON_BACK ∧ BUTTON_BACK ≠ BUTTON_LEFT ∧ BUTTON_BACK ≠ BUTTON_RIGHT ∧
      BUTTON_BACK ≠ BUTTON_UP ∧ BUTTON_BACK ≠ BUTTON_DOWN ∧ BUTTON_BACK ≠ BUTTON_1 ∧
      BUTTON_BACK ≠ BUTTON_2 ∧ BUTTON_BACK ≠ BUTTON_3 ∧ BUTTON_1 ≠ BUTTON_LEFT ∧
      BUTTON_1 ≠ BUTTON_RIGHT ∧ BUTTON_1 ≠ BUTTON_BACK ∧ BUTTON_2 ≠ BUTTON_LEFT ∧
      BUTTON_2 ≠ BUTTON_RIGHT ∧ BUTTON_2 ≠ BUTTON_BACK ∧ BUTTON_3 ≠ BUTTON_LEFT ∧
      BUTTON_3 ≠ BUTTON_RIGHT ∧ BUTTON_3 ≠ BUTTON_BACK ∧ BUTTON_DOWN ≠ BUTTON_1 ∧
      BUTTON_DOWN ≠ BUTTON_2 ∧ BUTTON_DOWN ≠ BUTTON_3 ∧ BUTTON_DISCARD ≠ BUTTON_LEFT ∧
      BUTTON_DISCARD ≠ BUTTON_RIGHT ∧ BUTTON_DISCARD ≠ BUTTON_UP ∧
      BUTTON_DISCARD ≠ BUTTON_DOWN ∧ BUTTON_DISCARD ≠ BUTTON_BACK := by
  repeat' constructor
  all_goals decide

/-- The four edit-key handlers leave the clock, the alarm, the mode and the restart request
alone. -/
theorem editKeys_frame (n : Nat) (s : State) :
    (editKeys n s).datetime = s.datetime ∧ (editKeys n s).alarm_time = s.alarm_time ∧
      (editKeys n s).mode = s.mode ∧ (editKeys n s).alarming = s.alarming ∧
      (editKeys n s).restart = s.restart := by
  unfold editKeys
  simp only
  split_ifs <;> exact ⟨rfl, rfl, rfl, rfl, rfl⟩

/-- The four edit-key handlers leave the Confirm (BACK) flag alone. -/
theorem editKeys_pending_back (n : Nat) (s : State) :
    pending (editKeys n s).keystate BUTTON_BACK = pending s.keystate BUTTON_BACK := by
  unfold editKeys
  simp only
  split_ifs <;> simp [pending_clearFlag, button_ne]

/-- The focus index stays below the number of cells. -/
theorem editKeys_focus_lt (n : Nat) (s : State) (hn : 0 < n) (hf : s.focus_digit < n) :
    (editKeys n s).focus_digit < n := by
  unfold editKeys
  simp only
  split_ifs <;> first | exact hf | exact Nat.mod_lt _ hn

/-- Without Inc/Dec pending the edit-key handlers leave the buffer alone. -/
theorem editKeys_setting_digit_of_no_edit (n : Nat) (s : State)
    (hu : pending s.keystate BUTTON_UP = false) (hd : pending s.keystate BUTTON_DOWN = false) :
    (editKeys n s).setting_digit = s.setting_digit := by
  unfold editKeys
  simp only
  split_ifs <;> simp_all [pending_clearFlag, button_ne]

/-- With only Inc (UP) pending the focused cell is incremented. -/
theorem editKeys_inc (n : Nat) (s : State)
    (hl : pending s.keystate BUTTON_LEFT = false) (hr : pending s.keystate BUTTON_RIGHT = false)
    (hu : pending s.keystate BUTTON_UP = true) (hd : pending s.keystate BUTTON_DOWN = false) :
    (editKeys n s).focus_digit = s.focus_digit ∧
      (editKeys n s).setting_digit =
        s.setting_digit.set s.focus_digit (s.setting_digit.get s.focus_digit + 1) := by
  simp [editKeys, hl, hr, hu, hd, pending_clearFlag, button_ne]

/-- With only Dec (DOWN) pending the focused cell is decremented. -/
theorem editKeys_dec (n : Nat) (s : State)
    (hl : pending s.keystate BUTTON_LEFT = false) (hr : pending s.keystate BUTTON_RIGHT = false)
    (hu : pending s.keystate BUTTON_UP = false) (hd : pending s.keystate BUTTON_DOWN = true) :
    (editKeys n s).focus_digit = s.focus_digit ∧
      (editKeys n s).setting_digit =
        s.setting_digit.set s.focus_digit (s.setting_digit.get s.focus_digit - 1) := by
  simp [editKeys, hl, hr, hu, hd, pending_clearFlag, button_ne]

/-- The Discard branch leaves the clock, the alarm, the buffer and the alarm flag alone. -/
theorem discardEdit_frame (s : State) :
    (discardEdit s).datetime = s.datetime ∧ (discardEdit s).alarm_time = s.alarm_time ∧
      (discardEdit s).setting_digit = s.setting_digit ∧
      (discardEdit s).alarming = s.alarming := by
  unfold discardEdit
  split_ifs <;> exact ⟨rfl, rfl, rfl, rfl⟩

/-- The Confirm branch of `ProcSetTime` leaves the buffer alone. -/
theorem confirmTime_setting_digit (s : State) :
    (confirmTime s).setting_digit = s.setting_digit := by
  unfold confirmTime
  simp only
  split_ifs <;> rfl

/-- The Confirm branch of `ProcSetDate` leaves the buffer alone. -/
theorem confirmDate_setting_digit (s : State) :
    (confirmDate s).setting_digit = s.setting_digit := by
  unfold confirmDate
  split_ifs <;> rfl

/-- The buffer after `ProcSetTime`: the key handlers, then the validation block. -/
theorem ProcSetTime_setting_digit (s : State) :
    (ProcSetTime s).setting_digit =
      validateTime (editKeys 6 s).focus_digit (editKeys 6 s).setting_digit := by
  simp only [ProcSetTime, (discardEdit_frame _).2.2.1, confirmTime_setting_digit]

/-- The buffer after `ProcSetDate`: the key handlers, the validation block, the day-range update. -/
theorem ProcSetDate_setting_digit (oob : Int → Nat) (s : State) :
    (ProcSetDate oob s).setting_digit =
      updateDayRange oob
        (validateDate oob (editKeys 8 s).focus_digit (editKeys 8 s).setting_digit) := by
  simp only [ProcSetDate, (discardEdit_frame _).2.2.1, confirmDate_setting_digit]

/-- A valid time buffer encodes at most 86399 seconds. -/
theorem ValidTimeBuffer_seconds (b : EditBuffer) (hv : ValidTimeBuffer b) :
    b.hour * 3600 + b.min * 60 + b.sec ≤ 86399 := by
  obtain ⟨-, -, -, -, -, -, hh, hm, hs⟩ := hv
  omega

/-- A confirm step of `ProcSetTime` on a valid time buffer with no Inc/Dec pending writes the
time the buffer encodes to the field the mode selects and returns to Display mode. -/
theorem ProcSetTime_confirm (s : State) (hf : s.focus_digit < 6)
    (hv : ValidTimeBuffer s.setting_digit)
    (hu : pending s.keystate BUTTON_UP = false) (hd : pending s.keystate BUTTON_DOWN = false)
    (hb : pending s.keystate BUTTON_BACK = true) :
    (ProcSetTime s).mode = MODE_DISPLAY ∧
      (s.mode = MODE_SETTIME →
        (ProcSetTime s).datetime = { s.datetime with time :=
            s.setting_digit.hour * 3600 + s.setting_digit.min * 60 + s.setting_digit.sec } ∧
          (ProcSetTime s).alarm_time = s.alarm_time) ∧
      (s.mode ≠ MODE_SETTIME →
        (ProcSetTime s).datetime = s.datetime ∧
          (ProcSetTime s).alarm_time =
            s.setting_digit.hour * 3600 + s.setting_digit.min * 60 + s.setting_digit.sec) := by
  have hb' := editKeys_pending_back 6 s
  have hfr := editKeys_frame 6 s
  have hsd := editKeys_setting_digit_of_no_edit 6 s hu hd
  have hfl := editKeys_focus_lt 6 s (by omega) hf
  rw [hb] at hb'
  have hval : validateTime (editKeys 6 s).focus_digit (editKeys 6 s).setting_digit =
      s.setting_digit := by
    rw [hsd]
    exact validateTime_idem _ _ hfl hv
  simp only [ProcSetTime, hval, discardEdit, confirmTime, hb', hfr.1, hfr.2.1, hfr.2.2.1,
    pending_ClearKeyFlags, if_true]
  refine ⟨?_, ?_, ?_⟩
  · simp
  · intro hm
    simp [hm]
  · intro hm
    simp [hm]
/-- With exactly one of Inc and Dec pending, the edit-key handlers change the cell under the
(possibly moved) focus by one. -/
theorem editKeys_edit (n : Nat) (s : State) (hn : 0 < n) (hf : s.focus_digit < n)
    (hud : pending s.keystate BUTTON_UP ≠ pending s.keystate BUTTON_DOWN) :
    ∃ f δ, f < n ∧ (δ = 1 ∨ δ = -1) ∧ (editKeys n s).focus_digit = f ∧
      (editKeys n s).setting_digit = s.setting_digit.set f (s.setting_digit.get f + δ) := by
  refine ⟨(editKeys n s).focus_digit, if pending s.keystate BUTTON_UP then 1 else -1,
    editKeys_focus_lt n s hn hf, ?_, rfl, ?_⟩
  · split_ifs
    · exact Or.inl rfl
    · exact Or.inr rfl
  · cases hl : pending s.keystate BUTTON_LEFT <;> cases hr : pending s.keystate BUTTON_RIGHT <;>
      cases hu : pending s.keystate BUTTON_UP <;> cases hd : pending s.keystate BUTTON_DOWN <;>
      simp only [hu, hd, ne_eq, not_true_eq_false] at hud <;>
      simp [editKeys, hl, hr, hu, hd, pending_clearFlag, button_ne, sub_eq_add_neg]

/-- Claim C9: in Set-Time and Set-Alarm mode, for every buffer that encodes a valid time and
every focus index `0..5`, `ProcSetTime` with exactly one of Inc (UP) and Dec (DOWN) pending
leaves a buffer that encodes a valid time again; its value is at most 86399, and that is what
a subsequent confirm writes to the time of day (Set-Time) or to the alarm time (Set-Alarm). -/
theorem ProcSetTime_inc_dec_keeps_valid_time (s : State) (hf : s.focus_digit < 6)
    (hv : ValidTimeBuffer s.setting_digit)
    (hud : pending s.keystate BUTTON_UP ≠ pending s.keystate BUTTON_DOWN) :
    ValidTimeBuffer (ProcSetTime s).setting_digit ∧
      (ProcSetTime s).setting_digit.hour * 3600 + (ProcSetTime s).setting_digit.min * 60 +
        (ProcSetTime s).setting_digit.sec ≤ 86399 ∧
      ∀ s2 : State, s2.setting_digit = (ProcSetTime s).setting_digit → s2.focus_digit < 6 →
        pending s2.keystate BUTTON_UP = false → pending s2.keystate BUTTON_DOWN = false →
        pending s2.keystate BUTTON_BACK = true →
        (s2.mode = MODE_SETTIME → (ProcSetTime s2).datetime.time ≤ 86399) ∧
          (s2.mode = MODE_SETALARM → (ProcSetTime s2).alarm_time ≤ 86399) := by
  obtain ⟨f, δ, hfn, hδ, hfe, hse⟩ := editKeys_edit 6 s (by omega) hf hud
  have hvalid : ValidTimeBuffer (ProcSetTime s).setting_digit := by
    rw [ProcSetTime_setting_digit, hfe, hse]
    exact validateTime_step_valid f _ δ hfn hδ hv
  refine ⟨hvalid, ValidTimeBuffer_seconds _ hvalid, ?_⟩
  intro s2 hs2 hf2 hu2 hd2 hb2
  rw [← hs2] at hvalid
  have hc := ProcSetTime_confirm s2 hf2 hvalid hu2 hd2 hb2
  have hsec := ValidTimeBuffer_seconds _ hvalid
  constructor
  · intro hm
    rw [(hc.2.1 hm).1]
    exact hsec
  · intro hm
    have hm' : s2.mode ≠ MODE_SETTIME := by
      rw [hm]
      decide
    rw [(hc.2.2 hm').2]
    exact hsec

/-- Claim C9, evaluated on 23:59:59 with the focus on the hour units and Inc pending: the
result is 20:59:59. -/
theorem ProcSetTime_inc_dec_keeps_valid_time_witness :
    ValidTimeBuffer
        (ProcSetTime { setTimeExample with
          keystate := setFlag setTimeExample.keystate BUTTON_UP }).setting_digit ∧
      (ProcSetTime { setTimeExample with
          keystate := setFlag setTimeExample.keystate BUTTON_UP }).setting_digit =
        ⟨2, 0, 5, 9, 5, 9, 0, 0⟩ :=
  ⟨(ProcSetTime_inc_dec_keeps_valid_time
      { setTimeExample with keystate := setFlag setTimeExample.keystate BUTTON_UP }
      (by decide) (by decide) (by decide)).1, by decide⟩
/-- Claim C6, at the last cell: from the valid buffer 2000-01-01 with the focus on cell 7, a
pending Dec (DOWN) leaves day `00`; from 2000-01-19 a pending Inc (UP) leaves the cell value
10, and from 2000-01-10 a pending Dec leaves the cell value -1.  None of the three results
encodes a valid date. -/
theorem ProcSetDate_last_cell_leaves_invalid_date :
    ∀ oob : Int → Nat,
      ValidDateBuffer oob ⟨2, 0, 0, 0, 0, 1, 0, 1⟩ ∧
      (ProcSetDate oob { setDateExample with
          setting_digit := ⟨2, 0, 0, 0, 0, 1, 0, 1⟩
          keystate := setFlag setDateExample.keystate BUTTON_DOWN }).setting_digit =
        ⟨2, 0, 0, 0, 0, 1, 0, 0⟩ ∧
      ¬ ValidDateBuffer oob ⟨2, 0, 0, 0, 0, 1, 0, 0⟩ ∧
      ValidDateBuffer oob ⟨2, 0, 0, 0, 0, 1, 1, 9⟩ ∧
      (ProcSetDate oob { setDateExample with
          setting_digit := ⟨2, 0, 0, 0, 0, 1, 1, 9⟩
          keystate := setFlag setDateExample.keystate BUTTON_UP }).setting_digit =
        ⟨2, 0, 0, 0, 0, 1, 1, 10⟩ ∧
      ¬ ValidDateBuffer oob ⟨2, 0, 0, 0, 0, 1, 1, 10⟩ ∧
      ValidDateBuffer oob ⟨2, 0, 0, 0, 0, 1, 1, 0⟩ ∧
      (ProcSetDate oob { setDateExample with
          setting_digit := ⟨2, 0, 0, 0, 0, 1, 1, 0⟩
          keystate := setFlag setDateExample.keystate BUTTON_DOWN }).setting_digit =
        ⟨2, 0, 0, 0, 0, 1, 1, -1⟩ ∧
      ¬ ValidDateBuffer oob ⟨2, 0, 0, 0, 0, 1, 1, -1⟩ := by
  intro oob
  have h : GetDayOfMonth oob 2000 1 = 31 := by simp [GetDayOfMonth, month_day]
  refine ⟨?_, ?_, ?_, ?_, ?_, ?_, ?_, ?_, ?_⟩ <;>
    simp [ProcSetDate, editKeys, discardEdit, confirmDate, validateDate, updateDayRange,
      setDateExample, defaultState, pending, setFlag, clearFlag, button_ne, EditBuffer.set,
      EditBuffer.get, EditBuffer.year, EditBuffer.month, EditBuffer.day, toInt8, toUInt8,
      toUInt16, h, cmod, ValidDateBuffer, show Int.tmod (-1) 9 = -1 by decide]
/-- The first three key handlers of `ProcDisplay` leave the clock, the alarm, the mode, the
buffer, the focus and the restart request alone. -/
theorem displayKeys_frame (s : State) :
    (displayKeys s).datetime = s.datetime ∧ (displayKeys s).alarm_time = s.alarm_time ∧
      (displayKeys s).mode = s.mode ∧ (displayKeys s).setting_digit = s.setting_digit ∧
      (displayKeys s).focus_digit = s.focus_digit ∧ (displayKeys s).restart = s.restart := by
  unfold displayKeys
  simp only
  split_ifs <;> exact ⟨rfl, rfl, rfl, rfl, rfl, rfl⟩

/-- The first three key handlers of `ProcDisplay` leave the flags of BUTTON_1, BUTTON_2,
BUTTON_3 and DOWN alone. -/
theorem displayKeys_pending (s : State) :
    pending (displayKeys s).keystate BUTTON_1 = pending s.keystate BUTTON_1 ∧
      pending (displayKeys s).keystate BUTTON_2 = pending s.keystate BUTTON_2 ∧
      pending (displayKeys s).keystate BUTTON_3 = pending s.keystate BUTTON_3 ∧
      pending (displayKeys s).keystate BUTTON_DOWN = pending s.keystate BUTTON_DOWN := by
  unfold displayKeys
  simp only
  split_ifs <;> simp [pending_clearFlag, button_ne]

/-- The buffer that entering Set-Date mode seeds from a valid date encodes that date. -/
theorem enterSetDate_buffer (oob : Int → Nat) (s : State) (hv : ValidDateTime oob s.datetime) :
    ValidDateBuffer oob (enterSetDate s).setting_digit ∧
      (enterSetDate s).setting_digit.year = s.datetime.year ∧
      (enterSetDate s).setting_digit.month = s.datetime.month ∧
      (enterSetDate s).setting_digit.day = s.datetime.day := by
  obtain ⟨hy, hm1, hm12, hd1, hd, ht⟩ := hv
  have hb := (GetDayOfMonth_le_31 oob s.datetime.year s.datetime.month hm1 hm12).2
  have hyear : (enterSetDate s).setting_digit.year = s.datetime.year := by
    simp (disch := omega) only [enterSetDate, EditBuffer.set, EditBuffer.year, EditBuffer.get,
      toInt8_of_small]
    rw [toUInt16_of_small (by omega) (by omega)]
    omega
  have hmonth : (enterSetDate s).setting_digit.month = s.datetime.month := by
    simp (disch := omega) only [enterSetDate, EditBuffer.set, EditBuffer.month, EditBuffer.get,
      toInt8_of_small]
    rw [toUInt8_of_small (by omega) (by omega)]
    omega
  have hday : (enterSetDate s).setting_digit.day = s.datetime.day := by
    simp (disch := omega) only [enterSetDate, EditBuffer.set, EditBuffer.day, EditBuffer.get,
      toInt8_of_small]
    rw [toUInt8_of_small (by omega) (by omega)]
    omega
  refine ⟨?_, hyear, hmonth, hday⟩
  unfold ValidDateBuffer
  rw [hyear, hmonth, hday]
  refine ⟨?_, ?_, ?_, ?_, ?_, ?_, ?_, ?_, hm1, hm12, hd1, hd⟩ <;>
    simp (disch := omega) only [enterSetDate, EditBuffer.set, toInt8_of_small] <;> omega

/-- The buffer that entering Set-Time or Set-Alarm mode seeds from a time of day in
`0..86399` encodes that time. -/
theorem enterSetTime_buffer (s : State)
    (ht : (if pending s.keystate BUTTON_2 then s.datetime.time else s.alarm_time) ≤ 86399) :
    ValidTimeBuffer (enterSetTime s).setting_digit ∧
      (enterSetTime s).setting_digit.hour * 3600 + (enterSetTime s).setting_digit.min * 60 +
          (enterSetTime s).setting_digit.sec =
        (if pending s.keystate BUTTON_2 then s.datetime.time else s.alarm_time) := by
  have hh : (enterSetTime s).setting_digit.hour =
      (if pending s.keystate BUTTON_2 then s.datetime.time else s.alarm_time) / 3600 := by
    simp only [enterSetTime, EditBuffer.set, EditBuffer.hour, EditBuffer.get]
    generalize (if pending s.keystate BUTTON_2 then s.datetime.time else s.alarm_time) = t at ht
    simp (disch := omega) only [toInt8_of_small]
    rw [toUInt8_of_small (by omega) (by omega)]
    omega
  have hm : (enterSetTime s).setting_digit.min =
      (if pending s.keystate BUTTON_2 then s.datetime.time else s.alarm_time) / 60 % 60 := by
    simp only [enterSetTime, EditBuffer.set, EditBuffer.min, EditBuffer.get]
    generalize (if pending s.keystate BUTTON_2 then s.datetime.time else s.alarm_time) = t at ht
    simp (disch := omega) only [toInt8_of_small]
    rw [toUInt8_of_small (by omega) (by omega)]
    omega
  have hs : (enterSetTime s).setting_digit.sec =
      (if pending s.keystate BUTTON_2 then s.datetime.time else s.alarm_time) % 60 := by
    simp only [enterSetTime, EditBuffer.set, EditBuffer.sec, EditBuffer.get]
    generalize (if pending s.keystate BUTTON_2 then s.datetime.time else s.alarm_time) = t at ht
    simp (disch := omega) only [toInt8_of_small]
    rw [toUInt8_of_small (by omega) (by omega)]
    omega
  constructor
  · unfold ValidTimeBuffer
    rw [hh, hm, hs]
    simp only [enterSetTime, EditBuffer.set]
    generalize (if pending s.keystate BUTTON_2 then s.datetime.time else s.alarm_time) = t at ht
    refine ⟨?_, ?_, ?_, ?_, ?_, ?_, ?_, ?_, ?_⟩ <;>
      (try simp (disch := omega) only [toInt8_of_small]) <;> omega
  · rw [hh, hm, hs]
    omega
/-- A confirm step of `ProcSetDate` on a valid date buffer with no Inc/Dec pending writes the
date the buffer encodes and returns to Display mode. -/
theorem ProcSetDate_confirm (oob : Int → Nat) (s : State) (hf : s.focus_digit < 8)
    (hv : ValidDateBuffer oob s.setting_digit)
    (hu : pending s.keystate BUTTON_UP = false) (hd : pending s.keystate BUTTON_DOWN = false)
    (hb : pending s.keystate BUTTON_BACK = true) :
    (ProcSetDate oob s).mode = MODE_DISPLAY ∧
      (ProcSetDate oob s).datetime = { s.datetime with year := s.setting_digit.year
                                                       month := s.setting_digit.month
                                                       day := s.setting_digit.day } ∧
      (ProcSetDate oob s).alarm_time = s.alarm_time := by
  have hb' := editKeys_pending_back 8 s
  have hfr := editKeys_frame 8 s
  have hsd := editKeys_setting_digit_of_no_edit 8 s hu hd
  have hfl := editKeys_focus_lt 8 s (by omega) hf
  rw [hb] at hb'
  have hval : updateDayRange oob
      (validateDate oob (editKeys 8 s).focus_digit (editKeys 8 s).setting_digit) =
      s.setting_digit := by
    rw [hsd, validateDate_idem oob _ _ hfl hv, updateDayRange_idem oob _ hv]
  simp only [ProcSetDate, hval, discardEdit, confirmDate, hb', hfr.1, hfr.2.1, hfr.2.2.1,
    pending_ClearKeyFlags, if_true]
  simp

/-- Claim C7: entering an edit mode from Display and confirming with no Inc/Dec in between is
the identity on the edited field.  `ks` is the key state at the confirm step: BACK pending,
UP and DOWN not pending.  (1) From a valid `DateTime`, BUTTON_1 enters Set-Date and the
confirm leaves the whole `datetime` (year, month, day, and the time) as it was.  (2) BUTTON_2
enters Set-Time and the confirm leaves the time of day, in `0..86399`, as it was.
(3) BUTTON_3 enters Set-Alarm and the confirm leaves an alarm time in `0..86399` as it
was. -/
theorem edit_confirm_round_trip (oob : Int → Nat) (s : State) (ks : Fin 8 → keystate_t)
    (hu : pending ks BUTTON_UP = false) (hd : pending ks BUTTON_DOWN = false)
    (hb : pending ks BUTTON_BACK = true) :
    (ValidDateTime oob s.datetime → pending s.keystate BUTTON_1 = true →
        (ProcDisplay s).mode = MODE_SETDATE ∧
          (ProcSetDate oob { ProcDisplay s with keystate := ks }).datetime = s.datetime ∧
          (ProcSetDate oob { ProcDisplay s with keystate := ks }).mode = MODE_DISPLAY) ∧
      (s.datetime.time ≤ 86399 → pending s.keystate BUTTON_1 = false →
        pending s.keystate BUTTON_2 = true →
        (ProcDisplay s).mode = MODE_SETTIME ∧
          (ProcSetTime { ProcDisplay s with keystate := ks }).datetime = s.datetime ∧
          (ProcSetTime { ProcDisplay s with keystate := ks }).mode = MODE_DISPLAY) ∧
      (s.alarm_time ≤ 86399 → pending s.keystate BUTTON_1 = false →
        pending s.keystate BUTTON_2 = false → pending s.keystate BUTTON_3 = true →
        (ProcDisplay s).mode = MODE_SETALARM ∧
          (ProcSetTime { ProcDisplay s with keystate := ks }).alarm_time = s.alarm_time ∧
          (ProcSetTime { ProcDisplay s with keystate := ks }).datetime = s.datetime ∧
          (ProcSetTime { ProcDisplay s with keystate := ks }).mode = MODE_DISPLAY) := by
  have hfr := displayKeys_frame s
  have hp := displayKeys_pending s
  refine ⟨?_, ?_, ?_⟩
  · intro hv h1
    have hv' : ValidDateTime oob (displayKeys s).datetime := by rw [hfr.1]; exact hv
    have hbuf := enterSetDate_buffer oob (displayKeys s) hv'
    have hP : ProcDisplay s = enterSetDate (displayKeys s) := by
      simp only [ProcDisplay, hp.1, h1, if_true]
    have hc := ProcSetDate_confirm oob { ProcDisplay s with keystate := ks }
      (by rw [hP]; simp [enterSetDate]) (by rw [hP]; exact hbuf.1) hu hd hb
    refine ⟨by rw [hP]; rfl, ?_, hc.1⟩
    rw [hc.2.1]
    simp only [hP, hbuf.2.1, hbuf.2.2.1, hbuf.2.2.2]
    simp only [enterSetDate, hfr.1]
  · intro ht h1 h2
    have ht' : (if pending (displayKeys s).keystate BUTTON_2 then (displayKeys s).datetime.time
        else (displayKeys s).alarm_time) ≤ 86399 := by
      rw [hp.2.1, h2, hfr.1]
      exact ht
    have hbuf := enterSetTime_buffer (displayKeys s) ht'
    have hP : ProcDisplay s = enterSetTime (displayKeys s) := by
      simp [ProcDisplay, hp.1, hp.2.1, h1, h2]
    have hmode : (ProcDisplay s).mode = MODE_SETTIME := by
      rw [hP]
      simp [enterSetTime, hp.2.1, h2]
    have hc := ProcSetTime_confirm { ProcDisplay s with keystate := ks }
      (by rw [hP]; simp [enterSetTime]) (by rw [hP]; exact hbuf.1) hu hd hb
    refine ⟨hmode, ?_, hc.1⟩
    rw [(hc.2.1 hmode).1]
    simp only [hP, hbuf.2]
    simp only [enterSetTime, hp.2.1, h2, if_true, hfr.1]
  · intro ht h1 h2 h3
    have ht' : (if pending (displayKeys s).keystate BUTTON_2 then (displayKeys s).datetime.time
        else (displayKeys s).alarm_time) ≤ 86399 := by
      rw [hp.2.1, h2, hfr.2.1]
      exact ht
    have hbuf := enterSetTime_buffer (displayKeys s) ht'
    have hP : ProcDisplay s = enterSetTime (displayKeys s) := by
      simp [ProcDisplay, hp.1, hp.2.1, hp.2.2.1, h1, h2, h3]
    have hmode : (ProcDisplay s).mode = MODE_SETALARM := by
      rw [hP]
      simp [enterSetTime, hp.2.1, h2]
    have hmode' : (ProcDisplay s).mode ≠ MODE_SETTIME := by
      rw [hmode]
      decide
    have hc := ProcSetTime_confirm { ProcDisplay s with keystate := ks }
      (by rw [hP]; simp [enterSetTime]) (by rw [hP]; exact hbuf.1) hu hd hb
    refine ⟨hmode, ?_, ?_, hc.1⟩
    · rw [(hc.2.2 hmode').2]
      simp only [hP, hbuf.2]
      simp [hp.2.1, h2, hfr.2.1]
    · rw [(hc.2.2 hmode').1]
      simp only [hP, enterSetTime, hfr.1]
/-- Claim C7, evaluated from 2024-02-29 12:34:56 with the alarm at 07:30:00. -/
theorem edit_confirm_round_trip_witness :
    (ProcSetDate (fun _ => 0)
        { ProcDisplay { displayExample with
            keystate := setFlag displayExample.keystate BUTTON_1 } with
          keystate := setFlag displayExample.keystate BUTTON_BACK }).datetime =
        displayExample.datetime ∧
      (ProcSetTime
        { ProcDisplay { displayExample with
            keystate := setFlag displayExample.keystate BUTTON_2 } with
          keystate := setFlag displayExample.keystate BUTTON_BACK }).datetime =
        displayExample.datetime ∧
      (ProcSetTime
        { ProcDisplay { displayExample with
            keystate := setFlag displayExample.keystate BUTTON_3 } with
          keystate := setFlag displayExample.keystate BUTTON_BACK }).alarm_time =
        displayExample.alarm_time :=
  ⟨((edit_confirm_round_trip (fun _ => 0)
      { displayExample with keystate := setFlag displayExample.keystate BUTTON_1 }
      (setFlag displayExample.keystate BUTTON_BACK) (by decide) (by decide) (by decide)).1
      (by decide) (by decide)).2.1,
    ((edit_confirm_round_trip (fun _ => 0)
      { displayExample with keystate := setFlag displayExample.keystate BUTTON_2 }
      (setFlag displayExample.keystate BUTTON_BACK) (by decide) (by decide) (by decide)).2.1
      (by decide) (by decide) (by decide)).2.1,
    ((edit_confirm_round_trip (fun _ => 0)
      { displayExample with keystate := setFlag displayExample.keystate BUTTON_3 }
      (setFlag displayExample.keystate BUTTON_BACK) (by decide) (by decide) (by decide)).2.2
      (by decide) (by decide) (by decide) (by decide)).2.1⟩
/-! ### Command interpreter -/

/-- More fuel does not change a result of the loop of `ParseIntegerUntil`. -/
theorem ParseIntegerUntilLoop_mono (str : List Nat) (delim : Nat) (n : Nat) :
    ∀ (index : Nat) (result : Int) (r : Nat × Nat × Int),
      ParseIntegerUntilLoop str delim n index result = some r →
      ∀ m, n ≤ m → ParseIntegerUntilLoop str delim m index result = some r := by
  induction n with
  | zero => intro index result r h; simp [ParseIntegerUntilLoop] at h
  | succ k ih =>
    intro index result r h m hm
    obtain ⟨m', rfl⟩ : ∃ m', m = m' + 1 := ⟨m - 1, by omega⟩
    unfold ParseIntegerUntilLoop at h ⊢
    split_ifs at h ⊢ with h1 h2 h3
    · exact ih _ _ _ h m' (by omega)
    · exact h
    · exact h
    · exact h

/-- More fuel does not change a result of `ParseIntegerUntil`. -/
theorem ParseIntegerUntil_mono (str : List Nat) (delim n index : Nat) (r : Nat × Nat × Int)
    (h : ParseIntegerUntil n str delim index = some r) (m : Nat) (hm : n ≤ m) :
    ParseIntegerUntil m str delim index = some r :=
  ParseIntegerUntilLoop_mono str delim n index 0 r h m hm

/-- More fuel does not change a result of the time placeholder. -/
theorem parseTime_mono (command : List Nat) (delim i : Nat) (args : datetime_t) (n : Nat)
    (p : Placeholder) (h : parseTime n command delim i args = some p) (m : Nat) (hm : n ≤ m) :
    parseTime m command delim i args = some p := by
  unfold parseTime at h ⊢
  cases h1 : ParseIntegerUntil n command 58 i with
  | none => simp [h1] at h
  | some r1 =>
    obtain ⟨e1, i1, t1⟩ := r1
    rw [ParseIntegerUntil_mono _ _ _ _ _ h1 m hm]
    simp only [h1] at h ⊢
    by_cases c1 : e1 ≠ ERROR_SUCCESS
    · rw [if_pos c1] at h ⊢
      exact h
    rw [if_neg c1] at h ⊢
    by_cases c2 : ¬ (t1 ≥ 0 ∧ t1 ≤ 23)
    · rw [if_pos c2] at h ⊢
      exact h
    rw [if_neg c2] at h ⊢
    cases h2 : ParseIntegerUntil n command 58 i1 with
    | none => simp [h2] at h
    | some r2 =>
      obtain ⟨e2, i2, t2⟩ := r2
      rw [ParseIntegerUntil_mono _ _ _ _ _ h2 m hm]
      simp only [h2] at h ⊢
      by_cases c3 : e2 ≠ ERROR_SUCCESS
      · rw [if_pos c3] at h ⊢
        exact h
      rw [if_neg c3] at h ⊢
      by_cases c4 : ¬ (t2 ≥ 0 ∧ t2 ≤ 59)
      · rw [if_pos c4] at h ⊢
        exact h
      rw [if_neg c4] at h ⊢
      cases h3 : ParseIntegerUntil n command delim i2 with
      | none => simp [h3] at h
      | some r3 =>
        obtain ⟨e3, i3, t3⟩ := r3
        rw [ParseIntegerUntil_mono _ _ _ _ _ h3 m hm]
        simp only [h3] at h ⊢
        exact h

/-- More fuel does not change a result of the date placeholder. -/
theorem parseDate_mono (oob : Int → Nat) (command : List Nat) (delim i : Nat)
    (args : datetime_t) (n : Nat) (p : Placeholder)
    (h : parseDate oob n command delim i args = some p) (m : Nat) (hm : n ≤ m) :
    parseDate oob m command delim i args = some p := by
  unfold parseDate at h ⊢
  cases h1 : ParseIntegerUntil n command 47 i with
  | none => simp [h1] at h
  | some r1 =>
    obtain ⟨e1, i1, t1⟩ := r1
    rw [ParseIntegerUntil_mono _ _ _ _ _ h1 m hm]
    simp only [h1] at h ⊢
    by_cases c1 : e1 ≠ ERROR_SUCCESS
    · rw [if_pos c1] at h ⊢
      exact h
    rw [if_neg c1] at h ⊢
    by_cases c2 : ¬ (t1 ≥ 0 ∧ t1 ≤ 9999)
    · rw [if_pos c2] at h ⊢
      exact h
    rw [if_neg c2] at h ⊢
    cases h2 : ParseIntegerUntil n command 47 i1 with
    | none => simp [h2] at h
    | some r2 =>
      obtain ⟨e2, i2, t2⟩ := r2
      rw [ParseIntegerUntil_mono _ _ _ _ _ h2 m hm]
      simp only [h2] at h ⊢
      by_cases c3 : e2 ≠ ERROR_SUCCESS
      · rw [if_pos c3] at h ⊢
        exact h
      rw [if_neg c3] at h ⊢
      by_cases c4 : ¬ (t2 ≥ 0 ∧ t2 ≤ 12)
      · rw [if_pos c4] at h ⊢
        exact h
      rw [if_neg c4] at h ⊢
      cases h3 : ParseIntegerUntil n command delim i2 with
      | none => simp [h3] at h
      | some r3 =>
        obtain ⟨e3, i3, t3⟩ := r3
        rw [ParseIntegerUntil_mono _ _ _ _ _ h3 m hm]
        simp only [h3] at h ⊢
        exact h

/-- More fuel does not change a result of the loop of `ParseCommand`. -/
theorem ParseCommandLoop_mono (oob : Int → Nat) (pattern command : List Nat) (n : Nat) :
    ∀ (i j skip_space has_space current_arg : Nat) (args : datetime_t) (r : ParseResult),
      ParseCommandLoop oob pattern command n i j skip_space has_space current_arg args =
        some r →
      ∀ m, n ≤ m →
        ParseCommandLoop oob pattern command m i j skip_space has_space current_arg args =
          some r := by
  induction n with
  | zero => intro i j sk hs ca args r h; simp [ParseCommandLoop] at h
  | succ k ih =>
    intro i j sk hs ca args r h m hm
    obtain ⟨m', rfl⟩ : ∃ m', m = m' + 1 := ⟨m - 1, by omega⟩
    have hkm : k ≤ m' := by omega
    unfold ParseCommandLoop at h ⊢
    by_cases c0 : byteAt command i ≠ 0 ∧ byteAt pattern j ≠ 0
    · rw [if_pos c0] at h ⊢
      simp only at h ⊢
      by_cases c1 : ToUpperCase (byteAt command i) = 32 ∧ sk ≠ 0
      · rw [if_pos c1] at h ⊢
        exact ih _ _ _ _ _ _ _ h m' hkm
      rw [if_neg c1] at h ⊢
      by_cases c2 : ToUpperCase (byteAt pattern j) = 36
      · rw [if_pos c2] at h ⊢
        by_cases c3 : ToUpperCase (byteAt pattern (j + 1)) = 84
        · rw [if_pos c3] at h ⊢
          cases hp : parseTime k command (byteAt pattern ((j + 1) % 256 + 1)) i
              { month := 0, day := 0, year := 0, time := 0 } with
          | none => simp [hp] at h
          | some p =>
            rw [parseTime_mono _ _ _ _ _ _ hp m' hkm]
            rw [hp] at h
            cases p with
            | next i' a' => exact ih _ _ _ _ _ _ _ h m' hkm
            | format u a' => exact h
        rw [if_neg c3] at h ⊢
        by_cases c4 : ToUpperCase (byteAt pattern (j + 1)) = 68
        · rw [if_pos c4] at h ⊢
          cases hp : parseDate oob k command (byteAt pattern ((j + 1) % 256 + 1)) i
              { month := 0, day := 0, year := 0, time := 0 } with
          | none => simp [hp] at h
          | some p =>
            rw [parseDate_mono _ _ _ _ _ _ _ hp m' hkm]
            rw [hp] at h
            cases p with
            | next i' a' => exact ih _ _ _ _ _ _ _ h m' hkm
            | format u a' => exact h
        rw [if_neg c4] at h ⊢
        exact ih _ _ _ _ _ _ _ h m' hkm
      rw [if_neg c2] at h ⊢
      by_cases c5 : ToUpperCase (byteAt pattern j) ≠ ToUpperCase (byteAt command i)
      · rw [if_pos c5] at h ⊢
        exact h
      rw [if_neg c5] at h ⊢
      exact ih _ _ _ _ _ _ _ h m' hkm
    · rw [if_neg c0] at h ⊢
      exact h

/-- More fuel does not change a result of `ParseCommand`. -/
theorem ParseCommand_mono (oob : Int → Nat) (pattern command : List Nat) (args : datetime_t)
    (n : Nat) (r : ParseResult) (h : ParseCommand oob n pattern command args = some r)
    (m : Nat) (hm : n ≤ m) : ParseCommand oob m pattern command args = some r :=
  ParseCommandLoop_mono oob pattern command n 0 0 0 0 0 args r h m hm
/-- The byte right behind a list `pre` in `pre ++ c :: rest` is `c`. -/
theorem byteAt_append_length (pre : List Nat) (c : Nat) (rest : List Nat) :
    byteAt (pre ++ c :: rest) pre.length = c := by
  induction pre with
  | nil => simp [byteAt]
  | cons a l ih => simpa [byteAt] using ih

/-- A non-negative value below `2 ^ 31` is unchanged by the conversion to `int`. -/
theorem toInt32_of_small {x : Int} (h0 : 0 ≤ x) (h1 : x < 2147483648) : toInt32 x = x := by
  unfold toInt32
  omega

/-- Scanning digits does not decrease a non-negative accumulator. -/
theorem digitsFold_ge (ds : List Nat) (hd : IsDigits ds) :
    ∀ acc : Int, 0 ≤ acc → acc ≤ digitsFold acc ds := by
  induction ds with
  | nil => intro acc _; simp [digitsFold]
  | cons c l ih =>
    intro acc h0
    have hc := hd c (List.mem_cons_self _ _)
    have hl : IsDigits l := fun x hx => hd x (List.mem_cons_of_mem _ hx)
    have := ih hl (acc * 10 + (c : Int) - 48) (by omega)
    simp only [digitsFold, List.foldl_cons] at this ⊢
    omega

/-- The scan of one group: over digit bytes `ds` followed by a byte `t` that is the
delimiter, `ParseIntegerUntil`'s loop accumulates the value, steps over the delimiter and
succeeds.  The delimiter may be NUL. -/
theorem ParseIntegerUntilLoop_digits (delim t : Nat) (post : List Nat) (ht : t = delim)
    (hdelim : ¬ (48 ≤ delim ∧ delim ≤ 57)) (ds : List Nat) :
    ∀ (pre : List Nat) (acc : Int) (fuel : Nat), IsDigits ds → 0 ≤ acc →
      digitsFold acc ds < 2147483648 → pre.length + ds.length + 1 < 256 →
      ds.length < fuel →
      ParseIntegerUntilLoop (pre ++ ds ++ t :: post) delim fuel pre.length acc =
        some (ERROR_SUCCESS, pre.length + ds.length + 1, digitsFold acc ds) := by
  induction ds with
  | nil =>
    intro pre acc fuel _ _ _ hlen hfuel
    obtain ⟨f, rfl⟩ : ∃ f, fuel = f + 1 := ⟨fuel - 1, by simp at hfuel; omega⟩
    have hb : byteAt (pre ++ [] ++ t :: post) pre.length = t := by
      simpa using byteAt_append_length pre t post
    unfold ParseIntegerUntilLoop
    rw [hb]
    have h1 : ¬ (t ≠ 0 ∧ t ≠ delim) := by
      rintro ⟨-, h⟩
      exact h ht
    rw [if_neg h1, if_pos ht]
    simp only [List.length_nil, digitsFold, List.foldl_nil, Nat.add_zero] at hlen ⊢
    rw [Nat.mod_eq_of_lt (by omega)]
  | cons c l ih =>
    intro pre acc fuel hd h0 hv hlen hfuel
    obtain ⟨f, rfl⟩ : ∃ f, fuel = f + 1 := ⟨fuel - 1, by simp at hfuel; omega⟩
    have hc := hd c (List.mem_cons_self _ _)
    have hl : IsDigits l := fun x hx => hd x (List.mem_cons_of_mem _ hx)
    have hb : byteAt (pre ++ (c :: l) ++ t :: post) pre.length = c := by
      simpa using byteAt_append_length pre c (l ++ t :: post)
    have hacc : 0 ≤ acc * 10 + (c : Int) - 48 := by omega
    have hle := digitsFold_ge l hl (acc * 10 + (c : Int) - 48) hacc
    have hv' : digitsFold (acc * 10 + (c : Int) - 48) l < 2147483648 := by
      simpa only [digitsFold, List.foldl_cons] using hv
    unfold ParseIntegerUntilLoop
    rw [hb]
    have h1 : c ≠ 0 ∧ c ≠ delim := by
      refine ⟨by omega, ?_⟩
      intro h
      rw [← h] at hdelim
      exact hdelim hc
    rw [if_pos h1, if_pos hc, toInt32_of_small hacc (by omega)]
    simp only [List.length_cons] at hlen hfuel
    rw [Nat.mod_eq_of_lt (by omega)]
    have e : pre ++ (c :: l) ++ t :: post = (pre ++ [c]) ++ l ++ t :: post := by simp
    have e2 : pre.length + 1 = (pre ++ [c]).length := by simp
    rw [e, e2, ih (pre ++ [c]) _ f hl hacc hv' (by simp; omega) (by omega)]
    simp only [List.length_append, List.length_cons, List.length_nil, digitsFold,
      List.foldl_cons]
    have e3 : pre.length + (0 + 1) + l.length + 1 = pre.length + (l.length + 1) + 1 := by
      omega
    rw [e3]
/-- The value of a digit string is not negative. -/
theorem digitsValue_nonneg (ds : List Nat) (hd : IsDigits ds) : 0 ≤ digitsValue ds :=
  digitsFold_ge ds hd 0 (le_refl 0)

/-- One group of a placeholder, scanned by `ParseIntegerUntil` from the index behind a prefix
`pre`: digits `ds`, then the delimiter. -/
theorem ParseIntegerUntil_group (delim : Nat) (hdelim : ¬ (48 ≤ delim ∧ delim ≤ 57))
    (pre ds post : List Nat) (fuel : Nat) (hd : IsDigits ds)
    (hv : digitsValue ds < 2147483648) (hlen : pre.length + ds.length + 1 < 256)
    (hfuel : ds.length < fuel) :
    ParseIntegerUntil fuel (pre ++ ds ++ delim :: post) delim pre.length =
      some (ERROR_SUCCESS, pre.length + ds.length + 1, digitsValue ds) :=
  ParseIntegerUntilLoop_digits delim delim post rfl hdelim ds pre 0 fuel hd (le_refl 0) hv hlen
    hfuel

/-- The time placeholder on three well-formed groups `A:B:C` behind a prefix `pre`: the range
checks decide, in the order hour, minute, second. -/
theorem parseTime_groups (delim : Nat) (hdelim : ¬ (48 ≤ delim ∧ delim ≤ 57))
    (pre A B C post : List Nat) (fuel : Nat)
    (hA : IsDigits A) (hB : IsDigits B) (hC : IsDigits C)
    (hvA : digitsValue A < 2147483648) (hvB : digitsValue B < 2147483648)
    (hvC : digitsValue C < 2147483648)
    (hlen : pre.length + A.length + B.length + C.length + 3 < 256)
    (hfA : A.length < fuel) (hfB : B.length < fuel) (hfC : C.length < fuel) :
    parseTime fuel (pre ++ A ++ 58 :: (B ++ 58 :: (C ++ delim :: post))) delim pre.length
        { month := 0, day := 0, year := 0, time := 0 } =
      some
        (if ¬ digitsValue A ≤ 23 then
          .format (invalidValue "Invalid Hour: " (digitsValue A)
            (bytes "\r\nShould between 00 and 23\r\n")) { month := 0, day := 0, year := 0, time := 0 }
        else if ¬ digitsValue B ≤ 59 then
          .format (invalidValue "Invalid Minute: " (digitsValue B)
            (bytes "\r\nShould between 00 and 59\r\n"))
            { month := 0, day := 0, year := 0, time := (digitsValue A).toNat * 3600 }
        else if ¬ digitsValue C ≤ 59 then
          .format (invalidValue "Invalid Second: " (digitsValue C)
            (bytes "\r\nShould between 00 and 59\r\n"))
            { month := 0, day := 0, year := 0
              time := (digitsValue A).toNat * 3600 + (digitsValue B).toNat * 60 }
        else
          .next (pre.length + A.length + B.length + C.length + 3)
            { month := 0, day := 0, year := 0
              time := (digitsValue A).toNat * 3600 + (digitsValue B).toNat * 60 +
                (digitsValue C).toNat }) := by
  have h0A := digitsValue_nonneg A hA
  have h0B := digitsValue_nonneg B hB
  have h0C := digitsValue_nonneg C hC
  have g1 := ParseIntegerUntil_group 58 (by omega) pre A (B ++ 58 :: (C ++ delim :: post)) fuel
    hA hvA (by omega) hfA
  have g2 := ParseIntegerUntil_group 58 (by omega) (pre ++ A ++ [58]) B (C ++ delim :: post)
    fuel hB hvB (by simp only [List.length_append, List.length_cons, List.length_nil]; omega) hfB
  have g3 := ParseIntegerUntil_group delim hdelim (pre ++ A ++ [58] ++ B ++ [58]) C post
    fuel hC hvC (by simp only [List.length_append, List.length_cons, List.length_nil]; omega) hfC
  have e2 : pre ++ A ++ [58] ++ B ++ 58 :: (C ++ delim :: post) =
      pre ++ A ++ 58 :: (B ++ 58 :: (C ++ delim :: post)) := by simp
  have e3 : pre ++ A ++ [58] ++ B ++ [58] ++ C ++ delim :: post =
      pre ++ A ++ 58 :: (B ++ 58 :: (C ++ delim :: post)) := by simp
  have l2 : (pre ++ A ++ [58]).length = pre.length + A.length + 1 := by
    simp only [List.length_append, List.length_cons, List.length_nil]
  have l3 : (pre ++ A ++ [58] ++ B ++ [58]).length =
      pre.length + A.length + 1 + B.length + 1 := by
    simp only [List.length_append, List.length_cons, List.length_nil]
  rw [e2, l2] at g2
  rw [e3, l3] at g3
  unfold parseTime
  rw [g1]
  simp only [ne_eq, not_true_eq_false, if_false]
  by_cases cA : digitsValue A ≤ 23
  · have cA' : digitsValue A ≥ 0 ∧ digitsValue A ≤ 23 := ⟨h0A, cA⟩
    simp only [cA', cA, and_self, not_true_eq_false, if_false]
    rw [g2]
    simp only [ne_eq, not_true_eq_false, if_false]
    by_cases cB : digitsValue B ≤ 59
    · have cB' : digitsValue B ≥ 0 ∧ digitsValue B ≤ 59 := ⟨h0B, cB⟩
      simp only [cB', cB, and_self, not_true_eq_false, if_false]
      rw [g3]
      simp only [ne_eq, not_true_eq_false, if_false]
      by_cases cC : digitsValue C ≤ 59
      · have cC' : digitsValue C ≥ 0 ∧ digitsValue C ≤ 59 := ⟨h0C, cC⟩
        simp only [cC', cC, and_self, not_true_eq_false, if_false]
        have ei : pre.length + A.length + 1 + B.length + 1 + C.length + 1 =
            pre.length + A.length + B.length + C.length + 3 := by omega
        have et : (((0 + (digitsValue A * 60 * 60).toNat) % 2 ^ 32 +
            (digitsValue B * 60).toNat) % 2 ^ 32 + (digitsValue C).toNat) % 2 ^ 32 =
            (digitsValue A).toNat * 3600 + (digitsValue B).toNat * 60 +
              (digitsValue C).toNat := by omega
        rw [ei, et]
      · have cC' : ¬ (digitsValue C ≥ 0 ∧ digitsValue C ≤ 59) := fun h => cC h.2
        rw [if_pos cC', if_pos cC]
        have et : ((0 + (digitsValue A * 60 * 60).toNat) % 2 ^ 32 +
            (digitsValue B * 60).toNat) % 2 ^ 32 =
            (digitsValue A).toNat * 3600 + (digitsValue B).toNat * 60 := by omega
        rw [et]
    · have cB' : ¬ (digitsValue B ≥ 0 ∧ digitsValue B ≤ 59) := fun h => cB h.2
      rw [if_pos cB', if_pos cB]
      have et : (0 + (digitsValue A * 60 * 60).toNat) % 2 ^ 32 =
          (digitsValue A).toNat * 3600 := by omega
      rw [et]
  · have cA' : ¬ (digitsValue A ≥ 0 ∧ digitsValue A ≤ 23) := fun h => cA h.2
    rw [if_pos cA', if_pos cA]
/-- The bytes of the template `SET TIME $T`. -/
theorem bytes_SET_TIME_pattern :
    bytes "SET TIME $T" = [83, 69, 84, 32, 84, 73, 77, 69, 32, 36, 84] := by decide

/-- The bytes of the literal part of `SET TIME $T`. -/
theorem bytes_SET_TIME_lead :
    bytes "SET TIME " = [83, 69, 84, 32, 84, 73, 77, 69, 32] := by decide

/-- Nine iterations of the loop of `ParseCommand` align the literal part `SET TIME ` of the
template with the same nine characters of the input. -/
theorem ParseCommandLoop_SET_TIME_lead (oob : Int → Nat) (rest : List Nat) (n : Nat)
    (args : datetime_t) :
    ParseCommandLoop oob (bytes "SET TIME $T") (bytes "SET TIME " ++ rest) (n + 9) 0 0 0 0 0
        args =
      ParseCommandLoop oob (bytes "SET TIME $T") (bytes "SET TIME " ++ rest) n 9 9 1 1 0
        args := by
  rw [bytes_SET_TIME_pattern, bytes_SET_TIME_lead]
  simp [ParseCommandLoop, byteAt, ToUpperCase]

/-- Reading `l ++ r` at `k` places behind `l` reads `r` at `k`. -/
theorem byteAt_append_add (l r : List Nat) (k : Nat) :
    byteAt (l ++ r) (l.length + k) = byteAt r k := by
  induction l with
  | nil => simp [byteAt]
  | cons a l ih =>
    have e : (a :: l).length + k = (l.length + k) + 1 := by simp; omega
    rw [e]
    simpa [byteAt] using ih

/-- The first byte of a group and its delimiter `:` or `/` is a digit or that delimiter. -/
theorem byteAt_group_head (A rest : List Nat) (d : Nat) (hA : IsDigits A)
    (hd : 47 ≤ d ∧ d ≤ 58) :
    47 ≤ byteAt (A ++ d :: rest) 0 ∧ byteAt (A ++ d :: rest) 0 ≤ 58 := by
  cases A with
  | nil => simpa [byteAt] using hd
  | cons a l =>
    have := hA a (List.mem_cons_self _ _)
    simp only [byteAt, List.cons_append, List.getD_cons_zero]
    omega

/-- What `ParseCommand("SET TIME $T", ...)` returns on a buffer that holds `SET TIME A:B:C`
with three digit groups, a NUL, and then the bytes `post`: the groups are checked in the
order hour `<= 23`, minute `<= 59`, second `<= 59`; when all pass, the result is
`ERROR_SUCCESS` if the second byte behind the terminator is NUL and `ERROR_PARTIAL` with the
index of that byte otherwise. -/
theorem ParseCommand_SET_TIME (oob : Int → Nat) (args : datetime_t) (A B C post : List Nat)
    (fuel : Nat) (hA : IsDigits A) (hB : IsDigits B) (hC : IsDigits C)
    (hvA : digitsValue A < 2147483648) (hvB : digitsValue B < 2147483648)
    (hvC : digitsValue C < 2147483648) (hlen : A.length + B.length + C.length + 13 < 256)
    (hfuel : A.length + B.length + C.length + 11 ≤ fuel) :
    ParseCommand oob fuel (bytes "SET TIME $T")
        (bytes "SET TIME " ++ A ++ 58 :: (B ++ 58 :: (C ++ 0 :: post))) args =
      some
        (if ¬ digitsValue A ≤ 23 then
          { error := ERROR_FORMAT, args := { month := 0, day := 0, year := 0, time := 0 }
            uart := invalidValue "Invalid Hour: " (digitsValue A)
              (bytes "\r\nShould between 00 and 23\r\n") }
        else if ¬ digitsValue B ≤ 59 then
          { error := ERROR_FORMAT
            args := { month := 0, day := 0, year := 0, time := (digitsValue A).toNat * 3600 }
            uart := invalidValue "Invalid Minute: " (digitsValue B)
              (bytes "\r\nShould between 00 and 59\r\n") }
        else if ¬ digitsValue C ≤ 59 then
          { error := ERROR_FORMAT
            args := { month := 0, day := 0, year := 0
                      time := (digitsValue A).toNat * 3600 + (digitsValue B).toNat * 60 }
            uart := invalidValue "Invalid Second: " (digitsValue C)
              (bytes "\r\nShould between 00 and 59\r\n") }
        else if byteAt post 1 ≠ 0 then
          { error := ERROR_PARTIAL ||| ((A.length + B.length + C.length + 13) &&& 0x00ff)
            args := { month := 0, day := 0, year := 0
                      time := (digitsValue A).toNat * 3600 + (digitsValue B).toNat * 60 +
                        (digitsValue C).toNat }
            uart := [] }
        else
          { error := ERROR_SUCCESS
            args := { month := 0, day := 0, year := 0
                      time := (digitsValue A).toNat * 3600 + (digitsValue B).toNat * 60 +
                        (digitsValue C).toNat }
            uart := [] }) := by
  obtain ⟨k, rfl⟩ : ∃ k, fuel = k + 1 + 1 + 9 := ⟨fuel - 11, by omega⟩
  have hpt := parseTime_groups 0 (by omega) (bytes "SET TIME ") A B C post (k + 1) hA hB hC
    hvA hvB hvC (by rw [bytes_SET_TIME_lead]; simp only [List.length_cons, List.length_nil]; omega)
    (by omega) (by omega) (by omega)
  have hhead := byteAt_group_head A (B ++ 58 :: (C ++ 0 :: post)) 58 hA (by omega)
  have hb9 : byteAt (bytes "SET TIME " ++ A ++ 58 :: (B ++ 58 :: (C ++ 0 :: post))) 9 =
      byteAt (A ++ 58 :: (B ++ 58 :: (C ++ 0 :: post))) 0 := by
    rw [List.append_assoc]
    exact byteAt_append_add (bytes "SET TIME ") _ 0
  have hbend : byteAt (bytes "SET TIME " ++ A ++ 58 :: (B ++ 58 :: (C ++ 0 :: post)))
      (A.length + B.length + C.length + 13) = byteAt post 1 := by
    have e : bytes "SET TIME " ++ A ++ 58 :: (B ++ 58 :: (C ++ 0 :: post)) =
        (bytes "SET TIME " ++ A ++ [58] ++ B ++ [58] ++ C ++ [0]) ++ post := by simp
    have l : A.length + B.length + C.length + 13 =
        (bytes "SET TIME " ++ A ++ [58] ++ B ++ [58] ++ C ++ [0]).length + 1 := by
      rw [bytes_SET_TIME_lead]
      simp only [List.length_append, List.length_cons, List.length_nil]
      omega
    rw [e, l]
    exact byteAt_append_add _ _ 1
  unfold ParseCommand
  rw [List.append_assoc, ParseCommandLoop_SET_TIME_lead, ← List.append_assoc]
  generalize bytes "SET TIME " ++ A ++ 58 :: (B ++ 58 :: (C ++ 0 :: post)) = cmd at *
  have hx0 : byteAt cmd 9 ≠ 0 := by rw [hb9]; omega
  have hxu : ToUpperCase (byteAt cmd 9) ≠ 32 := by
    rw [hb9]
    unfold ToUpperCase
    split_ifs <;> omega
  have hp9 : byteAt (bytes "SET TIME $T") 9 = 36 := by decide
  have hp10 : byteAt (bytes "SET TIME $T") 10 = 84 := by decide
  have hp11 : byteAt (bytes "SET TIME $T") 11 = 0 := by decide
  have hl9 : (bytes "SET TIME ").length = 9 := by decide
  rw [hl9] at hpt
  rw [ParseCommandLoop]
  simp only [hp9, hp10, hp11, hx0, hxu, ne_eq, not_false_eq_true, and_self, if_true,
    false_and, if_false, Nat.reduceAdd, Nat.reduceMod, hpt, OfNat.ofNat_ne_zero,
    show ToUpperCase 36 = 36 by decide, show ToUpperCase 84 = 84 by decide]
  by_cases cA : digitsValue A ≤ 23
  swap
  · rw [if_pos cA, if_pos cA]
  rw [if_neg (not_not.mpr cA), if_neg (not_not.mpr cA)]
  by_cases cB : digitsValue B ≤ 59
  swap
  · rw [if_pos cB, if_pos cB]
  rw [if_neg (not_not.mpr cB), if_neg (not_not.mpr cB)]
  by_cases cC : digitsValue C ≤ 59
  swap
  · rw [if_pos cC, if_pos cC]
  rw [if_neg (not_not.mpr cC), if_neg (not_not.mpr cC)]
  have ei : (9 + A.length + B.length + C.length + 3 + 1) % 256 =
      A.length + B.length + C.length + 13 := by omega
  simp only [ei]
  rw [ParseCommandLoop]
  simp only [hp11, hbend, ne_eq, not_true_eq_false, and_false, if_false, or_false,
    OfNat.ofNat_ne_zero, not_false_eq_true, true_or, if_true]
  by_cases cP : byteAt post 1 = 0
  · simp [cP]
  · simp [cP]
/-- Every entry of `month_day` is at most 31. -/
theorem month_day_getD_le (i : Nat) : month_day.getD i 0 ≤ 31 := by
  rcases Nat.lt_or_ge i 12 with h | h
  · interval_cases i <;> simp [month_day]
  · rw [List.getD_eq_default _ _ (by simpa [month_day] using h)]
    omega

/-- The result of `GetDayOfMonth` fits its return type `uint8_t`, whatever the month. -/
theorem GetDayOfMonth_le_255 (oob : Int → Nat) (y m : Nat) : GetDayOfMonth oob y m ≤ 255 := by
  unfold GetDayOfMonth
  simp only
  have := month_day_getD_le ((m : Int) - 1).toNat
  split_ifs <;> omega

/-- The date placeholder on three well-formed groups `A/B/C` behind a prefix `pre`: the range
checks decide, in the order year, month, day; the month check lets 0 through. -/
theorem parseDate_groups (oob : Int → Nat) (delim : Nat) (hdelim : ¬ (48 ≤ delim ∧ delim ≤ 57))
    (pre A B C post : List Nat) (fuel : Nat)
    (hA : IsDigits A) (hB : IsDigits B) (hC : IsDigits C)
    (hvA : digitsValue A < 2147483648) (hvB : digitsValue B < 2147483648)
    (hvC : digitsValue C < 2147483648)
    (hlen : pre.length + A.length + B.length + C.length + 3 < 256)
    (hfA : A.length < fuel) (hfB : B.length < fuel) (hfC : C.length < fuel) :
    parseDate oob fuel (pre ++ A ++ 47 :: (B ++ 47 :: (C ++ delim :: post))) delim pre.length
        { month := 0, day := 0, year := 0, time := 0 } =
      some
        (if ¬ digitsValue A ≤ 9999 then
          .format (invalidValue "Invalid Year: " (digitsValue A)
            (bytes "\r\nShould between 0000 and 9999\r\n"))
            { month := 0, day := 0, year := 0, time := 0 }
        else if ¬ digitsValue B ≤ 12 then
          .format (invalidValue "Invalid Month: " (digitsValue B)
            (bytes "\r\nShould between 01 and 12\r\n"))
            { month := 0, day := 0, year := (digitsValue A).toNat, time := 0 }
        else if ¬ digitsValue C ≤
            (GetDayOfMonth oob (digitsValue A).toNat (digitsValue B).toNat : Nat) then
          .format (invalidValue "Invalid Day: " (digitsValue C)
            (bytes "\r\nShould between 00 and " ++
              UART0NumberPut (GetDayOfMonth oob (digitsValue A).toNat (digitsValue B).toNat : Nat)
              ++ bytes "\r\n"))
            { month := (digitsValue B).toNat, day := 0, year := (digitsValue A).toNat, time := 0 }
        else
          .next (pre.length + A.length + B.length + C.length + 3)
            { month := (digitsValue B).toNat, day := (digitsValue C).toNat
              year := (digitsValue A).toNat, time := 0 }) := by
  have h0A := digitsValue_nonneg A hA
  have h0B := digitsValue_nonneg B hB
  have h0C := digitsValue_nonneg C hC
  have g1 := ParseIntegerUntil_group 47 (by omega) pre A (B ++ 47 :: (C ++ delim :: post)) fuel
    hA hvA (by omega) hfA
  have g2 := ParseIntegerUntil_group 47 (by omega) (pre ++ A ++ [47]) B (C ++ delim :: post)
    fuel hB hvB (by simp only [List.length_append, List.length_cons, List.length_nil]; omega)
    hfB
  have g3 := ParseIntegerUntil_group delim hdelim (pre ++ A ++ [47] ++ B ++ [47]) C post
    fuel hC hvC (by simp only [List.length_append, List.length_cons, List.length_nil]; omega)
    hfC
  have e2 : pre ++ A ++ [47] ++ B ++ 47 :: (C ++ delim :: post) =
      pre ++ A ++ 47 :: (B ++ 47 :: (C ++ delim :: post)) := by simp
  have e3 : pre ++ A ++ [47] ++ B ++ [47] ++ C ++ delim :: post =
      pre ++ A ++ 47 :: (B ++ 47 :: (C ++ delim :: post)) := by simp
  have l2 : (pre ++ A ++ [47]).length = pre.length + A.length + 1 := by
    simp only [List.length_append, List.length_cons, List.length_nil]
  have l3 : (pre ++ A ++ [47] ++ B ++ [47]).length =
      pre.length + A.length + 1 + B.length + 1 := by
    simp only [List.length_append, List.length_cons, List.length_nil]
  rw [e2, l2] at g2
  rw [e3, l3] at g3
  unfold parseDate
  rw [g1]
  simp only [ne_eq, not_true_eq_false, if_false]
  by_cases cA : digitsValue A ≤ 9999
  swap
  · have cA' : ¬ (digitsValue A ≥ 0 ∧ digitsValue A ≤ 9999) := fun h => cA h.2
    rw [if_pos cA', if_pos cA]
  have cA' : ¬ ¬ (digitsValue A ≥ 0 ∧ digitsValue A ≤ 9999) := not_not.mpr ⟨h0A, cA⟩
  rw [if_neg cA', if_neg (not_not.mpr cA)]
  have ey : toUInt16 (digitsValue A) = (digitsValue A).toNat :=
    toUInt16_of_small h0A (by omega)
  simp only [ey]
  rw [g2]
  simp only [ne_eq, not_true_eq_false, if_false]
  by_cases cB : digitsValue B ≤ 12
  swap
  · have cB' : ¬ (digitsValue B ≥ 0 ∧ digitsValue B ≤ 12) := fun h => cB h.2
    rw [if_pos cB', if_pos cB]
  have cB' : ¬ ¬ (digitsValue B ≥ 0 ∧ digitsValue B ≤ 12) := not_not.mpr ⟨h0B, cB⟩
  rw [if_neg cB', if_neg (not_not.mpr cB)]
  have em : toUInt8 (digitsValue B) = (digitsValue B).toNat :=
    toUInt8_of_small h0B (by omega)
  simp only [em]
  rw [g3]
  simp only [ne_eq, not_true_eq_false, if_false]
  by_cases cC : digitsValue C ≤
      (GetDayOfMonth oob (digitsValue A).toNat (digitsValue B).toNat : Nat)
  swap
  · have cC' : ¬ (digitsValue C ≥ 0 ∧ digitsValue C ≤
        (GetDayOfMonth oob (digitsValue A).toNat (digitsValue B).toNat : Nat)) := fun h => cC h.2
    rw [if_pos cC', if_pos cC]
  have cC' : ¬ ¬ (digitsValue C ≥ 0 ∧ digitsValue C ≤
      (GetDayOfMonth oob (digitsValue A).toNat (digitsValue B).toNat : Nat)) :=
    not_not.mpr ⟨h0C, cC⟩
  rw [if_neg cC', if_neg (not_not.mpr cC)]
  have hdom := GetDayOfMonth_le_255 oob (digitsValue A).toNat (digitsValue B).toNat
  have ed : toUInt8 (digitsValue C) = (digitsValue C).toNat :=
    toUInt8_of_small h0C (by omega)
  have ei : pre.length + A.length + 1 + B.length + 1 + C.length + 1 =
      pre.length + A.length + B.length + C.length + 3 := by omega
  rw [ed, ei]
/-- The bytes of the template `SET DATE $D`. -/
theorem bytes_SET_DATE_pattern :
    bytes "SET DATE $D" = [83, 69, 84, 32, 68, 65, 84, 69, 32, 36, 68] := by decide

/-- The bytes of the literal part of `SET DATE $D`. -/
theorem bytes_SET_DATE_lead :
    bytes "SET DATE " = [83, 69, 84, 32, 68, 65, 84, 69, 32] := by decide

/-- Nine iterations of the loop of `ParseCommand` align the literal part `SET DATE ` of the
template with the same nine characters of the input. -/
theorem ParseCommandLoop_SET_DATE_lead (oob : Int → Nat) (rest : List Nat) (n : Nat)
    (args : datetime_t) :
    ParseCommandLoop oob (bytes "SET DATE $D") (bytes "SET DATE " ++ rest) (n + 9) 0 0 0 0 0
        args =
      ParseCommandLoop oob (bytes "SET DATE $D") (bytes "SET DATE " ++ rest) n 9 9 1 1 0
        args := by
  rw [bytes_SET_DATE_pattern, bytes_SET_DATE_lead]
  simp [ParseCommandLoop, byteAt, ToUpperCase]

/-- What `ParseCommand("SET DATE $D", ...)` returns on a buffer that holds `SET DATE A/B/C`
with three digit groups, a NUL, and then the bytes `post`: the groups are checked in the
order year `<= 9999`, month `<= 12`, day `<= GetDayOfMonth`; when all pass, the result is
`ERROR_SUCCESS` if the second byte behind the terminator is NUL and `ERROR_PARTIAL` with the
index of that byte otherwise. -/
theorem ParseCommand_SET_DATE (oob : Int → Nat) (args : datetime_t) (A B C post : List Nat)
    (fuel : Nat) (hA : IsDigits A) (hB : IsDigits B) (hC : IsDigits C)
    (hvA : digitsValue A < 2147483648) (hvB : digitsValue B < 2147483648)
    (hvC : digitsValue C < 2147483648) (hlen : A.length + B.length + C.length + 13 < 256)
    (hfuel : A.length + B.length + C.length + 11 ≤ fuel) :
    ParseCommand oob fuel (bytes "SET DATE $D")
        (bytes "SET DATE " ++ A ++ 47 :: (B ++ 47 :: (C ++ 0 :: post))) args =
      some
        (if ¬ digitsValue A ≤ 9999 then
          { error := ERROR_FORMAT, args := { month := 0, day := 0, year := 0, time := 0 }
            uart := invalidValue "Invalid Year: " (digitsValue A)
              (bytes "\r\nShould between 0000 and 9999\r\n") }
        else if ¬ digitsValue B ≤ 12 then
          { error := ERROR_FORMAT
            args := { month := 0, day := 0, year := (digitsValue A).toNat, time := 0 }
            uart := invalidValue "Invalid Month: " (digitsValue B)
              (bytes "\r\nShould between 01 and 12\r\n") }
        else if ¬ digitsValue C ≤
            (GetDayOfMonth oob (digitsValue A).toNat (digitsValue B).toNat : Nat) then
          { error := ERROR_FORMAT
            args := { month := (digitsValue B).toNat, day := 0
                      year := (digitsValue A).toNat, time := 0 }
            uart := invalidValue "Invalid Day: " (digitsValue C)
              (bytes "\r\nShould between 00 and " ++
                UART0NumberPut
                  (GetDayOfMonth oob (digitsValue A).toNat (digitsValue B).toNat : Nat) ++
                bytes "\r\n") }
        else if byteAt post 1 ≠ 0 then
          { error := ERROR_PARTIAL ||| ((A.length + B.length + C.length + 13) &&& 0x00ff)
            args := { month := (digitsValue B).toNat, day := (digitsValue C).toNat
                      year := (digitsValue A).toNat, time := 0 }
            uart := [] }
        else
          { error := ERROR_SUCCESS
            args := { month := (digitsValue B).toNat, day := (digitsValue C).toNat
                      year := (digitsValue A).toNat, time := 0 }
            uart := [] }) := by
  obtain ⟨k, rfl⟩ : ∃ k, fuel = k + 1 + 1 + 9 := ⟨fuel - 11, by omega⟩
  have hpt := parseDate_groups oob 0 (by omega) (bytes "SET DATE ") A B C post (k + 1) hA hB
    hC hvA hvB hvC
    (by rw [bytes_SET_DATE_lead]; simp only [List.length_cons, List.length_nil]; omega)
    (by omega) (by omega) (by omega)
  have hhead := byteAt_group_head A (B ++ 47 :: (C ++ 0 :: post)) 47 hA (by omega)
  have hb9 : byteAt (bytes "SET DATE " ++ A ++ 47 :: (B ++ 47 :: (C ++ 0 :: post))) 9 =
      byteAt (A ++ 47 :: (B ++ 47 :: (C ++ 0 :: post))) 0 := by
    rw [List.append_assoc]
    exact byteAt_append_add (bytes "SET DATE ") _ 0
  have hbend : byteAt (bytes "SET DATE " ++ A ++ 47 :: (B ++ 47 :: (C ++ 0 :: post)))
      (A.length + B.length + C.length + 13) = byteAt post 1 := by
    have e : bytes "SET DATE " ++ A ++ 47 :: (B ++ 47 :: (C ++ 0 :: post)) =
        (bytes "SET DATE " ++ A ++ [47] ++ B ++ [47] ++ C ++ [0]) ++ post := by simp
    have l : A.length + B.length + C.length + 13 =
        (bytes "SET DATE " ++ A ++ [47] ++ B ++ [47] ++ C ++ [0]).length + 1 := by
      rw [bytes_SET_DATE_lead]
      simp only [List.length_append, List.length_cons, List.length_nil]
      omega
    rw [e, l]
    exact byteAt_append_add _ _ 1
  unfold ParseCommand
  rw [List.append_assoc, ParseCommandLoop_SET_DATE_lead, ← List.append_assoc]
  generalize bytes "SET DATE " ++ A ++ 47 :: (B ++ 47 :: (C ++ 0 :: post)) = cmd at *
  have hx0 : byteAt cmd 9 ≠ 0 := by rw [hb9]; omega
  have hxu : ToUpperCase (byteAt cmd 9) ≠ 32 := by
    rw [hb9]
    unfold ToUpperCase
    split_ifs <;> omega
  have hp9 : byteAt (bytes "SET DATE $D") 9 = 36 := by decide
  have hp10 : byteAt (bytes "SET DATE $D") 10 = 68 := by decide
  have hp11 : byteAt (bytes "SET DATE $D") 11 = 0 := by decide
  have hl9 : (bytes "SET DATE ").length = 9 := by decide
  rw [hl9] at hpt
  rw [ParseCommandLoop]
  simp only [hp9, hp10, hp11, hx0, hxu, ne_eq, not_false_eq_true, and_self, if_true,
    false_and, if_false, Nat.reduceAdd, Nat.reduceMod, hpt, OfNat.ofNat_ne_zero,
    show ToUpperCase 36 = 36 by decide, show ToUpperCase 68 = 68 by decide,
    show ¬ ((68 : Nat) = 84) by decide]
  by_cases cA : digitsValue A ≤ 9999
  swap
  · rw [if_pos cA, if_pos cA]
  rw [if_neg (not_not.mpr cA), if_neg (not_not.mpr cA)]
  by_cases cB : digitsValue B ≤ 12
  swap
  · rw [if_pos cB, if_pos cB]
  rw [if_neg (not_not.mpr cB), if_neg (not_not.mpr cB)]
  by_cases cC : digitsValue C ≤
      (GetDayOfMonth oob (digitsValue A).toNat (digitsValue B).toNat : Nat)
  swap
  · rw [if_pos cC, if_pos cC]
  rw [if_neg (not_not.mpr cC), if_neg (not_not.mpr cC)]
  have ei : (9 + A.length + B.length + C.length + 3 + 1) % 256 =
      A.length + B.length + C.length + 13 := by omega
  simp only [ei]
  rw [ParseCommandLoop]
  simp only [hp11, hbend, ne_eq, not_true_eq_false, and_false, if_false, or_false,
    OfNat.ofNat_ne_zero, not_false_eq_true, true_or, if_true]
  by_cases cP : byteAt post 1 = 0
  · simp [cP]
  · simp [cP]
/-- Claim C4, at month 0: on the line `SET DATE 2024/0/0` (clean buffer, any fuel from 18 on)
`ParseCommand("SET DATE $D", ...)` returns `ERROR_SUCCESS` with `args[0]` = year 2024,
month 0, day 0: the month check is `temp >= 0 && temp <= 12`, so the month group 0 is not
rejected. -/
theorem SET_DATE_month_zero_accepted :
    ∀ (oob : Int → Nat) (args : datetime_t) (n : Nat),
      ParseCommand oob (n + 18) (bytes "SET DATE $D") (bytes "SET DATE 2024/0/0") args =
        some { error := ERROR_SUCCESS, args := { month := 0, day := 0, year := 2024, time := 0 }
               uart := [] } := by
  intro oob args n
  have h : ParseCommand oob 18 (bytes "SET DATE $D") (bytes "SET DATE 2024/0/0") args =
      some { error := ERROR_SUCCESS, args := { month := 0, day := 0, year := 2024, time := 0 }
             uart := [] } := rfl
  exact ParseCommand_mono oob _ _ args 18 _ h (n + 18) (by omega)

/-- Claim C5, with a stale byte behind the terminator: the buffer holds the line
`SET TIME 1:00:00`, its two NUL bytes, and then the `8` that the longer line
`SET DATE 2024/06/18` left at index 18.  `ParseCommand("SET TIME $T", ...)` returns
`ERROR_PARTIAL | 18`, not `ERROR_SUCCESS`; on the same line in a clean buffer it returns
`ERROR_SUCCESS` with time 3600. -/
theorem SET_TIME_stale_byte_not_success :
    ∀ (oob : Int → Nat) (args : datetime_t) (n : Nat),
      cstring (bytes "SET TIME 1:00:00" ++ [0, 0, 56]) = bytes "SET TIME 1:00:00" ∧
      ParseCommand oob (n + 18) (bytes "SET TIME $T") (bytes "SET TIME 1:00:00" ++ [0, 0, 56])
          args =
        some { error := ERROR_PARTIAL ||| 18
               args := { month := 0, day := 0, year := 0, time := 3600 }, uart := [] } ∧
      ParseCommand oob (n + 18) (bytes "SET TIME $T") (bytes "SET TIME 1:00:00") args =
        some { error := ERROR_SUCCESS
               args := { month := 0, day := 0, year := 0, time := 3600 }, uart := [] } := by
  intro oob args n
  have h1 : ParseCommand oob 18 (bytes "SET TIME $T")
      (bytes "SET TIME 1:00:00" ++ [0, 0, 56]) args =
      some { error := ERROR_PARTIAL ||| 18
             args := { month := 0, day := 0, year := 0, time := 3600 }, uart := [] } := rfl
  have h2 : ParseCommand oob 18 (bytes "SET TIME $T") (bytes "SET TIME 1:00:00") args =
      some { error := ERROR_SUCCESS
             args := { month := 0, day := 0, year := 0, time := 3600 }, uart := [] } := rfl
  exact ⟨by decide, ParseCommand_mono oob _ _ args 18 _ h1 (n + 18) (by omega),
    ParseCommand_mono oob _ _ args 18 _ h2 (n + 18) (by omega)⟩
/-! ### Date editing, cells 0 to 6 -/

/-- The day-range update turns a buffer with cells in range, a valid month and a day of at
least 1 into a valid date buffer. -/
theorem updateDayRange_valid (oob : Int → Nat) (b : EditBuffer) (hb : DateCellsInRange b) :
    ValidDateBuffer oob (updateDayRange oob b) := by
  obtain ⟨c0, c1, c2, c3, c4, c5, c6, c7⟩ := b
  simp only [DateCellsInRange] at hb
  have hD := GetDayOfMonth_le_31 oob (toUInt16 (c0 * 1000 + c1 * 100 + c2 * 10 + c3))
    (toUInt8 (c4 * 10 + c5)) (toUInt8_month_bounds hb.2.2.2.2.2.2.2.2.1 hb.2.2.2.2.2.2.2.2.2.1).1
    (toUInt8_month_bounds hb.2.2.2.2.2.2.2.2.1 hb.2.2.2.2.2.2.2.2.2.1).2
  have hday : toUInt8 (c6 * 10 + c7) = (c6 * 10 + c7).toNat :=
    toUInt8_of_small (by omega) (by omega)
  simp only [updateDayRange, EditBuffer.year, EditBuffer.month, EditBuffer.day, EditBuffer.get,
    EditBuffer.set, hday]
  split_ifs with h
  · rw [ValidDateBuffer_iff]
    obtain ⟨D, hDdef⟩ : ∃ D, GetDayOfMonth oob (toUInt16 (c0 * 1000 + c1 * 100 + c2 * 10 + c3))
      (toUInt8 (c4 * 10 + c5)) = D := ⟨_, rfl⟩
    rw [hDdef] at hD h ⊢
    simp (disch := omega) only [toInt8_of_small]
    omega
  · rw [ValidDateBuffer_iff]
    omega

set_option maxHeartbeats 2000000 in
/-- One Inc or Dec on a cell `0..6` of a valid date buffer, followed by the validation block,
leaves all cells in `0..9`, a month in `1..12` and a day of at least 1. -/
theorem validateDate_step_cells (oob : Int → Nat) (focus : Nat) (b : EditBuffer) (δ : Int)
    (hf : focus < 7) (hδ : δ = 1 ∨ δ = -1) (hv : ValidDateBuffer oob b) :
    DateCellsInRange (validateDate oob focus (b.set focus (b.get focus + δ))) := by
  obtain ⟨c0, c1, c2, c3, c4, c5, c6, c7⟩ := b
  rw [ValidDateBuffer_iff] at hv
  have hD := GetDayOfMonth_le_31 oob (toUInt16 (c0 * 1000 + c1 * 100 + c2 * 10 + c3))
    (toUInt8 (c4 * 10 + c5)) (toUInt8_month_bounds hv.2.2.2.2.2.2.2.2.1 hv.2.2.2.2.2.2.2.2.2.1).1
    (toUInt8_month_bounds hv.2.2.2.2.2.2.2.2.1 hv.2.2.2.2.2.2.2.2.2.1).2
  obtain ⟨D, hDdef⟩ : ∃ D, GetDayOfMonth oob (toUInt16 (c0 * 1000 + c1 * 100 + c2 * 10 + c3))
    (toUInt8 (c4 * 10 + c5)) = D := ⟨_, rfl⟩
  rw [hDdef] at hv hD
  have hD' : D = 28 ∨ D = 29 ∨ D = 30 ∨ D = 31 := by omega
  interval_cases focus
  case «6» =>
    simp only [validateDate, EditBuffer.year, EditBuffer.month, EditBuffer.get, EditBuffer.set,
      hDdef, Nat.reduceEqDiff, if_true, if_false, Nat.reduceAdd, Nat.reduceSub]
    clear hDdef
    rcases hδ with rfl | rfl <;> rcases hD' with rfl | rfl | rfl | rfl <;>
    simp (disch := omega) only [cmod_of_nonneg, toInt8_of_small, Nat.reduceAdd, Nat.reduceSub,
      Nat.reduceDiv, Nat.reduceMod, Nat.cast_ofNat, Nat.cast_zero, Nat.cast_one,
      Int.emod_one] <;>
    (try split_ifs) <;> simp only [DateCellsInRange] <;> omega
  all_goals
    clear hDdef
    rcases hδ with rfl | rfl <;>
    simp (disch := omega) only [validateDate, EditBuffer.get, EditBuffer.set, cmod_of_nonneg,
      toInt8_of_small, Nat.reduceEqDiff, if_true, if_false, or_false, or_true, true_or,
      false_or, Nat.reduceAdd, Nat.reduceSub] <;>
    (try split_ifs) <;> simp only [DateCellsInRange] <;> omega

/-- For the focus indices `0..6`, one pending Inc (UP) or Dec (DOWN) processed by
`ProcSetDate` on a valid date buffer leaves a valid date buffer. -/
theorem ProcSetDate_inc_dec_valid_of_focus_lt_7 (oob : Int → Nat) (s : State)
    (hf : s.focus_digit < 7) (hv : ValidDateBuffer oob s.setting_digit)
    (hl : pending s.keystate BUTTON_LEFT = false) (hr : pending s.keystate BUTTON_RIGHT = false)
    (hud : pending s.keystate BUTTON_UP ≠ pending s.keystate BUTTON_DOWN) :
    ValidDateBuffer oob (ProcSetDate oob s).setting_digit := by
  rw [ProcSetDate_setting_digit]
  apply updateDayRange_valid
  cases hu : pending s.keystate BUTTON_UP <;> cases hd : pending s.keystate BUTTON_DOWN <;>
    simp only [hu, hd, ne_eq, not_true_eq_false] at hud
  · obtain ⟨h1, h2⟩ := editKeys_dec 8 s hl hr hu hd
    rw [h1, h2, sub_eq_add_neg]
    exact validateDate_step_cells oob _ _ (-1) hf (Or.inr rfl) hv
  · obtain ⟨h1, h2⟩ := editKeys_inc 8 s hl hr hu hd
    rw [h1, h2]
    exact validateDate_step_cells oob _ _ 1 hf (Or.inl rfl) hv

/-! ### Key detection -/

/-- The mask `0x02` tests bit 1. -/
theorem and_two_eq_zero_iff (y : Nat) : y &&& 2 = 0 ↔ y.testBit 1 = false := by
  constructor
  · intro h
    have h1 : (y &&& 2).testBit 1 = false := by rw [h]; simp
    rw [Nat.testBit_and] at h1
    have h2 : Nat.testBit 2 1 = true := by decide
    rw [h2, Bool.and_true] at h1
    exact h1
  · intro h
    apply Nat.eq_of_testBit_eq
    intro i
    rw [Nat.testBit_and, Nat.zero_testBit]
    by_cases hi : i = 1
    · subst hi; rw [h]; rfl
    · have h2 : Nat.testBit 2 i = false := by
        have := @Nat.testBit_two_pow_of_ne 1 i (fun e => hi e.symm)
        simpa using this
      rw [h2, Bool.and_false]

/-- After the shift of `DetectKey`, bit 1 of the history is the former lowest bit: the test
`(state & 0x02) == 0` asks whether the previous sample was released. -/
theorem history_shift_previous (x b : Nat) (hb : b ≤ 1) :
    ((x <<< 1 ||| b) % 256) &&& 2 = 0 ↔ x % 2 = 0 := by
  rw [and_two_eq_zero_iff]
  have h256 : (256 : Nat) = 2 ^ 8 := by norm_num
  rw [h256, Nat.testBit_mod_two_pow, Nat.testBit_or, Nat.testBit_shiftLeft]
  have hb1 : b.testBit 1 = false := by
    interval_cases b <;> decide
  rw [hb1]
  simp

/-- After the shift of `DetectKey`, the lowest bit of the history is the bit shifted in. -/
theorem history_shift_current (x b : Nat) (hb : b ≤ 1) :
    ((x <<< 1 ||| b) % 256) % 2 = b := by
  have h : (x <<< 1 ||| b).testBit 0 = b.testBit 0 := by
    rw [Nat.testBit_or, Nat.testBit_shiftLeft]
    simp
  rw [Nat.testBit_zero, Nat.testBit_zero] at h
  have h2 : (x <<< 1 ||| b) % 256 % 2 = (x <<< 1 ||| b) % 2 :=
    Nat.mod_mod_of_dvd _ (by norm_num)
  rw [h2]
  have h3 : ((x <<< 1 ||| b) % 2 = 1) ↔ (b % 2 = 1) := by
    simp only [decide_eq_decide] at h
    exact h
  omega

/-- The loop of `DetectKey` treats every button on its own: button `k` gets the loop body with
its own bit and its own former state. -/
theorem DetectKey_apply (port : Nat) (ks : Fin 8 → keystate_t) (k : Fin 8) :
    DetectKey port ks k = detectButton (is_press port k) (ks k) := by
  have h : List.finRange 8 = [0, 1, 2, 3, 4, 5, 6, 7] := by decide
  unfold DetectKey
  rw [h]
  fin_cases k <;> simp [List.foldl]

/-- A sample never changes the mode of a button. -/
theorem detectButton_config (p : Nat) (k : keystate_t) : (detectButton p k).config = k.config := by
  unfold detectButton
  simp only
  split_ifs <;> rfl

/-- A released sample only shifts the history. -/
theorem detectButton_released (k : keystate_t) :
    detectButton 0 k = { k with state := (k.state <<< 1) % 256 } := by
  simp [detectButton]

/-- After a sample the lowest history bit is the sampled bit. -/
theorem detectButton_state_mod_two (p : Nat) (k : keystate_t) :
    (detectButton p k).state % 2 = if p ≠ 0 then 1 else 0 := by
  have h : (detectButton p k).state = ((k.state <<< 1) ||| (if p ≠ 0 then 0x01 else 0x00)) % 256 := by
    unfold detectButton
    simp only
    split_ifs <;> rfl
  rw [h, history_shift_current]
  split_ifs <;> omega

/-- Hold-repeat, rising edge: the flag is set and the countdown armed with `2 * KEY_DELAY`. -/
theorem detectButton_hold_first (p : Nat) (k : keystate_t) (hp : p ≠ 0)
    (hc : k.config &&& KEY_CONFIG_PRESS ≠ 0) (hprev : k.state % 2 = 0) :
    (detectButton p k).flag = 1 ∧ (detectButton p k).timer = 20 := by
  have hs : ((k.state <<< 1 ||| 1) % 256) &&& 2 = 0 := (history_shift_previous _ 1 (by omega)).2 hprev
  unfold detectButton
  simp only [hp, ne_eq, not_false_eq_true, if_true, hc, hs, KEY_DELAY]
  decide

/-- Hold-repeat, held: the countdown is decremented; at zero the flag is set and the countdown
re-armed with `KEY_DELAY`. -/
theorem detectButton_hold_next (p : Nat) (k : keystate_t) (hp : p ≠ 0)
    (hc : k.config &&& KEY_CONFIG_PRESS ≠ 0) (hprev : k.state % 2 = 1) :
    (detectButton p k).flag = (if (k.timer + 255) % 256 = 0 then 1 else k.flag) ∧
      (detectButton p k).timer = (if (k.timer + 255) % 256 = 0 then 10 else (k.timer + 255) % 256) := by
  have hs : ¬ ((k.state <<< 1 ||| 1) % 256) &&& 2 = 0 := by
    rw [history_shift_previous _ 1 (by omega)]; omega
  unfold detectButton
  simp only [hp, ne_eq, not_false_eq_true, if_true, hc, hs, KEY_DELAY, if_false]
  split_ifs <;> simp

/-- Momentary: the history is shifted, and the flag set on a rising edge only. -/
theorem detectButton_momentary (p : Nat) (k : keystate_t)
    (hc : k.config &&& KEY_CONFIG_PRESS = 0) :
    detectButton p k =
      { k with state := ((k.state <<< 1) ||| (if p ≠ 0 then 1 else 0)) % 256
               flag := if p ≠ 0 ∧ k.state % 2 = 0 then 1 else k.flag } := by
  by_cases hp : p = 0
  · subst hp; simp [detectButton]
  · by_cases hprev : k.state % 2 = 0
    · have hs : ((k.state <<< 1 ||| 1) % 256) &&& 2 = 0 :=
        (history_shift_previous _ 1 (by omega)).2 hprev
      unfold detectButton
      simp [hp, hc, hs, hprev]
    · have hs : ¬ ((k.state <<< 1 ||| 1) % 256) &&& 2 = 0 := by
        rw [history_shift_previous _ 1 (by omega)]; omega
      unfold detectButton
      simp [hp, hc, hs, hprev]

/-- One tick of the run for the observed button: the loop body, then the consumer's clear. -/
theorem sampledAndConsumed_succ_apply (ports : Nat → Nat) (i : Fin 8) (ks : Fin 8 → keystate_t)
    (t : Nat) :
    sampledAndConsumed ports i ks (t + 1) i =
      { detectButton (is_press (ports t) i) (sampledAndConsumed ports i ks t i) with flag := 0 } := by
  simp [sampledAndConsumed, clearFlag, DetectKey_apply]

/-- The mode of the observed button is the same all along the run. -/
theorem sampledAndConsumed_config (ports : Nat → Nat) (i : Fin 8) (ks : Fin 8 → keystate_t)
    (t : Nat) : (sampledAndConsumed ports i ks t i).config = (ks i).config := by
  induction t with
  | zero => rfl
  | succ t ih => rw [sampledAndConsumed_succ_apply]; simp only; rw [detectButton_config, ih]

/-- The ticks `20, 30, 40, ...` in closed form. -/
theorem repeat_tick_iff (t : Nat) : (∃ k, t = 20 + 10 * k) ↔ 20 ≤ t ∧ (t - 20) % 10 = 0 := by
  constructor
  · rintro ⟨k, rfl⟩; omega
  · rintro ⟨h1, h2⟩; exact ⟨(t - 20) / 10, by omega⟩

/-- The run of a held Hold-repeat button, with the history bit and the countdown after every
tick. -/
theorem hold_run (ports : Nat → Nat) (i : Fin 8) (ks : Fin 8 → keystate_t) (t0 n : Nat)
    (hc : (ks i).config &&& KEY_CONFIG_PRESS ≠ 0)
    (hprev : (sampledAndConsumed ports i ks t0 i).state % 2 = 0)
    (hheld : ∀ t ≤ n, is_press (ports (t0 + t)) i ≠ 0) :
    ∀ t ≤ n,
      (pending (DetectKey (ports (t0 + t)) (sampledAndConsumed ports i ks (t0 + t))) i = true ↔
        (t = 0 ∨ ∃ k, t = 20 + 10 * k)) ∧
      (sampledAndConsumed ports i ks (t0 + t + 1) i).state % 2 = 1 ∧
      (sampledAndConsumed ports i ks (t0 + t + 1) i).timer =
        (if t < 20 then 20 - t else 10 - (t - 20) % 10) := by
  intro t
  induction t with
  | zero =>
    intro _
    have hp := hheld 0 (Nat.zero_le _)
    rw [Nat.add_zero] at hp
    have hc0 : (sampledAndConsumed ports i ks t0 i).config &&& KEY_CONFIG_PRESS ≠ 0 := by
      rw [sampledAndConsumed_config]; exact hc
    obtain ⟨hf, ht⟩ := detectButton_hold_first _ _ hp hc0 hprev
    refine ⟨?_, ?_, ?_⟩
    · simp [pending, DetectKey_apply, hf]
    · rw [sampledAndConsumed_succ_apply]
      simp only
      rw [detectButton_state_mod_two]; simp [hp]
    · rw [sampledAndConsumed_succ_apply]
      simp only
      rw [ht]; rfl
  | succ t ih =>
    intro hle
    obtain ⟨_, hs, htm⟩ := ih (by omega)
    have hp := hheld (t + 1) hle
    have e : t0 + (t + 1) = t0 + t + 1 := by omega
    rw [e] at hp ⊢
    have hc0 : (sampledAndConsumed ports i ks (t0 + t + 1) i).config &&& KEY_CONFIG_PRESS ≠ 0 := by
      rw [sampledAndConsumed_config]; exact hc
    obtain ⟨hf, ht⟩ := detectButton_hold_next _ _ hp hc0 hs
    have hfl : (sampledAndConsumed ports i ks (t0 + t + 1) i).flag = 0 := by
      rw [sampledAndConsumed_succ_apply]
    rw [htm] at hf ht
    rw [hfl] at hf
    refine ⟨?_, ?_, ?_⟩
    · rw [repeat_tick_iff]
      simp only [pending, DetectKey_apply, hf]
      split_ifs at hf ⊢ <;> simp <;> omega
    · rw [sampledAndConsumed_succ_apply]
      simp only
      rw [detectButton_state_mod_two]; simp [hp]
    · rw [sampledAndConsumed_succ_apply]
      simp only
      rw [ht]
      split_ifs <;> omega

/-- Claim C13.  A Hold-repeat button (`KEY_CONFIG_PRESS` set) whose sample before tick `t0` was
released (lowest history bit clear) and which `DetectKey` samples pressed on the ticks
`t0, ..., t0 + n`, the consumer clearing its pending flag after every tick, is pending after
the sample of tick `t0 + t` exactly when `t = 0` or `t = 2 * KEY_DELAY + KEY_DELAY * k`; and a
released sample at any tick leaves the lowest history bit clear, which is the premise that
restarts the schedule at the next pressed sample. -/
theorem hold_repeat_schedule (ports : Nat → Nat) (i : Fin 8) (ks : Fin 8 → keystate_t)
    (t0 n : Nat) (hc : (ks i).config &&& KEY_CONFIG_PRESS ≠ 0)
    (hprev : (sampledAndConsumed ports i ks t0 i).state % 2 = 0)
    (hheld : ∀ t ≤ n, is_press (ports (t0 + t)) i ≠ 0) :
    (∀ t ≤ n,
      (pending (DetectKey (ports (t0 + t)) (sampledAndConsumed ports i ks (t0 + t))) i = true ↔
        (t = 0 ∨ ∃ k, t = 2 * KEY_DELAY + KEY_DELAY * k))) ∧
    (∀ t, is_press (ports t) i = 0 →
      (sampledAndConsumed ports i ks (t + 1) i).state % 2 = 0 ∧
      (sampledAndConsumed ports i ks (t + 1) i).config &&& KEY_CONFIG_PRESS ≠ 0) := by
  refine ⟨fun t ht => (hold_run ports i ks t0 n hc hprev hheld t ht).1, fun t ht => ⟨?_, ?_⟩⟩
  · rw [sampledAndConsumed_succ_apply]
    simp only
    rw [detectButton_state_mod_two]; simp [ht]
  · rw [sampledAndConsumed_config]; exact hc

/-- Claim C13 on the UP button held for 46 samples from the released state: pending after
sample 20, not after sample 21. -/
theorem hold_repeat_schedule_witness :
    pending (DetectKey 0 (sampledAndConsumed (fun _ => 0) BUTTON_UP
        (fun _ => { config := 1, state := 0, timer := 0, flag := 0 }) (0 + 20))) BUTTON_UP = true ∧
    ¬ pending (DetectKey 0 (sampledAndConsumed (fun _ => 0) BUTTON_UP
        (fun _ => { config := 1, state := 0, timer := 0, flag := 0 }) (0 + 21))) BUTTON_UP = true :=
  ⟨((hold_repeat_schedule (fun _ => 0) BUTTON_UP
      (fun _ => { config := 1, state := 0, timer := 0, flag := 0 }) 0 45 (by decide) (by decide)
      (fun _ _ => by show is_press 0 BUTTON_UP ≠ 0; decide)).1 20 (by decide)).2
      (Or.inr ⟨0, by decide⟩),
    fun h => by
      have h1 := ((hold_repeat_schedule (fun _ => 0) BUTTON_UP
        (fun _ => { config := 1, state := 0, timer := 0, flag := 0 }) 0 45 (by decide) (by decide)
        (fun _ _ => by show is_press 0 BUTTON_UP ≠ 0; decide)).1 21 (by decide)).1 h
      simp only [KEY_DELAY] at h1
      omega⟩

/-- Claim C14.  For a Momentary button (`KEY_CONFIG_PRESS` clear) one `DetectKey` sample sets
the pending flag exactly when the sampled bit is set and the previous sampled bit (the lowest
history bit) is clear, and leaves the flag as it was otherwise; so when the sample before tick
`t0` was released and the button is sampled pressed on the ticks `t0, ..., t0 + n`, the
consumer clearing the flag after every tick, it is pending after the sample of tick `t0` and
after no later one. -/
theorem momentary_rising_edge_only (ports : Nat → Nat) (i : Fin 8) (ks : Fin 8 → keystate_t)
    (t0 n : Nat) (hc : (ks i).config &&& KEY_CONFIG_PRESS = 0)
    (hprev : (sampledAndConsumed ports i ks t0 i).state % 2 = 0)
    (hheld : ∀ t ≤ n, is_press (ports (t0 + t)) i ≠ 0) :
    (∀ port, (DetectKey port ks i).flag =
      if is_press port i ≠ 0 ∧ (ks i).state % 2 = 0 then 1 else (ks i).flag) ∧
    (∀ t ≤ n,
      (pending (DetectKey (ports (t0 + t)) (sampledAndConsumed ports i ks (t0 + t))) i = true ↔
        t = 0)) := by
  refine ⟨fun port => ?_, ?_⟩
  · rw [DetectKey_apply, detectButton_momentary _ _ hc]
  · have hcfg : ∀ t, (sampledAndConsumed ports i ks t i).config &&& KEY_CONFIG_PRESS = 0 := by
      intro t; rw [sampledAndConsumed_config]; exact hc
    have hst : ∀ t ≤ n, (sampledAndConsumed ports i ks (t0 + t + 1) i).state % 2 = 1 := by
      intro t ht
      rw [sampledAndConsumed_succ_apply]
      simp only
      rw [detectButton_state_mod_two]; simp [hheld t ht]
    intro t ht
    cases t with
    | zero =>
      simp only [pending, DetectKey_apply, detectButton_momentary _ _ (hcfg _), Nat.add_zero]
      have := hheld 0 (Nat.zero_le _)
      rw [Nat.add_zero] at this
      simp [this, hprev]
    | succ t =>
      have e : t0 + (t + 1) = t0 + t + 1 := by omega
      have hp := hheld (t + 1) ht
      rw [e] at hp ⊢
      have hs := hst t (by omega)
      have hfl : (sampledAndConsumed ports i ks (t0 + t + 1) i).flag = 0 := by
        rw [sampledAndConsumed_succ_apply]
      simp only [pending, DetectKey_apply, detectButton_momentary _ _ (hcfg _)]
      simp [hs, hfl]

/-- Claim C14 on BUTTON_1 held for 46 samples from the released state: pending after the
first sample, not after the second. -/
theorem momentary_rising_edge_only_witness :
    pending (DetectKey 0 (sampledAndConsumed (fun _ => 0) BUTTON_1
        (fun _ => { config := 0, state := 0, timer := 0, flag := 0 }) (0 + 0))) BUTTON_1 = true ∧
    ¬ pending (DetectKey 0 (sampledAndConsumed (fun _ => 0) BUTTON_1
        (fun _ => { config := 0, state := 0, timer := 0, flag := 0 }) (0 + 1))) BUTTON_1 = true :=
  ⟨((momentary_rising_edge_only (fun _ => 0) BUTTON_1
      (fun _ => { config := 0, state := 0, timer := 0, flag := 0 }) 0 45 (by decide) (by decide)
      (fun _ _ => by show is_press 0 BUTTON_1 ≠ 0; decide)).2 0 (by decide)).2 rfl,
    fun h => absurd (((momentary_rising_edge_only (fun _ => 0) BUTTON_1
      (fun _ => { config := 0, state := 0, timer := 0, flag := 0 }) 0 45 (by decide) (by decide)
      (fun _ _ => by show is_press 0 BUTTON_1 ≠ 0; decide)).2 1 (by decide)).1 h) (by decide)⟩

/-- Claim C15.  When the sampled bit of a button is clear, one `DetectKey` sample changes of
that button only the history, which becomes the old history shifted left by one place and
truncated to 8 bits, its lowest bit clear; the pending flag, the countdown and the mode are
as before.  And what a sample leaves for a button depends only on that button's former state
and on its own bit of the port byte. -/
theorem released_sample_changes_history_only (port : Nat) (ks : Fin 8 → keystate_t) (k : Fin 8)
    (hrel : is_press port k = 0) :
    DetectKey port ks k = { ks k with state := ((ks k).state <<< 1) % 256 } ∧
    (DetectKey port ks k).state % 2 = 0 ∧
    (∀ (port' : Nat) (ks' : Fin 8 → keystate_t) (j : Fin 8),
      is_press port' j = is_press port j → ks' j = ks j →
        DetectKey port' ks' j = DetectKey port ks j) := by
  refine ⟨?_, ?_, ?_⟩
  · rw [DetectKey_apply, hrel, detectButton_released]
  · rw [DetectKey_apply, detectButton_state_mod_two, hrel]; rfl
  · intro port' ks' j hp hk
    rw [DetectKey_apply, DetectKey_apply, hp, hk]

/-- Claim C15 on a released BACK button with a latched pending flag: the flag stays set. -/
theorem released_sample_changes_history_only_witness :
    DetectKey 255 (fun _ => { config := 0, state := 0xc1, timer := 7, flag := 1 }) BUTTON_BACK =
      { config := 0, state := 0x82, timer := 7, flag := 1 } :=
  (released_sample_changes_history_only 255
    (fun _ => { config := 0, state := 0xc1, timer := 7, flag := 1 }) BUTTON_BACK (by decide)).1

/-! ### Where the command matcher stops -/

/-- The error code of `ParseCommand` is the one of the statement at which it returns; it does
not depend on what `args[0]` held before the call. -/
theorem ParseCommandLoop_error (oob : Int → Nat) (pattern command : List Nat) (fuel : Nat) :
    ∀ (i j skip_space has_space current_arg aligned : Nat) (args : datetime_t),
      (ParseCommandLoop oob pattern command fuel i j skip_space has_space current_arg args).map
          (fun r => r.error) =
        (ParseCommandExitLoop oob pattern command fuel i j skip_space has_space aligned).map
          (exitError pattern) := by
  induction fuel with
  | zero => intros; rfl
  | succ fuel ih =>
    intro i j skip_space has_space current_arg aligned args
    unfold ParseCommandLoop ParseCommandExitLoop
    simp only
    by_cases h1 : byteAt command i ≠ 0 ∧ byteAt pattern j ≠ 0
    · rw [if_pos h1, if_pos h1]
      by_cases h2 : ToUpperCase (byteAt command i) = 32 ∧ skip_space ≠ 0
      · rw [if_pos h2, if_pos h2]; exact ih _ _ _ _ _ _ _
      · rw [if_neg h2, if_neg h2]
        by_cases h3 : ToUpperCase (byteAt pattern j) = 36
        · rw [if_pos h3, if_pos h3]
          split
          · simp_all
          · rfl
          · exact ih _ _ _ _ _ _ _
        · rw [if_neg h3, if_neg h3]
          by_cases h4 : ToUpperCase (byteAt pattern j) ≠ ToUpperCase (byteAt command i)
          · rw [if_pos h4, if_pos h4]; rfl
          · rw [if_neg h4, if_neg h4]; exact ih _ _ _ _ _ _ _
    · rw [if_neg h1, if_neg h1]
      by_cases h5 : byteAt command i ≠ 0 ∨ byteAt pattern j ≠ 0
      · rw [if_pos h5, if_pos h5]; rfl
      · rw [if_neg h5, if_neg h5]; rfl

/-- The error code of `ParseCommand` is the one of the statement at which it returns, whatever
`args[0]` held before the call. -/
theorem ParseCommand_error (oob : Int → Nat) (fuel : Nat) (pattern command : List Nat)
    (args : datetime_t) :
    (ParseCommand oob fuel pattern command args).map (fun r => r.error) =
      (ParseCommandExit oob fuel pattern command).map (exitError pattern) :=
  ParseCommandLoop_error oob pattern command fuel 0 0 0 0 0 0 args

/-- A code with the bit `ERROR_PARTIAL` or `ERROR_NOT_MATCH` is not `ERROR_SUCCESS`. -/
theorem mismatch_code_ne_zero (c : Prop) [Decidable c] (x : Nat) :
    (if c then ERROR_PARTIAL else ERROR_NOT_MATCH) ||| x ≠ 0 := by
  intro h
  have h10 := congrArg (fun n => n.testBit 10) h
  have h11 := congrArg (fun n => n.testBit 11) h
  simp only [Nat.testBit_or, Nat.zero_testBit, Bool.or_eq_false_iff] at h10 h11
  by_cases hc : c
  · rw [if_pos hc] at h11
    exact absurd h11.1 (by decide)
  · rw [if_neg hc] at h10
    exact absurd h10.1 (by decide)

/-- `ParseCommand` returns `ERROR_SUCCESS` at its last statement only. -/
theorem exitError_eq_zero_iff (pattern : List Nat) (e : ParseExit) :
    exitError pattern e = ERROR_SUCCESS ↔ e.site = .success := by
  unfold exitError
  cases h : e.site
  · simp only [reduceCtorEq, iff_false]; exact mismatch_code_ne_zero _ _
  · simp only [reduceCtorEq, iff_false]; exact mismatch_code_ne_zero _ _
  · simp
  · simp [ERROR_SUCCESS, ERROR_FORMAT]

/-- When the template starts with a literal character, `ParseCommand` succeeds only on a line
whose first character is that one, up to case. -/
theorem ParseCommandExit_success_first (oob : Int → Nat) (fuel : Nat) (pattern command : List Nat)
    (e : ParseExit) (h : ParseCommandExit oob fuel pattern command = some e)
    (hs : e.site = .success) (hp : byteAt pattern 0 ≠ 0)
    (h36 : ToUpperCase (byteAt pattern 0) ≠ 36) :
    byteAt command 0 ≠ 0 ∧ ToUpperCase (byteAt command 0) = ToUpperCase (byteAt pattern 0) := by
  cases fuel with
  | zero => simp [ParseCommandExit, ParseCommandExitLoop] at h
  | succ fuel =>
    unfold ParseCommandExit ParseCommandExitLoop at h
    simp only [hp, ne_eq, not_false_eq_true, and_true, not_true_eq_false, and_false, if_false,
      h36, or_true, if_true] at h
    by_cases hc : byteAt command 0 = 0
    · rw [if_neg (by simpa using hc)] at h
      simp only [Option.some.injEq] at h
      rw [← h] at hs
      simp at hs
    · rw [if_pos hc] at h
      refine ⟨hc, ?_⟩
      by_contra hne
      rw [if_pos (fun e => hne e.symm)] at h
      simp only [Option.some.injEq] at h
      rw [← h] at hs
      simp at hs

/-- When the template starts with a literal character and the line with a different one,
`ParseCommand` returns at the first comparison. -/
theorem ParseCommandExit_first_mismatch (oob : Int → Nat) (fuel : Nat)
    (pattern command : List Nat) (hc : byteAt command 0 ≠ 0) (hp : byteAt pattern 0 ≠ 0)
    (h36 : ToUpperCase (byteAt pattern 0) ≠ 36)
    (hne : ToUpperCase (byteAt pattern 0) ≠ ToUpperCase (byteAt command 0)) :
    ParseCommandExit oob (fuel + 1) pattern command =
      some { site := .literal, i := 0, j := 0
             has_space := if ToUpperCase (byteAt command 0) = 32 then 1 else 0, aligned := 0 } := by
  unfold ParseCommandExit ParseCommandExitLoop
  simp only [hp, hc, ne_eq, not_false_eq_true, and_true, not_true_eq_false, and_false, if_false,
    h36, if_true, hne]

/-! ### Command dispatcher -/

/-- When `ParseCommand` returns for one content of `args[0]`, it returns for every content, with
the error code of the statement at which it returns. -/
theorem ParseCommand_of_exit (oob : Int → Nat) (fuel : Nat) (pattern command : List Nat)
    (e : ParseExit) (h : ParseCommandExit oob fuel pattern command = some e) (args : datetime_t) :
    ∃ r, ParseCommand oob fuel pattern command args = some r ∧ r.error = exitError pattern e := by
  have h1 := ParseCommand_error oob fuel pattern command args
  rw [h, Option.map_some'] at h1
  obtain ⟨r, hr, hre⟩ := Option.map_eq_some'.1 h1
  exact ⟨r, hr, hre⟩

/-- A line on which `ParseCommand` succeeds is one on which it returns at its last statement. -/
theorem ParseCommandExit_of_success (oob : Int → Nat) (fuel : Nat) (pattern command : List Nat)
    (args : datetime_t)
    (h : ∃ r, ParseCommand oob fuel pattern command args = some r ∧ r.error = ERROR_SUCCESS) :
    ∃ e, ParseCommandExit oob fuel pattern command = some e ∧ e.site = .success := by
  obtain ⟨r, hr, hre⟩ := h
  have h1 := ParseCommand_error oob fuel pattern command args
  rw [hr, Option.map_some'] at h1
  obtain ⟨e, he, hee⟩ := Option.map_eq_some'.1 h1.symm
  refine ⟨e, he, (exitError_eq_zero_iff pattern e).1 ?_⟩
  rw [hee]; exact hre

/-- A line that matches one template fails, at its first character, every template that starts
with another letter. -/
theorem ParseCommand_other_template (oob : Int → Nat) (fuel : Nat) (p q command : List Nat)
    (args args' : datetime_t)
    (h : ∃ r, ParseCommand oob fuel p command args = some r ∧ r.error = ERROR_SUCCESS)
    (hp : byteAt p 0 ≠ 0) (hp36 : ToUpperCase (byteAt p 0) ≠ 36)
    (hq : byteAt q 0 ≠ 0) (hq36 : ToUpperCase (byteAt q 0) ≠ 36)
    (hne : ToUpperCase (byteAt q 0) ≠ ToUpperCase (byteAt p 0)) :
    ∃ r, ParseCommand oob fuel q command args' = some r ∧ r.error ≠ ERROR_SUCCESS := by
  obtain ⟨e, he, hes⟩ := ParseCommandExit_of_success oob fuel p command args h
  obtain ⟨hc, hcp⟩ := ParseCommandExit_success_first oob fuel p command e he hes hp hp36
  cases fuel with
  | zero => simp [ParseCommandExit, ParseCommandExitLoop] at he
  | succ fuel =>
    have hx := ParseCommandExit_first_mismatch oob fuel q command hc hq hq36 (by rw [hcp]; exact hne)
    obtain ⟨r, hr, hre⟩ := ParseCommand_of_exit oob _ q command _ hx args'
    refine ⟨r, hr, ?_⟩
    rw [hre]
    exact mismatch_code_ne_zero _ _

/-- A line that matches a template matches it whatever `args[0]` holds before the call. -/
theorem ParseCommand_success_args (oob : Int → Nat) (fuel : Nat) (p command : List Nat)
    (args args' : datetime_t)
    (h : ∃ r, ParseCommand oob fuel p command args = some r ∧ r.error = ERROR_SUCCESS) :
    ∃ r, ParseCommand oob fuel p command args' = some r ∧ r.error = ERROR_SUCCESS := by
  obtain ⟨e, he, hes⟩ := ParseCommandExit_of_success oob fuel p command args h
  obtain ⟨r, hr, hre⟩ := ParseCommand_of_exit oob fuel p command e he args'
  exact ⟨r, hr, by rw [hre]; exact (exitError_eq_zero_iff p e).2 hes⟩

/-- On a line that matches `MUTE`, `ProcessCommand` clears `alarming` and changes nothing
else. -/
theorem ProcessCommand_MUTE (oob : Int → Nat) (stack : Nat → Nat) (fuel : Nat)
    (command : List Nat) (args : datetime_t) (s : State)
    (h : ∃ r, ParseCommand oob fuel (bytes "MUTE") command args = some r ∧
      r.error = ERROR_SUCCESS) :
    ∃ r, ProcessCommand oob stack fuel command args s = some r ∧
      r.state = { s with alarming := 0 } ∧ r.hibernate = false := by
  obtain ⟨r0, h0, h0e⟩ := ParseCommand_other_template oob fuel (bytes "MUTE") (bytes "?") command
    args args h (by decide) (by decide) (by decide) (by decide) (by decide)
  obtain ⟨r1, h1, h1e⟩ := ParseCommand_success_args oob fuel (bytes "MUTE") command args r0.args h
  unfold ProcessCommand
  simp only [h0, h1, if_neg h0e, if_pos h1e]
  exact ⟨_, rfl, rfl, rfl⟩

/-- On a line that matches `CLOCK INIT`, `ProcessCommand` sets the date to 2000-01-01, the
time to 0 and `alarm_time` to 999, and requests a restart. -/
theorem ProcessCommand_CLOCK_INIT (oob : Int → Nat) (stack : Nat → Nat) (fuel : Nat)
    (command : List Nat) (args : datetime_t) (s : State)
    (h : ∃ r, ParseCommand oob fuel (bytes "CLOCK INIT") command args = some r ∧
      r.error = ERROR_SUCCESS) :
    ∃ r, ProcessCommand oob stack fuel command args s = some r ∧
      r.state = { s with datetime := { month := 1, day := 1, year := 2000, time := 0 }
                         alarm_time := 999, restart := true } ∧ r.hibernate = false := by
  obtain ⟨r0, h0, h0e⟩ := ParseCommand_other_template oob fuel (bytes "CLOCK INIT") (bytes "?")
    command args args h (by decide) (by decide) (by decide) (by decide) (by decide)
  obtain ⟨r1, h1, h1e⟩ := ParseCommand_other_template oob fuel (bytes "CLOCK INIT") (bytes "MUTE")
    command args r0.args h (by decide) (by decide) (by decide) (by decide) (by decide)
  obtain ⟨r2, h2, h2e⟩ := ParseCommand_success_args oob fuel (bytes "CLOCK INIT") command args
    r1.args h
  unfold ProcessCommand clockFamily
  simp only [h0, h1, h2, if_neg h0e, if_neg h1e, if_pos h2e]
  exact ⟨_, rfl, rfl, rfl⟩

/-- From a state with time `t` and `alarm_time = a`, `t < a ≤ 86399`: the ticks before the
`(a - t)`-th leave `alarming` as it is. -/
theorem iterate_oneSecondTick_alarming_before (oob : Int → Nat) (s : State) (n : Nat)
    (h : s.datetime.time + n < s.alarm_time) (ha : s.alarm_time ≤ 86399) :
    ((oneSecondTick oob)^[n] s).alarming = s.alarming := by
  induction n with
  | zero => rfl
  | succ k ih =>
    rw [Function.iterate_succ_apply', oneSecondTick_alarming, iterate_oneSecondTick_datetime,
      iterate_oneSecondTick_alarm_time, iterate_advanceDatetime_of_lt oob k _ (by omega),
      advanceDatetime_of_lt oob _ (by simp only; omega), ih (by omega)]
    simp only
    rw [if_neg (by omega)]

/-- From a state with time `t` and `alarm_time = a`, `t < a ≤ 86399`: the `(a - t)`-th tick
sets `alarming`. -/
theorem iterate_oneSecondTick_alarming_at (oob : Int → Nat) (s : State) (n : Nat)
    (h : s.datetime.time + n + 1 = s.alarm_time) (ha : s.alarm_time ≤ 86399) :
    ((oneSecondTick oob)^[n + 1] s).alarming = 1 := by
  rw [Function.iterate_succ_apply', oneSecondTick_alarming, iterate_oneSecondTick_datetime,
    iterate_oneSecondTick_alarm_time, iterate_advanceDatetime_of_lt oob n _ (by omega),
    advanceDatetime_of_lt oob _ (by simp only; omega)]
  simp only
  rw [if_pos h]

/-- Claim C11, as stated, fails: the default `alarm_time` is 999, a time of day inside
`0..86399`, and the 999th one-second tick from the start-up state sets `alarming`. -/
theorem default_alarm_time_fires_at_999 :
    defaultState.alarm_time = 999 ∧ defaultState.alarm_time ≤ 86399 ∧
      defaultState.alarming = 0 ∧
      ((oneSecondTick (fun _ => 0))^[999] defaultState).alarming = 1 :=
  ⟨rfl, by decide, rfl, iterate_oneSecondTick_alarming_at _ defaultState 998 rfl (by decide)⟩

/-- Claim C11, amended.  When `ROMLoadData` finds no stored image (`data[0]` is not the magic
word) the start-up state has date 2000-01-01, time 0 and `alarm_time = 999`, and on a line
that matches `CLOCK INIT` `ProcessCommand` leaves the same date, time and `alarm_time` and
requests a restart.  999 is the time of day 00:16:39: from either state the first 998
one-second ticks leave `alarming` as it is and the 999th sets it to 1. -/
theorem default_alarm_time_is_00_16_39 (oob : Int → Nat) (stack : Nat → Nat) (fuel : Nat)
    (command : List Nat) (args : datetime_t) (s : State) (data : Fin 4 → Nat)
    (hrom : data 0 ≠ ROM_MAGIC)
    (hinit : ∃ r, ParseCommand oob fuel (bytes "CLOCK INIT") command args = some r ∧
      r.error = ERROR_SUCCESS) :
    ((ROMLoadData data defaultState).datetime = { month := 1, day := 1, year := 2000, time := 0 } ∧
      (ROMLoadData data defaultState).alarm_time = 999 ∧
      (ROMLoadData data defaultState).alarming = 0 ∧
      ((oneSecondTick oob)^[999] (ROMLoadData data defaultState)).alarming = 1 ∧
      ∀ n < 999, ((oneSecondTick oob)^[n] (ROMLoadData data defaultState)).alarming = 0) ∧
    (∃ r, ProcessCommand oob stack fuel command args s = some r ∧
      r.state.datetime = { month := 1, day := 1, year := 2000, time := 0 } ∧
      r.state.alarm_time = 999 ∧ r.state.alarming = s.alarming ∧ r.state.restart = true ∧
      ((oneSecondTick oob)^[999] r.state).alarming = 1 ∧
      ∀ n < 999, ((oneSecondTick oob)^[n] r.state).alarming = s.alarming) := by
  constructor
  · have hb : ROMLoadData data defaultState = defaultState := by
      unfold ROMLoadData; rw [if_pos hrom]
    rw [hb]
    refine ⟨rfl, rfl, rfl, iterate_oneSecondTick_alarming_at oob defaultState 998 rfl (by decide),
      fun n hn => ?_⟩
    exact iterate_oneSecondTick_alarming_before oob defaultState n
      (by show 0 + n < 999; omega) (by decide)
  · obtain ⟨r, hr, hs, _⟩ := ProcessCommand_CLOCK_INIT oob stack fuel command args s hinit
    refine ⟨r, hr, by rw [hs], by rw [hs], by rw [hs], by rw [hs], ?_, fun n hn => ?_⟩
    · exact iterate_oneSecondTick_alarming_at oob r.state 998 (by rw [hs])
        (by rw [hs]; exact (by decide : (999 : Nat) ≤ 86399))
    · rw [iterate_oneSecondTick_alarming_before oob r.state n
        (by rw [hs]; show 0 + n < 999; omega)
        (by rw [hs]; exact (by decide : (999 : Nat) ≤ 86399)), hs]

/-- Claim C11, amended, on the line `clock init` received at 2024-02-29 12:34:56 with the
alarm at 07:30:00. -/
theorem default_alarm_time_is_00_16_39_witness :
    ∃ r, ProcessCommand (fun _ => 0) (fun _ => 0) 20 (bytes "clock init")
        { month := 0, day := 0, year := 0, time := 0 } displayExample = some r ∧
      r.state.datetime = { month := 1, day := 1, year := 2000, time := 0 } ∧
      r.state.alarm_time = 999 ∧ r.state.alarming = displayExample.alarming ∧
      r.state.restart = true ∧
      ((oneSecondTick (fun _ => 0))^[999] r.state).alarming = 1 ∧
      ∀ n < 999, ((oneSecondTick (fun _ => 0))^[n] r.state).alarming = displayExample.alarming :=
  (default_alarm_time_is_00_16_39 (fun _ => 0) (fun _ => 0) 20 (bytes "clock init")
    { month := 0, day := 0, year := 0, time := 0 } displayExample (fun _ => 0) (by decide)
    ⟨_, rfl, rfl⟩).2

/-- With BACK pending, the first three key handlers of `ProcDisplay` clear `alarming`. -/
theorem displayKeys_alarming (s : State) (hb : pending s.keystate BUTTON_BACK = true) :
    (displayKeys s).alarming = 0 := by
  unfold displayKeys
  simp only
  split_ifs <;> simp_all [pending_clearFlag, button_ne]

/-- What `ProcDisplay` does behind its first three key handlers leaves the clock, the alarm time
and `alarming` alone. -/
theorem ProcDisplay_frame (s : State) :
    (ProcDisplay s).datetime = s.datetime ∧ (ProcDisplay s).alarm_time = s.alarm_time ∧
      (ProcDisplay s).alarming = (displayKeys s).alarming := by
  have h := displayKeys_frame s
  unfold ProcDisplay
  simp only
  split_ifs <;> simp [enterSetDate, enterSetTime, h.1, h.2.1]

/-- With none of BUTTON_1, BUTTON_2 and BUTTON_3 pending, `ProcDisplay` leaves the mode. -/
theorem ProcDisplay_mode (s : State) (h1 : pending s.keystate BUTTON_1 = false)
    (h2 : pending s.keystate BUTTON_2 = false) (h3 : pending s.keystate BUTTON_3 = false) :
    (ProcDisplay s).mode = s.mode := by
  have h := displayKeys_frame s
  have hp := displayKeys_pending s
  unfold ProcDisplay
  simp only [hp.1, hp.2.1, hp.2.2.1, h1, h2, h3]
  split_ifs <;> simp_all

/-- Claim C12, as stated, fails: with the alarm active and BACK and BUTTON_1 both pending in
Display mode, `ProcDisplay` clears `alarming` and enters Set-Date mode. -/
theorem acknowledge_with_BUTTON_1_pending_changes_mode :
    ({ displayExample with
        alarming := 1
        keystate := setFlag (setFlag displayExample.keystate BUTTON_BACK) BUTTON_1 } :
          State).mode = MODE_DISPLAY ∧
      pending (setFlag (setFlag displayExample.keystate BUTTON_BACK) BUTTON_1) BUTTON_BACK = true ∧
      (ProcDisplay { displayExample with
        alarming := 1
        keystate := setFlag (setFlag displayExample.keystate BUTTON_BACK) BUTTON_1 }).alarming = 0 ∧
      (ProcDisplay { displayExample with
        alarming := 1
        keystate := setFlag (setFlag displayExample.keystate BUTTON_BACK) BUTTON_1 }).mode =
          MODE_SETDATE := by
  decide

/-- Claim C12, amended.  For every state, on a line that matches `MUTE`, `ProcessCommand`
sets `alarming` to 0 and changes nothing else.  For every state with BACK pending,
`ProcDisplay` sets `alarming` to 0 and leaves year, month, day, time of day and `alarm_time`
unchanged; it leaves the mode unchanged when none of BUTTON_1, BUTTON_2 and BUTTON_3 is
pending in the same call. -/
theorem mute_and_acknowledge_clear_alarm (oob : Int → Nat) (stack : Nat → Nat) (fuel : Nat)
    (command : List Nat) (args : datetime_t) (s : State) :
    ((∃ r, ParseCommand oob fuel (bytes "MUTE") command args = some r ∧
        r.error = ERROR_SUCCESS) →
      ∃ r, ProcessCommand oob stack fuel command args s = some r ∧
        r.state = { s with alarming := 0 } ∧ r.hibernate = false) ∧
    (pending s.keystate BUTTON_BACK = true →
      (ProcDisplay s).alarming = 0 ∧ (ProcDisplay s).datetime = s.datetime ∧
      (ProcDisplay s).alarm_time = s.alarm_time ∧
      (pending s.keystate BUTTON_1 = false → pending s.keystate BUTTON_2 = false →
        pending s.keystate BUTTON_3 = false → (ProcDisplay s).mode = s.mode)) := by
  obtain ⟨hd, ha, hal⟩ := ProcDisplay_frame s
  exact ⟨fun hmute => ProcessCommand_MUTE oob stack fuel command args s hmute,
    fun hback => ⟨by rw [hal]; exact displayKeys_alarming s hback, hd, ha, ProcDisplay_mode s⟩⟩

/-- Claim C12, amended, with the alarm active at 2024-02-29 12:34:56: on the line `mute` in a
state where no button is pending, and on a pending BACK. -/
theorem mute_and_acknowledge_clear_alarm_witness :
    (∃ r, ProcessCommand (fun _ => 0) (fun _ => 0) 20 (bytes "mute")
        { month := 0, day := 0, year := 0, time := 0 }
        { displayExample with alarming := 2 } = some r ∧
      r.state = { displayExample with alarming := 0 } ∧ r.hibernate = false) ∧
    (ProcDisplay { displayExample with
      alarming := 2, keystate := setFlag displayExample.keystate BUTTON_BACK }).alarming = 0 ∧
    (ProcDisplay { displayExample with
      alarming := 2, keystate := setFlag displayExample.keystate BUTTON_BACK }).mode =
        MODE_DISPLAY :=
  ⟨(mute_and_acknowledge_clear_alarm (fun _ => 0) (fun _ => 0) 20 (bytes "mute")
      { month := 0, day := 0, year := 0, time := 0 }
      { displayExample with alarming := 2 }).1 ⟨_, rfl, rfl⟩,
   ((mute_and_acknowledge_clear_alarm (fun _ => 0) (fun _ => 0) 20 (bytes "mute")
      { month := 0, day := 0, year := 0, time := 0 }
      { displayExample with alarming := 2
                            keystate := setFlag displayExample.keystate BUTTON_BACK }).2
      (by decide)).1,
   ((mute_and_acknowledge_clear_alarm (fun _ => 0) (fun _ => 0) 20 (bytes "mute")
      { month := 0, day := 0, year := 0, time := 0 }
      { displayExample with alarming := 2
                            keystate := setFlag displayExample.keystate BUTTON_BACK }).2
      (by decide)).2.2.2 (by decide) (by decide) (by decide)⟩

/-! ### Literal matching -/

/-- A byte that is not NUL lies inside the list. -/
theorem lt_length_of_byteAt_ne_zero (l : List Nat) (k : Nat) (h : byteAt l k ≠ 0) :
    k < l.length := by
  by_contra hk
  exact h (List.getD_eq_default _ _ (Nat.le_of_not_lt hk))

/-- `ToUpperCase` changes lower-case letters only: it takes a value below `'A'` only on that
value. -/
theorem ToUpperCase_eq_iff (x c : Nat) (hc : c < 65) : ToUpperCase x = c ↔ x = c := by
  unfold ToUpperCase
  split_ifs <;> omega

/-- The loop of `ParseCommand` when the input or the template has ended: it returns. -/
theorem exitLoop_end (oob : Int → Nat) (pattern command : List Nat)
    (fuel i j skip_space has_space aligned : Nat)
    (h : ¬ (byteAt command i ≠ 0 ∧ byteAt pattern j ≠ 0)) :
    ParseCommandExitLoop oob pattern command (fuel + 1) i j skip_space has_space aligned =
      some { site := if byteAt command i ≠ 0 ∨ byteAt pattern j ≠ 0 then .ended else .success
             i := i, j := j, has_space := has_space, aligned := aligned } := by
  unfold ParseCommandExitLoop
  rw [if_neg h]
  split_ifs <;> rfl

/-- The loop of `ParseCommand` on a space behind a space: the space is skipped. -/
theorem exitLoop_skip (oob : Int → Nat) (pattern command : List Nat)
    (fuel i j skip_space has_space aligned : Nat)
    (hc : byteAt command i = 32) (hp : byteAt pattern j ≠ 0) (hs : skip_space ≠ 0) :
    ParseCommandExitLoop oob pattern command (fuel + 1) i j skip_space has_space aligned =
      ParseCommandExitLoop oob pattern command fuel ((i + 1) % 256) j skip_space has_space
        aligned := by
  have hu : ToUpperCase (byteAt command i) = 32 := (ToUpperCase_eq_iff _ 32 (by decide)).2 hc
  have h1 : byteAt command i ≠ 0 ∧ byteAt pattern j ≠ 0 := ⟨by rw [hc]; decide, hp⟩
  rw [ParseCommandExitLoop, if_pos h1]
  simp only
  rw [if_pos ⟨hu, hs⟩]

/-- The loop of `ParseCommand` on a literal character of the template: it compares, and
returns at a difference. -/
theorem exitLoop_literal (oob : Int → Nat) (pattern command : List Nat)
    (fuel i j skip_space has_space aligned : Nat)
    (hc : byteAt command i ≠ 0) (hp : byteAt pattern j ≠ 0)
    (hs : ¬ (byteAt command i = 32 ∧ skip_space ≠ 0)) (h36 : byteAt pattern j ≠ 36) :
    ParseCommandExitLoop oob pattern command (fuel + 1) i j skip_space has_space aligned =
      if ToUpperCase (byteAt pattern j) ≠ ToUpperCase (byteAt command i) then
        some { site := .literal, i := i, j := j
               has_space := if byteAt command i = 32 then 1 else has_space, aligned := aligned }
      else
        ParseCommandExitLoop oob pattern command fuel ((i + 1) % 256) ((j + 1) % 256)
          (if byteAt command i = 32 then 1 else 0) (if byteAt command i = 32 then 1 else has_space)
          (if byteAt pattern j = 32 then aligned + 1 else aligned) := by
  have hu : ¬ (ToUpperCase (byteAt command i) = 32 ∧ skip_space ≠ 0) := by
    rw [ToUpperCase_eq_iff _ 32 (by decide)]; exact hs
  have hu36 : ¬ ToUpperCase (byteAt pattern j) = 36 := by
    rw [ToUpperCase_eq_iff _ 36 (by decide)]; exact h36
  rw [ParseCommandExitLoop, if_pos ⟨hc, hp⟩]
  simp only
  rw [if_neg hu, if_neg hu36]
  simp only [ToUpperCase_eq_iff _ 32 (by decide : 32 < 65)]

/-- What holds of the local variables at each `return` of `ParseCommand`. -/
theorem exitLoop_site (oob : Int → Nat) (pattern command : List Nat) (fuel : Nat) :
    ∀ (i j skip_space has_space aligned : Nat) (e : ParseExit),
      ParseCommandExitLoop oob pattern command fuel i j skip_space has_space aligned = some e →
      (e.site = .literal → byteAt command e.i ≠ 0 ∧ byteAt pattern e.j ≠ 0 ∧
        byteAt pattern e.j ≠ 36 ∧
        ToUpperCase (byteAt pattern e.j) ≠ ToUpperCase (byteAt command e.i)) ∧
      (e.site = .ended → (byteAt command e.i = 0 ∨ byteAt pattern e.j = 0) ∧
        (byteAt command e.i ≠ 0 ∨ byteAt pattern e.j ≠ 0)) ∧
      (e.site = .success → byteAt command e.i = 0 ∧ byteAt pattern e.j = 0) := by
  induction fuel with
  | zero => intro i j sk hs al e h; simp [ParseCommandExitLoop] at h
  | succ fuel ih =>
    intro i j sk hs al e h
    by_cases h1 : byteAt command i ≠ 0 ∧ byteAt pattern j ≠ 0
    · by_cases h2 : byteAt command i = 32 ∧ sk ≠ 0
      · rw [exitLoop_skip oob pattern command fuel i j sk hs al h2.1 h1.2 h2.2] at h
        exact ih _ _ _ _ _ _ h
      · by_cases h3 : byteAt pattern j = 36
        · have hu : ¬ (ToUpperCase (byteAt command i) = 32 ∧ sk ≠ 0) := by
            rw [ToUpperCase_eq_iff _ 32 (by decide)]; exact h2
          have hu36 : ToUpperCase (byteAt pattern j) = 36 := by
            rw [ToUpperCase_eq_iff _ 36 (by decide)]; exact h3
          rw [ParseCommandExitLoop, if_pos h1] at h
          simp only at h
          rw [if_neg hu, if_pos hu36] at h
          split at h
          · simp at h
          · simp only [Option.some.injEq] at h
            subst h
            simp
          · exact ih _ _ _ _ _ _ h
        · rw [exitLoop_literal oob pattern command fuel i j sk hs al h1.1 h1.2 h2 h3] at h
          by_cases h4 : ToUpperCase (byteAt pattern j) ≠ ToUpperCase (byteAt command i)
          · rw [if_pos h4] at h
            simp only [Option.some.injEq] at h
            subst h
            simp only [reduceCtorEq, false_implies, and_true, true_implies]
            exact ⟨h1.1, h1.2, h3, h4⟩
          · rw [if_neg h4] at h
            exact ih _ _ _ _ _ _ h
    · rw [exitLoop_end oob pattern command fuel i j sk hs al h1] at h
      simp only [Option.some.injEq] at h
      subst h
      by_cases h5 : byteAt command i ≠ 0 ∨ byteAt pattern j ≠ 0
      · simp only [if_pos h5, reduceCtorEq, false_implies, true_implies, true_and, and_true]
        exact ⟨by tauto, h5⟩
      · simp only [if_neg h5, reduceCtorEq, false_implies, true_implies, true_and]
        tauto

/-- The template index never goes back. -/
theorem exitLoop_j_mono (oob : Int → Nat) (pattern command : List Nat)
    (hP : pattern.length ≤ 254) (fuel : Nat) :
    ∀ (i j skip_space has_space aligned : Nat) (e : ParseExit),
      ParseCommandExitLoop oob pattern command fuel i j skip_space has_space aligned = some e →
      j ≤ e.j := by
  induction fuel with
  | zero => intro i j sk hs al e h; simp [ParseCommandExitLoop] at h
  | succ fuel ih =>
    intro i j sk hs al e h
    by_cases h1 : byteAt command i ≠ 0 ∧ byteAt pattern j ≠ 0
    · have hj := lt_length_of_byteAt_ne_zero _ _ h1.2
      have hj1 : (j + 1) % 256 = j + 1 := Nat.mod_eq_of_lt (by omega)
      have hj2 : (j + 1 + 1) % 256 = j + 2 := Nat.mod_eq_of_lt (by omega)
      by_cases h2 : byteAt command i = 32 ∧ sk ≠ 0
      · rw [exitLoop_skip oob pattern command fuel i j sk hs al h2.1 h1.2 h2.2] at h
        exact ih _ _ _ _ _ _ h
      · by_cases h3 : byteAt pattern j = 36
        · have hu : ¬ (ToUpperCase (byteAt command i) = 32 ∧ sk ≠ 0) := by
            rw [ToUpperCase_eq_iff _ 32 (by decide)]; exact h2
          have hu36 : ToUpperCase (byteAt pattern j) = 36 := by
            rw [ToUpperCase_eq_iff _ 36 (by decide)]; exact h3
          rw [ParseCommandExitLoop, if_pos h1] at h
          simp only at h
          rw [if_neg hu, if_pos hu36, hj1, hj2] at h
          split at h
          · simp at h
          · simp only [Option.some.injEq] at h
            subst h
            simp
          · have := ih _ _ _ _ _ _ h
            omega
        · rw [exitLoop_literal oob pattern command fuel i j sk hs al h1.1 h1.2 h2 h3, hj1] at h
          by_cases h4 : ToUpperCase (byteAt pattern j) ≠ ToUpperCase (byteAt command i)
          · rw [if_pos h4] at h
            simp only [Option.some.injEq] at h
            subst h
            exact le_refl _
          · rw [if_neg h4] at h
            have := ih _ _ _ _ _ _ h
            omega
    · rw [exitLoop_end oob pattern command fuel i j sk hs al h1] at h
      simp only [Option.some.injEq] at h
      subst h
      exact le_refl _

/-- Behind a placeholder the template index has moved on: by one place at a `return
ERROR_FORMAT`, by two places at least otherwise. -/
theorem exitLoop_placeholder_j (oob : Int → Nat) (pattern command : List Nat)
    (hP : pattern.length ≤ 254) (fuel : Nat) (i j skip_space has_space aligned : Nat)
    (e : ParseExit)
    (h : ParseCommandExitLoop oob pattern command (fuel + 1) i j skip_space has_space aligned =
      some e)
    (hc : byteAt command i ≠ 0) (h2 : ¬ (byteAt command i = 32 ∧ skip_space ≠ 0))
    (h3 : byteAt pattern j = 36) : j < e.j ∧ (e.site = .format ∨ j + 2 ≤ e.j) := by
  have hp : byteAt pattern j ≠ 0 := by rw [h3]; decide
  have hj := lt_length_of_byteAt_ne_zero _ _ hp
  have hj1 : (j + 1) % 256 = j + 1 := Nat.mod_eq_of_lt (by omega)
  have hj2 : (j + 1 + 1) % 256 = j + 2 := Nat.mod_eq_of_lt (by omega)
  have hu : ¬ (ToUpperCase (byteAt command i) = 32 ∧ skip_space ≠ 0) := by
    rw [ToUpperCase_eq_iff _ 32 (by decide)]; exact h2
  have hu36 : ToUpperCase (byteAt pattern j) = 36 := by
    rw [ToUpperCase_eq_iff _ 36 (by decide)]; exact h3
  rw [ParseCommandExitLoop, if_pos ⟨hc, hp⟩] at h
  simp only at h
  rw [if_neg hu, if_pos hu36, hj1, hj2] at h
  split at h
  · simp at h
  · simp only [Option.some.injEq] at h
    subst h
    simp
  · have := exitLoop_j_mono oob pattern command hP fuel _ _ _ _ _ _ h
    exact ⟨by omega, Or.inr this⟩

/-- An induction principle for the loop of `ParseCommand` on inputs and templates that fit
the `uint8_t` indices: a property of the start values and of the place of return holds when
it holds at each `return` and is carried back over a skipped space, over a matched character,
and over a placeholder (behind which the template index has moved on). -/
theorem exitLoop_induction (oob : Int → Nat) (pattern command : List Nat)
    (hP : pattern.length ≤ 254) (hC : command.length ≤ 255)
    (motive : Nat → Nat → Nat → Nat → Nat → ParseExit → Prop)
    (h_end : ∀ i j sk hs al, ¬ (byteAt command i ≠ 0 ∧ byteAt pattern j ≠ 0) →
      motive i j sk hs al
        { site := if byteAt command i ≠ 0 ∨ byteAt pattern j ≠ 0 then .ended else .success
          i := i, j := j, has_space := hs, aligned := al })
    (h_skip : ∀ i j sk hs al e, byteAt command i = 32 → byteAt pattern j ≠ 0 → sk ≠ 0 →
      i < command.length → motive (i + 1) j sk hs al e → motive i j sk hs al e)
    (h_literal : ∀ i j sk hs al, byteAt command i ≠ 0 → byteAt pattern j ≠ 0 →
      ¬ (byteAt command i = 32 ∧ sk ≠ 0) → byteAt pattern j ≠ 36 →
      ToUpperCase (byteAt pattern j) ≠ ToUpperCase (byteAt command i) →
      motive i j sk hs al
        { site := .literal, i := i, j := j
          has_space := if byteAt command i = 32 then 1 else hs, aligned := al })
    (h_match : ∀ i j sk hs al e, byteAt command i ≠ 0 → byteAt pattern j ≠ 0 →
      ¬ (byteAt command i = 32 ∧ sk ≠ 0) → byteAt pattern j ≠ 36 →
      ToUpperCase (byteAt pattern j) = ToUpperCase (byteAt command i) →
      i < command.length → j < pattern.length →
      motive (i + 1) (j + 1) (if byteAt command i = 32 then 1 else 0)
        (if byteAt command i = 32 then 1 else hs)
        (if byteAt pattern j = 32 then al + 1 else al) e →
      motive i j sk hs al e)
    (h_placeholder : ∀ i j sk hs al e, byteAt pattern j = 36 → j < e.j →
      (e.site = .format ∨ j + 2 ≤ e.j) → motive i j sk hs al e)
    (fuel : Nat) :
    ∀ (i j sk hs al : Nat) (e : ParseExit),
      ParseCommandExitLoop oob pattern command fuel i j sk hs al = some e →
      motive i j sk hs al e := by
  induction fuel with
  | zero => intro i j sk hs al e h; simp [ParseCommandExitLoop] at h
  | succ fuel ih =>
    intro i j sk hs al e h
    by_cases h1 : byteAt command i ≠ 0 ∧ byteAt pattern j ≠ 0
    · have hi := lt_length_of_byteAt_ne_zero _ _ h1.1
      have hj := lt_length_of_byteAt_ne_zero _ _ h1.2
      have hi1 : (i + 1) % 256 = i + 1 := Nat.mod_eq_of_lt (by omega)
      have hj1 : (j + 1) % 256 = j + 1 := Nat.mod_eq_of_lt (by omega)
      by_cases h2 : byteAt command i = 32 ∧ sk ≠ 0
      · rw [exitLoop_skip oob pattern command fuel i j sk hs al h2.1 h1.2 h2.2, hi1] at h
        exact h_skip i j sk hs al e h2.1 h1.2 h2.2 hi (ih _ _ _ _ _ _ h)
      · by_cases h3 : byteAt pattern j = 36
        · have hx :=
            exitLoop_placeholder_j oob pattern command hP fuel i j sk hs al e h h1.1 h2 h3
          exact h_placeholder i j sk hs al e h3 hx.1 hx.2
        · rw [exitLoop_literal oob pattern command fuel i j sk hs al h1.1 h1.2 h2 h3, hi1,
            hj1] at h
          by_cases h4 : ToUpperCase (byteAt pattern j) ≠ ToUpperCase (byteAt command i)
          · rw [if_pos h4] at h
            simp only [Option.some.injEq] at h
            subst h
            exact h_literal i j sk hs al h1.1 h1.2 h2 h3 h4
          · rw [if_neg h4] at h
            exact h_match i j sk hs al e h1.1 h1.2 h2 h3 (not_not.1 h4) hi hj
              (ih _ _ _ _ _ _ h)
    · rw [exitLoop_end oob pattern command fuel i j sk hs al h1] at h
      simp only [Option.some.injEq] at h
      subst h
      exact h_end i j sk hs al h1

/-- Before any placeholder, `has_space` tells whether the loop of `ParseCommand` has met a
space of the input: one before the index of return, or the character at that index when the
return is the one of the literal comparison. -/
theorem exitLoop_has_space (oob : Int → Nat) (pattern command : List Nat)
    (hP : pattern.length ≤ 254) (hC : command.length ≤ 255) (fuel : Nat)
    (i j sk hs al : Nat) (e : ParseExit)
    (h : ParseCommandExitLoop oob pattern command fuel i j sk hs al = some e)
    (hsk : sk ≠ 0 → hs ≠ 0) (h36 : ∀ k, j ≤ k → k < e.j → byteAt pattern k ≠ 36) :
    i ≤ e.i ∧
    (e.has_space ≠ 0 ↔ hs ≠ 0 ∨
      ∃ k, i ≤ k ∧ (k < e.i ∨ (k = e.i ∧ e.site = .literal)) ∧ byteAt command k = 32) := by
  revert hsk h36
  refine exitLoop_induction oob pattern command hP hC
    (fun i j sk hs _ e => (sk ≠ 0 → hs ≠ 0) → (∀ k, j ≤ k → k < e.j → byteAt pattern k ≠ 36) →
      i ≤ e.i ∧ (e.has_space ≠ 0 ↔ hs ≠ 0 ∨
        ∃ k, i ≤ k ∧ (k < e.i ∨ (k = e.i ∧ e.site = .literal)) ∧ byteAt command k = 32))
    ?_ ?_ ?_ ?_ ?_ fuel i j sk hs al e h
  · intro i j sk hs al h1 _ _
    refine ⟨le_refl _, ?_⟩
    simp only
    constructor
    · exact fun h => Or.inl h
    · rintro (h | ⟨k, hk1, hk2 | ⟨_, hk3⟩, _⟩)
      · exact h
      · omega
      · split_ifs at hk3
  · intro i j sk hs al e hc _ hs0 _ ih hsk h36
    obtain ⟨hle, hiff⟩ := ih hsk h36
    refine ⟨by omega, ?_⟩
    rw [hiff]
    constructor
    · rintro (h | ⟨k, hk1, hk2, hk3⟩)
      · exact Or.inl h
      · exact Or.inr ⟨k, by omega, hk2, hk3⟩
    · rintro (h | ⟨k, hk1, hk2, hk3⟩)
      · exact Or.inl h
      · exact Or.inl (hsk hs0)
  · intro i j sk hs al hc _ h2 _ _ hsk _
    refine ⟨le_refl _, ?_⟩
    simp only
    by_cases hsp : byteAt command i = 32
    · rw [if_pos hsp]
      exact ⟨fun _ => Or.inr ⟨i, le_refl _, Or.inr ⟨rfl, trivial⟩, hsp⟩, fun _ => by decide⟩
    · rw [if_neg hsp]
      constructor
      · exact fun h => Or.inl h
      · rintro (h | ⟨k, hk1, hk2 | ⟨hk3, _⟩, hk4⟩)
        · exact h
        · omega
        · rw [hk3] at hk4; exact absurd hk4 hsp
  · intro i j sk hs al e hc _ h2 h3 _ _ _ ih hsk h36
    obtain ⟨hle, hiff⟩ := ih (by split_ifs <;> simp) (fun k hk1 hk2 => h36 k (by omega) hk2)
    refine ⟨by omega, ?_⟩
    rw [hiff]
    by_cases hsp : byteAt command i = 32
    · simp only [if_pos hsp]
      exact ⟨fun _ => Or.inr ⟨i, le_refl _, Or.inl (by omega), hsp⟩, fun _ => Or.inl (by decide)⟩
    · simp only [if_neg hsp]
      constructor
      · rintro (h | ⟨k, hk1, hk2, hk3⟩)
        · exact Or.inl h
        · exact Or.inr ⟨k, by omega, hk2, hk3⟩
      · rintro (h | ⟨k, hk1, hk2, hk3⟩)
        · exact Or.inl h
        · by_cases hki : k = i
          · rw [hki] at hk3; exact absurd hk3 hsp
          · exact Or.inr ⟨k, by omega, hk2, hk3⟩
  · intro i j sk hs al e h3 hj _ _ h36
    exact absurd h3 (h36 j (le_refl _) hj)

/-- Before any placeholder, `aligned` tells whether the literal comparison has passed a space
of the template. -/
theorem exitLoop_aligned (oob : Int → Nat) (pattern command : List Nat)
    (hP : pattern.length ≤ 254) (hC : command.length ≤ 255) (fuel : Nat)
    (i j sk hs al : Nat) (e : ParseExit)
    (h : ParseCommandExitLoop oob pattern command fuel i j sk hs al = some e)
    (h36 : ∀ k, j ≤ k → k < e.j → byteAt pattern k ≠ 36) :
    j ≤ e.j ∧
    (e.aligned ≠ 0 ↔ al ≠ 0 ∨ ∃ k, j ≤ k ∧ k < e.j ∧ byteAt pattern k = 32) := by
  revert h36
  refine exitLoop_induction oob pattern command hP hC
    (fun _ j _ _ al e => (∀ k, j ≤ k → k < e.j → byteAt pattern k ≠ 36) →
      j ≤ e.j ∧ (e.aligned ≠ 0 ↔ al ≠ 0 ∨ ∃ k, j ≤ k ∧ k < e.j ∧ byteAt pattern k = 32))
    ?_ ?_ ?_ ?_ ?_ fuel i j sk hs al e h
  · intro i j sk hs al _ _
    refine ⟨le_refl _, ?_⟩
    simp only
    constructor
    · exact fun h => Or.inl h
    · rintro (h | ⟨k, hk1, hk2, _⟩)
      · exact h
      · omega
  · intro i j sk hs al e _ _ _ _ ih h36
    exact ih h36
  · intro i j sk hs al _ _ _ _ _ _
    refine ⟨le_refl _, ?_⟩
    simp only
    constructor
    · exact fun h => Or.inl h
    · rintro (h | ⟨k, hk1, hk2, _⟩)
      · exact h
      · omega
  · intro i j sk hs al e _ _ _ _ _ _ _ ih h36
    obtain ⟨hle, hiff⟩ := ih (fun k hk1 hk2 => h36 k (by omega) hk2)
    refine ⟨by omega, ?_⟩
    rw [hiff]
    by_cases hsp : byteAt pattern j = 32
    · simp only [if_pos hsp]
      exact ⟨fun _ => Or.inr ⟨j, le_refl _, by omega, hsp⟩, fun _ => Or.inl (by omega)⟩
    · simp only [if_neg hsp]
      constructor
      · rintro (h | ⟨k, hk1, hk2, hk3⟩)
        · exact Or.inl h
        · exact Or.inr ⟨k, by omega, hk2, hk3⟩
      · rintro (h | ⟨k, hk1, hk2, hk3⟩)
        · exact Or.inl h
        · by_cases hkj : k = j
          · rw [hkj] at hk3; exact absurd hk3 hsp
          · exact Or.inr ⟨k, by omega, hk2, hk3⟩
  · intro i j sk hs al e h3 hj _ h36
    exact absurd h3 (h36 j (le_refl _) hj)

/-- The part of a list between the places `j` and `n` starts with the byte at `j`. -/
theorem drop_take_cons (l : List Nat) (j n : Nat) (hj : j < l.length) (hn : j < n) :
    (l.drop j).take (n - j) = byteAt l j :: (l.drop (j + 1)).take (n - (j + 1)) := by
  have e : n - j = (n - (j + 1)) + 1 := by omega
  rw [List.drop_eq_getElem_cons hj, e, List.take_succ_cons]
  congr 1
  unfold byteAt
  rw [List.getD_eq_getElem _ _ hj]

/-- Before any placeholder, the input that the loop of `ParseCommand` has passed is aligned
with the template that it has passed; behind a skipped space the rest of the run of spaces
counts as passed. -/
theorem exitLoop_aligns (oob : Int → Nat) (pattern command : List Nat)
    (hP : pattern.length ≤ 254) (hC : command.length ≤ 255) (fuel : Nat)
    (i j sk hs al : Nat) (e : ParseExit)
    (h : ParseCommandExitLoop oob pattern command fuel i j sk hs al = some e)
    (h36 : ∀ k, j ≤ k → k < e.j → byteAt pattern k ≠ 36) :
    i ≤ e.i ∧ j ≤ e.j ∧ (∀ k, i ≤ k → k < e.i → byteAt command k ≠ 0) ∧
    aligns ((pattern.drop j).take (e.j - j))
      (if sk ≠ 0 then ((command.drop i).take (e.i - i)).dropWhile (fun x => x = 32)
       else (command.drop i).take (e.i - i)) = true := by
  revert h36
  refine exitLoop_induction oob pattern command hP hC
    (fun i j sk _ _ e => (∀ k, j ≤ k → k < e.j → byteAt pattern k ≠ 36) →
      i ≤ e.i ∧ j ≤ e.j ∧ (∀ k, i ≤ k → k < e.i → byteAt command k ≠ 0) ∧
      aligns ((pattern.drop j).take (e.j - j))
        (if sk ≠ 0 then ((command.drop i).take (e.i - i)).dropWhile (fun x => x = 32)
         else (command.drop i).take (e.i - i)) = true)
    ?_ ?_ ?_ ?_ ?_ fuel i j sk hs al e h
  · intro i j sk hs al _ _
    refine ⟨le_refl _, le_refl _, fun k hk1 hk2 => ?_, ?_⟩
    · simp only at hk2; omega
    · simp [aligns]
  · intro i j sk hs al e hc _ hs0 hi ih h36
    obtain ⟨hle, hje, hnz, hal⟩ := ih h36
    refine ⟨by omega, hje, fun k hk1 hk2 => ?_, ?_⟩
    · by_cases hki : k = i
      · rw [hki, hc]; decide
      · exact hnz k (by omega) hk2
    · rw [if_pos hs0] at hal ⊢
      rw [drop_take_cons command i e.i hi (by omega), hc]
      simpa using hal
  · intro i j sk hs al _ _ _ _ _ _
    refine ⟨le_refl _, le_refl _, fun k hk1 hk2 => ?_, ?_⟩
    · simp only at hk2; omega
    · simp [aligns]
  · intro i j sk hs al e hc hp h2 h3 h4 hi hj ih h36
    obtain ⟨hle, hje, hnz, hal⟩ := ih (fun k hk1 hk2 => h36 k (by omega) hk2)
    refine ⟨by omega, by omega, fun k hk1 hk2 => ?_, ?_⟩
    · by_cases hki : k = i
      · rw [hki]; exact hc
      · exact hnz k (by omega) hk2
    · rw [drop_take_cons command i e.i hi (by omega),
        drop_take_cons pattern j e.j hj (by omega)]
      have hdw : (if sk ≠ 0 then
            (byteAt command i :: (command.drop (i + 1)).take (e.i - (i + 1))).dropWhile
              (fun x => x = 32)
          else byteAt command i :: (command.drop (i + 1)).take (e.i - (i + 1))) =
          byteAt command i :: (command.drop (i + 1)).take (e.i - (i + 1)) := by
        by_cases hs0 : sk ≠ 0
        · have : byteAt command i ≠ 32 := fun hx => h2 ⟨hx, hs0⟩
          rw [if_pos hs0, List.dropWhile_cons_of_neg (by simpa using this)]
        · rw [if_neg hs0]
      rw [hdw]
      have h32 : byteAt pattern j = 32 ↔ byteAt command i = 32 := by
        rw [← ToUpperCase_eq_iff (byteAt pattern j) 32 (by decide),
          ← ToUpperCase_eq_iff (byteAt command i) 32 (by decide), h4]
      by_cases hsp : byteAt command i = 32
      · have hpp := h32.2 hsp
        simp only [hsp, if_true] at hal
        simp only [aligns, hpp, hsp, if_true, decide_True, Bool.true_and]
        simpa using hal
      · have hpp : ¬ byteAt pattern j = 32 := fun hx => hsp (h32.1 hx)
        simp only [hsp, if_false] at hal
        simp only [aligns, hpp, if_false, h4, hsp, ne_eq, not_false_eq_true, decide_True,
          Bool.true_and]
        simpa using hal
  · intro i j sk hs al e h3 hj _ h36
    exact absurd h3 (h36 j (le_refl _) hj)

/-- In a template whose placeholder is its last item, the literal comparison fails before the
placeholder only. -/
theorem exitLoop_literal_before_placeholder (oob : Int → Nat) (pattern command : List Nat)
    (hP : pattern.length ≤ 254) (hC : command.length ≤ 255) (hL : PlaceholderLast pattern)
    (fuel : Nat) (i j sk hs al : Nat) (e : ParseExit)
    (h : ParseCommandExitLoop oob pattern command fuel i j sk hs al = some e)
    (hj : ∀ k < j, byteAt pattern k ≠ 36) (hlit : e.site = .literal) :
    ∀ k < e.j, byteAt pattern k ≠ 36 := by
  have hne := ((exitLoop_site oob pattern command fuel i j sk hs al e h).1 hlit).2.1
  revert hj hlit hne
  refine exitLoop_induction oob pattern command hP hC
    (fun _ j _ _ _ e => (∀ k < j, byteAt pattern k ≠ 36) → e.site = .literal →
      byteAt pattern e.j ≠ 0 → ∀ k < e.j, byteAt pattern k ≠ 36)
    ?_ ?_ ?_ ?_ ?_ fuel i j sk hs al e h
  · intro i j sk hs al _ _ hs _
    simp only at hs
    split_ifs at hs
  · intro i j sk hs al e _ _ _ _ ih hj hs hne
    exact ih hj hs hne
  · intro i j sk hs al _ _ _ _ _ hj _ _
    exact hj
  · intro i j sk hs al e _ _ _ h3 _ _ _ ih hj hs hne
    refine ih (fun k hk => ?_) hs hne
    by_cases hkj : k = j
    · rw [hkj]; exact h3
    · exact hj k (by omega)
  · intro i j sk hs al e h3 hlt hx _ hs hne
    rcases hx with hx | hx
    · rw [hs] at hx; exact absurd hx (by decide)
    · have hjl : j < pattern.length :=
        lt_length_of_byteAt_ne_zero _ _ (by rw [h3]; decide)
      have := hL j hjl h3
      have := lt_length_of_byteAt_ne_zero _ _ hne
      omega

example : PlaceholderLast (bytes "SET DATE $D") := by decide
example : PlaceholderLast (bytes "GET DATE") := by decide
example : ¬ PlaceholderLast (bytes "AT $T NOW") := by decide

/-- An index that fits a byte is its own low byte. -/
theorem and_255_of_le (x : Nat) (h : x ≤ 255) : x &&& 0x00ff = x := by
  have e : (0x00ff : Nat) = 2 ^ 8 - 1 := by norm_num
  rw [e, Nat.and_pow_two_sub_one_eq_mod]
  exact Nat.mod_eq_of_lt (by omega)

/-- The low byte of a mismatch code is the index stored in it. -/
theorem mismatch_code_low_byte (c : Prop) [Decidable c] (x : Nat) (h : x ≤ 255) :
    ((if c then ERROR_PARTIAL else ERROR_NOT_MATCH) ||| x) &&& 0x00ff = x := by
  rw [Nat.and_comm, Nat.and_or_distrib_left, Nat.and_comm _ x, and_255_of_le x h]
  split_ifs
  · have : 0x00ff &&& ERROR_PARTIAL = 0 := by decide
    rw [this, Nat.zero_or]
  · have : 0x00ff &&& ERROR_NOT_MATCH = 0 := by decide
    rw [this, Nat.zero_or]

/-- The codes `ERROR_PARTIAL` and `ERROR_NOT_MATCH` with the same index differ. -/
theorem partial_ne_not_match (x y : Nat) (h : y ≤ 255) :
    ERROR_PARTIAL ||| x ≠ ERROR_NOT_MATCH ||| y := by
  intro he
  have h11 := congrArg (fun n => n.testBit 11) he
  simp only [Nat.testBit_or] at h11
  have h1 : ERROR_PARTIAL.testBit 11 = true := by decide
  have h2 : ERROR_NOT_MATCH.testBit 11 = false := by decide
  have h3 : y.testBit 11 = false := Nat.testBit_lt_two_pow (by omega)
  rw [h1, h2, h3] at h11
  simp at h11

/-- The result of `ParseCommand` carries the error code of the statement at which it
returns. -/
theorem ParseCommand_error_of_exit (oob : Int → Nat) (fuel : Nat) (pattern command : List Nat)
    (args : datetime_t) (r : ParseResult) (e : ParseExit)
    (hr : ParseCommand oob fuel pattern command args = some r)
    (he : ParseCommandExit oob fuel pattern command = some e) :
    r.error = exitError pattern e := by
  have h := ParseCommand_error oob fuel pattern command args
  rw [hr, he] at h
  simpa using h

/-- Claim C17.  When `ParseCommand` returns at the literal comparison, on a template whose
placeholder (if any) is its last item and on a line that fits the `uint8_t` index, the result
is `ERROR_PARTIAL` or `ERROR_NOT_MATCH` joined with the input index `i` of the comparison; its
low byte is `i`; `i` lies inside the line; the template character and the input character
compared there differ even up to case; and the input before `i` is aligned with the template
before `j` (case-insensitively, runs of spaces collapsed).  In particular the template
`SET DATE $D` and the line `SET DAT 2024/06/18` give `ERROR_PARTIAL` with offset 7. -/
theorem literal_mismatch_offset (oob : Int → Nat) (fuel : Nat) (pattern command : List Nat)
    (args : datetime_t) (r : ParseResult) (e : ParseExit)
    (hP : pattern.length ≤ 254) (hC : command.length ≤ 255) (hL : PlaceholderLast pattern)
    (hr : ParseCommand oob fuel pattern command args = some r)
    (he : ParseCommandExit oob fuel pattern command = some e) (hs : e.site = .literal) :
    (r.error = ERROR_PARTIAL ||| e.i ∨ r.error = ERROR_NOT_MATCH ||| e.i) ∧
    r.error &&& 0x00ff = e.i ∧ e.i < command.length ∧
    (∀ k < e.i, byteAt command k ≠ 0) ∧
    ToUpperCase (byteAt pattern e.j) ≠ ToUpperCase (byteAt command e.i) ∧
    aligns (pattern.take e.j) (command.take e.i) = true ∧
    (∀ (n : Nat) (a : datetime_t),
      ParseCommand oob (n + 8) (bytes "SET DATE $D") (bytes "SET DAT 2024/06/18") a =
        some { error := ERROR_PARTIAL ||| 7, args := a, uart := [] }) := by
  have herr := ParseCommand_error_of_exit oob fuel pattern command args r e hr he
  obtain ⟨hc, hp, _, hne⟩ := (exitLoop_site oob pattern command fuel 0 0 0 0 0 e he).1 hs
  have hi := lt_length_of_byteAt_ne_zero _ _ hc
  have h36 := exitLoop_literal_before_placeholder oob pattern command hP hC hL fuel 0 0 0 0 0 e
    he (fun k hk => absurd hk (Nat.not_lt_zero k)) hs
  obtain ⟨_, _, hnz, hal⟩ := exitLoop_aligns oob pattern command hP hC fuel 0 0 0 0 0 e he
    (fun k _ hk => h36 k hk)
  have hi255 : e.i &&& 0x00ff = e.i := and_255_of_le e.i (by omega)
  have herr' : r.error = (if e.has_space ≠ 0 then ERROR_PARTIAL else ERROR_NOT_MATCH) ||| e.i := by
    rw [herr]; unfold exitError; rw [hs]; simp only; rw [hi255]
  refine ⟨?_, ?_, hi, fun k hk => hnz k (Nat.zero_le _) hk, hne, ?_, ?_⟩
  · rw [herr']; split_ifs
    · exact Or.inl rfl
    · exact Or.inr rfl
  · rw [herr']; exact mismatch_code_low_byte _ _ (by omega)
  · simpa using hal
  · intro n a
    have h0 : ParseCommand oob 8 (bytes "SET DATE $D") (bytes "SET DAT 2024/06/18") a =
        some { error := ERROR_PARTIAL ||| 7, args := a, uart := [] } := rfl
    exact ParseCommand_mono oob _ _ a 8 _ h0 (n + 8) (by omega)

/-- Claim C17 on the template `SET DATE $D` and the line `SET DAT 2024/06/18`: the low byte
is 7, and `SET DAT` is aligned with `SET DAT`. -/
theorem literal_mismatch_offset_witness :
    (ERROR_PARTIAL ||| 7) &&& 0x00ff = 7 ∧
      aligns ((bytes "SET DATE $D").take 7) ((bytes "SET DAT 2024/06/18").take 7) = true :=
  ⟨(literal_mismatch_offset (fun _ => 0) 20 (bytes "SET DATE $D") (bytes "SET DAT 2024/06/18")
      { month := 0, day := 0, year := 0, time := 0 }
      { error := ERROR_PARTIAL ||| 7, args := { month := 0, day := 0, year := 0, time := 0 }
        uart := [] }
      { site := .literal, i := 7, j := 7, has_space := 1, aligned := 1 }
      (by decide) (by decide) (by decide) (by decide) (by decide) rfl).2.1,
    (literal_mismatch_offset (fun _ => 0) 20 (bytes "SET DATE $D") (bytes "SET DAT 2024/06/18")
      { month := 0, day := 0, year := 0, time := 0 }
      { error := ERROR_PARTIAL ||| 7, args := { month := 0, day := 0, year := 0, time := 0 }
        uart := [] }
      { site := .literal, i := 7, j := 7, has_space := 1, aligned := 1 }
      (by decide) (by decide) (by decide) (by decide) (by decide) rfl).2.2.2.2.2.1⟩

/-- Before any placeholder, a template space has been passed only when an input space has
been met. -/
theorem exitLoop_aligned_has_space (oob : Int → Nat) (pattern command : List Nat)
    (hP : pattern.length ≤ 254) (hC : command.length ≤ 255) (fuel : Nat)
    (i j sk hs al : Nat) (e : ParseExit)
    (h : ParseCommandExitLoop oob pattern command fuel i j sk hs al = some e)
    (h0 : al ≠ 0 → hs ≠ 0) (h36 : ∀ k, j ≤ k → k < e.j → byteAt pattern k ≠ 36) :
    e.aligned ≠ 0 → e.has_space ≠ 0 := by
  revert h0 h36
  refine exitLoop_induction oob pattern command hP hC
    (fun _ j _ hs al e => (al ≠ 0 → hs ≠ 0) →
      (∀ k, j ≤ k → k < e.j → byteAt pattern k ≠ 36) → e.aligned ≠ 0 → e.has_space ≠ 0)
    ?_ ?_ ?_ ?_ ?_ fuel i j sk hs al e h
  · intro i j sk hs al _ h0 _
    exact h0
  · intro i j sk hs al e _ _ _ _ ih h0 h36
    exact ih h0 h36
  · intro i j sk hs al _ _ _ _ _ h0 _ ha
    simp only at ha ⊢
    split_ifs
    · decide
    · exact h0 ha
  · intro i j sk hs al e _ _ _ _ h4 _ _ ih h0 h36
    refine ih ?_ (fun k hk1 hk2 => h36 k (by omega) hk2)
    have h32 : byteAt pattern j = 32 ↔ byteAt command i = 32 := by
      rw [← ToUpperCase_eq_iff (byteAt pattern j) 32 (by decide),
        ← ToUpperCase_eq_iff (byteAt command i) 32 (by decide), h4]
    by_cases hsp : byteAt command i = 32
    · simp [hsp]
    · have hpp : ¬ byteAt pattern j = 32 := fun hx => hsp (h32.1 hx)
      simp only [hsp, hpp, if_false]
      exact h0
  · intro i j sk hs al e h3 hj _ _ h36
    exact absurd h3 (h36 j (le_refl _) hj)

/-- Claim C18, as stated, fails: on the template `MUTE`, which has no space, and the line
`M UTE`, `ParseCommand` returns at the literal comparison of `U` with the space at index 1,
and the result is `ERROR_PARTIAL` although no run of spaces of the input has been aligned
with a template space. -/
theorem space_in_word_gives_partial :
    ParseCommand (fun _ => 0) 10 (bytes "MUTE") (bytes "M UTE")
        { month := 0, day := 0, year := 0, time := 0 } =
      some { error := ERROR_PARTIAL ||| 1
             args := { month := 0, day := 0, year := 0, time := 0 }, uart := [] } ∧
    ParseCommandExit (fun _ => 0) 10 (bytes "MUTE") (bytes "M UTE") =
      some { site := .literal, i := 1, j := 1, has_space := 1, aligned := 0 } ∧
    32 ∉ bytes "MUTE" := by
  decide

/-- Claim C18, amended.  When `ParseCommand` returns at the literal comparison of input index
`i`, on a template whose placeholder (if any) is its last item and on a line that fits the
`uint8_t` index, the result is `ERROR_PARTIAL` exactly when the input has a space at an index
up to and including `i`, and `ERROR_NOT_MATCH` exactly when it has none; whether that space
was aligned with a template space plays no part.  When a template space has been aligned
(which is the case exactly when the template has a space before `j`), the result is
`ERROR_PARTIAL`. -/
theorem literal_mismatch_partial_iff_space_seen (oob : Int → Nat) (fuel : Nat)
    (pattern command : List Nat) (args : datetime_t) (r : ParseResult) (e : ParseExit)
    (hP : pattern.length ≤ 254) (hC : command.length ≤ 255) (hL : PlaceholderLast pattern)
    (hr : ParseCommand oob fuel pattern command args = some r)
    (he : ParseCommandExit oob fuel pattern command = some e) (hs : e.site = .literal) :
    (r.error = ERROR_PARTIAL ||| e.i ↔ ∃ k ≤ e.i, byteAt command k = 32) ∧
    (r.error = ERROR_NOT_MATCH ||| e.i ↔ ¬ ∃ k ≤ e.i, byteAt command k = 32) ∧
    (e.aligned ≠ 0 ↔ ∃ k < e.j, byteAt pattern k = 32) ∧
    (e.aligned ≠ 0 → r.error = ERROR_PARTIAL ||| e.i) := by
  have herr := ParseCommand_error_of_exit oob fuel pattern command args r e hr he
  obtain ⟨hc, hp, _, hne⟩ := (exitLoop_site oob pattern command fuel 0 0 0 0 0 e he).1 hs
  have hi := lt_length_of_byteAt_ne_zero _ _ hc
  have h36 := exitLoop_literal_before_placeholder oob pattern command hP hC hL fuel 0 0 0 0 0 e
    he (fun k hk => absurd hk (Nat.not_lt_zero k)) hs
  obtain ⟨_, hhas⟩ := exitLoop_has_space oob pattern command hP hC fuel 0 0 0 0 0 e he
    (fun h => absurd rfl h) (fun k _ hk => h36 k hk)
  obtain ⟨_, hal⟩ := exitLoop_aligned oob pattern command hP hC fuel 0 0 0 0 0 e he
    (fun k _ hk => h36 k hk)
  obtain ⟨_, _, _, hali⟩ := exitLoop_aligns oob pattern command hP hC fuel 0 0 0 0 0 e he
    (fun k _ hk => h36 k hk)
  have hi255 : e.i &&& 0x00ff = e.i := and_255_of_le e.i (by omega)
  have herr' : r.error = (if e.has_space ≠ 0 then ERROR_PARTIAL else ERROR_NOT_MATCH) ||| e.i := by
    rw [herr]; unfold exitError; rw [hs]; simp only; rw [hi255]
  have hsp : e.has_space ≠ 0 ↔ ∃ k ≤ e.i, byteAt command k = 32 := by
    rw [hhas]
    constructor
    · rintro (h | ⟨k, _, hk | ⟨hk, _⟩, hk3⟩)
      · exact absurd rfl h
      · exact ⟨k, by omega, hk3⟩
      · exact ⟨k, by omega, hk3⟩
    · rintro ⟨k, hk, hk3⟩
      refine Or.inr ⟨k, Nat.zero_le _, ?_, hk3⟩
      by_cases hki : k = e.i
      · exact Or.inr ⟨hki, hs⟩
      · exact Or.inl (by omega)
  have hal' : e.aligned ≠ 0 ↔ ∃ k < e.j, byteAt pattern k = 32 := by
    rw [hal]
    constructor
    · rintro (h | ⟨k, _, hk, hk3⟩)
      · exact absurd rfl h
      · exact ⟨k, hk, hk3⟩
    · rintro ⟨k, hk, hk3⟩
      exact Or.inr ⟨k, Nat.zero_le _, hk, hk3⟩
  have hp1 : r.error = ERROR_PARTIAL ||| e.i ↔ e.has_space ≠ 0 := by
    rw [herr']
    constructor
    · intro h
      by_cases hn : e.has_space ≠ 0
      · exact hn
      · rw [if_neg hn] at h
        exact absurd h.symm (partial_ne_not_match e.i e.i (by omega))
    · intro h; rw [if_pos h]
  have hp2 : r.error = ERROR_NOT_MATCH ||| e.i ↔ ¬ e.has_space ≠ 0 := by
    rw [herr']
    constructor
    · intro h hn
      rw [if_pos hn] at h
      exact partial_ne_not_match e.i e.i (by omega) h
    · intro h; rw [if_neg h]
  exact ⟨by rw [hp1, hsp], by rw [hp2, hsp], hal', fun h => hp1.2
    (exitLoop_aligned_has_space oob pattern command hP hC fuel 0 0 0 0 0 e he
      (fun h0 => absurd rfl h0) (fun k _ hk => h36 k hk) h)⟩

/-- Claim C18, amended, on the template `GET DATE` and the line `GETDATE`: the comparison
fails at index 3, no space has been met, and the result is `ERROR_NOT_MATCH` with offset 3. -/
theorem literal_mismatch_partial_iff_space_seen_witness :
    ((ERROR_NOT_MATCH ||| 3 = ERROR_NOT_MATCH ||| 3) ↔
      ¬ ∃ k ≤ 3, byteAt (bytes "GETDATE") k = 32) :=
  (literal_mismatch_partial_iff_space_seen (fun _ => 0) 20 (bytes "GET DATE") (bytes "GETDATE")
    { month := 0, day := 0, year := 0, time := 0 }
    { error := ERROR_NOT_MATCH ||| 3, args := { month := 0, day := 0, year := 0, time := 0 }
      uart := [] }
    { site := .literal, i := 3, j := 3, has_space := 0, aligned := 0 }
    (by decide) (by decide) (by decide) (by decide) (by decide) rfl).2.1

/-- Claim C19, as stated, fails: on the template `CLOCK INIT` and the line `CLOCK` the input
ends where the template has its space; no separator has been aligned and the input has no
space, yet the result is `ERROR_PARTIAL` (with offset 5). -/
theorem input_end_at_template_space_gives_partial :
    ParseCommand (fun _ => 0) 10 (bytes "CLOCK INIT") (bytes "CLOCK")
        { month := 0, day := 0, year := 0, time := 0 } =
      some { error := ERROR_PARTIAL ||| 5
             args := { month := 0, day := 0, year := 0, time := 0 }, uart := [] } ∧
    ParseCommandExit (fun _ => 0) 10 (bytes "CLOCK INIT") (bytes "CLOCK") =
      some { site := .ended, i := 5, j := 5, has_space := 0, aligned := 0 } ∧
    32 ∉ bytes "CLOCK" := by
  decide

/-- Claim C19, amended.  When `ParseCommand` returns behind its loop because the input or the
template has ended and the other has not, before any placeholder of the template and on a
line that fits the `uint8_t` index: the result is `ERROR_PARTIAL` exactly when the input has
a space before the index `i` reached or the template character reached is a space, and
`ERROR_NOT_MATCH` exactly when neither holds; its low byte is `i`; and the input before `i`
is aligned with the template before `j`. -/
theorem end_mismatch_partial_iff (oob : Int → Nat) (fuel : Nat)
    (pattern command : List Nat) (args : datetime_t) (r : ParseResult) (e : ParseExit)
    (hP : pattern.length ≤ 254) (hC : command.length ≤ 255)
    (hr : ParseCommand oob fuel pattern command args = some r)
    (he : ParseCommandExit oob fuel pattern command = some e) (hs : e.site = .ended)
    (h36 : ∀ k < e.j, byteAt pattern k ≠ 36) :
    (byteAt command e.i = 0 ∨ byteAt pattern e.j = 0) ∧
    (byteAt command e.i ≠ 0 ∨ byteAt pattern e.j ≠ 0) ∧
    (r.error = ERROR_PARTIAL ||| e.i ↔
      (∃ k < e.i, byteAt command k = 32) ∨ byteAt pattern e.j = 32) ∧
    (r.error = ERROR_NOT_MATCH ||| e.i ↔
      ¬ ((∃ k < e.i, byteAt command k = 32) ∨ byteAt pattern e.j = 32)) ∧
    r.error &&& 0x00ff = e.i ∧
    aligns (pattern.take e.j) (command.take e.i) = true := by
  have herr := ParseCommand_error_of_exit oob fuel pattern command args r e hr he
  obtain ⟨hend1, hend2⟩ := (exitLoop_site oob pattern command fuel 0 0 0 0 0 e he).2.1 hs
  obtain ⟨_, hhas⟩ := exitLoop_has_space oob pattern command hP hC fuel 0 0 0 0 0 e he
    (fun h => absurd rfl h) (fun k _ hk => h36 k hk)
  obtain ⟨_, _, hnz, hali⟩ := exitLoop_aligns oob pattern command hP hC fuel 0 0 0 0 0 e he
    (fun k _ hk => h36 k hk)
  have hi : e.i ≤ 255 := by
    by_contra hgt
    have := lt_length_of_byteAt_ne_zero _ _ (hnz 255 (Nat.zero_le _) (by omega))
    omega
  have hi255 : e.i &&& 0x00ff = e.i := and_255_of_le e.i hi
  have herr' : r.error = (if e.has_space ≠ 0 ∨ byteAt pattern e.j = 32 then ERROR_PARTIAL
      else ERROR_NOT_MATCH) ||| e.i := by
    rw [herr]; unfold exitError; rw [hs]; simp only; rw [hi255]
  have hsp : e.has_space ≠ 0 ↔ ∃ k < e.i, byteAt command k = 32 := by
    rw [hhas]
    constructor
    · rintro (h | ⟨k, _, hk | ⟨_, hk⟩, hk3⟩)
      · exact absurd rfl h
      · exact ⟨k, hk, hk3⟩
      · rw [hs] at hk; exact absurd hk (by decide)
    · rintro ⟨k, hk, hk3⟩
      exact Or.inr ⟨k, Nat.zero_le _, Or.inl hk, hk3⟩
  have hp1 : r.error = ERROR_PARTIAL ||| e.i ↔ (e.has_space ≠ 0 ∨ byteAt pattern e.j = 32) := by
    rw [herr']
    constructor
    · intro h
      by_cases hn : e.has_space ≠ 0 ∨ byteAt pattern e.j = 32
      · exact hn
      · rw [if_neg hn] at h
        exact absurd h.symm (partial_ne_not_match e.i e.i hi)
    · intro h; rw [if_pos h]
  have hp2 : r.error = ERROR_NOT_MATCH ||| e.i ↔
      ¬ (e.has_space ≠ 0 ∨ byteAt pattern e.j = 32) := by
    rw [herr']
    constructor
    · intro h hn
      rw [if_pos hn] at h
      exact partial_ne_not_match e.i e.i hi h
    · intro h; rw [if_neg h]
  refine ⟨hend1, hend2, by rw [hp1, hsp], by rw [hp2, hsp], ?_, by simpa using hali⟩
  rw [herr']
  exact mismatch_code_low_byte _ _ hi

/-- Claim C19, amended, on the template `GET DATE` and the line `GET`: the input ends where
the template has its space, and the result is `ERROR_PARTIAL` with offset 3. -/
theorem end_mismatch_partial_iff_witness :
    ((ERROR_PARTIAL ||| 3 = ERROR_PARTIAL ||| 3) ↔
      (∃ k < 3, byteAt (bytes "GET") k = 32) ∨ byteAt (bytes "GET DATE") 3 = 32) ∧
    (ERROR_PARTIAL ||| 3) &&& 0x00ff = 3 :=
  ⟨(end_mismatch_partial_iff (fun _ => 0) 20 (bytes "GET DATE") (bytes "GET")
      { month := 0, day := 0, year := 0, time := 0 }
      { error := ERROR_PARTIAL ||| 3, args := { month := 0, day := 0, year := 0, time := 0 }
        uart := [] }
      { site := .ended, i := 3, j := 3, has_space := 0, aligned := 0 }
      (by decide) (by decide) (by decide) (by decide) rfl (by decide)).2.2.1,
    (end_mismatch_partial_iff (fun _ => 0) 20 (bytes "GET DATE") (bytes "GET")
      { month := 0, day := 0, year := 0, time := 0 }
      { error := ERROR_PARTIAL ||| 3, args := { month := 0, day := 0, year := 0, time := 0 }
        uart := [] }
      { site := .ended, i := 3, j := 3, has_space := 0, aligned := 0 }
      (by decide) (by decide) (by decide) (by decide) rfl (by decide)).2.2.2.2.1⟩

/-! ### Lines aligned with a template -/

/-- When the list from place `i` on starts with `b`, the byte at `i` is `b`, and the list from
place `i + 1` on is the rest. -/
theorem byteAt_of_drop (l : List Nat) (i b : Nat) (t : List Nat) (h : l.drop i = b :: t) :
    byteAt l i = b ∧ i < l.length ∧ l.drop (i + 1) = t := by
  have hi : i < l.length := by
    by_contra hn
    rw [List.drop_eq_nil_of_le (Nat.le_of_not_lt hn)] at h
    exact absurd h (by simp)
  rw [List.drop_eq_getElem_cons hi] at h
  simp only [List.cons.injEq] at h
  refine ⟨?_, hi, h.2⟩
  unfold byteAt
  rw [List.getD_eq_getElem _ _ hi]
  exact h.1

/-- When the list from place `i` on starts like `r`, the byte at `i` is the first of `r`. -/
theorem byteAt_of_drop_append (l : List Nat) (i : Nat) (r : List Nat) (h : l.drop i = r) :
    byteAt l i = byteAt r 0 := by
  cases r with
  | nil =>
    have : l.length ≤ i := List.drop_eq_nil_iff.1 h
    unfold byteAt
    rw [List.getD_eq_default _ _ this]
    rfl
  | cons b t =>
    rw [(byteAt_of_drop l i b t h).1]
    simp [byteAt]

/-- The loop of `ParseCommand` passes a part of the input that is aligned with a part of the
template without placeholder: after as many rounds as the input part has characters, it
stands behind both parts. -/
theorem exitLoop_progress (oob : Int → Nat) (pattern command : List Nat)
    (hP : pattern.length ≤ 254) (hC : command.length ≤ 255) (postP postC : List Nat) :
    ∀ (c p : List Nat) (i j sk hs al fuel : Nat),
      pattern.drop j = p ++ postP → command.drop i = c ++ postC →
      aligns p (if sk ≠ 0 then c.dropWhile (fun x => x = 32) else c) = true →
      (∀ a ∈ p, a ≠ 0 ∧ a ≠ 36) →
      (sk ≠ 0 → p = [] → c = [] ∨ byteAt postP 0 ≠ 0) →
      (p.getLast? = some 32 → byteAt postP 0 ≠ 0) →
      ∃ sk' hs' al',
        ParseCommandExitLoop oob pattern command (fuel + c.length) i j sk hs al =
          ParseCommandExitLoop oob pattern command fuel (i + c.length) (j + p.length)
            sk' hs' al' := by
  intro c
  induction c with
  | nil =>
    intro p i j sk hs al fuel _ _ hal _ _ _
    have hp : p = [] := by
      cases p with
      | nil => rfl
      | cons a p' => simp [aligns] at hal
    subst hp
    exact ⟨sk, hs, al, rfl⟩
  | cons b c' ih =>
    intro p i j sk hs al fuel hpd hcd hal hpz hsk hlast
    obtain ⟨hci, hilt, hcd'⟩ := byteAt_of_drop command i b (c' ++ postC) (by simpa using hcd)
    have hi1 : (i + 1) % 256 = i + 1 := Nat.mod_eq_of_lt (by omega)
    have hfuel : fuel + (b :: c').length = (fuel + c'.length) + 1 := by simp; omega
    have hiadd : i + (b :: c').length = (i + 1) + c'.length := by simp; omega
    rw [hfuel, hiadd]
    by_cases hA : b = 32 ∧ sk ≠ 0
    · -- a space behind a space is skipped
      have hpj : byteAt pattern j ≠ 0 := by
        rw [byteAt_of_drop_append pattern j _ hpd]
        cases p with
        | nil =>
          rcases hsk hA.2 rfl with h | h
          · exact absurd h (by simp)
          · simpa using h
        | cons a p' =>
          have := (hpz a (List.mem_cons_self _ _)).1
          simpa [byteAt] using this
      rw [exitLoop_skip oob pattern command _ i j sk hs al (by rw [hci]; exact hA.1) hpj hA.2,
        hi1]
      refine ih p (i + 1) j sk hs al fuel hpd hcd' ?_ hpz ?_ hlast
      · rw [if_pos hA.2] at hal ⊢
        rw [hA.1] at hal
        simpa using hal
      · intro _ hp0
        cases p with
        | nil =>
          rcases hsk hA.2 rfl with h | h
          · exact absurd h (by simp)
          · exact Or.inr h
        | cons a p' => exact absurd hp0 (by simp)
    · -- a character is compared with the template
      have heff : (if sk ≠ 0 then (b :: c').dropWhile (fun x => x = 32) else b :: c') = b :: c' := by
        by_cases hs0 : sk ≠ 0
        · have : b ≠ 32 := fun hx => hA ⟨hx, hs0⟩
          rw [if_pos hs0, List.dropWhile_cons_of_neg (by simpa using this)]
        · rw [if_neg hs0]
      rw [heff] at hal
      cases p with
      | nil => simp [aligns] at hal
      | cons a p' =>
        obtain ⟨hpj, hjlt, hpd'⟩ := byteAt_of_drop pattern j a (p' ++ postP) (by simpa using hpd)
        have hj1 : (j + 1) % 256 = j + 1 := Nat.mod_eq_of_lt (by omega)
        have hjadd : j + (a :: p').length = (j + 1) + p'.length := by simp; omega
        rw [hjadd]
        obtain ⟨ha0, ha36⟩ := hpz a (List.mem_cons_self _ _)
        have hpz' : ∀ x ∈ p', x ≠ 0 ∧ x ≠ 36 := fun x hx => hpz x (List.mem_cons_of_mem _ hx)
        have hlast' : p'.getLast? = some 32 → byteAt postP 0 ≠ 0 := by
          intro h
          apply hlast
          cases p' with
          | nil => simp at h
          | cons x xs => simpa [List.getLast?_cons_cons] using h
        by_cases ha : a = 32
        · subst ha
          simp only [aligns, if_true, Bool.and_eq_true, decide_eq_true_eq] at hal
          obtain ⟨hb, hal'⟩ := hal
          subst hb
          rw [exitLoop_literal oob pattern command _ i j sk hs al (by rw [hci]; decide)
            (by rw [hpj]; decide) (by rw [hci]; exact hA) (by rw [hpj]; decide),
            if_neg (by rw [hci, hpj]; simp), hi1, hj1]
          simp only [hci, hpj, if_true]
          refine ih p' (i + 1) (j + 1) 1 1 (al + 1) fuel hpd' hcd' ?_ hpz' ?_ hlast'
          · simpa using hal'
          · intro _ hp0
            subst hp0
            exact Or.inr (hlast rfl)
        · simp only [aligns, ha, if_false, Bool.and_eq_true, decide_eq_true_eq] at hal
          obtain ⟨⟨hb, hup⟩, hal'⟩ := hal
          have hb0 : b ≠ 0 := by
            intro hb0
            rw [hb0] at hup
            exact ha0 ((ToUpperCase_eq_iff a 0 (by decide)).1 (by rw [hup]; rfl))
          rw [exitLoop_literal oob pattern command _ i j sk hs al (by rw [hci]; exact hb0)
            (by rw [hpj]; exact ha0) (by rw [hci]; exact hA) (by rw [hpj]; exact ha36),
            if_neg (by rw [hci, hpj]; simpa using hup), hi1, hj1]
          simp only [hci, hpj, if_neg hb, if_neg ha]
          refine ih p' (i + 1) (j + 1) 0 hs al fuel hpd' hcd' ?_ hpz' ?_ hlast'
          · simpa using hal'
          · intro h; exact absurd rfl h

/-- On a template without placeholder, without NUL and without a space at its end, a line
aligned with the template is passed to the end, where `ParseCommand` returns at its last
statement. -/
theorem ParseCommandExit_of_aligns (oob : Int → Nat) (pattern command : List Nat) (n : Nat)
    (hP : pattern.length ≤ 254) (hC : command.length ≤ 255)
    (hpz : ∀ a ∈ pattern, a ≠ 0 ∧ a ≠ 36) (hlast : pattern.getLast? ≠ some 32)
    (hal : aligns pattern command = true) :
    ∃ e, ParseCommandExit oob (command.length + 1 + n) pattern command = some e ∧
      e.site = .success := by
  obtain ⟨sk, hs, al, h⟩ := exitLoop_progress oob pattern command hP hC [] [] command pattern
    0 0 0 0 0 (n + 1) (by simp) (by simp) (by simpa using hal) hpz
    (fun h => absurd rfl h) (fun h => absurd h hlast)
  have hc0 : byteAt command (0 + command.length) = 0 := by
    unfold byteAt; rw [List.getD_eq_default _ _ (by omega)]
  have hp0 : byteAt pattern (0 + pattern.length) = 0 := by
    unfold byteAt; rw [List.getD_eq_default _ _ (by omega)]
  have hfuel : command.length + 1 + n = n + 1 + command.length := by omega
  unfold ParseCommandExit
  rw [hfuel, h, exitLoop_end oob pattern command n _ _ sk hs al (by rw [hc0]; simp)]
  rw [hc0, hp0]
  exact ⟨_, rfl, by simp⟩

/-- Claim C16.  For every template of the command set that has no placeholder and every line
of at most 255 characters that is aligned with it, that is, obtained from the template by
putting a run of one or more spaces for each space and changing the case of letters,
`ParseCommand` with enough fuel returns `ERROR_SUCCESS`. -/
theorem placeholder_free_templates_match_variants (oob : Int → Nat) (n : Nat)
    (template input : List Nat) (args : datetime_t)
    (ht : template ∈ placeholderFreeTemplates) (hlen : input.length ≤ 255)
    (hv : aligns template input = true) :
    ∃ r, ParseCommand oob (input.length + 1 + n) template input args = some r ∧
      r.error = ERROR_SUCCESS := by
  have hcls : ∀ t ∈ placeholderFreeTemplates,
      t.length ≤ 254 ∧ (∀ a ∈ t, a ≠ 0 ∧ a ≠ 36) ∧ t.getLast? ≠ some 32 := by decide
  obtain ⟨h1, h2, h3⟩ := hcls template ht
  obtain ⟨e, he, hes⟩ := ParseCommandExit_of_aligns oob template input n h1 hlen h2 h3 hv
  obtain ⟨r, hr, hre⟩ := ParseCommand_of_exit oob _ template input e he args
  exact ⟨r, hr, by rw [hre]; exact (exitError_eq_zero_iff template e).2 hes⟩

/-- Claim C16 on the template `GET DATE` and the line `get   date`. -/
theorem placeholder_free_templates_match_variants_witness :
    ∃ r, ParseCommand (fun _ => 0) ((bytes "get   date").length + 1 + 0) (bytes "GET DATE")
        (bytes "get   date") { month := 0, day := 0, year := 0, time := 0 } = some r ∧
      r.error = ERROR_SUCCESS :=
  placeholder_free_templates_match_variants (fun _ => 0) 0 (bytes "GET DATE")
    (bytes "get   date") { month := 0, day := 0, year := 0, time := 0 } (by decide) (by decide)
    (by decide)

/-! ### Malformed placeholder groups -/

/-- With more fuel than the string has characters behind the index, the loop of
`ParseIntegerUntil` returns. -/
theorem ParseIntegerUntilLoop_total (str : List Nat) (delim : Nat) (hlen : str.length ≤ 255)
    (fuel : Nat) :
    ∀ (index : Nat) (acc : Int), str.length - index < fuel →
      ∃ x, ParseIntegerUntilLoop str delim fuel index acc = some x := by
  induction fuel with
  | zero => intro index acc h; omega
  | succ fuel ih =>
    intro index acc h
    unfold ParseIntegerUntilLoop
    by_cases h1 : byteAt str index ≠ 0 ∧ byteAt str index ≠ delim
    · rw [if_pos h1]
      have hi := lt_length_of_byteAt_ne_zero _ _ h1.1
      by_cases h2 : 48 ≤ byteAt str index ∧ byteAt str index ≤ 57
      · rw [if_pos h2]
        rw [Nat.mod_eq_of_lt (by omega : index + 1 < 256)]
        exact ih _ _ (by omega)
      · rw [if_neg h2]; exact ⟨_, rfl⟩
    · rw [if_neg h1]
      split_ifs <;> exact ⟨_, rfl⟩

/-- When `ParseIntegerUntil` succeeds on an input without NUL, the group it has scanned is
one of the specification: digits, then the delimiter; and the index it leaves is the one
behind the delimiter. -/
theorem ParseIntegerUntilLoop_success_scan (str : List Nat) (delim : Nat)
    (hlen : str.length ≤ 255) (fuel : Nat) :
    ∀ (index : Nat) (acc : Int) (l : List Nat) (index' : Nat) (res : Int),
      str.drop index = l → (∀ c ∈ l, c ≠ 0) →
      ParseIntegerUntilLoop str delim fuel index acc = some (ERROR_SUCCESS, index', res) →
      ∃ t, scanGroup delim l = some t ∧
        (delim ≠ 0 → str.drop index' = t ∧ ∀ c ∈ t, c ≠ 0) := by
  induction fuel with
  | zero => intro index acc l index' res _ _ h; simp [ParseIntegerUntilLoop] at h
  | succ fuel ih =>
    intro index acc l index' res hd hnz h
    unfold ParseIntegerUntilLoop at h
    have hb := byteAt_of_drop_append str index l hd
    cases l with
    | nil =>
      have hb0 : byteAt str index = 0 := by rw [hb]; rfl
      rw [if_neg (by rw [hb0]; simp)] at h
      by_cases hdl : byteAt str index = delim
      · have hdelim : delim = 0 := by rw [← hdl, hb0]
        exact ⟨[], by simp [scanGroup, hdelim], fun hne => absurd hdelim hne⟩
      · rw [if_neg hdl] at h
        simp [ERROR_NO_DELIM, ERROR_SUCCESS] at h
    | cons c t =>
      obtain ⟨hc, hi, hd'⟩ := byteAt_of_drop str index c t hd
      have hc0 : c ≠ 0 := hnz c (List.mem_cons_self _ _)
      have hnz' : ∀ x ∈ t, x ≠ 0 := fun x hx => hnz x (List.mem_cons_of_mem _ hx)
      have hi1 : (index + 1) % 256 = index + 1 := Nat.mod_eq_of_lt (by omega)
      rw [hc, hi1] at h
      by_cases hcd : c = delim
      · rw [if_neg (by simp [hcd]), if_pos hcd] at h
        simp only [Option.some.injEq, Prod.mk.injEq, true_and] at h
        refine ⟨t, by simp [scanGroup, hcd], fun _ => ?_⟩
        rw [← h.1]
        exact ⟨hd', hnz'⟩
      · rw [if_pos ⟨hc0, hcd⟩] at h
        by_cases hdig : 48 ≤ c ∧ c ≤ 57
        · rw [if_pos hdig] at h
          obtain ⟨t', ht', hrest⟩ := ih _ _ t index' res hd' hnz' h
          exact ⟨t', by simp [scanGroup, hcd, hdig, ht'], hrest⟩
        · rw [if_neg hdig] at h
          simp [ERROR_NOT_DIGIT, ERROR_SUCCESS] at h

/-- With more fuel than the command has characters, `ParseIntegerUntil` returns. -/
theorem ParseIntegerUntil_total (fuel : Nat) (str : List Nat) (delim index : Nat)
    (hlen : str.length ≤ 255) (hf : str.length < fuel) :
    ∃ e i t, ParseIntegerUntil fuel str delim index = some (e, i, t) := by
  obtain ⟨⟨e, i, t⟩, h⟩ := ParseIntegerUntilLoop_total str delim hlen fuel index 0 (by omega)
  exact ⟨e, i, t, h⟩

/-- A malformed input makes the time placeholder end in a `return ERROR_FORMAT`. -/
theorem parseTime_format_of_malformed (fuel : Nat) (command : List Nat) (i : Nat)
    (a : datetime_t) (rest : List Nat) (hlen : command.length ≤ 255)
    (hf : command.length < fuel) (hd : command.drop i = rest) (hnz : ∀ c ∈ rest, c ≠ 0)
    (hm : groupsMalformed 58 rest = true) :
    ∃ u a', parseTime fuel command 0 i a = some (.format u a') := by
  unfold parseTime
  obtain ⟨e1, i1, t1, h1⟩ := ParseIntegerUntil_total fuel command 58 i hlen hf
  rw [h1]
  simp only
  by_cases he1 : e1 ≠ ERROR_SUCCESS
  · rw [if_pos he1]; exact ⟨_, _, rfl⟩
  · rw [if_neg he1]
    have he1' : e1 = ERROR_SUCCESS := not_not.1 he1
    subst he1'
    obtain ⟨r1, hs1, hr1⟩ := ParseIntegerUntilLoop_success_scan command 58 hlen fuel i 0 rest
      i1 t1 hd hnz h1
    obtain ⟨hd1, hnz1⟩ := hr1 (by decide)
    by_cases hv1 : ¬ (t1 ≥ 0 ∧ t1 ≤ 23)
    · rw [if_pos hv1]; exact ⟨_, _, rfl⟩
    · rw [if_neg hv1]
      obtain ⟨e2, i2, t2, h2⟩ := ParseIntegerUntil_total fuel command 58 i1 hlen hf
      rw [h2]
      simp only
      by_cases he2 : e2 ≠ ERROR_SUCCESS
      · rw [if_pos he2]; exact ⟨_, _, rfl⟩
      · rw [if_neg he2]
        have he2' : e2 = ERROR_SUCCESS := not_not.1 he2
        subst he2'
        obtain ⟨r2, hs2, hr2⟩ := ParseIntegerUntilLoop_success_scan command 58 hlen fuel i1 0
          r1 i2 t2 hd1 hnz1 h2
        obtain ⟨hd2, hnz2⟩ := hr2 (by decide)
        by_cases hv2 : ¬ (t2 ≥ 0 ∧ t2 ≤ 59)
        · rw [if_pos hv2]; exact ⟨_, _, rfl⟩
        · rw [if_neg hv2]
          obtain ⟨e3, i3, t3, h3⟩ := ParseIntegerUntil_total fuel command 0 i2 hlen hf
          rw [h3]
          simp only
          by_cases he3 : e3 ≠ ERROR_SUCCESS
          · rw [if_pos he3]; exact ⟨_, _, rfl⟩
          · rw [if_neg he3]
            have he3' : e3 = ERROR_SUCCESS := not_not.1 he3
            subst he3'
            obtain ⟨r3, hs3, _⟩ := ParseIntegerUntilLoop_success_scan command 0 hlen fuel i2 0
              r2 i3 t3 hd2 hnz2 h3
            simp [groupsMalformed, hs1, hs2, hs3] at hm

/-- A malformed input makes the date placeholder end in a `return ERROR_FORMAT`. -/
theorem parseDate_format_of_malformed (oob : Int → Nat) (fuel : Nat) (command : List Nat)
    (i : Nat) (a : datetime_t) (rest : List Nat) (hlen : command.length ≤ 255)
    (hf : command.length < fuel) (hd : command.drop i = rest) (hnz : ∀ c ∈ rest, c ≠ 0)
    (hm : groupsMalformed 47 rest = true) :
    ∃ u a', parseDate oob fuel command 0 i a = some (.format u a') := by
  unfold parseDate
  obtain ⟨e1, i1, t1, h1⟩ := ParseIntegerUntil_total fuel command 47 i hlen hf
  rw [h1]
  simp only
  by_cases he1 : e1 ≠ ERROR_SUCCESS
  · rw [if_pos he1]; exact ⟨_, _, rfl⟩
  · rw [if_neg he1]
    have he1' : e1 = ERROR_SUCCESS := not_not.1 he1
    subst he1'
    obtain ⟨r1, hs1, hr1⟩ := ParseIntegerUntilLoop_success_scan command 47 hlen fuel i 0 rest
      i1 t1 hd hnz h1
    obtain ⟨hd1, hnz1⟩ := hr1 (by decide)
    by_cases hv1 : ¬ (t1 ≥ 0 ∧ t1 ≤ 9999)
    · rw [if_pos hv1]; exact ⟨_, _, rfl⟩
    · rw [if_neg hv1]
      obtain ⟨e2, i2, t2, h2⟩ := ParseIntegerUntil_total fuel command 47 i1 hlen hf
      rw [h2]
      simp only
      by_cases he2 : e2 ≠ ERROR_SUCCESS
      · rw [if_pos he2]; exact ⟨_, _, rfl⟩
      · rw [if_neg he2]
        have he2' : e2 = ERROR_SUCCESS := not_not.1 he2
        subst he2'
        obtain ⟨r2, hs2, hr2⟩ := ParseIntegerUntilLoop_success_scan command 47 hlen fuel i1 0
          r1 i2 t2 hd1 hnz1 h2
        obtain ⟨hd2, hnz2⟩ := hr2 (by decide)
        by_cases hv2 : ¬ (t2 ≥ 0 ∧ t2 ≤ 12)
        · rw [if_pos hv2]; exact ⟨_, _, rfl⟩
        · rw [if_neg hv2]
          obtain ⟨e3, i3, t3, h3⟩ := ParseIntegerUntil_total fuel command 0 i2 hlen hf
          rw [h3]
          simp only
          by_cases he3 : e3 ≠ ERROR_SUCCESS
          · rw [if_pos he3]; exact ⟨_, _, rfl⟩
          · rw [if_neg he3]
            have he3' : e3 = ERROR_SUCCESS := not_not.1 he3
            subst he3'
            obtain ⟨r3, hs3, _⟩ := ParseIntegerUntilLoop_success_scan command 0 hlen fuel i2 0
              r2 i3 t3 hd2 hnz2 h3
            simp [groupsMalformed, hs1, hs2, hs3] at hm

/-- The byte of `l ++ r` at a place inside `l` is the one of `l`. -/
theorem byteAt_append_left (l r : List Nat) (k : Nat) (hk : k < l.length) :
    byteAt (l ++ r) k = byteAt l k := by
  unfold byteAt
  rw [List.getD_eq_getElem _ _ (by simp; omega), List.getD_eq_getElem _ _ hk,
    List.getElem_append_left hk]

/-- On a template made of a literal part and a placeholder, and a line whose beginning is
aligned with the literal part, `ParseCommand` reaches the placeholder with the index behind
that beginning. -/
theorem exitLoop_reach_placeholder (oob : Int → Nat) (lead : List Nat) (ty : Nat)
    (pre rest : List Nat) (fuel : Nat)
    (hP : lead.length + 2 ≤ 254) (hC : (pre ++ rest).length ≤ 255)
    (hlead : ∀ a ∈ lead, a ≠ 0 ∧ a ≠ 36) (hal : aligns lead pre = true) :
    ∃ sk hs al,
      ParseCommandExit oob (fuel + pre.length) (lead ++ [36, ty]) (pre ++ rest) =
        ParseCommandExitLoop oob (lead ++ [36, ty]) (pre ++ rest) fuel pre.length lead.length
          sk hs al := by
  obtain ⟨sk, hs, al, h⟩ := exitLoop_progress oob (lead ++ [36, ty]) (pre ++ rest)
    (by simp; omega) hC [36, ty] rest pre lead 0 0 0 0 0 fuel (by simp) (by simp)
    (by simpa using hal) hlead (fun h => absurd rfl h) (fun _ => by simp [byteAt])
  refine ⟨sk, hs, al, ?_⟩
  unfold ParseCommandExit
  rw [h]
  simp

/-- On the templates `SET DATE $D`, `SET TIME $T` and `SET ALARM $T`, seen as a literal part
and a placeholder: when the beginning of the line is aligned with the literal part and what
follows is malformed, `ParseCommand` returns at a `return ERROR_FORMAT`. -/
theorem ParseCommandExit_format_of_malformed (oob : Int → Nat) (lead : List Nat)
    (ty delim : Nat) (pre rest : List Nat) (c0 : Nat) (tail : List Nat) (n : Nat)
    (hP : lead.length + 2 ≤ 254) (hC : (pre ++ rest).length ≤ 255)
    (hlead : ∀ a ∈ lead, a ≠ 0 ∧ a ≠ 36) (hty : (ty = 84 ∧ delim = 58) ∨ (ty = 68 ∧ delim = 47))
    (hal : aligns lead pre = true) (hrest : rest = c0 :: tail) (hc0 : c0 ≠ 32)
    (hnz : ∀ c ∈ rest, c ≠ 0) (hm : groupsMalformed delim rest = true) :
    ∃ e, ParseCommandExit oob (n + 512) (lead ++ [36, ty]) (pre ++ rest) = some e ∧
      e.site = .format := by
  have hpl : pre.length ≤ 255 := by simp at hC; omega
  obtain ⟨F, hF⟩ : ∃ F, n + 512 = (F + 1) + pre.length := ⟨n + 511 - pre.length, by omega⟩
  have hFlen : (pre ++ rest).length < F := by omega
  obtain ⟨sk, hs, al, h⟩ := exitLoop_reach_placeholder oob lead ty pre rest (F + 1) hP hC hlead hal
  rw [hF, h]
  have hcd : (pre ++ rest).drop pre.length = rest := by simp
  obtain ⟨hci, _, _⟩ := byteAt_of_drop (pre ++ rest) pre.length c0 tail (by rw [hcd, hrest])
  have hpd : (lead ++ [36, ty]).drop lead.length = [36, ty] := by simp
  obtain ⟨hpj, _, hpd1⟩ := byteAt_of_drop (lead ++ [36, ty]) lead.length 36 [ty] hpd
  obtain ⟨hpj1, _, hpd2⟩ := byteAt_of_drop (lead ++ [36, ty]) (lead.length + 1) ty [] hpd1
  have hpj2 : byteAt (lead ++ [36, ty]) (lead.length + 1 + 1) = 0 := by
    rw [byteAt_of_drop_append _ _ _ hpd2]; rfl
  have hj1 : (lead.length + 1) % 256 = lead.length + 1 := Nat.mod_eq_of_lt (by omega)
  have hc00 : c0 ≠ 0 := hnz c0 (by rw [hrest]; exact List.mem_cons_self _ _)
  have hu : ¬ (ToUpperCase c0 = 32 ∧ sk ≠ 0) := by
    rw [ToUpperCase_eq_iff _ 32 (by decide)]; exact fun hx => hc0 hx.1
  rw [ParseCommandExitLoop, hci, hpj, if_pos ⟨hc00, by decide⟩]
  simp only
  rw [if_neg hu, if_pos (by decide), hj1, hpj1, hpj2]
  rcases hty with ⟨rfl, rfl⟩ | ⟨rfl, rfl⟩
  · obtain ⟨u, a', hx⟩ := parseTime_format_of_malformed F (pre ++ rest) pre.length
      { month := 0, day := 0, year := 0, time := 0 } rest hC hFlen hcd hnz hm
    rw [if_pos (by decide), hx]
    exact ⟨_, rfl, rfl⟩
  · obtain ⟨u, a', hx⟩ := parseDate_format_of_malformed oob F (pre ++ rest) pre.length
      { month := 0, day := 0, year := 0, time := 0 } rest hC hFlen hcd hnz hm
    rw [if_neg (by decide), if_pos (by decide), hx]
    exact ⟨_, rfl, rfl⟩

/-- On a template made of a literal part with a space and a placeholder: when the line is
aligned with the literal part and ends there, `ParseCommand` returns behind its loop, and the
result is `ERROR_PARTIAL` with the length of the line as its offset. -/
theorem ParseCommandExit_partial_of_end (oob : Int → Nat) (lead : List Nat) (ty : Nat)
    (pre : List Nat) (n : Nat) (hP : lead.length + 2 ≤ 254) (hC : pre.length ≤ 255)
    (hlead : ∀ a ∈ lead, a ≠ 0 ∧ a ≠ 36) (hsp : 32 ∈ lead) (hal : aligns lead pre = true) :
    ∃ e, ParseCommandExit oob (n + 512) (lead ++ [36, ty]) pre = some e ∧
      e.site = .ended ∧ exitError (lead ++ [36, ty]) e = ERROR_PARTIAL ||| pre.length := by
  obtain ⟨F, hF⟩ : ∃ F, n + 512 = (F + 1) + pre.length := ⟨n + 511 - pre.length, by omega⟩
  obtain ⟨sk, hs, al, h⟩ := exitLoop_reach_placeholder oob lead ty pre [] (F + 1) hP
    (by simpa using hC) hlead hal
  rw [List.append_nil] at h
  have hci : byteAt pre pre.length = 0 := by
    unfold byteAt; rw [List.getD_eq_default _ _ (le_refl _)]
  have hpd : (lead ++ [36, ty]).drop lead.length = [36, ty] := by simp
  obtain ⟨hpj, _, _⟩ := byteAt_of_drop (lead ++ [36, ty]) lead.length 36 [ty] hpd
  have hexit : ParseCommandExit oob (n + 512) (lead ++ [36, ty]) pre =
      some { site := .ended, i := pre.length, j := lead.length, has_space := hs, aligned := al } := by
    rw [hF, h, exitLoop_end oob _ _ F _ _ sk hs al (by rw [hci]; simp), hci, hpj]
    simp
  refine ⟨_, hexit, rfl, ?_⟩
  have h36 : ∀ k, 0 ≤ k → k < lead.length → byteAt (lead ++ [36, ty]) k ≠ 36 := by
    intro k _ hk
    rw [byteAt_append_left _ _ _ hk]
    unfold byteAt
    rw [List.getD_eq_getElem _ _ hk]
    exact (hlead _ (List.getElem_mem _)).2
  obtain ⟨k, hk, hk32⟩ := List.getElem_of_mem hsp
  have hal0 : al ≠ 0 :=
    ((exitLoop_aligned oob (lead ++ [36, ty]) pre (by simp; omega) hC (n + 512) 0 0 0 0 0 _
      hexit h36).2).2 (Or.inr ⟨k, Nat.zero_le _, hk, by
        rw [byteAt_append_left _ _ _ hk]; unfold byteAt
        rw [List.getD_eq_getElem _ _ hk]; exact hk32⟩)
  have hhs : hs ≠ 0 :=
    exitLoop_aligned_has_space oob (lead ++ [36, ty]) pre (by simp; omega) hC (n + 512) 0 0 0 0 0
      _ hexit (fun h0 => absurd rfl h0) h36 hal0
  unfold exitError
  simp only
  rw [if_pos (Or.inl hhs), and_255_of_le _ hC]

/-- Claim C20, as stated, fails: the line `SET TIME ` is aligned with the literal part of
`SET TIME $T` and ends before a `:` is reached, and `ParseCommand` returns `ERROR_PARTIAL`
(with offset 9), not `ERROR_FORMAT`. -/
theorem input_end_at_placeholder_gives_partial :
    aligns (bytes "SET TIME ") (bytes "SET TIME ") = true ∧
    groupsMalformed 58 [] = true ∧
    ParseCommand (fun _ => 0) 20 (bytes "SET TIME $T") (bytes "SET TIME ")
        { month := 0, day := 0, year := 0, time := 0 } =
      some { error := ERROR_PARTIAL ||| 9
             args := { month := 0, day := 0, year := 0, time := 0 }, uart := [] } := by
  decide

/-- Claim C20, amended.  For the templates `SET DATE $D`, `SET TIME $T` and `SET ALARM $T`
and every line of at most 255 characters whose beginning `pre` is aligned with the literal
part of the template: when the line goes on with a character other than a space, and one of
the three groups scanned for the placeholder holds a character that is not a decimal digit
before its delimiter, or the line ends before a `:` or `/` is reached, `ParseCommand` with
enough fuel returns `ERROR_FORMAT`; when the line ends with `pre`, `ParseCommand` returns
`ERROR_PARTIAL` with the length of the line as its offset. -/
theorem malformed_groups_give_format_error (oob : Int → Nat) (n : Nat)
    (template lead : List Nat) (delim : Nat) (pre rest : List Nat) (args : datetime_t)
    (ht : (template, lead, delim) ∈ setTemplates) (hlen : (pre ++ rest).length ≤ 255)
    (hal : aligns lead pre = true) (hnz : ∀ c ∈ rest, c ≠ 0)
    (hhead : rest.head? ≠ some 32) :
    (rest ≠ [] → groupsMalformed delim rest = true →
      ∃ r, ParseCommand oob (n + 512) template (pre ++ rest) args = some r ∧
        r.error = ERROR_FORMAT) ∧
    (rest = [] →
      ∃ r, ParseCommand oob (n + 512) template pre args = some r ∧
        r.error = ERROR_PARTIAL ||| pre.length) := by
  have hcls : ∀ x ∈ setTemplates,
      ∃ ty, x.1 = x.2.1 ++ [36, ty] ∧ x.2.1.length + 2 ≤ 254 ∧
        (∀ a ∈ x.2.1, a ≠ 0 ∧ a ≠ 36) ∧ 32 ∈ x.2.1 ∧
        ((ty = 84 ∧ x.2.2 = 58) ∨ (ty = 68 ∧ x.2.2 = 47)) := by
    intro x hx
    simp only [setTemplates, List.mem_cons, List.mem_singleton, List.not_mem_nil, or_false] at hx
    rcases hx with rfl | rfl | rfl
    · exact ⟨68, by decide, by decide, by decide, by decide, Or.inr ⟨rfl, rfl⟩⟩
    · exact ⟨84, by decide, by decide, by decide, by decide, Or.inl ⟨rfl, rfl⟩⟩
    · exact ⟨84, by decide, by decide, by decide, by decide, Or.inl ⟨rfl, rfl⟩⟩
  obtain ⟨ty, htpl, hP, hlead, hsp, hty⟩ := hcls _ ht
  simp only at htpl hP hlead hsp hty
  subst htpl
  constructor
  · intro hne hm
    obtain ⟨c0, tail, hrest⟩ : ∃ c0 tail, rest = c0 :: tail := by
      cases rest with
      | nil => exact absurd rfl hne
      | cons c0 tail => exact ⟨c0, tail, rfl⟩
    have hc0 : c0 ≠ 32 := by
      intro hx
      rw [hrest, hx] at hhead
      exact hhead rfl
    obtain ⟨e, he, hes⟩ := ParseCommandExit_format_of_malformed oob lead ty delim pre rest c0
      tail n hP hlen hlead hty hal hrest hc0 hnz hm
    obtain ⟨r, hr, hre⟩ := ParseCommand_of_exit oob _ _ _ e he args
    refine ⟨r, hr, ?_⟩
    rw [hre]; unfold exitError; rw [hes]
  · intro _
    obtain ⟨e, he, _, hee⟩ := ParseCommandExit_partial_of_end oob lead ty pre n hP
      (by simp at hlen; omega) hlead hsp hal
    obtain ⟨r, hr, hre⟩ := ParseCommand_of_exit oob _ _ _ e he args
    exact ⟨r, hr, by rw [hre, hee]⟩

/-- Claim C20, amended, on the line `set  time 12:3x:00`, whose second group holds an `x`. -/
theorem malformed_groups_give_format_error_witness :
    ∃ r, ParseCommand (fun _ => 0) (0 + 512) (bytes "SET TIME $T")
        (bytes "set  time " ++ bytes "12:3x:00")
        { month := 0, day := 0, year := 0, time := 0 } = some r ∧ r.error = ERROR_FORMAT :=
  (malformed_groups_give_format_error (fun _ => 0) 0 (bytes "SET TIME $T") (bytes "SET TIME ") 58
    (bytes "set  time ") (bytes "12:3x:00") { month := 0, day := 0, year := 0, time := 0 }
    (by decide) (by decide) (by decide) (by decide) (by decide)).1 (by decide) (by decide)

/-! ### Confirm, discard, focus and mode changes -/

/-- The four edit-key handlers leave the Discard (BUTTON_1) flag alone. -/
theorem editKeys_pending_discard (n : Nat) (s : State) :
    pending (editKeys n s).keystate BUTTON_DISCARD = pending s.keystate BUTTON_DISCARD := by
  unfold editKeys
  simp only
  split_ifs <;> simp [pending_clearFlag, button_ne]

/-- The clock, the alarm time and the mode after `ProcSetDate`, by the pending Confirm and
Discard flags. -/
theorem ProcSetDate_result (oob : Int → Nat) (s : State) :
    (pending s.keystate BUTTON_BACK = true →
      (ProcSetDate oob s).mode = MODE_DISPLAY ∧
      (ProcSetDate oob s).datetime =
        { s.datetime with year := (ProcSetDate oob s).setting_digit.year
                          month := (ProcSetDate oob s).setting_digit.month
                          day := (ProcSetDate oob s).setting_digit.day } ∧
      (ProcSetDate oob s).alarm_time = s.alarm_time ∧
      ∀ i, pending (ProcSetDate oob s).keystate i = false) ∧
    (pending s.keystate BUTTON_BACK = false → pending s.keystate BUTTON_DISCARD = true →
      (ProcSetDate oob s).mode = MODE_DISPLAY ∧ (ProcSetDate oob s).datetime = s.datetime ∧
      (ProcSetDate oob s).alarm_time = s.alarm_time ∧
      ∀ i, pending (ProcSetDate oob s).keystate i = false) ∧
    (pending s.keystate BUTTON_BACK = false → pending s.keystate BUTTON_DISCARD = false →
      (ProcSetDate oob s).mode = s.mode ∧ (ProcSetDate oob s).datetime = s.datetime ∧
      (ProcSetDate oob s).alarm_time = s.alarm_time) := by
  have hb := editKeys_pending_back 8 s
  have hd := editKeys_pending_discard 8 s
  have hfr := editKeys_frame 8 s
  have hsd := ProcSetDate_setting_digit oob s
  refine ⟨fun h => ?_, fun h h' => ?_, fun h h' => ?_⟩
  · rw [h] at hb
    rw [hsd]
    simp [ProcSetDate, discardEdit, confirmDate, hb, hfr.1, hfr.2.1, pending_ClearKeyFlags]
  · rw [h] at hb
    rw [h'] at hd
    simp [ProcSetDate, discardEdit, confirmDate, hb, hd, hfr.1, hfr.2.1, pending_ClearKeyFlags]
  · rw [h] at hb
    rw [h'] at hd
    simp [ProcSetDate, discardEdit, confirmDate, hb, hd, hfr.1, hfr.2.1, hfr.2.2.1]

/-- The clock, the alarm time and the mode after `ProcSetTime`, by the pending Confirm and
Discard flags. -/
theorem ProcSetTime_result (s : State) :
    (pending s.keystate BUTTON_BACK = true →
      (ProcSetTime s).mode = MODE_DISPLAY ∧
      (s.mode = MODE_SETTIME →
        (ProcSetTime s).datetime =
          { s.datetime with time := (ProcSetTime s).setting_digit.hour * 3600 +
              (ProcSetTime s).setting_digit.min * 60 + (ProcSetTime s).setting_digit.sec } ∧
        (ProcSetTime s).alarm_time = s.alarm_time) ∧
      (s.mode ≠ MODE_SETTIME →
        (ProcSetTime s).alarm_time = (ProcSetTime s).setting_digit.hour * 3600 +
            (ProcSetTime s).setting_digit.min * 60 + (ProcSetTime s).setting_digit.sec ∧
        (ProcSetTime s).datetime = s.datetime) ∧
      ∀ i, pending (ProcSetTime s).keystate i = false) ∧
    (pending s.keystate BUTTON_BACK = false → pending s.keystate BUTTON_DISCARD = true →
      (ProcSetTime s).mode = MODE_DISPLAY ∧ (ProcSetTime s).datetime = s.datetime ∧
      (ProcSetTime s).alarm_time = s.alarm_time ∧
      ∀ i, pending (ProcSetTime s).keystate i = false) ∧
    (pending s.keystate BUTTON_BACK = false → pending s.keystate BUTTON_DISCARD = false →
      (ProcSetTime s).mode = s.mode ∧ (ProcSetTime s).datetime = s.datetime ∧
      (ProcSetTime s).alarm_time = s.alarm_time) := by
  have hb := editKeys_pending_back 6 s
  have hd := editKeys_pending_discard 6 s
  have hfr := editKeys_frame 6 s
  have hsd := ProcSetTime_setting_digit s
  refine ⟨fun h => ?_, fun h h' => ?_, fun h h' => ?_⟩
  · rw [h] at hb
    rw [hsd]
    refine ⟨?_, fun hm => ?_, fun hm => ?_, ?_⟩
    · simp [ProcSetTime, discardEdit, confirmTime, hb, pending_ClearKeyFlags]
    · simp [ProcSetTime, discardEdit, confirmTime, hb, hfr.1, hfr.2.1, hfr.2.2.1, hm,
        pending_ClearKeyFlags]
    · simp [ProcSetTime, discardEdit, confirmTime, hb, hfr.1, hfr.2.1, hfr.2.2.1, hm,
        pending_ClearKeyFlags]
    · simp [ProcSetTime, discardEdit, confirmTime, hb, pending_ClearKeyFlags]
  · rw [h] at hb
    rw [h'] at hd
    simp [ProcSetTime, discardEdit, confirmTime, hb, hd, hfr.1, hfr.2.1, pending_ClearKeyFlags]
  · rw [h] at hb
    rw [h'] at hd
    simp [ProcSetTime, discardEdit, confirmTime, hb, hd, hfr.1, hfr.2.1, hfr.2.2.1]

/-- The values that digit cells encode are the decimal numbers they spell. -/
theorem DigitCells_encoded (b : EditBuffer) (h : DigitCells b) :
    (b.year : Int) = b.c0 * 1000 + b.c1 * 100 + b.c2 * 10 + b.c3 ∧
    (b.month : Int) = b.c4 * 10 + b.c5 ∧ (b.day : Int) = b.c6 * 10 + b.c7 ∧
    (b.hour : Int) = b.c0 * 10 + b.c1 ∧ (b.min : Int) = b.c2 * 10 + b.c3 ∧
    (b.sec : Int) = b.c4 * 10 + b.c5 := by
  obtain ⟨h0, h1, h2, h3, h4, h5, h6, h7⟩ := h
  simp only [EditBuffer.year, EditBuffer.month, EditBuffer.day, EditBuffer.hour, EditBuffer.min,
    EditBuffer.sec, EditBuffer.get, toUInt8, toUInt16]
  refine ⟨?_, ?_, ?_, ?_, ?_, ?_⟩ <;> omega

/-- Claim C26.  With a Confirm (BACK) event pending, `ProcSetDate` leaves Display mode and a
date whose year, month and day are the ones encoded by the buffer it leaves (the buffer after
the key handlers and the validation), the time of day and the alarm time as before;
`ProcSetTime` leaves Display mode and, in Set-Time mode, a time of day of
`hour * 3600 + min * 60 + sec` of the buffer it leaves with date and alarm time as before, in
Set-Alarm mode an alarm time of that value with the whole date and time as before.  For digit
cells the encoded values are the decimal numbers the cells spell. -/
theorem confirm_writes_back_edited_field (oob : Int → Nat) (s : State)
    (hb : pending s.keystate BUTTON_BACK = true) :
    ((ProcSetDate oob s).mode = MODE_DISPLAY ∧
      (ProcSetDate oob s).datetime =
        { year := (ProcSetDate oob s).setting_digit.year
          month := (ProcSetDate oob s).setting_digit.month
          day := (ProcSetDate oob s).setting_digit.day
          time := s.datetime.time } ∧
      (ProcSetDate oob s).alarm_time = s.alarm_time) ∧
    (ProcSetTime s).mode = MODE_DISPLAY ∧
    (s.mode = MODE_SETTIME →
      (ProcSetTime s).datetime =
        { year := s.datetime.year, month := s.datetime.month, day := s.datetime.day
          time := (ProcSetTime s).setting_digit.hour * 3600 +
            (ProcSetTime s).setting_digit.min * 60 + (ProcSetTime s).setting_digit.sec } ∧
      (ProcSetTime s).alarm_time = s.alarm_time) ∧
    (s.mode = MODE_SETALARM →
      (ProcSetTime s).alarm_time = (ProcSetTime s).setting_digit.hour * 3600 +
          (ProcSetTime s).setting_digit.min * 60 + (ProcSetTime s).setting_digit.sec ∧
      (ProcSetTime s).datetime = s.datetime) ∧
    (∀ b : EditBuffer, DigitCells b →
      (b.year : Int) = b.c0 * 1000 + b.c1 * 100 + b.c2 * 10 + b.c3 ∧
      (b.month : Int) = b.c4 * 10 + b.c5 ∧ (b.day : Int) = b.c6 * 10 + b.c7 ∧
      (b.hour : Int) = b.c0 * 10 + b.c1 ∧ (b.min : Int) = b.c2 * 10 + b.c3 ∧
      (b.sec : Int) = b.c4 * 10 + b.c5) := by
  have hd := (ProcSetDate_result oob s).1 hb
  have ht := (ProcSetTime_result s).1 hb
  refine ⟨⟨hd.1, hd.2.1, hd.2.2.1⟩, ht.1, fun hm => ht.2.1 hm, fun hm => ?_, DigitCells_encoded⟩
  exact ht.2.2.1 (by rw [hm]; decide)

/-- Claim C26 on three states with BACK pending: the date buffer 2024-02-29 confirmed over the
date 2000-01-01, and the time buffer 23:59:59 confirmed as time of day and as alarm time. -/
theorem confirm_writes_back_edited_field_witness :
    (ProcSetDate (fun _ => 0)
        { setDateExample with keystate := setFlag setDateExample.keystate BUTTON_BACK }).datetime =
      { year := 2024, month := 2, day := 29, time := 0 } ∧
    (ProcSetTime
        { setTimeExample with keystate := setFlag setTimeExample.keystate BUTTON_BACK }).datetime =
      { year := 2000, month := 1, day := 1, time := 86399 } ∧
    (ProcSetTime
        { setTimeExample with keystate := setFlag setTimeExample.keystate BUTTON_BACK
                              mode := MODE_SETALARM }).alarm_time = 86399 :=
  ⟨(confirm_writes_back_edited_field (fun _ => 0)
      { setDateExample with keystate := setFlag setDateExample.keystate BUTTON_BACK }
      (by decide)).1.2.1,
   ((confirm_writes_back_edited_field (fun _ => 0)
      { setTimeExample with keystate := setFlag setTimeExample.keystate BUTTON_BACK }
      (by decide)).2.2.1 rfl).1,
   ((confirm_writes_back_edited_field (fun _ => 0)
      { setTimeExample with keystate := setFlag setTimeExample.keystate BUTTON_BACK
                            mode := MODE_SETALARM }
      (by decide)).2.2.2.1 rfl).1⟩

/-- Claim C27.  With a Discard (BUTTON_1) event pending and no Confirm (BACK) event pending,
`ProcSetDate` and `ProcSetTime` (Set-Time and Set-Alarm mode) leave Display mode, and the
date, the time of day and the alarm time as they were before the step, whatever the buffer,
the focus and the other pending events are. -/
theorem discard_restores_display (oob : Int → Nat) (s : State)
    (hd : pending s.keystate BUTTON_1 = true) (hb : pending s.keystate BUTTON_BACK = false) :
    ((ProcSetDate oob s).mode = MODE_DISPLAY ∧ (ProcSetDate oob s).datetime = s.datetime ∧
      (ProcSetDate oob s).alarm_time = s.alarm_time) ∧
    ((ProcSetTime s).mode = MODE_DISPLAY ∧ (ProcSetTime s).datetime = s.datetime ∧
      (ProcSetTime s).alarm_time = s.alarm_time) := by
  have h1 := (ProcSetDate_result oob s).2.1 hb hd
  have h2 := (ProcSetTime_result s).2.1 hb hd
  exact ⟨⟨h1.1, h1.2.1, h1.2.2.1⟩, ⟨h2.1, h2.2.1, h2.2.2.1⟩⟩

/-- Claim C27 on a date-editing state with BUTTON_1 and UP pending: the edit of the last cell
is dropped with the session. -/
theorem discard_restores_display_witness :
    (ProcSetDate (fun _ => 0)
      { setDateExample with
          keystate := setFlag (setFlag setDateExample.keystate BUTTON_UP) BUTTON_1 }).mode =
      MODE_DISPLAY ∧
    (ProcSetDate (fun _ => 0)
      { setDateExample with
          keystate := setFlag (setFlag setDateExample.keystate BUTTON_UP) BUTTON_1 }).datetime =
      { year := 2000, month := 1, day := 1, time := 0 } :=
  ⟨(discard_restores_display (fun _ => 0)
      { setDateExample with
          keystate := setFlag (setFlag setDateExample.keystate BUTTON_UP) BUTTON_1 }
      (by decide) (by decide)).1.1,
   (discard_restores_display (fun _ => 0)
      { setDateExample with
          keystate := setFlag (setFlag setDateExample.keystate BUTTON_UP) BUTTON_1 }
      (by decide) (by decide)).1.2.1⟩

/-- The focus after the four edit-key handlers: LEFT steps back and wraps, then RIGHT steps on
and wraps. -/
theorem editKeys_focus (n : Nat) (s : State) :
    (editKeys n s).focus_digit =
      if pending s.keystate BUTTON_LEFT = true then
        if pending s.keystate BUTTON_RIGHT = true then ((s.focus_digit + n - 1) % n + 1) % n
        else (s.focus_digit + n - 1) % n
      else
        if pending s.keystate BUTTON_RIGHT = true then (s.focus_digit + 1) % n
        else s.focus_digit := by
  unfold editKeys
  simp only
  split_ifs <;> simp_all [pending_clearFlag, button_ne]

/-- The focus that `ProcSetDate` leaves is the one its key handlers leave. -/
theorem ProcSetDate_focus (oob : Int → Nat) (s : State) :
    (ProcSetDate oob s).focus_digit = (editKeys 8 s).focus_digit := by
  unfold ProcSetDate discardEdit confirmDate
  simp only
  split_ifs <;> rfl

/-- The focus that `ProcSetTime` leaves is the one its key handlers leave. -/
theorem ProcSetTime_focus (s : State) :
    (ProcSetTime s).focus_digit = (editKeys 6 s).focus_digit := by
  unfold ProcSetTime discardEdit confirmTime
  simp only
  split_ifs <;> rfl

/-- After the four edit-key handlers none of their four events is pending. -/
theorem editKeys_pending_handled (n : Nat) (s : State) :
    pending (editKeys n s).keystate BUTTON_LEFT = false ∧
      pending (editKeys n s).keystate BUTTON_RIGHT = false ∧
      pending (editKeys n s).keystate BUTTON_UP = false ∧
      pending (editKeys n s).keystate BUTTON_DOWN = false := by
  unfold editKeys
  simp only
  split_ifs <;> simp_all [pending_clearFlag, button_ne]

/-- Clearing all flags twice is clearing them once. -/
theorem ClearKeyFlags_idem (ks : Fin 8 → keystate_t) :
    ClearKeyFlags (ClearKeyFlags ks) = ClearKeyFlags ks := rfl

/-- The key state that the Discard branch leaves: as before, or with all flags cleared. -/
theorem discardEdit_keystate (s : State) :
    (discardEdit s).keystate = s.keystate ∨
      (discardEdit s).keystate = ClearKeyFlags s.keystate := by
  unfold discardEdit
  split_ifs
  · right; rfl
  · left; rfl

/-- The key state that the Confirm branch of `ProcSetDate` leaves: as before, or with all
flags cleared. -/
theorem confirmDate_keystate (s : State) :
    (confirmDate s).keystate = s.keystate ∨
      (confirmDate s).keystate = ClearKeyFlags s.keystate := by
  unfold confirmDate
  split_ifs
  · right; rfl
  · left; rfl

/-- The key state that the Confirm branch of `ProcSetTime` leaves: as before, or with all
flags cleared. -/
theorem confirmTime_keystate (s : State) :
    (confirmTime s).keystate = s.keystate ∨
      (confirmTime s).keystate = ClearKeyFlags s.keystate := by
  unfold confirmTime
  simp only
  split_ifs
  · right; rfl
  · right; rfl
  · left; rfl

/-- The key state that `ProcSetDate` leaves: the one of its key handlers, or that with all
flags cleared. -/
theorem ProcSetDate_keystate (oob : Int → Nat) (s : State) :
    (ProcSetDate oob s).keystate = (editKeys 8 s).keystate ∨
      (ProcSetDate oob s).keystate = ClearKeyFlags (editKeys 8 s).keystate := by
  have e : ProcSetDate oob s = discardEdit (confirmDate { editKeys 8 s with
      setting_digit := updateDayRange oob
        (validateDate oob (editKeys 8 s).focus_digit (editKeys 8 s).setting_digit) }) := rfl
  rw [e]
  rcases discardEdit_keystate (confirmDate { editKeys 8 s with
      setting_digit := updateDayRange oob
        (validateDate oob (editKeys 8 s).focus_digit (editKeys 8 s).setting_digit) }) with h | h <;>
    rcases confirmDate_keystate { editKeys 8 s with
      setting_digit := updateDayRange oob
        (validateDate oob (editKeys 8 s).focus_digit (editKeys 8 s).setting_digit) } with h2 | h2
  · left; rw [h, h2]
  · right; rw [h, h2]
  · right; rw [h, h2]
  · right; rw [h, h2, ClearKeyFlags_idem]

/-- The key state that `ProcSetTime` leaves: the one of its key handlers, or that with all
flags cleared. -/
theorem ProcSetTime_keystate (s : State) :
    (ProcSetTime s).keystate = (editKeys 6 s).keystate ∨
      (ProcSetTime s).keystate = ClearKeyFlags (editKeys 6 s).keystate := by
  have e : ProcSetTime s = discardEdit (confirmTime { editKeys 6 s with
      setting_digit := validateTime (editKeys 6 s).focus_digit (editKeys 6 s).setting_digit }) :=
    rfl
  rw [e]
  rcases discardEdit_keystate (confirmTime { editKeys 6 s with
      setting_digit := validateTime (editKeys 6 s).focus_digit (editKeys 6 s).setting_digit })
    with h | h <;>
    rcases confirmTime_keystate { editKeys 6 s with
      setting_digit := validateTime (editKeys 6 s).focus_digit (editKeys 6 s).setting_digit }
    with h2 | h2
  · left; rw [h, h2]
  · right; rw [h, h2]
  · right; rw [h, h2]
  · right; rw [h, h2, ClearKeyFlags_idem]

/-- After `ProcSetDate` and `ProcSetTime` neither LEFT nor RIGHT is pending. -/
theorem edit_step_pending_handled (oob : Int → Nat) (s : State) :
    (pending (ProcSetDate oob s).keystate BUTTON_LEFT = false ∧
      pending (ProcSetDate oob s).keystate BUTTON_RIGHT = false) ∧
    (pending (ProcSetTime s).keystate BUTTON_LEFT = false ∧
      pending (ProcSetTime s).keystate BUTTON_RIGHT = false) := by
  have h8 := editKeys_pending_handled 8 s
  have h6 := editKeys_pending_handled 6 s
  refine ⟨?_, ?_⟩
  · rcases ProcSetDate_keystate oob s with h | h <;> rw [h]
    · exact ⟨h8.1, h8.2.1⟩
    · exact ⟨pending_ClearKeyFlags _ _, pending_ClearKeyFlags _ _⟩
  · rcases ProcSetTime_keystate s with h | h <;> rw [h]
    · exact ⟨h6.1, h6.2.1⟩
    · exact ⟨pending_ClearKeyFlags _ _, pending_ClearKeyFlags _ _⟩

/-- Setting the flag of button `j` sets it and leaves the other flags. -/
theorem pending_setFlag (ks : Fin 8 → keystate_t) (i j : Fin 8) :
    pending (setFlag ks j) i = if i = j then true else pending ks i := by
  unfold pending setFlag
  split_ifs <;> simp

/-- The focus after a poll step of an edit mode with `cells` cells in which a LEFT event alone,
or a RIGHT event alone, is pending, and after two such steps in a row. -/
theorem editKeys_focus_round_trip (n : Nat) (hn : 0 < n) (f : Nat) (hf : f < n) :
    (f + n - 1) % n < n ∧ (f + 1) % n < n ∧ ((f + n - 1) % n + 1) % n = f ∧
      ((f + 1) % n + n - 1) % n = f := by
  refine ⟨Nat.mod_lt _ hn, Nat.mod_lt _ hn, ?_, ?_⟩
  · by_cases h0 : f = 0
    · subst h0
      have e : (0 + n - 1) % n = n - 1 := by rw [Nat.zero_add]; exact Nat.mod_eq_of_lt (by omega)
      rw [e, Nat.sub_add_cancel hn, Nat.mod_self]
    · have e : f + n - 1 = (f - 1) + n := by omega
      rw [e, Nat.add_mod_right, Nat.mod_eq_of_lt (by omega : f - 1 < n)]
      rw [Nat.sub_add_cancel (by omega), Nat.mod_eq_of_lt hf]
  · by_cases h1 : f + 1 = n
    · rw [h1, Nat.mod_self, Nat.zero_add, Nat.mod_eq_of_lt (by omega)]; omega
    · rw [Nat.mod_eq_of_lt (by omega : f + 1 < n)]
      have e : f + 1 + n - 1 = f + n := by omega
      rw [e, Nat.add_mod_right, Nat.mod_eq_of_lt hf]

/-- Claim C30.  For a date-editing state `s` with focus in `0..7` and a time-editing state `t`
(Set-Time or Set-Alarm mode) with focus in `0..5`: whatever events are pending, the poll step
leaves the focus in range; a LEFT event alone moves the focus from `f` to `(f + cells - 1) %
cells` (from 0 to 7, resp. 5) and a RIGHT event alone to `(f + 1) % cells` (from 7, resp. 5,
to 0); a step with LEFT alone followed by a step with RIGHT alone, and the other way round,
and a step with both pending, return to the original focus; and `ProcDisplay` with BUTTON_1,
BUTTON_2 or BUTTON_3 pending (the events that enter an edit mode) leaves the focus 0. -/
theorem focus_wraps_and_stays_in_range (oob : Int → Nat) (s t : State)
    (hs : s.focus_digit < 8) (ht : t.focus_digit < 6) :
    ((ProcSetDate oob s).focus_digit < 8 ∧ (ProcSetTime t).focus_digit < 6) ∧
    (pending s.keystate BUTTON_LEFT = true → pending s.keystate BUTTON_RIGHT = false →
      (ProcSetDate oob s).focus_digit = (s.focus_digit + 7) % 8 ∧
      (s.focus_digit = 0 → (ProcSetDate oob s).focus_digit = 7) ∧
      (ProcSetDate oob { ProcSetDate oob s with
        keystate := setFlag (ProcSetDate oob s).keystate BUTTON_RIGHT }).focus_digit =
          s.focus_digit) ∧
    (pending s.keystate BUTTON_LEFT = false → pending s.keystate BUTTON_RIGHT = true →
      (ProcSetDate oob s).focus_digit = (s.focus_digit + 1) % 8 ∧
      (s.focus_digit = 7 → (ProcSetDate oob s).focus_digit = 0) ∧
      (ProcSetDate oob { ProcSetDate oob s with
        keystate := setFlag (ProcSetDate oob s).keystate BUTTON_LEFT }).focus_digit =
          s.focus_digit) ∧
    (pending s.keystate BUTTON_LEFT = true → pending s.keystate BUTTON_RIGHT = true →
      (ProcSetDate oob s).focus_digit = s.focus_digit) ∧
    (pending t.keystate BUTTON_LEFT = true → pending t.keystate BUTTON_RIGHT = false →
      (ProcSetTime t).focus_digit = (t.focus_digit + 5) % 6 ∧
      (t.focus_digit = 0 → (ProcSetTime t).focus_digit = 5) ∧
      (ProcSetTime { ProcSetTime t with
        keystate := setFlag (ProcSetTime t).keystate BUTTON_RIGHT }).focus_digit =
          t.focus_digit) ∧
    (pending t.keystate BUTTON_LEFT = false → pending t.keystate BUTTON_RIGHT = true →
      (ProcSetTime t).focus_digit = (t.focus_digit + 1) % 6 ∧
      (t.focus_digit = 5 → (ProcSetTime t).focus_digit = 0) ∧
      (ProcSetTime { ProcSetTime t with
        keystate := setFlag (ProcSetTime t).keystate BUTTON_LEFT }).focus_digit =
          t.focus_digit) ∧
    (pending t.keystate BUTTON_LEFT = true → pending t.keystate BUTTON_RIGHT = true →
      (ProcSetTime t).focus_digit = t.focus_digit) ∧
    (∀ d : State, pending d.keystate BUTTON_1 = true ∨ pending d.keystate BUTTON_2 = true ∨
        pending d.keystate BUTTON_3 = true →
      (ProcDisplay d).focus_digit = 0 ∧
      ((ProcDisplay d).mode = MODE_SETDATE ∨ (ProcDisplay d).mode = MODE_SETTIME ∨
        (ProcDisplay d).mode = MODE_SETALARM)) := by
  have hp := edit_step_pending_handled oob s
  have hq := edit_step_pending_handled oob t
  have r8 := editKeys_focus_round_trip 8 (by omega) s.focus_digit hs
  have r6 := editKeys_focus_round_trip 6 (by omega) t.focus_digit ht
  have hne := button_ne
  refine ⟨⟨?_, ?_⟩, ?_, ?_, ?_, ?_, ?_, ?_, ?_⟩
  · rw [ProcSetDate_focus, editKeys_focus]
    split_ifs <;> first | exact Nat.mod_lt _ (by omega) | exact hs
  · rw [ProcSetTime_focus, editKeys_focus]
    split_ifs <;> first | exact Nat.mod_lt _ (by omega) | exact ht
  · intro hl hr
    have e : (ProcSetDate oob s).focus_digit = (s.focus_digit + 7) % 8 := by
      rw [ProcSetDate_focus, editKeys_focus]; simp [hl, hr]
    refine ⟨e, fun h0 => by rw [e, h0], ?_⟩
    rw [ProcSetDate_focus, editKeys_focus]
    simp only [pending_setFlag, hp.1.1, hne.1, hne.2.2.2.2.2.2.2.1, if_true, if_false, e]
    simpa using r8.2.2.1
  · intro hl hr
    have e : (ProcSetDate oob s).focus_digit = (s.focus_digit + 1) % 8 := by
      rw [ProcSetDate_focus, editKeys_focus]; simp [hl, hr]
    refine ⟨e, fun h0 => by rw [e, h0], ?_⟩
    rw [ProcSetDate_focus, editKeys_focus]
    simp only [pending_setFlag, hp.1.2, hne.1, hne.2.2.2.2.2.2.2.1, if_true, if_false, e]
    simpa using r8.2.2.2
  · intro hl hr
    rw [ProcSetDate_focus, editKeys_focus]
    simpa [hl, hr] using r8.2.2.1
  · intro hl hr
    have e : (ProcSetTime t).focus_digit = (t.focus_digit + 5) % 6 := by
      rw [ProcSetTime_focus, editKeys_focus]; simp [hl, hr]
    refine ⟨e, fun h0 => by rw [e, h0], ?_⟩
    rw [ProcSetTime_focus, editKeys_focus]
    simp only [pending_setFlag, hq.2.1, hne.1, hne.2.2.2.2.2.2.2.1, if_true, if_false, e]
    simpa using r6.2.2.1
  · intro hl hr
    have e : (ProcSetTime t).focus_digit = (t.focus_digit + 1) % 6 := by
      rw [ProcSetTime_focus, editKeys_focus]; simp [hl, hr]
    refine ⟨e, fun h0 => by rw [e, h0], ?_⟩
    rw [ProcSetTime_focus, editKeys_focus]
    simp only [pending_setFlag, hq.2.2, hne.1, hne.2.2.2.2.2.2.2.1, if_true, if_false, e]
    simpa using r6.2.2.2
  · intro hl hr
    rw [ProcSetTime_focus, editKeys_focus]
    simpa [hl, hr] using r6.2.2.1
  · intro d hd
    have hk := displayKeys_pending d
    by_cases h1 : pending d.keystate BUTTON_1 = true
    · have e : ProcDisplay d = enterSetDate (displayKeys d) := by
        simp [ProcDisplay, hk.1, h1]
      rw [e]
      simp [enterSetDate]
    · have h23 : (pending d.keystate BUTTON_2 || pending d.keystate BUTTON_3) = true := by
        rcases hd with h | h | h
        · exact absurd h h1
        · simp [h]
        · simp [h]
      have e : ProcDisplay d = enterSetTime (displayKeys d) := by
        simp only [ProcDisplay, hk.1, hk.2.1, hk.2.2.1, h1, h23, if_true]
        simp
      rw [e]
      simp only [enterSetTime]
      split_ifs <;> simp

/-- Claim C30 on the date-editing state with focus 7 and the time-editing state with focus 1,
RIGHT pending in the first and LEFT pending in the second: the focus wraps from 7 to 0, and
moves from 1 to 0. -/
theorem focus_wraps_and_stays_in_range_witness :
    (ProcSetDate (fun _ => 0)
      { setDateExample with
          keystate := setFlag setDateExample.keystate BUTTON_RIGHT }).focus_digit = 0 ∧
    (ProcSetTime
      { setTimeExample with
          keystate := setFlag setTimeExample.keystate BUTTON_LEFT }).focus_digit = (1 + 5) % 6 :=
  ⟨((focus_wraps_and_stays_in_range (fun _ => 0)
      { setDateExample with keystate := setFlag setDateExample.keystate BUTTON_RIGHT }
      { setTimeExample with keystate := setFlag setTimeExample.keystate BUTTON_LEFT }
      (by decide) (by decide)).2.2.1 (by decide) (by decide)).2.1 rfl,
   ((focus_wraps_and_stays_in_range (fun _ => 0)
      { setDateExample with keystate := setFlag setDateExample.keystate BUTTON_RIGHT }
      { setTimeExample with keystate := setFlag setTimeExample.keystate BUTTON_LEFT }
      (by decide) (by decide)).2.2.2.2.1 (by decide) (by decide)).1⟩

/-- What the end of a group of templates leaves when it ends the function: the globals as
they were, no hibernation request. -/
theorem familyEnd_done (stack : Nat → Nat) (command : List Nat) (s : State) (pe : Nat)
    (usage : String) (args : datetime_t) (uart : List Nat) (r : CommandResult)
    (h : familyEnd stack command s pe usage args uart = some (.done r)) :
    r.state = s ∧ r.hibernate = false := by
  unfold familyEnd at h
  split_ifs at h
  · split at h
    · cases h
    · simp only [Option.some.injEq, Stage.done.injEq] at h
      subst h
      exact ⟨rfl, rfl⟩
    · simp only [Option.some.injEq, Stage.done.injEq] at h
      subst h
      exact ⟨rfl, rfl⟩
  · cases h

/-- The templates `CLOCK INIT`, `CLOCK RESTART` and `CLOCK HIB` leave the mode, the key state,
the edit buffer, the focus and `alarming` alone. -/
theorem clockFamily_done (oob : Int → Nat) (stack : Nat → Nat) (fuel : Nat) (command : List Nat)
    (s : State) (args : datetime_t) (uart : List Nat) (r : CommandResult)
    (h : clockFamily oob stack fuel command s args uart = some (.done r)) :
    r.state.mode = s.mode ∧ r.state.keystate = s.keystate ∧
      r.state.setting_digit = s.setting_digit ∧ r.state.focus_digit = s.focus_digit ∧
      r.state.alarming = s.alarming := by
  unfold clockFamily at h
  split at h
  · cases h
  · split_ifs at h
    · simp only [Option.some.injEq, Stage.done.injEq] at h
      subst h
      exact ⟨rfl, rfl, rfl, rfl, rfl⟩
    · split at h
      · cases h
      · split_ifs at h
        · simp only [Option.some.injEq, Stage.done.injEq] at h
          subst h
          exact ⟨rfl, rfl, rfl, rfl, rfl⟩
        · split at h
          · cases h
          · split_ifs at h
            · simp only [Option.some.injEq, Stage.done.injEq] at h
              subst h
              exact ⟨rfl, rfl, rfl, rfl, rfl⟩
            · rw [(familyEnd_done _ _ _ _ _ _ _ _ h).1]
              exact ⟨rfl, rfl, rfl, rfl, rfl⟩

/-- The templates `GET DATE`, `GET TIME` and `GET ALARM` leave the globals alone and request no
hibernation. -/
theorem getFamily_done (oob : Int → Nat) (stack : Nat → Nat) (fuel : Nat) (command : List Nat)
    (s : State) (args : datetime_t) (uart : List Nat) (r : CommandResult)
    (h : getFamily oob stack fuel command s args uart = some (.done r)) :
    r.state = s ∧ r.hibernate = false := by
  unfold getFamily at h
  split at h
  · cases h
  · split_ifs at h
    · simp only [Option.some.injEq, Stage.done.injEq] at h
      subst h
      exact ⟨rfl, rfl⟩
    · split at h
      · cases h
      · split_ifs at h
        · simp only [Option.some.injEq, Stage.done.injEq] at h
          subst h
          exact ⟨rfl, rfl⟩
        · split at h
          · cases h
          · split_ifs at h
            · simp only [Option.some.injEq, Stage.done.injEq] at h
              subst h
              exact ⟨rfl, rfl⟩
            · exact familyEnd_done _ _ _ _ _ _ _ _ h

/-- The templates `SET DATE $D`, `SET TIME $T` and `SET ALARM $T` leave the mode, the key
state, the edit buffer, the focus, `alarming` and the restart request alone and request no
hibernation. -/
theorem setFamily_done (oob : Int → Nat) (stack : Nat → Nat) (fuel : Nat) (command : List Nat)
    (s : State) (args : datetime_t) (uart : List Nat) (r : CommandResult)
    (h : setFamily oob stack fuel command s args uart = some (.done r)) :
    r.state.mode = s.mode ∧ r.state.keystate = s.keystate ∧
      r.state.setting_digit = s.setting_digit ∧ r.state.focus_digit = s.focus_digit ∧
      r.state.alarming = s.alarming ∧ r.state.restart = s.restart ∧ r.hibernate = false := by
  unfold setFamily at h
  split at h
  · cases h
  · split_ifs at h
    · simp only [Option.some.injEq, Stage.done.injEq] at h
      subst h
      exact ⟨rfl, rfl, rfl, rfl, rfl, rfl, rfl⟩
    · simp only [Option.some.injEq, Stage.done.injEq] at h
      subst h
      exact ⟨rfl, rfl, rfl, rfl, rfl, rfl, rfl⟩
    · split at h
      · cases h
      · split_ifs at h
        · simp only [Option.some.injEq, Stage.done.injEq] at h
          subst h
          exact ⟨rfl, rfl, rfl, rfl, rfl, rfl, rfl⟩
        · simp only [Option.some.injEq, Stage.done.injEq] at h
          subst h
          exact ⟨rfl, rfl, rfl, rfl, rfl, rfl, rfl⟩
        · split at h
          · cases h
          · split_ifs at h
            · simp only [Option.some.injEq, Stage.done.injEq] at h
              subst h
              exact ⟨rfl, rfl, rfl, rfl, rfl, rfl, rfl⟩
            · simp only [Option.some.injEq, Stage.done.injEq] at h
              subst h
              exact ⟨rfl, rfl, rfl, rfl, rfl, rfl, rfl⟩
            · have := familyEnd_done _ _ _ _ _ _ _ _ h
              rw [this.1]
              exact ⟨rfl, rfl, rfl, rfl, rfl, rfl, this.2⟩

/-- The function `ProcessCommand` never writes the mode, the key state, the edit buffer or the
focus. -/
theorem ProcessCommand_mode (oob : Int → Nat) (stack : Nat → Nat) (fuel : Nat)
    (command : List Nat) (args : datetime_t) (s : State) (r : CommandResult)
    (h : ProcessCommand oob stack fuel command args s = some r) :
    r.state.mode = s.mode ∧ r.state.keystate = s.keystate ∧
      r.state.setting_digit = s.setting_digit ∧ r.state.focus_digit = s.focus_digit := by
  unfold ProcessCommand at h
  split at h
  · cases h
  · split_ifs at h
    · simp only [Option.some.injEq] at h
      subst h
      exact ⟨rfl, rfl, rfl, rfl⟩
    · split at h
      · cases h
      · split_ifs at h
        · simp only [Option.some.injEq] at h
          subst h
          exact ⟨rfl, rfl, rfl, rfl⟩
        · split at h
          · cases h
          · rename_i hc
            simp only [Option.some.injEq] at h
            subst h
            have := clockFamily_done _ _ _ _ _ _ _ _ hc
            exact ⟨this.1, this.2.1, this.2.2.1, this.2.2.2.1⟩
          · split at h
            · cases h
            · rename_i hg
              simp only [Option.some.injEq] at h
              subst h
              rw [(getFamily_done _ _ _ _ _ _ _ _ hg).1]
              exact ⟨rfl, rfl, rfl, rfl⟩
            · split at h
              · cases h
              · rename_i hst
                simp only [Option.some.injEq] at h
                subst h
                have := setFamily_done _ _ _ _ _ _ _ _ hst
                exact ⟨this.1, this.2.1, this.2.2.1, this.2.2.2.1⟩
              · simp only [Option.some.injEq] at h
                subst h
                exact ⟨rfl, rfl, rfl, rfl⟩

/-- The mode that `ProcDisplay` leaves and the flags it leaves: an edit mode with no flag
pending when BUTTON_1, BUTTON_2 or BUTTON_3 is pending, else the mode as before. -/
theorem ProcDisplay_transition (s : State) :
    ((ProcDisplay s).mode = s.mode ∨
      (((ProcDisplay s).mode = MODE_SETDATE ∨ (ProcDisplay s).mode = MODE_SETTIME ∨
        (ProcDisplay s).mode = MODE_SETALARM) ∧
        ∀ i, pending (ProcDisplay s).keystate i = false)) := by
  have hk := displayKeys_pending s
  have hf := displayKeys_frame s
  by_cases h1 : pending s.keystate BUTTON_1 = true
  · right
    have e : ProcDisplay s = enterSetDate (displayKeys s) := by
      simp [ProcDisplay, hk.1, h1]
    rw [e]
    exact ⟨Or.inl rfl, fun i => pending_ClearKeyFlags _ _⟩
  · by_cases h23 : (pending s.keystate BUTTON_2 || pending s.keystate BUTTON_3) = true
    · right
      have e : ProcDisplay s = enterSetTime (displayKeys s) := by
        simp only [ProcDisplay, hk.1, hk.2.1, hk.2.2.1, h1, h23, if_true]
        simp
      rw [e]
      refine ⟨Or.inr ?_, fun i => pending_ClearKeyFlags _ _⟩
      simp only [enterSetTime]
      split_ifs
      · left; rfl
      · right; rfl
    · left
      simp only [Bool.or_eq_true, not_or, Bool.not_eq_true] at h1 h23
      exact ProcDisplay_mode s h1 h23.1 h23.2

/-- The mode that `ProcSetDate` and `ProcSetTime` leave and the flags they leave: the mode as
before, or Display mode with no flag pending. -/
theorem edit_step_transition (oob : Int → Nat) (s : State) :
    ((ProcSetDate oob s).mode = s.mode ∨
      ((ProcSetDate oob s).mode = MODE_DISPLAY ∧
        ∀ i, pending (ProcSetDate oob s).keystate i = false)) ∧
    ((ProcSetTime s).mode = s.mode ∨
      ((ProcSetTime s).mode = MODE_DISPLAY ∧
        ∀ i, pending (ProcSetTime s).keystate i = false)) := by
  have hd := ProcSetDate_result oob s
  have ht := ProcSetTime_result s
  refine ⟨?_, ?_⟩
  · by_cases hb : pending s.keystate BUTTON_BACK = true
    · exact Or.inr ⟨(hd.1 hb).1, (hd.1 hb).2.2.2⟩
    · simp only [Bool.not_eq_true] at hb
      by_cases hx : pending s.keystate BUTTON_DISCARD = true
      · exact Or.inr ⟨(hd.2.1 hb hx).1, (hd.2.1 hb hx).2.2.2⟩
      · simp only [Bool.not_eq_true] at hx
        exact Or.inl (hd.2.2 hb hx).1
  · by_cases hb : pending s.keystate BUTTON_BACK = true
    · exact Or.inr ⟨(ht.1 hb).1, (ht.1 hb).2.2.2⟩
    · simp only [Bool.not_eq_true] at hb
      by_cases hx : pending s.keystate BUTTON_DISCARD = true
      · exact Or.inr ⟨(ht.2.1 hb hx).1, (ht.2.1 hb hx).2.2.2⟩
      · simp only [Bool.not_eq_true] at hx
        exact Or.inl (ht.2.2 hb hx).1

/-- Claim C28.  The mode is one of Display, Set-Date, Set-Time and Set-Alarm at the start, and
from a state whose mode is one of the four, each of `ProcDisplay`, `ProcSetDate`,
`ProcSetTime` and the `switch (mode)` of the main loop leaves one of the four, while the
one-second tick and `ProcessCommand` leave the mode as it is; and whenever one of the poll
steps leaves a mode other than the one it started in, no flag of the eight buttons is
pending in the state it leaves. -/
theorem mode_valid_and_transitions_clear_flags (oob : Int → Nat) (s : State)
    (hv : ValidMode s.mode) :
    ValidMode defaultState.mode ∧
    (ValidMode (ProcDisplay s).mode ∧ ValidMode (ProcSetDate oob s).mode ∧
      ValidMode (ProcSetTime s).mode ∧ ValidMode (ProcMode oob s).mode) ∧
    ((oneSecondTick oob s).mode = s.mode ∧
      ∀ stack fuel command args r,
        ProcessCommand oob stack fuel command args s = some r → r.state.mode = s.mode) ∧
    ((ProcDisplay s).mode ≠ s.mode → ∀ i, pending (ProcDisplay s).keystate i = false) ∧
    ((ProcSetDate oob s).mode ≠ s.mode → ∀ i, pending (ProcSetDate oob s).keystate i = false) ∧
    ((ProcSetTime s).mode ≠ s.mode → ∀ i, pending (ProcSetTime s).keystate i = false) ∧
    ((ProcMode oob s).mode ≠ s.mode → ∀ i, pending (ProcMode oob s).keystate i = false) := by
  have hD := ProcDisplay_transition s
  have hE := edit_step_transition oob s
  have vD : ValidMode (ProcDisplay s).mode := by
    rcases hD with h | ⟨h | h | h, _⟩
    · rw [h]; exact hv
    · exact Or.inr (Or.inl h)
    · exact Or.inr (Or.inr (Or.inl h))
    · exact Or.inr (Or.inr (Or.inr h))
  have vS : ValidMode (ProcSetDate oob s).mode := by
    rcases hE.1 with h | ⟨h, _⟩
    · rw [h]; exact hv
    · exact Or.inl h
  have vT : ValidMode (ProcSetTime s).mode := by
    rcases hE.2 with h | ⟨h, _⟩
    · rw [h]; exact hv
    · exact Or.inl h
  have cD : (ProcDisplay s).mode ≠ s.mode → ∀ i, pending (ProcDisplay s).keystate i = false := by
    intro hne
    rcases hD with h | ⟨_, h⟩
    · exact absurd h hne
    · exact h
  have cS : (ProcSetDate oob s).mode ≠ s.mode →
      ∀ i, pending (ProcSetDate oob s).keystate i = false := by
    intro hne
    rcases hE.1 with h | ⟨_, h⟩
    · exact absurd h hne
    · exact h
  have cT : (ProcSetTime s).mode ≠ s.mode → ∀ i, pending (ProcSetTime s).keystate i = false := by
    intro hne
    rcases hE.2 with h | ⟨_, h⟩
    · exact absurd h hne
    · exact h
  refine ⟨Or.inl rfl, ⟨vD, vS, vT, ?_⟩, ⟨rfl, ?_⟩, cD, cS, cT, ?_⟩
  · unfold ProcMode
    split_ifs
    · exact vD
    · exact vS
    · exact vT
    · exact hv
  · intro stack fuel command args r h
    exact (ProcessCommand_mode oob stack fuel command args s r h).1
  · unfold ProcMode
    split_ifs
    · exact cD
    · exact cS
    · exact cT
    · exact fun h => absurd rfl h

/-- Claim C28 on the Display state with BUTTON_2 and UP pending: the poll step enters Set-Time
mode, and neither flag is pending afterwards. -/
theorem mode_valid_and_transitions_clear_flags_witness :
    ValidMode displayExample.mode ∧
    (ProcMode (fun _ => 0) { displayExample with
      keystate := setFlag (setFlag displayExample.keystate BUTTON_UP) BUTTON_2 }).mode =
        MODE_SETTIME ∧
    pending (ProcMode (fun _ => 0) { displayExample with
      keystate := setFlag (setFlag displayExample.keystate BUTTON_UP) BUTTON_2 }).keystate
        BUTTON_UP = false :=
  ⟨by decide, by decide,
    (mode_valid_and_transitions_clear_flags (fun _ => 0) { displayExample with
      keystate := setFlag (setFlag displayExample.keystate BUTTON_UP) BUTTON_2 }
      (by decide)).2.2.2.2.2.2 (by decide) BUTTON_UP⟩

/-! ### Held buttons across a mode change -/

/-- Clearing a flag leaves the mode of every button. -/
theorem clearFlag_config (ks : Fin 8 → keystate_t) (j i : Fin 8) :
    (clearFlag ks j i).config = (ks i).config := by
  unfold clearFlag
  split_ifs <;> rfl

/-- Clearing a flag leaves the history of every button. -/
theorem clearFlag_state (ks : Fin 8 → keystate_t) (j i : Fin 8) :
    (clearFlag ks j i).state = (ks i).state := by
  unfold clearFlag
  split_ifs <;> rfl

/-- The four edit-key handlers write of the key state only the flags. -/
theorem editKeys_keystate (n : Nat) (s : State) (i : Fin 8) :
    ((editKeys n s).keystate i).config = (s.keystate i).config ∧
      ((editKeys n s).keystate i).state = (s.keystate i).state := by
  unfold editKeys
  simp only
  split_ifs <;> simp [clearFlag_config, clearFlag_state]

/-- With neither Confirm nor Discard pending, `ProcSetDate` leaves the mode and, of BUTTON_1
and BACK, the whole key state. -/
theorem ProcSetDate_idle (oob : Int → Nat) (s : State)
    (hb : pending s.keystate BUTTON_BACK = false) (hd : pending s.keystate BUTTON_1 = false) :
    (ProcSetDate oob s).mode = s.mode ∧
      pending (ProcSetDate oob s).keystate BUTTON_1 = false ∧
      pending (ProcSetDate oob s).keystate BUTTON_BACK = false ∧
      ((ProcSetDate oob s).keystate BUTTON_1).config = (s.keystate BUTTON_1).config ∧
      ((ProcSetDate oob s).keystate BUTTON_1).state = (s.keystate BUTTON_1).state := by
  have h1 := editKeys_pending_back 8 s
  have h2 := editKeys_pending_discard 8 s
  rw [hb] at h1
  rw [show pending s.keystate BUTTON_DISCARD = false from hd] at h2
  have hk := editKeys_keystate 8 s BUTTON_1
  have e : ProcSetDate oob s = { editKeys 8 s with
      setting_digit := updateDayRange oob
        (validateDate oob (editKeys 8 s).focus_digit (editKeys 8 s).setting_digit) } := by
    simp [ProcSetDate, discardEdit, confirmDate, h1, h2]
  rw [e]
  exact ⟨(editKeys_frame 8 s).2.2.1, h2, h1, hk.1, hk.2⟩

/-- The key state of a Momentary button that was pressed on the last sample and has no flag
pending, after one more sample on which it is pressed: again pressed on the last sample, and
no flag pending. -/
theorem detectButton_stale (p : Nat) (k : keystate_t) (hp : p ≠ 0)
    (hc : k.config &&& KEY_CONFIG_PRESS = 0) (hs : k.state % 2 = 1) (hf : k.flag = 0) :
    (detectButton p k).config = k.config ∧ (detectButton p k).state % 2 = 1 ∧
      (detectButton p k).flag = 0 := by
  refine ⟨detectButton_config p k, ?_, ?_⟩
  · rw [detectButton_state_mod_two]; simp [hp]
  · rw [detectButton_momentary p k hc]
    simp [hs, hf]

/-- A flag is pending exactly when the byte `flag` is not zero. -/
theorem pending_eq_false_iff (ks : Fin 8 → keystate_t) (i : Fin 8) :
    pending ks i = false ↔ (ks i).flag = 0 := by
  simp [pending]

/-- The run of samples of a Momentary button from a state in which it was pressed on the last
sample and has no flag pending: as long as every sample finds it pressed, it stays so. -/
theorem sampled_stale (ports : Nat → Nat) (ks : Fin 8 → keystate_t) (i : Fin 8) (n : Nat)
    (hc : (ks i).config &&& KEY_CONFIG_PRESS = 0) (hs : (ks i).state % 2 = 1)
    (hf : (ks i).flag = 0) (hheld : ∀ t < n, is_press (ports t) i ≠ 0) :
    (sampled ports ks n i).config = (ks i).config ∧ (sampled ports ks n i).state % 2 = 1 ∧
      (sampled ports ks n i).flag = 0 := by
  induction n with
  | zero => exact ⟨rfl, hs, hf⟩
  | succ n ih =>
    have ih := ih (fun t ht => hheld t (by omega))
    have h := detectButton_stale (is_press (ports n) i) (sampled ports ks n i)
      (hheld n (by omega)) (by rw [ih.1]; exact hc) ih.2.1 ih.2.2
    simp only [sampled, DetectKey_apply]
    exact ⟨h.1.trans ih.1, h.2.1, h.2.2⟩

/-- The mode of a button is the same all along a run of samples. -/
theorem sampled_config (ports : Nat → Nat) (ks : Fin 8 → keystate_t) (i : Fin 8) (n : Nat) :
    (sampled ports ks n i).config = (ks i).config := by
  induction n with
  | zero => rfl
  | succ n ih => simp only [sampled, DetectKey_apply, detectButton_config, ih]

/-- In a run of samples of a Momentary button that starts with no flag pending, a pending flag
comes from a sample that found the button pressed when the sample before it, or the last
sample before the run, found it released. -/
theorem sampled_flag_origin (ports : Nat → Nat) (ks : Fin 8 → keystate_t) (i : Fin 8) (n : Nat)
    (hc : (ks i).config &&& KEY_CONFIG_PRESS = 0) (hf : (ks i).flag = 0)
    (h : (sampled ports ks n i).flag ≠ 0) :
    ∃ t < n, is_press (ports t) i ≠ 0 ∧ (sampled ports ks t i).state % 2 = 0 := by
  induction n with
  | zero => exact absurd hf h
  | succ n ih =>
    by_cases hn : (sampled ports ks n i).flag ≠ 0
    · obtain ⟨t, ht, h1, h2⟩ := ih hn
      exact ⟨t, by omega, h1, h2⟩
    · simp only [ne_eq, not_not] at hn
      simp only [sampled, DetectKey_apply] at h
      rw [detectButton_momentary _ _ (by rw [sampled_config]; exact hc)] at h
      simp only at h
      by_cases hp : is_press (ports n) i ≠ 0 ∧ (sampled ports ks n i).state % 2 = 0
      · exact ⟨n, by omega, hp.1, hp.2⟩
      · rw [if_neg hp] at h
        exact absurd hn h

/-- The lowest history bit after a sample is the sampled bit. -/
theorem sampled_succ_state (ports : Nat → Nat) (ks : Fin 8 → keystate_t) (i : Fin 8) (t : Nat) :
    (sampled ports ks (t + 1) i).state % 2 = if is_press (ports t) i ≠ 0 then 1 else 0 := by
  simp only [sampled, DetectKey_apply, detectButton_state_mod_two]

/-- One round of the main loop in Set-Date mode with BUTTON_1 held since before the mode was
entered and BACK released: the mode stays, and no Discard or Confirm event is pending. -/
theorem mainRound_held (oob : Int → Nat) (port : Option Nat) (s : State)
    (hm : s.mode = MODE_SETDATE)
    (hc : (s.keystate BUTTON_1).config &&& KEY_CONFIG_PRESS = 0)
    (hs : (s.keystate BUTTON_1).state % 2 = 1)
    (h1 : pending s.keystate BUTTON_1 = false) (hb : pending s.keystate BUTTON_BACK = false)
    (hp : ∀ b, port = some b → is_press b BUTTON_1 ≠ 0 ∧ is_press b BUTTON_BACK = 0) :
    (mainRound oob port s).mode = MODE_SETDATE ∧
      ((mainRound oob port s).keystate BUTTON_1).config &&& KEY_CONFIG_PRESS = 0 ∧
      ((mainRound oob port s).keystate BUTTON_1).state % 2 = 1 ∧
      pending (mainRound oob port s).keystate BUTTON_1 = false ∧
      pending (mainRound oob port s).keystate BUTTON_BACK = false := by
  have key : ∀ s' : State, s'.mode = MODE_SETDATE →
      (s'.keystate BUTTON_1).config &&& KEY_CONFIG_PRESS = 0 →
      (s'.keystate BUTTON_1).state % 2 = 1 → pending s'.keystate BUTTON_1 = false →
      pending s'.keystate BUTTON_BACK = false →
      (ProcMode oob s').mode = MODE_SETDATE ∧
      ((ProcMode oob s').keystate BUTTON_1).config &&& KEY_CONFIG_PRESS = 0 ∧
      ((ProcMode oob s').keystate BUTTON_1).state % 2 = 1 ∧
      pending (ProcMode oob s').keystate BUTTON_1 = false ∧
      pending (ProcMode oob s').keystate BUTTON_BACK = false := by
    intro s' hm' hc' hs' h1' hb'
    have e : ProcMode oob s' = ProcSetDate oob s' := by
      unfold ProcMode
      rw [if_neg (by rw [hm']; decide), if_pos hm']
    have h := ProcSetDate_idle oob s' hb' h1'
    rw [e]
    exact ⟨h.1.trans hm', by rw [h.2.2.2.1]; exact hc', by rw [h.2.2.2.2]; exact hs',
      h.2.1, h.2.2.1⟩
  cases port with
  | none => exact key s hm hc hs h1 hb
  | some b =>
    have hpb := hp b rfl
    have hst := detectButton_stale (is_press b BUTTON_1) (s.keystate BUTTON_1) hpb.1 hc hs
      ((pending_eq_false_iff _ _).1 h1)
    refine key { s with keystate := DetectKey b s.keystate } hm ?_ ?_ ?_ ?_
    · simp only [DetectKey_apply]; rw [hst.1]; exact hc
    · simp only [DetectKey_apply]; exact hst.2.1
    · rw [pending_eq_false_iff]; simp only [DetectKey_apply]; exact hst.2.2
    · rw [pending_eq_false_iff]
      simp only [DetectKey_apply, hpb.2, detectButton_released]
      exact (pending_eq_false_iff _ _).1 hb

/-- Claim C29.  For a Momentary button that was pressed on the last sample before
`ClearKeyFlags` is called: as long as every following sample finds it pressed, `DetectKey`
leaves no flag pending for it, and a flag that is pending after some samples comes from a
sample that found the button pressed directly after a sample that found it released.  In
particular, when BUTTON_1 is Momentary and its press has set its flag in Display mode,
`ProcDisplay` enters Set-Date mode, and for any number of rounds of the main loop (with or
without a sample) in which BUTTON_1 is sampled pressed and BACK released, the mode stays
Set-Date and no Discard event is pending. -/
theorem stale_press_never_leaks (oob : Int → Nat) (ks : Fin 8 → keystate_t) (i : Fin 8)
    (hc : (ks i).config &&& KEY_CONFIG_PRESS = 0) (hs : (ks i).state % 2 = 1) :
    (∀ (ports : Nat → Nat) (n : Nat), (∀ t < n, is_press (ports t) i ≠ 0) →
      pending (sampled ports (ClearKeyFlags ks) n) i = false) ∧
    (∀ (ports : Nat → Nat) (n : Nat), pending (sampled ports (ClearKeyFlags ks) n) i = true →
      ∃ t, t + 1 < n ∧ is_press (ports t) i = 0 ∧ is_press (ports (t + 1)) i ≠ 0) ∧
    (∀ (s : State) (ports : Nat → Option Nat) (n : Nat), i = BUTTON_1 → s.keystate = ks →
      s.mode = MODE_DISPLAY → pending s.keystate BUTTON_1 = true →
      (∀ t < n, ∀ b, ports t = some b → is_press b BUTTON_1 ≠ 0 ∧ is_press b BUTTON_BACK = 0) →
      (ProcDisplay s).mode = MODE_SETDATE ∧
      (mainRounds oob ports (ProcDisplay s) n).mode = MODE_SETDATE ∧
      pending (mainRounds oob ports (ProcDisplay s) n).keystate BUTTON_DISCARD = false) := by
  have hc0 : (ClearKeyFlags ks i).config &&& KEY_CONFIG_PRESS = 0 := hc
  have hs0 : (ClearKeyFlags ks i).state % 2 = 1 := hs
  have hf0 : (ClearKeyFlags ks i).flag = 0 := rfl
  refine ⟨?_, ?_, ?_⟩
  · intro ports n hheld
    rw [pending_eq_false_iff]
    exact (sampled_stale ports _ i n hc0 hs0 hf0 hheld).2.2
  · intro ports n hp
    have hfl : (sampled ports (ClearKeyFlags ks) n i).flag ≠ 0 := by
      intro h0
      rw [(pending_eq_false_iff _ _).2 h0] at hp
      exact absurd hp (by decide)
    obtain ⟨t, ht, h1, h2⟩ := sampled_flag_origin ports _ i n hc0 hf0 hfl
    cases t with
    | zero =>
      simp only [sampled] at h2
      omega
    | succ t =>
      refine ⟨t, ht, ?_, h1⟩
      rw [sampled_succ_state] at h2
      by_contra hne
      rw [if_pos hne] at h2
      omega
  · intro s ports n hi hks hm h1 hheld
    subst hi
    subst hks
    have hk := displayKeys_pending s
    have e : ProcDisplay s = enterSetDate (displayKeys s) := by
      simp [ProcDisplay, hk.1, h1]
    have hdk : ((displayKeys s).keystate BUTTON_1).config = (s.keystate BUTTON_1).config ∧
        ((displayKeys s).keystate BUTTON_1).state = (s.keystate BUTTON_1).state := by
      unfold displayKeys
      simp only
      split_ifs <;> simp [clearFlag_config, clearFlag_state]
    have inv : ∀ m, m ≤ n →
        (mainRounds oob ports (ProcDisplay s) m).mode = MODE_SETDATE ∧
        ((mainRounds oob ports (ProcDisplay s) m).keystate BUTTON_1).config &&&
          KEY_CONFIG_PRESS = 0 ∧
        ((mainRounds oob ports (ProcDisplay s) m).keystate BUTTON_1).state % 2 = 1 ∧
        pending (mainRounds oob ports (ProcDisplay s) m).keystate BUTTON_1 = false ∧
        pending (mainRounds oob ports (ProcDisplay s) m).keystate BUTTON_BACK = false := by
      intro m
      induction m with
      | zero =>
        intro _
        simp only [mainRounds]
        rw [e]
        refine ⟨rfl, ?_, ?_, pending_ClearKeyFlags _ _, pending_ClearKeyFlags _ _⟩
        · show ((displayKeys s).keystate BUTTON_1).config &&& KEY_CONFIG_PRESS = 0
          rw [hdk.1]; exact hc
        · show ((displayKeys s).keystate BUTTON_1).state % 2 = 1
          rw [hdk.2]; exact hs
      | succ m ih =>
        intro hm1
        have ih := ih (by omega)
        simp only [mainRounds]
        exact mainRound_held oob (ports m) _ ih.1 ih.2.1 ih.2.2.1 ih.2.2.2.1 ih.2.2.2.2
          (fun b hb => hheld m (by omega) b hb)
    refine ⟨by rw [e]; rfl, (inv n (Nat.le_refl _)).1, (inv n (Nat.le_refl _)).2.2.2.1⟩

/-- Claim C29 on BUTTON_1 pressed in the Display state and held for five more samples (port
byte `0xfe`): no flag from the samples alone, and after five rounds of the main loop the mode
is Set-Date with no Discard event pending. -/
theorem stale_press_never_leaks_witness :
    pending (sampled (fun _ => 0xfe)
      (ClearKeyFlags (DetectKey 0xfe displayExample.keystate)) 5) BUTTON_1 = false ∧
    (mainRounds (fun _ => 0) (fun _ => some 0xfe)
      (ProcDisplay { displayExample with keystate := DetectKey 0xfe displayExample.keystate })
      5).mode = MODE_SETDATE :=
  ⟨(stale_press_never_leaks (fun _ => 0) (DetectKey 0xfe displayExample.keystate) BUTTON_1
      (by decide) (by decide)).1 (fun _ => 0xfe) 5
      (fun _ _ => by show is_press 0xfe BUTTON_1 ≠ 0; decide),
   ((stale_press_never_leaks (fun _ => 0) (DetectKey 0xfe displayExample.keystate) BUTTON_1
      (by decide) (by decide)).2.2
      { displayExample with keystate := DetectKey 0xfe displayExample.keystate }
      (fun _ => some 0xfe) 5 rfl rfl rfl (by decide)
      (fun _ _ b hb => by
        cases hb
        exact ⟨by show is_press 0xfe BUTTON_1 ≠ 0; decide,
          by show is_press 0xfe BUTTON_BACK = 0; decide⟩)).2.1⟩

/-! ### What the dispatcher sends -/

set_option maxRecDepth 100000 in
/-- Claim C24 fails on the date 2024-06-18 and the line `GET DATE`: `ProcessCommand` sends
`2024/06/06` and CR LF, the month digits standing where the day belongs, not `2024/06/18`;
`StringifyDate` does not read its parameter `day` at all.  The lines `GET TIME` and
`GET ALARM` send the time of day 12:34:56 and the alarm time 07:30:00 as claimed. -/
theorem GET_DATE_sends_month_digits_for_day :
    ValidDateTime (fun _ => 0) { month := 6, day := 18, year := 2024, time := 45296 } ∧
    (ProcessCommand (fun _ => 0) (fun _ => 0) 16 (bytes "GET DATE")
        { month := 0, day := 0, year := 0, time := 0 }
        { displayExample with
            datetime := { month := 6, day := 18, year := 2024, time := 45296 } }).map
      (fun r => r.uart) = some (bytes "2024/06/06\r\n") ∧
    bytes "2024/06/06\r\n" ≠ bytes "2024/06/18\r\n" ∧
    (∀ year month day other, StringifyDate year month day = StringifyDate year month other) ∧
    (ProcessCommand (fun _ => 0) (fun _ => 0) 16 (bytes "GET TIME")
        { month := 0, day := 0, year := 0, time := 0 }
        { displayExample with
            datetime := { month := 6, day := 18, year := 2024, time := 45296 } }).map
      (fun r => r.uart) = some (bytes "12:34:56\r\n") ∧
    (ProcessCommand (fun _ => 0) (fun _ => 0) 16 (bytes "GET ALARM")
        { month := 0, day := 0, year := 0, time := 0 }
        { displayExample with
            datetime := { month := 6, day := 18, year := 2024, time := 45296 } }).map
      (fun r => r.uart) = some (bytes "07:30:00\r\n") :=
  ⟨by decide, by decide, by decide, fun _ _ _ _ => rfl, by decide, by decide⟩

set_option maxRecDepth 100000 in
/-- Claim C25 fails on the line `CLOCK`: the three templates of the CLOCK family return a
partial match at offset 5, the length of the line, and the diagnostic that `ProcessCommand`
sends has the marker line of 21 spaces and `~~`, with no `^` at all: the caret written in
column 18 + 5 is overwritten by the NUL that ends the marker line.  This is so whatever the
uninitialised array `buffer` holds. -/
theorem partial_diagnostic_without_caret (oob : Int → Nat) (stack : Nat → Nat) (s : State) :
    (ParseCommand oob 16 (bytes "CLOCK INIT") (bytes "CLOCK")
      { month := 0, day := 0, year := 0, time := 0 }).map (fun r => r.error) =
        some (ERROR_PARTIAL ||| 5) ∧
    (ParseCommand oob 16 (bytes "CLOCK RESTART") (bytes "CLOCK")
      { month := 0, day := 0, year := 0, time := 0 }).map (fun r => r.error) =
        some (ERROR_PARTIAL ||| 5) ∧
    (ParseCommand oob 16 (bytes "CLOCK HIB") (bytes "CLOCK")
      { month := 0, day := 0, year := 0, time := 0 }).map (fun r => r.error) =
        some (ERROR_PARTIAL ||| 5) ∧
    (ProcessCommand oob stack 16 (bytes "CLOCK")
      { month := 0, day := 0, year := 0, time := 0 } s).map (fun r => r.uart) =
        some (bytes
          "Invalid Argument: CLOCK\r\n                     ~~\r\nUsage: CLOCK INIT|RESTART|HIB\r\n") ∧
    94 ∉ bytes "                     ~~" :=
  ⟨by rfl, by rfl, by rfl, by rfl, by decide⟩

/-! ### Letter case of the input -/

/-- Two bytes that are equal up to the case of letters are equal when one of them is below
`'A'`. -/
theorem eq_of_upper_eq_of_lt (x y : Nat) (h : ToUpperCase y = ToUpperCase x)
    (hlt : x < 65 ∨ y < 65) : y = x := by
  unfold ToUpperCase at h
  split_ifs at h <;> omega

/-- The loop of `ParseIntegerUntil` reads digits and a delimiter below `'A'`: it does the same
on two inputs that are equal up to the case of letters. -/
theorem ParseIntegerUntilLoop_case (c c' : List Nat)
    (hrel : ∀ k, ToUpperCase (byteAt c' k) = ToUpperCase (byteAt c k)) (delim : Nat)
    (hd : delim < 65) (fuel : Nat) :
    ∀ (index : Nat) (result : Int),
      ParseIntegerUntilLoop c' delim fuel index result =
        ParseIntegerUntilLoop c delim fuel index result := by
  induction fuel with
  | zero => intros; rfl
  | succ fuel ih =>
    intro index result
    have h := hrel index
    have e := eq_of_upper_eq_of_lt _ _ h
    unfold ParseIntegerUntilLoop
    by_cases hx : byteAt c index < 65
    · rw [e (Or.inl hx)]
      split_ifs <;> first | rfl | exact ih _ _
    · have hy : ¬ byteAt c' index < 65 := fun hy => hx (by rw [← e (Or.inr hy)]; exact hy)
      have h1 : byteAt c index ≠ 0 ∧ byteAt c index ≠ delim := ⟨by omega, by omega⟩
      have h2 : byteAt c' index ≠ 0 ∧ byteAt c' index ≠ delim := ⟨by omega, by omega⟩
      have h3 : ¬ (48 ≤ byteAt c index ∧ byteAt c index ≤ 57) := by omega
      have h4 : ¬ (48 ≤ byteAt c' index ∧ byteAt c' index ≤ 57) := by omega
      rw [if_pos h1, if_pos h2, if_neg h3, if_neg h4]

/-- The function `ParseIntegerUntil` does the same on two inputs that are equal up to the case
of letters. -/
theorem ParseIntegerUntil_case (c c' : List Nat)
    (hrel : ∀ k, ToUpperCase (byteAt c' k) = ToUpperCase (byteAt c k)) (delim : Nat)
    (hd : delim < 65) (fuel index : Nat) :
    ParseIntegerUntil fuel c' delim index = ParseIntegerUntil fuel c delim index :=
  ParseIntegerUntilLoop_case c c' hrel delim hd fuel index 0

/-- The branch `pattern_type == 'T'` reads the same values from two inputs that are equal up to
the case of letters; only the echo of the input in the text sent differs. -/
theorem parseTime_case (c c' : List Nat)
    (hrel : ∀ k, ToUpperCase (byteAt c' k) = ToUpperCase (byteAt c k)) (delim : Nat)
    (hd : delim < 65) (fuel i : Nat) (args : datetime_t) :
    (parseTime fuel c' delim i args).map Placeholder.core =
      (parseTime fuel c delim i args).map Placeholder.core := by
  unfold parseTime
  simp only [ParseIntegerUntil_case c c' hrel 58 (by omega),
    ParseIntegerUntil_case c c' hrel delim hd]
  cases ParseIntegerUntil fuel c 58 i with
  | none => rfl
  | some r1 =>
    obtain ⟨e1, i1, t1⟩ := r1
    simp only
    by_cases h1 : e1 ≠ ERROR_SUCCESS
    · simp only [if_pos h1]; rfl
    · simp only [if_neg h1]
      by_cases h1' : ¬ (t1 ≥ 0 ∧ t1 ≤ 23)
      · simp only [if_pos h1']
      · simp only [if_neg h1']
        cases ParseIntegerUntil fuel c 58 i1 with
        | none => rfl
        | some r2 =>
          obtain ⟨e2, i2, t2⟩ := r2
          simp only
          by_cases h2 : e2 ≠ ERROR_SUCCESS
          · simp only [if_pos h2]; rfl
          · simp only [if_neg h2]
            by_cases h2' : ¬ (t2 ≥ 0 ∧ t2 ≤ 59)
            · simp only [if_pos h2']
            · simp only [if_neg h2']
              cases ParseIntegerUntil fuel c delim i2 with
              | none => rfl
              | some r3 =>
                obtain ⟨e3, i3, t3⟩ := r3
                simp only
                by_cases h3 : e3 ≠ ERROR_SUCCESS
                · simp only [if_pos h3]; rfl
                · simp only [if_neg h3]

/-- The branch `pattern_type == 'D'` reads the same values from two inputs that are equal up to
the case of letters; only the echo of the input in the text sent differs. -/
theorem parseDate_case (oob : Int → Nat) (c c' : List Nat)
    (hrel : ∀ k, ToUpperCase (byteAt c' k) = ToUpperCase (byteAt c k)) (delim : Nat)
    (hd : delim < 65) (fuel i : Nat) (args : datetime_t) :
    (parseDate oob fuel c' delim i args).map Placeholder.core =
      (parseDate oob fuel c delim i args).map Placeholder.core := by
  unfold parseDate
  simp only [ParseIntegerUntil_case c c' hrel 47 (by omega),
    ParseIntegerUntil_case c c' hrel delim hd]
  cases ParseIntegerUntil fuel c 47 i with
  | none => rfl
  | some r1 =>
    obtain ⟨e1, i1, t1⟩ := r1
    simp only
    by_cases h1 : e1 ≠ ERROR_SUCCESS
    · simp only [if_pos h1]; rfl
    · simp only [if_neg h1]
      by_cases h1' : ¬ (t1 ≥ 0 ∧ t1 ≤ 9999)
      · simp only [if_pos h1']
      · simp only [if_neg h1']
        cases ParseIntegerUntil fuel c 47 i1 with
        | none => rfl
        | some r2 =>
          obtain ⟨e2, i2, t2⟩ := r2
          simp only
          by_cases h2 : e2 ≠ ERROR_SUCCESS
          · simp only [if_pos h2]; rfl
          · simp only [if_neg h2]
            by_cases h2' : ¬ (t2 ≥ 0 ∧ t2 ≤ 12)
            · simp only [if_pos h2']
            · simp only [if_neg h2']
              cases ParseIntegerUntil fuel c delim i2 with
              | none => rfl
              | some r3 =>
                obtain ⟨e3, i3, t3⟩ := r3
                simp only
                by_cases h3 : e3 ≠ ERROR_SUCCESS
                · simp only [if_pos h3]; rfl
                · simp only [if_neg h3]

/-- The loop of `ParseCommand` compares through `ToUpperCase`, and its placeholders read
digits and delimiters below `'A'`: on two inputs that are equal up to the case of letters it
returns the same error code and the same arguments. -/
theorem ParseCommandLoop_case (oob : Int → Nat) (pattern c c' : List Nat)
    (hrel : ∀ k, ToUpperCase (byteAt c' k) = ToUpperCase (byteAt c k))
    (hdel : ∀ k, ToUpperCase (byteAt pattern k) = 36 → byteAt pattern ((k + 1) % 256 + 1) < 65)
    (fuel : Nat) :
    ∀ (i j skip_space has_space current_arg : Nat) (args : datetime_t),
      (ParseCommandLoop oob pattern c' fuel i j skip_space has_space current_arg args).map
          ParseResult.outcome =
        (ParseCommandLoop oob pattern c fuel i j skip_space has_space current_arg args).map
          ParseResult.outcome := by
  induction fuel with
  | zero => intros; rfl
  | succ fuel ih =>
    intro i j skip_space has_space current_arg args
    have h0 : byteAt c' i ≠ 0 ↔ byteAt c i ≠ 0 := by
      have e := eq_of_upper_eq_of_lt _ _ (hrel i)
      constructor
      · intro h hc; exact h (by rw [e (Or.inl (by omega))]; exact hc)
      · intro h hc; exact h (by rw [← e (Or.inr (by omega))]; exact hc)
    unfold ParseCommandLoop
    simp only [hrel i, h0]
    by_cases h1 : byteAt c i ≠ 0 ∧ byteAt pattern j ≠ 0
    · rw [if_pos h1, if_pos h1]
      by_cases h2 : ToUpperCase (byteAt c i) = 32 ∧ skip_space ≠ 0
      · rw [if_pos h2, if_pos h2]; exact ih _ _ _ _ _ _
      · rw [if_neg h2, if_neg h2]
        by_cases h3 : ToUpperCase (byteAt pattern j) = 36
        · rw [if_pos h3, if_pos h3]
          have hd := hdel j h3
          have hstep :
              (if ToUpperCase (byteAt pattern (j + 1)) = 84 then
                  parseTime fuel c' (byteAt pattern ((j + 1) % 256 + 1)) i
                    { month := 0, day := 0, year := 0, time := 0 }
                else if ToUpperCase (byteAt pattern (j + 1)) = 68 then
                  parseDate oob fuel c' (byteAt pattern ((j + 1) % 256 + 1)) i
                    { month := 0, day := 0, year := 0, time := 0 }
                else some (.next i { month := 0, day := 0, year := 0, time := 0 })).map
                  Placeholder.core =
              (if ToUpperCase (byteAt pattern (j + 1)) = 84 then
                  parseTime fuel c (byteAt pattern ((j + 1) % 256 + 1)) i
                    { month := 0, day := 0, year := 0, time := 0 }
                else if ToUpperCase (byteAt pattern (j + 1)) = 68 then
                  parseDate oob fuel c (byteAt pattern ((j + 1) % 256 + 1)) i
                    { month := 0, day := 0, year := 0, time := 0 }
                else some (.next i { month := 0, day := 0, year := 0, time := 0 })).map
                  Placeholder.core := by
            split_ifs
            · exact parseTime_case c c' hrel _ hd fuel i _
            · exact parseDate_case oob c c' hrel _ hd fuel i _
            · rfl
          generalize (if ToUpperCase (byteAt pattern (j + 1)) = 84 then
                  parseTime fuel c' (byteAt pattern ((j + 1) % 256 + 1)) i
                    { month := 0, day := 0, year := 0, time := 0 }
                else if ToUpperCase (byteAt pattern (j + 1)) = 68 then
                  parseDate oob fuel c' (byteAt pattern ((j + 1) % 256 + 1)) i
                    { month := 0, day := 0, year := 0, time := 0 }
                else some (.next i { month := 0, day := 0, year := 0, time := 0 })) = s'
            at hstep ⊢
          generalize (if ToUpperCase (byteAt pattern (j + 1)) = 84 then
                  parseTime fuel c (byteAt pattern ((j + 1) % 256 + 1)) i
                    { month := 0, day := 0, year := 0, time := 0 }
                else if ToUpperCase (byteAt pattern (j + 1)) = 68 then
                  parseDate oob fuel c (byteAt pattern ((j + 1) % 256 + 1)) i
                    { month := 0, day := 0, year := 0, time := 0 }
                else some (.next i { month := 0, day := 0, year := 0, time := 0 })) = s
            at hstep ⊢
          cases s with
          | none =>
            cases s' with
            | none => rfl
            | some p' => simp at hstep
          | some p =>
            cases s' with
            | none => simp at hstep
            | some p' =>
              simp only [Option.map_some', Option.some.injEq] at hstep
              cases p with
              | next i1 a1 =>
                cases p' with
                | next i2 a2 =>
                  simp only [Placeholder.core, Prod.mk.injEq, Option.some.injEq] at hstep
                  obtain ⟨hi, ha⟩ := hstep
                  subst hi
                  subst ha
                  exact ih _ _ _ _ _ _
                | format u2 a2 => simp [Placeholder.core] at hstep
              | format u1 a1 =>
                cases p' with
                | next i2 a2 => simp [Placeholder.core] at hstep
                | format u2 a2 =>
                  simp only [Placeholder.core, Prod.mk.injEq, true_and] at hstep
                  subst hstep
                  rfl
        · rw [if_neg h3, if_neg h3]
          by_cases h4 : ToUpperCase (byteAt pattern j) ≠ ToUpperCase (byteAt c i)
          · rw [if_pos h4, if_pos h4]
          · rw [if_neg h4, if_neg h4]; exact ih _ _ _ _ _ _
    · rw [if_neg h1, if_neg h1]

/-- The function `ParseCommand` returns the same error code and the same arguments on two
inputs that are equal up to the case of letters, for a template whose placeholders end at a
character that is not a letter. -/
theorem ParseCommand_case (oob : Int → Nat) (fuel : Nat) (pattern c c' : List Nat)
    (args : datetime_t) (hp : DelimitersPlain pattern)
    (hrel : ∀ k, ToUpperCase (byteAt c' k) = ToUpperCase (byteAt c k)) :
    (ParseCommand oob fuel pattern c' args).map ParseResult.outcome =
      (ParseCommand oob fuel pattern c args).map ParseResult.outcome := by
  refine ParseCommandLoop_case oob pattern c c' hrel (fun k hk => ?_) fuel 0 0 0 0 0 args
  refine hp k ?_ hk
  by_contra hlen
  have h0 : byteAt pattern k = 0 := by
    unfold byteAt
    exact List.getD_eq_default _ _ (Nat.le_of_not_lt hlen)
  rw [h0] at hk
  exact absurd hk (by decide)

/-- The byte of a converted array is the converted byte. -/
theorem byteAt_map (f : Nat → Nat) (hf : f 0 = 0) (c : List Nat) (k : Nat) :
    byteAt (c.map f) k = f (byteAt c k) := by
  unfold byteAt
  by_cases hk : k < c.length
  · rw [List.getD_eq_getElem _ _ (by simpa using hk), List.getD_eq_getElem _ _ hk]
    simp
  · rw [List.getD_eq_default _ _ (by simpa using hk), List.getD_eq_default _ _ (by omega), hf]

/-- Converting to upper case and to lower case leaves the upper-case form of a byte. -/
theorem ToUpperCase_conversions (x : Nat) :
    ToUpperCase (toUpperCase x) = ToUpperCase x ∧ ToUpperCase (toLowerCase x) = ToUpperCase x := by
  unfold ToUpperCase toUpperCase toLowerCase
  refine ⟨?_, ?_⟩ <;> split_ifs <;> omega

/-- Claim C21.  For every template of the command set, every input array and every content of
`args[0]`, `ParseCommand` returns the same error code (class and offset) and the same
arguments on the input, on the input with every letter converted to upper case, and on the
input with every letter converted to lower case; and so it does on any two inputs that agree
at every index up to the case of letters.  With the same fuel it returns on all of them or on
none. -/
theorem ParseCommand_case_insensitive (oob : Int → Nat) (fuel : Nat) (pattern c : List Nat)
    (args : datetime_t) (hp : pattern ∈ commandTemplates) :
    (ParseCommand oob fuel pattern (c.map toUpperCase) args).map ParseResult.outcome =
      (ParseCommand oob fuel pattern c args).map ParseResult.outcome ∧
    (ParseCommand oob fuel pattern (c.map toLowerCase) args).map ParseResult.outcome =
      (ParseCommand oob fuel pattern c args).map ParseResult.outcome ∧
    (∀ c' : List Nat, (∀ k, ToUpperCase (byteAt c' k) = ToUpperCase (byteAt c k)) →
      (ParseCommand oob fuel pattern c' args).map ParseResult.outcome =
        (ParseCommand oob fuel pattern c args).map ParseResult.outcome) := by
  have hd : DelimitersPlain pattern := by
    have hall : ∀ p ∈ commandTemplates, DelimitersPlain p := by decide
    exact hall pattern hp
  refine ⟨?_, ?_, fun c' hrel => ParseCommand_case oob fuel pattern c c' args hd hrel⟩
  · refine ParseCommand_case oob fuel pattern c _ args hd (fun k => ?_)
    rw [byteAt_map _ (by decide)]
    exact (ToUpperCase_conversions _).1
  · refine ParseCommand_case oob fuel pattern c _ args hd (fun k => ?_)
    rw [byteAt_map _ (by decide)]
    exact (ToUpperCase_conversions _).2

set_option maxRecDepth 100000 in
/-- Claim C21 on the template `SET TIME $T` and the line `set Time 12:34:56`: the outcome is
success with time 45296, as on the line in upper case. -/
theorem ParseCommand_case_insensitive_witness :
    bytes "SET TIME $T" ∈ commandTemplates ∧
    (bytes "set Time 12:34:56").map toUpperCase = bytes "SET TIME 12:34:56" ∧
    (ParseCommand (fun _ => 0) 32 (bytes "SET TIME $T") (bytes "set Time 12:34:56")
      { month := 0, day := 0, year := 0, time := 0 }).map ParseResult.outcome =
      some (ERROR_SUCCESS, { month := 0, day := 0, year := 0, time := 45296 }) ∧
    (ParseCommand (fun _ => 0) 32 (bytes "SET TIME $T")
      ((bytes "set Time 12:34:56").map toUpperCase)
      { month := 0, day := 0, year := 0, time := 0 }).map ParseResult.outcome =
    (ParseCommand (fun _ => 0) 32 (bytes "SET TIME $T") (bytes "set Time 12:34:56")
      { month := 0, day := 0, year := 0, time := 0 }).map ParseResult.outcome :=
  ⟨by decide, by decide, by decide,
    (ParseCommand_case_insensitive (fun _ => 0) 32 (bytes "SET TIME $T")
      (bytes "set Time 12:34:56") { month := 0, day := 0, year := 0, time := 0 }
      (by decide)).1⟩

/-! ### The SET commands -/

/-- Two templates that agree before the index `m`, on a line on which the first one is passed
beyond `m`: the loop of `ParseCommand` takes the same steps on both until it compares the
template character at `m`, which the first template matches. -/
theorem exitLoop_lockstep (oob : Int → Nat) (p command : List Nat) (m : Nat) (hm : m ≤ 254)
    (h36 : ∀ k ≤ m, byteAt p k ≠ 36) (fuel : Nat) :
    ∀ (i j sk hs al : Nat) (e : ParseExit), j ≤ m →
      ParseCommandExitLoop oob p command fuel i j sk hs al = some e → m < e.j →
      ∃ fuel' i' sk' hs' al',
        byteAt command i' ≠ 0 ∧ ¬ (byteAt command i' = 32 ∧ sk' ≠ 0) ∧
        ToUpperCase (byteAt p m) = ToUpperCase (byteAt command i') ∧
        ((hs ≠ 0 ∨ ∃ k, j ≤ k ∧ k < m ∧ byteAt p k = 32) → hs' ≠ 0) ∧
        ∀ q : List Nat, (∀ k < m, byteAt q k = byteAt p k) → byteAt q m ≠ 0 →
          ParseCommandExitLoop oob q command fuel i j sk hs al =
            ParseCommandExitLoop oob q command (fuel' + 1) i' m sk' hs' al' := by
  induction fuel with
  | zero =>
    intro i j sk hs al e _ h _
    simp [ParseCommandExitLoop] at h
  | succ fuel ih =>
    intro i j sk hs al e hj h hje
    by_cases h1 : byteAt command i ≠ 0 ∧ byteAt p j ≠ 0
    · by_cases h2 : byteAt command i = 32 ∧ sk ≠ 0
      · rw [exitLoop_skip oob p command fuel i j sk hs al h2.1 h1.2 h2.2] at h
        obtain ⟨fuel', i', sk', hs', al', c1, c2, c3, c4, c5⟩ := ih _ _ _ _ _ e hj h hje
        refine ⟨fuel', i', sk', hs', al', c1, c2, c3, c4, fun q hq hqm => ?_⟩
        have hqj : byteAt q j ≠ 0 := by
          by_cases hjm : j < m
          · rw [hq j hjm]; exact h1.2
          · have : j = m := by omega
            rw [this]; exact hqm
        rw [exitLoop_skip oob q command fuel i j sk hs al h2.1 hqj h2.2]
        exact c5 q hq hqm
      · rw [exitLoop_literal oob p command fuel i j sk hs al h1.1 h1.2 h2 (h36 j hj)] at h
        by_cases h4 : ToUpperCase (byteAt p j) ≠ ToUpperCase (byteAt command i)
        · rw [if_pos h4] at h
          simp only [Option.some.injEq] at h
          rw [← h] at hje
          simp only at hje
          omega
        · rw [if_neg h4] at h
          simp only [ne_eq, not_not] at h4
          by_cases hjm : j < m
          · have e1 : (j + 1) % 256 = j + 1 := Nat.mod_eq_of_lt (by omega)
            rw [e1] at h
            obtain ⟨fuel', i', sk', hs', al', c1, c2, c3, c4, c5⟩ :=
              ih _ _ _ _ _ e (by omega) h hje
            refine ⟨fuel', i', sk', hs', al', c1, c2, c3, ?_, fun q hq hqm => ?_⟩
            · intro hh
              apply c4
              rcases hh with hh | ⟨k, hk1, hk2, hk3⟩
              · left; split_ifs <;> omega
              · by_cases hkj : k = j
                · left
                  rw [hkj] at hk3
                  have h32 : byteAt command i = 32 := by
                    have := h4
                    rw [hk3] at this
                    exact (ToUpperCase_eq_iff _ 32 (by omega)).1 this.symm
                  rw [if_pos h32]; omega
                · right; exact ⟨k, by omega, hk2, hk3⟩
            · have hqj : byteAt q j = byteAt p j := hq j hjm
              rw [exitLoop_literal oob q command fuel i j sk hs al h1.1 (by rw [hqj]; exact h1.2)
                h2 (by rw [hqj]; exact h36 j hj), hqj, if_neg (by simpa using h4), e1]
              exact c5 q hq hqm
          · have hjm' : j = m := by omega
            subst hjm'
            exact ⟨fuel, i, sk, hs, al, h1.1, h2, h4, fun hh => by
              rcases hh with hh | ⟨k, hk1, hk2, _⟩
              · exact hh
              · omega, fun q _ _ => rfl⟩
    · rw [exitLoop_end oob p command fuel i j sk hs al h1] at h
      simp only [Option.some.injEq] at h
      rw [← h] at hje
      simp only at hje
      omega

/-- A code with the bit `ERROR_PARTIAL` set has it set. -/
theorem partial_code_bit (x : Nat) : (ERROR_PARTIAL ||| x) &&& ERROR_PARTIAL ≠ 0 := by
  intro h
  have h11 := congrArg (fun n => n.testBit 11) h
  simp only [Nat.testBit_and, Nat.testBit_or, Nat.zero_testBit] at h11
  have : ERROR_PARTIAL.testBit 11 = true := by decide
  rw [this] at h11
  simp at h11

/-- A line that matches one template fails, with `ERROR_PARTIAL`, every template that agrees
with it before the index `m`, behind a space, and has another letter at `m`. -/
theorem ParseCommand_diverging_template (oob : Int → Nat) (fuel : Nat) (p q command : List Nat)
    (args args' : datetime_t) (m : Nat) (hm : m ≤ 254) (hmp : m < p.length)
    (hpz : ∀ k < p.length, byteAt p k ≠ 0)
    (h : ∃ r, ParseCommand oob fuel p command args = some r ∧ r.error = ERROR_SUCCESS)
    (h36 : ∀ k ≤ m, byteAt p k ≠ 36) (hq : ∀ k < m, byteAt q k = byteAt p k)
    (hqm : byteAt q m ≠ 0) (hq36 : byteAt q m ≠ 36)
    (hne : ToUpperCase (byteAt q m) ≠ ToUpperCase (byteAt p m))
    (hsp : ∃ k, k < m ∧ byteAt p k = 32) :
    ∃ r, ParseCommand oob fuel q command args' = some r ∧ r.error &&& ERROR_PARTIAL ≠ 0 := by
  obtain ⟨e, he, hes⟩ := ParseCommandExit_of_success oob fuel p command args h
  have hsite := (exitLoop_site oob p command fuel 0 0 0 0 0 e he).2.2 hes
  have hje : m < e.j := by
    by_contra hcon
    exact hpz e.j (by omega) hsite.2
  obtain ⟨fuel', i', sk', hs', al', c1, c2, c3, c4, c5⟩ :=
    exitLoop_lockstep oob p command m hm h36 fuel 0 0 0 0 0 e (Nat.zero_le _) he hje
  have hx : ParseCommandExit oob fuel q command =
      some { site := .literal, i := i', j := m
             has_space := if byteAt command i' = 32 then 1 else hs', aligned := al' } := by
    unfold ParseCommandExit
    rw [c5 q hq hqm, exitLoop_literal oob q command fuel' i' m sk' hs' al' c1 hqm c2 hq36,
      if_pos (by rw [← c3]; exact hne)]
  obtain ⟨r, hr, hre⟩ := ParseCommand_of_exit oob fuel q command _ hx args'
  refine ⟨r, hr, ?_⟩
  have hhs : hs' ≠ 0 := c4 (Or.inr (by
    obtain ⟨k, hk1, hk2⟩ := hsp
    exact ⟨k, Nat.zero_le _, hk1, hk2⟩))
  rw [hre]
  unfold exitError
  simp only
  have : (if byteAt command i' = 32 then 1 else hs') ≠ 0 := by split_ifs <;> omega
  rw [if_pos this]
  exact partial_code_bit _

/-- A line that matches one template fails every template that starts with another letter
with `ERROR_NOT_MATCH` and offset 0. -/
theorem ParseCommand_other_template_code (oob : Int → Nat) (fuel : Nat) (p q command : List Nat)
    (args args' : datetime_t)
    (h : ∃ r, ParseCommand oob fuel p command args = some r ∧ r.error = ERROR_SUCCESS)
    (hp : byteAt p 0 ≠ 0) (hp36 : ToUpperCase (byteAt p 0) ≠ 36)
    (hp32 : ToUpperCase (byteAt p 0) ≠ 32)
    (hq : byteAt q 0 ≠ 0) (hq36 : ToUpperCase (byteAt q 0) ≠ 36)
    (hne : ToUpperCase (byteAt q 0) ≠ ToUpperCase (byteAt p 0)) :
    ∃ r, ParseCommand oob fuel q command args' = some r ∧ r.error = 1024 := by
  obtain ⟨e, he, hes⟩ := ParseCommandExit_of_success oob fuel p command args h
  obtain ⟨hc, hcp⟩ := ParseCommandExit_success_first oob fuel p command e he hes hp hp36
  cases fuel with
  | zero => simp [ParseCommandExit, ParseCommandExitLoop] at he
  | succ fuel =>
    have hx := ParseCommandExit_first_mismatch oob fuel q command hc hq hq36 (by rw [hcp]; exact hne)
    obtain ⟨r, hr, hre⟩ := ParseCommand_of_exit oob _ q command _ hx args'
    refine ⟨r, hr, ?_⟩
    rw [hre]
    unfold exitError
    simp only
    rw [hcp, if_neg hp32]
    decide

/-- On a template with a placeholder and a line on which `ParseCommand` succeeds, the result,
arguments included, does not depend on what `args[0]` held before the call. -/
theorem ParseCommandLoop_success_args (oob : Int → Nat) (p command : List Nat)
    (hP : p.length ≤ 254) (hz : ∀ k < p.length, byteAt p k ≠ 0) (fuel : Nat) :
    ∀ (i j sk hs : Nat) (args : datetime_t) (r : ParseResult),
      ParseCommandLoop oob p command fuel i j sk hs 0 args = some r →
      r.error = ERROR_SUCCESS → (∃ k, j ≤ k ∧ k < p.length ∧ byteAt p k = 36) →
      ∀ args', ParseCommandLoop oob p command fuel i j sk hs 0 args' = some r := by
  induction fuel with
  | zero => intro i j sk hs args r h; simp [ParseCommandLoop] at h
  | succ fuel ih =>
    intro i j sk hs args r h hr hk args'
    obtain ⟨k, hk1, hk2, hk3⟩ := hk
    unfold ParseCommandLoop at h ⊢
    simp only at h ⊢
    by_cases h1 : byteAt command i ≠ 0 ∧ byteAt p j ≠ 0
    · rw [if_pos h1] at h ⊢
      by_cases h2 : ToUpperCase (byteAt command i) = 32 ∧ sk ≠ 0
      · rw [if_pos h2] at h ⊢
        exact ih _ _ _ _ _ r h hr ⟨k, hk1, hk2, hk3⟩ args'
      · rw [if_neg h2] at h ⊢
        by_cases h3 : ToUpperCase (byteAt p j) = 36
        · rw [if_pos h3] at h ⊢
          simp only [if_true] at h ⊢
          exact h
        · rw [if_neg h3] at h ⊢
          by_cases h4 : ToUpperCase (byteAt p j) ≠ ToUpperCase (byteAt command i)
          · rw [if_pos h4] at h
            simp only [Option.some.injEq] at h
            rw [← h] at hr
            exact absurd hr (mismatch_code_ne_zero _ _)
          · rw [if_neg h4] at h ⊢
            have hjk : j ≠ k := by
              intro hjk
              rw [hjk, hk3] at h3
              exact h3 (by decide)
            have e1 : (j + 1) % 256 = j + 1 := Nat.mod_eq_of_lt (by omega)
            rw [e1] at h ⊢
            exact ih _ _ _ _ _ r h hr ⟨k, by omega, hk2, hk3⟩ args'
    · rw [if_neg h1] at h ⊢
      by_cases h5 : byteAt command i ≠ 0 ∨ byteAt p j ≠ 0
      · rw [if_pos h5] at h
        simp only [Option.some.injEq] at h
        rw [← h] at hr
        exact absurd hr (mismatch_code_ne_zero _ _)
      · exfalso
        simp only [not_or, ne_eq, not_not] at h5
        exact hz j (by omega) h5.2

/-- A code without the bit `ERROR_PARTIAL` leaves `partical_error` as it is. -/
theorem notePartial_not_match (pe : Nat) : notePartial pe 1024 = pe := by
  unfold notePartial
  rw [if_neg (by decide)]

/-- A code with the bit `ERROR_PARTIAL` is not `ERROR_SUCCESS`. -/
theorem partial_bit_ne_success (x : Nat) (h : x &&& ERROR_PARTIAL ≠ 0) : x ≠ ERROR_SUCCESS := by
  intro hx
  rw [hx] at h
  exact h (by decide)

/-- On a line that the three templates of the CLOCK family fail at its first character, the
family hands on to the next one. -/
theorem clockFamily_more (oob : Int → Nat) (stack : Nat → Nat) (fuel : Nat) (command : List Nat)
    (s : State) (args : datetime_t) (uart : List Nat)
    (h1 : ∀ a, ∃ r, ParseCommand oob fuel (bytes "CLOCK INIT") command a = some r ∧
      r.error = 1024)
    (h2 : ∀ a, ∃ r, ParseCommand oob fuel (bytes "CLOCK RESTART") command a = some r ∧
      r.error = 1024)
    (h3 : ∀ a, ∃ r, ParseCommand oob fuel (bytes "CLOCK HIB") command a = some r ∧
      r.error = 1024) :
    ∃ a u, clockFamily oob stack fuel command s args uart = some (.more a u) := by
  obtain ⟨r1, e1, c1⟩ := h1 args
  obtain ⟨r2, e2, c2⟩ := h2 r1.args
  obtain ⟨r3, e3, c3⟩ := h3 r2.args
  unfold clockFamily
  simp only [e1, e2, e3, c1, c2, c3, show ¬ (1024 = ERROR_SUCCESS) by decide, if_false,
    notePartial_not_match, familyEnd, ne_eq, not_true_eq_false]
  exact ⟨_, _, rfl⟩

/-- On a line that the three templates of the GET family fail at its first character, the
family hands on to the next one. -/
theorem getFamily_more (oob : Int → Nat) (stack : Nat → Nat) (fuel : Nat) (command : List Nat)
    (s : State) (args : datetime_t) (uart : List Nat)
    (h1 : ∀ a, ∃ r, ParseCommand oob fuel (bytes "GET DATE") command a = some r ∧
      r.error = 1024)
    (h2 : ∀ a, ∃ r, ParseCommand oob fuel (bytes "GET TIME") command a = some r ∧
      r.error = 1024)
    (h3 : ∀ a, ∃ r, ParseCommand oob fuel (bytes "GET ALARM") command a = some r ∧
      r.error = 1024) :
    ∃ a u, getFamily oob stack fuel command s args uart = some (.more a u) := by
  obtain ⟨r1, e1, c1⟩ := h1 args
  obtain ⟨r2, e2, c2⟩ := h2 r1.args
  obtain ⟨r3, e3, c3⟩ := h3 r2.args
  unfold getFamily
  simp only [e1, e2, e3, c1, c2, c3, show ¬ (1024 = ERROR_SUCCESS) by decide, if_false,
    notePartial_not_match, familyEnd, ne_eq, not_true_eq_false]
  exact ⟨_, _, rfl⟩

/-- On a line that the eight templates before the SET family fail at its first character,
`ProcessCommand` does what the SET family does. -/
theorem ProcessCommand_of_setFamily (oob : Int → Nat) (stack : Nat → Nat) (fuel : Nat)
    (command : List Nat) (args : datetime_t) (s : State)
    (h : ∀ q ∈ placeholderFreeTemplates, ∀ a,
      ∃ r, ParseCommand oob fuel q command a = some r ∧ r.error = 1024) :
    ∃ a u, ProcessCommand oob stack fuel command args s =
      match setFamily oob stack fuel command s a u with
      | none => none
      | some (.done r) => some r
      | some (.more _ uart) =>
        some { state := s
               uart := uart ++ bytes "Invalid Command: " ++ cstring command ++
                 bytes "\r\n" ++ help_message
               hibernate := false } := by
  obtain ⟨r0, e0, c0⟩ := h (bytes "?") (by simp [placeholderFreeTemplates]) args
  obtain ⟨r1, e1, c1⟩ := h (bytes "MUTE") (by simp [placeholderFreeTemplates]) r0.args
  obtain ⟨a2, u2, e2⟩ := clockFamily_more oob stack fuel command s r1.args (r0.uart ++ r1.uart)
    (h _ (by simp [placeholderFreeTemplates])) (h _ (by simp [placeholderFreeTemplates]))
    (h _ (by simp [placeholderFreeTemplates]))
  obtain ⟨a3, u3, e3⟩ := getFamily_more oob stack fuel command s a2 u2
    (h _ (by simp [placeholderFreeTemplates])) (h _ (by simp [placeholderFreeTemplates]))
    (h _ (by simp [placeholderFreeTemplates]))
  refine ⟨a3, u3, ?_⟩
  unfold ProcessCommand
  simp only [e0, e1, c0, c1, show ¬ (1024 = ERROR_SUCCESS) by decide, if_false, e2, e3]

/-- A line that matches one of the three SET templates fails the eight templates before the
SET family at its first character. -/
theorem SET_line_fails_other_families (oob : Int → Nat) (fuel : Nat) (p command : List Nat)
    (args : datetime_t)
    (hp : p = bytes "SET DATE $D" ∨ p = bytes "SET TIME $T" ∨ p = bytes "SET ALARM $T")
    (h : ∃ r, ParseCommand oob fuel p command args = some r ∧ r.error = ERROR_SUCCESS) :
    ∀ q ∈ placeholderFreeTemplates, ∀ a,
      ∃ r, ParseCommand oob fuel q command a = some r ∧ r.error = 1024 := by
  intro q hq a
  have hp0 : byteAt p 0 = 83 := by
    rcases hp with hp | hp | hp <;> rw [hp] <;> decide
  have hq0 : byteAt q 0 ≠ 0 ∧ ToUpperCase (byteAt q 0) ≠ 36 ∧ ToUpperCase (byteAt q 0) ≠ 83 := by
    have hall : ∀ q ∈ placeholderFreeTemplates,
        byteAt q 0 ≠ 0 ∧ ToUpperCase (byteAt q 0) ≠ 36 ∧ ToUpperCase (byteAt q 0) ≠ 83 := by
      decide
    exact hall q hq
  exact ParseCommand_other_template_code oob fuel p q command args a h
    (by rw [hp0]; decide) (by rw [hp0]; decide) (by rw [hp0]; decide) hq0.1 hq0.2.1
    (by rw [hp0]; exact hq0.2.2)

/-- On one of the three SET templates and a line on which `ParseCommand` succeeds, the result
does not depend on what `args[0]` held before the call. -/
theorem ParseCommand_SET_args (oob : Int → Nat) (fuel : Nat) (p command : List Nat)
    (args args' : datetime_t) (r : ParseResult)
    (hp : p = bytes "SET DATE $D" ∨ p = bytes "SET TIME $T" ∨ p = bytes "SET ALARM $T")
    (h : ParseCommand oob fuel p command args = some r) (hr : r.error = ERROR_SUCCESS) :
    ParseCommand oob fuel p command args' = some r := by
  have hfacts : p.length ≤ 254 ∧ (∀ k < p.length, byteAt p k ≠ 0) ∧
      ∃ k, 0 ≤ k ∧ k < p.length ∧ byteAt p k = 36 := by
    rcases hp with hp | hp | hp <;> rw [hp]
    · exact ⟨by decide, by decide, 9, by decide, by decide, by decide⟩
    · exact ⟨by decide, by decide, 9, by decide, by decide, by decide⟩
    · exact ⟨by decide, by decide, 10, by decide, by decide, by decide⟩
  exact ParseCommandLoop_success_args oob p command hfacts.1 hfacts.2.1 fuel 0 0 0 0 args r h hr
    hfacts.2.2 args'

/-- Claim C22.  For every state, every line and every content of the uninitialised arrays:
when `ParseCommand` succeeds on the template `SET TIME $T` and leaves the time `t` in
`args[0]`, `ProcessCommand` returns, and the state it leaves is the former state with the time
of day set to `t`; when it succeeds on `SET ALARM $T` with the time `t`, the former state with
`alarm_time` set to `t`; when it succeeds on `SET DATE $D` with year, month and day, the
former state with these three set.  Nothing else in the state is changed (mode, `alarming`,
the restart request among it), and no hibernation is requested. -/
theorem SET_commands_write_their_field_only (oob : Int → Nat) (stack : Nat → Nat) (fuel : Nat)
    (command : List Nat) (args args0 : datetime_t) (s : State) (r : ParseResult)
    (hr : r.error = ERROR_SUCCESS) :
    (ParseCommand oob fuel (bytes "SET TIME $T") command args0 = some r →
      ∃ res, ProcessCommand oob stack fuel command args s = some res ∧
        res.state = { s with datetime := { s.datetime with time := r.args.time } } ∧
        res.hibernate = false) ∧
    (ParseCommand oob fuel (bytes "SET ALARM $T") command args0 = some r →
      ∃ res, ProcessCommand oob stack fuel command args s = some res ∧
        res.state = { s with alarm_time := r.args.time } ∧ res.hibernate = false) ∧
    (ParseCommand oob fuel (bytes "SET DATE $D") command args0 = some r →
      ∃ res, ProcessCommand oob stack fuel command args s = some res ∧
        res.state = { s with datetime :=
          { s.datetime with year := r.args.year, month := r.args.month, day := r.args.day } } ∧
        res.hibernate = false) := by
  refine ⟨fun h => ?_, fun h => ?_, fun h => ?_⟩
  · have hx : ∃ r, ParseCommand oob fuel (bytes "SET TIME $T") command args0 = some r ∧
        r.error = ERROR_SUCCESS := ⟨r, h, hr⟩
    obtain ⟨a, u, e⟩ := ProcessCommand_of_setFamily oob stack fuel command args s
      (SET_line_fails_other_families oob fuel _ command args0 (Or.inr (Or.inl rfl)) hx)
    obtain ⟨r1, e1, c1⟩ := ParseCommand_diverging_template oob fuel (bytes "SET TIME $T")
      (bytes "SET DATE $D") command args0 a 4 (by decide) (by decide) (by decide) hx (by decide)
      (by decide) (by decide) (by decide) (by decide) ⟨3, by decide, by decide⟩
    have e2 := ParseCommand_SET_args oob fuel _ command args0 r1.args r (Or.inr (Or.inl rfl)) h hr
    rw [e]
    unfold setFamily
    simp only [e1, e2, if_neg (partial_bit_ne_success _ c1), c1, ne_eq, not_true_eq_false,
      false_and, if_false, hr, if_true]
    exact ⟨_, rfl, rfl, rfl⟩
  · have hx : ∃ r, ParseCommand oob fuel (bytes "SET ALARM $T") command args0 = some r ∧
        r.error = ERROR_SUCCESS := ⟨r, h, hr⟩
    obtain ⟨a, u, e⟩ := ProcessCommand_of_setFamily oob stack fuel command args s
      (SET_line_fails_other_families oob fuel _ command args0 (Or.inr (Or.inr rfl)) hx)
    obtain ⟨r1, e1, c1⟩ := ParseCommand_diverging_template oob fuel (bytes "SET ALARM $T")
      (bytes "SET DATE $D") command args0 a 4 (by decide) (by decide) (by decide) hx (by decide)
      (by decide) (by decide) (by decide) (by decide) ⟨3, by decide, by decide⟩
    obtain ⟨r2, e2, c2⟩ := ParseCommand_diverging_template oob fuel (bytes "SET ALARM $T")
      (bytes "SET TIME $T") command args0 r1.args 4 (by decide) (by decide) (by decide) hx
      (by decide) (by decide) (by decide) (by decide) (by decide) ⟨3, by decide, by decide⟩
    have e3 := ParseCommand_SET_args oob fuel _ command args0 r2.args r (Or.inr (Or.inr rfl)) h hr
    rw [e]
    unfold setFamily
    simp only [e1, e2, e3, if_neg (partial_bit_ne_success _ c1),
      if_neg (partial_bit_ne_success _ c2), c1, c2, ne_eq, not_true_eq_false,
      false_and, if_false, hr, if_true]
    exact ⟨_, rfl, rfl, rfl⟩
  · have hx : ∃ r, ParseCommand oob fuel (bytes "SET DATE $D") command args0 = some r ∧
        r.error = ERROR_SUCCESS := ⟨r, h, hr⟩
    obtain ⟨a, u, e⟩ := ProcessCommand_of_setFamily oob stack fuel command args s
      (SET_line_fails_other_families oob fuel _ command args0 (Or.inl rfl) hx)
    have e1 := ParseCommand_SET_args oob fuel _ command args0 a r (Or.inl rfl) h hr
    rw [e]
    unfold setFamily
    simp only [e1, hr, if_true]
    exact ⟨_, rfl, rfl, rfl⟩

set_option maxRecDepth 100000 in
/-- Claim C22 on the line `set  time 07:30:00` in the Display state: the time of day becomes
27000, and the date, the alarm time, the mode and `alarming` stay. -/
theorem SET_commands_write_their_field_only_witness :
    ParseCommand (fun _ => 0) 32 (bytes "SET TIME $T") (bytes "set  time 07:30:00")
        { month := 0, day := 0, year := 0, time := 0 } =
      some { error := ERROR_SUCCESS, args := { month := 0, day := 0, year := 0, time := 27000 }
             uart := [] } ∧
    ∃ res, ProcessCommand (fun _ => 0) (fun _ => 0) 32 (bytes "set  time 07:30:00")
        { month := 1, day := 2, year := 3, time := 4 } displayExample = some res ∧
      res.state = { displayExample with
        datetime := { displayExample.datetime with time := 27000 } } ∧
      res.hibernate = false :=
  ⟨by decide,
    (SET_commands_write_their_field_only (fun _ => 0) (fun _ => 0) 32
      (bytes "set  time 07:30:00") { month := 1, day := 2, year := 3, time := 4 }
      { month := 0, day := 0, year := 0, time := 0 } displayExample
      { error := ERROR_SUCCESS, args := { month := 0, day := 0, year := 0, time := 27000 }
        uart := [] } rfl).1 (by decide)⟩

/-! ### Lines that match no template -/

/-- The loop of `ParseIntegerUntil` returns with enough fuel, and the index it leaves is not
before the one it started with and at most one place behind the end of the array or behind
the start. -/
theorem ParseIntegerUntilLoop_returns (str : List Nat) (delim : Nat) (hlen : str.length ≤ 254)
    (fuel : Nat) :
    ∀ (index : Nat) (acc : Int), str.length - index < fuel → index ≤ 254 →
      ∃ e i t, ParseIntegerUntilLoop str delim fuel index acc = some (e, i, t) ∧
        index ≤ i ∧ i ≤ max index str.length + 1 := by
  induction fuel with
  | zero => intro index acc h; omega
  | succ fuel ih =>
    intro index acc h hi
    unfold ParseIntegerUntilLoop
    by_cases h1 : byteAt str index ≠ 0 ∧ byteAt str index ≠ delim
    · rw [if_pos h1]
      have hlt := lt_length_of_byteAt_ne_zero _ _ h1.1
      by_cases h2 : 48 ≤ byteAt str index ∧ byteAt str index ≤ 57
      · rw [if_pos h2]
        rw [Nat.mod_eq_of_lt (by omega : index + 1 < 256)]
        obtain ⟨e, i, t, he, b1, b2⟩ := ih (index + 1) (toInt32 (acc * 10 + byteAt str index - 48))
          (by omega) (by omega)
        exact ⟨e, i, t, he, by omega, by omega⟩
      · rw [if_neg h2]; exact ⟨_, _, _, rfl, by omega, by omega⟩
    · rw [if_neg h1]
      by_cases h3 : byteAt str index = delim
      · rw [if_pos h3, Nat.mod_eq_of_lt (by omega : index + 1 < 256)]
        exact ⟨_, _, _, rfl, by omega, by omega⟩
      · rw [if_neg h3]; exact ⟨_, _, _, rfl, by omega, by omega⟩

/-- The function `ParseIntegerUntil` returns with enough fuel; see
`ParseIntegerUntilLoop_returns`. -/
theorem ParseIntegerUntil_returns (fuel : Nat) (str : List Nat) (delim index : Nat)
    (hlen : str.length ≤ 254) (hf : str.length - index < fuel) (hi : index ≤ 254) :
    ∃ e i t, ParseIntegerUntil fuel str delim index = some (e, i, t) ∧
      index ≤ i ∧ i ≤ max index str.length + 1 :=
  ParseIntegerUntilLoop_returns str delim hlen fuel index 0 hf hi

/-- The branch `pattern_type == 'T'` returns with enough fuel, and when the scan goes on, the
index is at most three places behind the end of the array. -/
theorem parseTime_returns (fuel : Nat) (command : List Nat) (delim i : Nat) (args : datetime_t)
    (hlen : command.length ≤ 250) (hi : i ≤ command.length) (hf : command.length - i < fuel) :
    ∃ p, parseTime fuel command delim i args = some p ∧
      ∀ i' a, p = .next i' a → i ≤ i' ∧ i' ≤ command.length + 3 := by
  unfold parseTime
  obtain ⟨e1, i1, t1, h1, b1, c1⟩ := ParseIntegerUntil_returns fuel command 58 i (by omega) hf
    (by omega)
  rw [h1]
  simp only
  by_cases g1 : e1 ≠ ERROR_SUCCESS
  · rw [if_pos g1]; exact ⟨_, rfl, fun _ _ h => by cases h⟩
  · rw [if_neg g1]
    by_cases g1' : ¬ (t1 ≥ 0 ∧ t1 ≤ 23)
    · rw [if_pos g1']; exact ⟨_, rfl, fun _ _ h => by cases h⟩
    · rw [if_neg g1']
      obtain ⟨e2, i2, t2, h2, b2, c2⟩ := ParseIntegerUntil_returns fuel command 58 i1 (by omega)
        (by omega) (by omega)
      rw [h2]
      simp only
      by_cases g2 : e2 ≠ ERROR_SUCCESS
      · rw [if_pos g2]; exact ⟨_, rfl, fun _ _ h => by cases h⟩
      · rw [if_neg g2]
        by_cases g2' : ¬ (t2 ≥ 0 ∧ t2 ≤ 59)
        · rw [if_pos g2']; exact ⟨_, rfl, fun _ _ h => by cases h⟩
        · rw [if_neg g2']
          obtain ⟨e3, i3, t3, h3, b3, c3⟩ := ParseIntegerUntil_returns fuel command delim i2
            (by omega) (by omega) (by omega)
          rw [h3]
          simp only
          by_cases g3 : e3 ≠ ERROR_SUCCESS
          · rw [if_pos g3]; exact ⟨_, rfl, fun _ _ h => by cases h⟩
          · rw [if_neg g3]
            by_cases g3' : ¬ (t3 ≥ 0 ∧ t3 ≤ 59)
            · rw [if_pos g3']; exact ⟨_, rfl, fun _ _ h => by cases h⟩
            · rw [if_neg g3']
              refine ⟨_, rfl, fun i' a h => ?_⟩
              simp only [Placeholder.next.injEq] at h
              omega

/-- The branch `pattern_type == 'D'` returns with enough fuel, and when the scan goes on, the
index is at most three places behind the end of the array. -/
theorem parseDate_returns (oob : Int → Nat) (fuel : Nat) (command : List Nat) (delim i : Nat)
    (args : datetime_t) (hlen : command.length ≤ 250) (hi : i ≤ command.length)
    (hf : command.length - i < fuel) :
    ∃ p, parseDate oob fuel command delim i args = some p ∧
      ∀ i' a, p = .next i' a → i ≤ i' ∧ i' ≤ command.length + 3 := by
  unfold parseDate
  obtain ⟨e1, i1, t1, h1, b1, c1⟩ := ParseIntegerUntil_returns fuel command 47 i (by omega) hf
    (by omega)
  rw [h1]
  simp only
  by_cases g1 : e1 ≠ ERROR_SUCCESS
  · rw [if_pos g1]; exact ⟨_, rfl, fun _ _ h => by cases h⟩
  · rw [if_neg g1]
    by_cases g1' : ¬ (t1 ≥ 0 ∧ t1 ≤ 9999)
    · rw [if_pos g1']; exact ⟨_, rfl, fun _ _ h => by cases h⟩
    · rw [if_neg g1']
      obtain ⟨e2, i2, t2, h2, b2, c2⟩ := ParseIntegerUntil_returns fuel command 47 i1 (by omega)
        (by omega) (by omega)
      rw [h2]
      simp only
      by_cases g2 : e2 ≠ ERROR_SUCCESS
      · rw [if_pos g2]; exact ⟨_, rfl, fun _ _ h => by cases h⟩
      · rw [if_neg g2]
        by_cases g2' : ¬ (t2 ≥ 0 ∧ t2 ≤ 12)
        · rw [if_pos g2']; exact ⟨_, rfl, fun _ _ h => by cases h⟩
        · rw [if_neg g2']
          obtain ⟨e3, i3, t3, h3, b3, c3⟩ := ParseIntegerUntil_returns fuel command delim i2
            (by omega) (by omega) (by omega)
          rw [h3]
          simp only
          by_cases g3 : e3 ≠ ERROR_SUCCESS
          · rw [if_pos g3]; exact ⟨_, rfl, fun _ _ h => by cases h⟩
          · rw [if_neg g3]
            by_cases g3' : ¬ (t3 ≥ 0 ∧ t3 ≤ ((GetDayOfMonth oob (toUInt16 t1) (toUInt8 t2) : Nat) : Int))
            · rw [if_pos g3']; exact ⟨_, rfl, fun _ _ h => by cases h⟩
            · rw [if_neg g3']
              refine ⟨_, rfl, fun i' a h => ?_⟩
              simp only [Placeholder.next.injEq] at h
              omega

/-- The loop of `ParseCommand` returns with enough fuel, with an index at most four places
behind the end of the array. -/
theorem exitLoop_returns (oob : Int → Nat) (pattern command : List Nat)
    (hlen : command.length ≤ 250) (fuel : Nat) :
    ∀ (i j sk hs al : Nat), command.length + 2 ≤ fuel + min i command.length →
      i ≤ command.length + 4 →
      ∃ e, ParseCommandExitLoop oob pattern command fuel i j sk hs al = some e ∧
        e.i ≤ command.length + 4 := by
  induction fuel with
  | zero => intro i j sk hs al h; omega
  | succ fuel ih =>
    intro i j sk hs al hf hi
    by_cases h1 : byteAt command i ≠ 0 ∧ byteAt pattern j ≠ 0
    · have hlt := lt_length_of_byteAt_ne_zero _ _ h1.1
      have e1 : (i + 1) % 256 = i + 1 := Nat.mod_eq_of_lt (by omega)
      by_cases h2 : byteAt command i = 32 ∧ sk ≠ 0
      · rw [exitLoop_skip oob pattern command fuel i j sk hs al h2.1 h1.2 h2.2, e1]
        exact ih _ _ _ _ _ (by omega) (by omega)
      · by_cases h3 : byteAt pattern j = 36
        · have h2' : ¬ (ToUpperCase (byteAt command i) = 32 ∧ sk ≠ 0) := by
            rw [ToUpperCase_eq_iff _ 32 (by omega)]; exact h2
          have h3' : ToUpperCase (byteAt pattern j) = 36 :=
            (ToUpperCase_eq_iff _ 36 (by omega)).2 h3
          unfold ParseCommandExitLoop
          simp only
          rw [if_pos h1, if_neg h2', if_pos h3']
          have hstep : ∃ p,
              (if ToUpperCase (byteAt pattern (j + 1)) = 84 then
                  parseTime fuel command (byteAt pattern ((j + 1) % 256 + 1)) i
                    { month := 0, day := 0, year := 0, time := 0 }
                else if ToUpperCase (byteAt pattern (j + 1)) = 68 then
                  parseDate oob fuel command (byteAt pattern ((j + 1) % 256 + 1)) i
                    { month := 0, day := 0, year := 0, time := 0 }
                else some (.next i { month := 0, day := 0, year := 0, time := 0 })) = some p ∧
              ∀ i' a, p = .next i' a → i ≤ i' ∧ i' ≤ command.length + 3 := by
            split_ifs
            · exact parseTime_returns fuel command _ i _ hlen (by omega) (by omega)
            · exact parseDate_returns oob fuel command _ i _ hlen (by omega) (by omega)
            · exact ⟨_, rfl, fun i' a h => by
                simp only [Option.some.injEq, Placeholder.next.injEq] at h
                omega⟩
          obtain ⟨p, hp, hb⟩ := hstep
          rw [hp]
          cases p with
          | format u a => exact ⟨_, rfl, by simp only; omega⟩
          | next i' a =>
            have hb' := hb i' a rfl
            simp only
            rw [Nat.mod_eq_of_lt (by omega : i' + 1 < 256)]
            exact ih _ _ _ _ _ (by omega) (by omega)
        · rw [exitLoop_literal oob pattern command fuel i j sk hs al h1.1 h1.2 h2 h3]
          by_cases h4 : ToUpperCase (byteAt pattern j) ≠ ToUpperCase (byteAt command i)
          · rw [if_pos h4]; exact ⟨_, rfl, by simp only; omega⟩
          · rw [if_neg h4, e1]
            exact ih _ _ _ _ _ (by omega) (by omega)
    · rw [exitLoop_end oob pattern command fuel i j sk hs al h1]
      exact ⟨_, rfl, hi⟩

/-- The function `ParseCommand` returns when the fuel exceeds the length of the array by two,
and the offset in its error code is at most four places behind the end of the array. -/
theorem ParseCommand_returns (oob : Int → Nat) (fuel : Nat) (pattern command : List Nat)
    (args : datetime_t) (hlen : command.length ≤ 250) (hf : command.length + 2 ≤ fuel) :
    ∃ r, ParseCommand oob fuel pattern command args = some r ∧
      r.error &&& 0x00ff ≤ command.length + 4 := by
  obtain ⟨e, he, hei⟩ := exitLoop_returns oob pattern command hlen fuel 0 0 0 0 0
    (by simp only [Nat.zero_min]; omega) (by omega)
  obtain ⟨r, hr, hre⟩ := ParseCommand_of_exit oob fuel pattern command e he args
  refine ⟨r, hr, ?_⟩
  rw [hre]
  unfold exitError
  cases e.site with
  | literal =>
    simp only
    rw [and_255_of_le e.i (by omega), mismatch_code_low_byte _ _ (by omega)]
    exact hei
  | ended =>
    simp only
    rw [and_255_of_le e.i (by omega), mismatch_code_low_byte _ _ (by omega)]
    exact hei
  | success =>
    simp only
    rw [show ERROR_SUCCESS &&& 0x00ff = 0 by decide]
    omega
  | format =>
    simp only
    rw [show ERROR_FORMAT &&& 0x00ff = 0 by decide]
    omega

/-- The value of `partical_error` stays below a bound that its start value and the offsets
of the codes respect. -/
theorem notePartial_le (pe error b : Nat) (h1 : pe ≤ b) (h2 : error &&& 0x00ff ≤ b) :
    notePartial pe error ≤ b := by
  unfold notePartial
  split_ifs
  · exact max_le h1 h2
  · exact h1

/-- The first loop of the diagnostic block ends, at `i = partical_error + 18`, when that
value fits the `uint8_t` index. -/
theorem markerSpaces_returns (command : List Nat) (pe j : Nat) (hpe : pe + 18 ≤ 254)
    (fuel : Nat) :
    ∀ (i ls : Nat) (buf : Nat → Nat), i ≤ pe + 18 → pe + 18 - i < fuel →
      ∃ ls' buf', markerSpaces command pe j fuel i ls buf = some (pe + 18, ls', buf') ∧
        ls' ≤ max ls (pe + 18) := by
  induction fuel with
  | zero => intro i ls buf _ h; omega
  | succ fuel ih =>
    intro i ls buf hi hf
    unfold markerSpaces
    by_cases h : i < pe + 18
    · rw [if_pos h, Nat.mod_eq_of_lt (by omega : i + 1 < 256)]
      obtain ⟨ls', buf', e, hl⟩ := ih (i + 1)
        (if i > 17 ∧ byteAt command (i - 18) = 32 then i + 1 else ls)
        (Function.update buf (i + j) 32) (by omega) (by omega)
      refine ⟨ls', buf', e, ?_⟩
      split_ifs at hl <;> omega
    · rw [if_neg h]
      have : i = pe + 18 := by omega
      subst this
      exact ⟨ls, buf, rfl, by omega⟩

/-- The second loop of the diagnostic block ends when `last_space` is below 255. -/
theorem markerTildes_returns (j ls : Nat) (hls : ls + 1 ≤ 255) (hj : j ≤ 257) (fuel : Nat) :
    ∀ (i : Nat) (buf : Nat → Nat), i ≤ max (j - 2) (ls + 1) → max (j - 2) (ls + 1) - i < fuel →
      ∃ buf', markerTildes j ls fuel i buf = some (max (j - 2) (ls + 1), buf') := by
  induction fuel with
  | zero => intro i buf _ h; omega
  | succ fuel ih =>
    intro i buf hi hf
    unfold markerTildes
    by_cases h : (i : Int) < (j : Int) - 2 ∨ i ≤ ls
    · rw [if_pos h]
      have hlt : i < max (j - 2) (ls + 1) := by
        rcases h with h | h
        · have : i < j - 2 := by omega
          exact lt_of_lt_of_le this (le_max_left _ _)
        · exact lt_of_lt_of_le (by omega : i < ls + 1) (le_max_right _ _)
      have hN : max (j - 2) (ls + 1) ≤ 255 := max_le (by omega) hls
      rw [Nat.mod_eq_of_lt (by omega : i + 1 < 256)]
      exact ih (i + 1) _ (by omega) (by omega)
    · rw [if_neg h]
      have h1 : j - 2 ≤ i := by omega
      have h2 : ls + 1 ≤ i := by omega
      have : i = max (j - 2) (ls + 1) := le_antisymm hi (max_le h1 h2)
      rw [← this]
      exact ⟨buf, rfl⟩

/-- The cells that the first loop of the diagnostic block writes: the cells `i + j` up to
`partical_error + 17 + j` hold a space afterwards, and no other cell is changed. -/
theorem markerSpaces_cells (command : List Nat) (pe j : Nat) (hpe : pe + 18 ≤ 254)
    (fuel : Nat) :
    ∀ (i ls : Nat) (buf : Nat → Nat), i ≤ pe + 18 → pe + 18 - i < fuel →
      ∃ ls' buf', markerSpaces command pe j fuel i ls buf = some (pe + 18, ls', buf') ∧
        ∀ k, (k < i + j ∨ pe + 18 + j ≤ k → buf' k = buf k) ∧
          (i + j ≤ k → k < pe + 18 + j → buf' k = 32) := by
  induction fuel with
  | zero => intro i ls buf _ h; omega
  | succ fuel ih =>
    intro i ls buf hi hf
    unfold markerSpaces
    by_cases h : i < pe + 18
    · rw [if_pos h, Nat.mod_eq_of_lt (by omega : i + 1 < 256)]
      obtain ⟨ls', buf', e, hc⟩ := ih (i + 1)
        (if i > 17 ∧ byteAt command (i - 18) = 32 then i + 1 else ls)
        (Function.update buf (i + j) 32) (by omega) (by omega)
      refine ⟨ls', buf', e, fun k => ⟨fun hk => ?_, fun h1 h2 => ?_⟩⟩
      · rw [(hc k).1 (by omega), Function.update_noteq (by omega)]
      · by_cases hk : k = i + j
        · rw [(hc k).1 (Or.inl (by omega)), hk, Function.update_same]
        · exact (hc k).2 (by omega) h2
    · rw [if_neg h]
      have : i = pe + 18 := by omega
      subst this
      exact ⟨ls, buf, rfl, fun k => ⟨fun _ => rfl, fun h1 h2 => by omega⟩⟩

/-- The cells that the second loop of the diagnostic block writes: the cells `i + j` up to the
one before the end hold `~` or `^` afterwards, so none of them is NUL, and no other cell is
changed. -/
theorem markerTildes_cells (j ls : Nat) (hls : ls + 1 ≤ 255) (hj : j ≤ 257) (fuel : Nat) :
    ∀ (i : Nat) (buf : Nat → Nat), i ≤ max (j - 2) (ls + 1) → max (j - 2) (ls + 1) - i < fuel →
      ∃ buf', markerTildes j ls fuel i buf = some (max (j - 2) (ls + 1), buf') ∧
        ∀ k, (k < i + j ∨ max (j - 2) (ls + 1) + j ≤ k → buf' k = buf k) ∧
          (i + j ≤ k → k < max (j - 2) (ls + 1) + j → buf' k ≠ 0) := by
  induction fuel with
  | zero => intro i buf _ h; omega
  | succ fuel ih =>
    intro i buf hi hf
    unfold markerTildes
    by_cases h : (i : Int) < (j : Int) - 2 ∨ i ≤ ls
    · rw [if_pos h]
      have hlt : i < max (j - 2) (ls + 1) := by
        rcases h with h | h
        · have : i < j - 2 := by omega
          exact lt_of_lt_of_le this (le_max_left _ _)
        · exact lt_of_lt_of_le (by omega : i < ls + 1) (le_max_right _ _)
      have hN : max (j - 2) (ls + 1) ≤ 255 := max_le (by omega) hls
      rw [Nat.mod_eq_of_lt (by omega : i + 1 < 256)]
      obtain ⟨buf', e, hc⟩ := ih (i + 1)
        (if buf (i + j) ≠ 94 then Function.update buf (i + j) 126 else buf) (by omega) (by omega)
      refine ⟨buf', e, fun k => ⟨fun hk => ?_, fun h1 h2 => ?_⟩⟩
      · rw [(hc k).1 (by omega)]
        split_ifs
        · exact Function.update_noteq (show k ≠ i + j by omega) _ _
        · rfl
      · by_cases hk : k = i + j
        · rw [(hc k).1 (Or.inl (by omega)), hk]
          split_ifs with h94
          · rw [Function.update_same]; decide
          · rw [not_not.1 h94]; decide
        · exact (hc k).2 (by omega) h2
    · rw [if_neg h]
      have h1 : j - 2 ≤ i := by omega
      have h2 : ls + 1 ≤ i := by omega
      have : i = max (j - 2) (ls + 1) := le_antisymm hi (max_le h1 h2)
      rw [← this]
      exact ⟨buf, rfl, fun k => ⟨fun _ => rfl, fun h1 h2 => by omega⟩⟩

/-- No byte of the echo `Invalid Argument: <command>\r\n` is NUL. -/
theorem echo_ne_zero (command : List Nat) (k : Nat)
    (hk : k < (bytes "Invalid Argument: " ++ cstring command ++ bytes "\r\n").length) :
    (bytes "Invalid Argument: " ++ cstring command ++ bytes "\r\n").getD k 0 ≠ 0 := by
  rw [List.getD_eq_getElem _ _ hk]
  have hm := List.getElem_mem hk
  rw [List.mem_append, List.mem_append] at hm
  rcases hm with (hm | hm) | hm
  · have : ∀ x ∈ bytes "Invalid Argument: ", x ≠ 0 := by decide
    exact this _ hm
  · have := List.mem_takeWhile_imp hm
    simpa using this
  · have : ∀ x ∈ bytes "\r\n", x ≠ 0 := by decide
    exact this _ hm

/-- The diagnostic block when the tilde loop starts no later than the cell behind the caret
(`last_space ≤ partical_error + 19`): every cell before the last NUL is written, so the usage
hint is appended behind the whole marker line, whatever the array held before; when its end
does not fit the 128 cells, the block stores behind `buffer`.  `ls` is the value of
`last_space` that the first loop leaves. -/
theorem partialDiagnostic_overrun (stack : Nat → Nat) (command : List Nat) (pe : Nat)
    (usage : List Nat) (ls : Nat) (hpe : pe + 18 ≤ 253)
    (hT : (bytes "Invalid Argument: " ++ cstring command ++ bytes "\r\n").length < 256)
    (hls : ∀ buf, (markerSpaces command pe
      ((bytes "Invalid Argument: " ++ cstring command ++ bytes "\r\n").length) 257 0 (18 + 3)
        buf).map (fun r => r.2.1) = some ls)
    (hgap : ls ≤ pe + 19)
    (hover : 128 ≤ max ((bytes "Invalid Argument: " ++ cstring command ++ bytes "\r\n").length - 2)
      (ls + 1) + (bytes "Invalid Argument: " ++ cstring command ++ bytes "\r\n").length +
        usage.length) :
    partialDiagnostic stack command pe usage =
      some (.overrun
        (max (pe + 18 + (bytes "Invalid Argument: " ++ cstring command ++ bytes "\r\n").length)
          (max ((bytes "Invalid Argument: " ++ cstring command ++ bytes "\r\n").length - 2)
            (ls + 1) + (bytes "Invalid Argument: " ++ cstring command ++ bytes "\r\n").length +
              usage.length))) := by
  have hecho := echo_ne_zero command
  unfold partialDiagnostic
  simp only
  rw [Nat.mod_eq_of_lt hT]
  generalize (bytes "Invalid Argument: " ++ cstring command ++ bytes "\r\n") = text
    at hT hls hover hecho ⊢
  obtain ⟨ls', buf1, e1, c1⟩ := markerSpaces_cells command pe text.length (by omega) 257
    0 (18 + 3)
    (fun k => if k < text.length then text.getD k 0 else if k = text.length then 0 else stack k)
    (by omega) (by omega)
  have hl := hls (fun k =>
    if k < text.length then text.getD k 0 else if k = text.length then 0 else stack k)
  rw [e1] at hl
  simp only [Option.map_some', Option.some.injEq] at hl
  subst hl
  rw [e1]
  simp only
  obtain ⟨buf3, e3, c3⟩ := markerTildes_cells text.length ls' (by omega) (by omega) 257
    ls' (Function.update buf1 (pe + 18 + text.length) 94)
    (le_trans (by omega) (le_max_right _ _))
    (by have : max (text.length - 2) (ls' + 1) ≤ 255 := max_le (by omega) (by omega)
        omega)
  rw [e3]
  simp only
  have hN1 : ls' + 1 ≤ max (text.length - 2) (ls' + 1) := le_max_right _ _
  generalize max (text.length - 2) (ls' + 1) = N at c3 hover hN1 ⊢
  have hfind : List.find? (fun k => decide (Function.update buf3 (N + text.length) 0 k = 0))
      (List.range (N + text.length + 1)) = some (N + text.length) := by
    rw [List.find?_range_eq_some]
    refine ⟨by simp, List.mem_range.2 (by omega), fun k hk => ?_⟩
    have hne : Function.update buf3 (N + text.length) 0 k ≠ 0 := by
      rw [Function.update_noteq (by omega)]
      by_cases h3 : ls' + text.length ≤ k
      · exact (c3 k).2 h3 hk
      · rw [(c3 k).1 (Or.inl (by omega))]
        by_cases hc : k = pe + 18 + text.length
        · rw [hc, Function.update_same]; decide
        · rw [Function.update_noteq hc]
          by_cases h0 : k < text.length
          · rw [(c1 k).1 (Or.inl (by omega)), if_pos h0]
            exact hecho k h0
          · rw [(c1 k).2 (by omega) (by omega)]; decide
    simpa using hne
  rw [hfind]
  simp only
  have hlast : max (max text.length (pe + 18 + text.length))
      (max (N + text.length) (N + text.length + usage.length)) =
      max (pe + 18 + text.length) (N + text.length + usage.length) := by
    rw [max_eq_right (by omega : text.length ≤ pe + 18 + text.length),
      max_eq_right (by omega : N + text.length ≤ N + text.length + usage.length)]
  rw [hlast, if_neg (not_lt.2 (le_trans hover (le_max_right _ _)))]


/-- The diagnostic block ends when `partical_error + 18` is below 255, and it stays inside the
128 cells of `buffer` when the array `command` has at most 11 bytes, `partical_error` is
at most 4 above that, and the usage hint has at most 61 bytes. -/
theorem partialDiagnostic_returns (stack : Nat → Nat) (command : List Nat) (pe : Nat)
    (usage : List Nat) (hpe : pe + 18 ≤ 253) :
    ∃ d, partialDiagnostic stack command pe usage = some d ∧
      (command.length ≤ 11 → pe ≤ command.length + 4 → usage.length ≤ 61 →
        ∃ t, d = .text t) := by
  unfold partialDiagnostic
  simp only
  have hT : (bytes "Invalid Argument: " ++ cstring command ++ bytes "\r\n").length ≤
      command.length + 20 := by
    have h1 : (cstring command).length ≤ command.length := (List.takeWhile_sublist _).length_le
    have h2 : (bytes "Invalid Argument: ").length = 18 := by decide
    have h3 : (bytes "\r\n").length = 2 := by decide
    rw [List.length_append, List.length_append, h2, h3]
    omega
  obtain ⟨ls, buf, e1, hl⟩ := markerSpaces_returns command pe
    ((bytes "Invalid Argument: " ++ cstring command ++ bytes "\r\n").length % 256) (by omega) 257
    0 (18 + 3)
    (fun k =>
      if k < (bytes "Invalid Argument: " ++ cstring command ++ bytes "\r\n").length then
        (bytes "Invalid Argument: " ++ cstring command ++ bytes "\r\n").getD k 0
      else if k = (bytes "Invalid Argument: " ++ cstring command ++ bytes "\r\n").length then 0
      else stack k) (by omega) (by omega)
  rw [e1]
  simp only
  have hls : ls + 1 ≤ 255 := by
    have : max (18 + 3) (pe + 18) ≤ 253 := max_le (by omega) hpe
    omega
  have hj : (bytes "Invalid Argument: " ++ cstring command ++ bytes "\r\n").length % 256 ≤ 257 :=
    le_of_lt (lt_of_lt_of_le (Nat.mod_lt _ (by omega)) (by omega))
  have hN : max ((bytes "Invalid Argument: " ++ cstring command ++ bytes "\r\n").length % 256 - 2)
      (ls + 1) ≤ 255 := max_le (by omega) hls
  obtain ⟨buf', e2⟩ := markerTildes_returns
    ((bytes "Invalid Argument: " ++ cstring command ++ bytes "\r\n").length % 256) ls hls hj 257
    ls (Function.update buf
      (pe + 18 + (bytes "Invalid Argument: " ++ cstring command ++ bytes "\r\n").length % 256) 94)
    (le_trans (by omega) (le_max_right _ _)) (by omega)
  rw [e2]
  simp only
  have hJ : (bytes "Invalid Argument: " ++ cstring command ++ bytes "\r\n").length % 256 ≤
      (bytes "Invalid Argument: " ++ cstring command ++ bytes "\r\n").length := Nat.mod_le _ _
  have hNle : max ((bytes "Invalid Argument: " ++ cstring command ++ bytes "\r\n").length % 256
      - 2) (ls + 1) ≤ max ((bytes "Invalid Argument: " ++ cstring command ++
        bytes "\r\n").length) (max (18 + 3) (pe + 18) + 1) :=
    max_le (le_trans (by omega) (le_max_left _ _)) (le_trans (by omega) (le_max_right _ _))
  generalize max ((bytes "Invalid Argument: " ++ cstring command ++ bytes "\r\n").length % 256
    - 2) (ls + 1) = N at hNle ⊢
  generalize (bytes "Invalid Argument: " ++ cstring command ++ bytes "\r\n").length % 256 = J
    at hJ ⊢
  generalize (bytes "Invalid Argument: " ++ cstring command ++ bytes "\r\n").length = T
    at hT hJ hNle ⊢
  cases hfind : List.find? (fun k => decide (Function.update buf' (N + J) 0 k = 0))
      (List.range (N + J + 1)) with
  | none =>
    exfalso
    rw [List.find?_eq_none] at hfind
    have := hfind (N + J) (List.mem_range.2 (by omega))
    simp at this
  | some n =>
    have hn : n < N + J + 1 := List.mem_range.1 (List.mem_of_find?_eq_some hfind)
    simp only
    split_ifs with hlast
    · exact ⟨_, rfl, fun _ _ _ => ⟨_, rfl⟩⟩
    · refine ⟨_, rfl, fun h1 h2 h3 => absurd ?_ hlast⟩
      have hN2 : N ≤ command.length + 23 :=
        le_trans hNle (max_le (by omega) (by
          have : max (18 + 3) (pe + 18) ≤ command.length + 22 := max_le (by omega) (by omega)
          omega))
      exact max_lt (max_lt (by omega) (by omega)) (max_lt (by omega) (by omega))

/-- The end of a group of templates returns when `partical_error + 18` is below 255; when it
ends the function, the state and the hibernation request it records are those of the start,
and no store behind `buffer` is recorded for an array `command` of at most 11 bytes. -/
theorem familyEnd_returns (stack : Nat → Nat) (command : List Nat) (s : State) (pe : Nat)
    (usage : String) (args : datetime_t) (uart : List Nat) (hpe : pe + 18 ≤ 253) :
    ∃ st, familyEnd stack command s pe usage args uart = some st ∧
      ∀ r, st = .done r → r.state = s ∧ r.hibernate = false ∧
        (command.length ≤ 11 → pe ≤ command.length + 4 → (bytes usage).length ≤ 61 →
          r.overrun = false) := by
  unfold familyEnd
  split_ifs
  · obtain ⟨d, e, hd⟩ := partialDiagnostic_returns stack command pe (bytes usage) hpe
    rw [e]
    cases d with
    | text t =>
      refine ⟨_, rfl, fun r h => ?_⟩
      simp only [Stage.done.injEq] at h
      subst h
      exact ⟨rfl, rfl, fun _ _ _ => rfl⟩
    | overrun last =>
      refine ⟨_, rfl, fun r h => ?_⟩
      simp only [Stage.done.injEq] at h
      subst h
      refine ⟨rfl, rfl, fun h1 h2 h3 => ?_⟩
      obtain ⟨t, ht⟩ := hd h1 h2 h3
      cases ht
  · exact ⟨_, rfl, fun r h => by cases h⟩

/-- The CLOCK family on a line that none of its templates matches: it returns; when it ends
the function, the state and the hibernation request it records are those of the start, and no
store behind `buffer` is recorded for an array `command` of at most 11 bytes. -/
theorem clockFamily_fails (oob : Int → Nat) (stack : Nat → Nat) (fuel : Nat)
    (command : List Nat) (s : State) (args : datetime_t) (uart : List Nat)
    (hlen : command.length ≤ 128)
    (h1 : ∀ a, ∃ r, ParseCommand oob fuel (bytes "CLOCK INIT") command a = some r ∧
      r.error ≠ ERROR_SUCCESS ∧ r.error &&& 0x00ff ≤ command.length + 4)
    (h2 : ∀ a, ∃ r, ParseCommand oob fuel (bytes "CLOCK RESTART") command a = some r ∧
      r.error ≠ ERROR_SUCCESS ∧ r.error &&& 0x00ff ≤ command.length + 4)
    (h3 : ∀ a, ∃ r, ParseCommand oob fuel (bytes "CLOCK HIB") command a = some r ∧
      r.error ≠ ERROR_SUCCESS ∧ r.error &&& 0x00ff ≤ command.length + 4) :
    ∃ st, clockFamily oob stack fuel command s args uart = some st ∧
      ∀ r, st = .done r → r.state = s ∧ r.hibernate = false ∧
        (command.length ≤ 11 → r.overrun = false) := by
  obtain ⟨r1, e1, n1, b1⟩ := h1 args
  obtain ⟨r2, e2, n2, b2⟩ := h2 r1.args
  obtain ⟨r3, e3, n3, b3⟩ := h3 r2.args
  unfold clockFamily
  simp only [e1, e2, e3, if_neg n1, if_neg n2, if_neg n3]
  have hpe := notePartial_le _ _ _
    (notePartial_le _ _ _ (notePartial_le 0 _ (command.length + 4) (by omega) b1) b2) b3
  obtain ⟨st, e, h⟩ := familyEnd_returns stack command s _
    "\r\nUsage: CLOCK INIT|RESTART|HIB\r\n" r3.args (uart ++ r1.uart ++ r2.uart ++ r3.uart)
    (by omega : notePartial (notePartial (notePartial 0 r1.error) r2.error) r3.error + 18 ≤ 253)
  exact ⟨st, e, fun r hr => ⟨(h r hr).1, (h r hr).2.1,
    fun hc => (h r hr).2.2 hc hpe (by decide)⟩⟩

/-- The GET family on a line that none of its templates matches: it returns; when it ends the
function, the state and the hibernation request it records are those of the start, and no
store behind `buffer` is recorded for an array `command` of at most 11 bytes. -/
theorem getFamily_fails (oob : Int → Nat) (stack : Nat → Nat) (fuel : Nat)
    (command : List Nat) (s : State) (args : datetime_t) (uart : List Nat)
    (hlen : command.length ≤ 128)
    (h1 : ∀ a, ∃ r, ParseCommand oob fuel (bytes "GET DATE") command a = some r ∧
      r.error ≠ ERROR_SUCCESS ∧ r.error &&& 0x00ff ≤ command.length + 4)
    (h2 : ∀ a, ∃ r, ParseCommand oob fuel (bytes "GET TIME") command a = some r ∧
      r.error ≠ ERROR_SUCCESS ∧ r.error &&& 0x00ff ≤ command.length + 4)
    (h3 : ∀ a, ∃ r, ParseCommand oob fuel (bytes "GET ALARM") command a = some r ∧
      r.error ≠ ERROR_SUCCESS ∧ r.error &&& 0x00ff ≤ command.length + 4) :
    ∃ st, getFamily oob stack fuel command s args uart = some st ∧
      ∀ r, st = .done r → r.state = s ∧ r.hibernate = false ∧
        (command.length ≤ 11 → r.overrun = false) := by
  obtain ⟨r1, e1, n1, b1⟩ := h1 args
  obtain ⟨r2, e2, n2, b2⟩ := h2 r1.args
  obtain ⟨r3, e3, n3, b3⟩ := h3 r2.args
  unfold getFamily
  simp only [e1, e2, e3, if_neg n1, if_neg n2, if_neg n3]
  have hpe := notePartial_le _ _ _
    (notePartial_le _ _ _ (notePartial_le 0 _ (command.length + 4) (by omega) b1) b2) b3
  obtain ⟨st, e, h⟩ := familyEnd_returns stack command s _
    "\r\nUsage: GET DATE|TIME|ALARM\r\n" r3.args (uart ++ r1.uart ++ r2.uart ++ r3.uart)
    (by omega : notePartial (notePartial (notePartial 0 r1.error) r2.error) r3.error + 18 ≤ 253)
  exact ⟨st, e, fun r hr => ⟨(h r hr).1, (h r hr).2.1,
    fun hc => (h r hr).2.2 hc hpe (by decide)⟩⟩

/-- The SET family on a line that none of its templates matches: it returns; when it ends the
function (after a format diagnostic of `ParseCommand`, or after the diagnostic block), the
state and the hibernation request it records are those of the start, and no store behind
`buffer` is recorded for an array `command` of at most 11 bytes. -/
theorem setFamily_fails (oob : Int → Nat) (stack : Nat → Nat) (fuel : Nat)
    (command : List Nat) (s : State) (args : datetime_t) (uart : List Nat)
    (hlen : command.length ≤ 128)
    (h1 : ∀ a, ∃ r, ParseCommand oob fuel (bytes "SET DATE $D") command a = some r ∧
      r.error ≠ ERROR_SUCCESS ∧ r.error &&& 0x00ff ≤ command.length + 4)
    (h2 : ∀ a, ∃ r, ParseCommand oob fuel (bytes "SET TIME $T") command a = some r ∧
      r.error ≠ ERROR_SUCCESS ∧ r.error &&& 0x00ff ≤ command.length + 4)
    (h3 : ∀ a, ∃ r, ParseCommand oob fuel (bytes "SET ALARM $T") command a = some r ∧
      r.error ≠ ERROR_SUCCESS ∧ r.error &&& 0x00ff ≤ command.length + 4) :
    ∃ st, setFamily oob stack fuel command s args uart = some st ∧
      ∀ r, st = .done r → r.state = s ∧ r.hibernate = false ∧
        (command.length ≤ 11 → r.overrun = false) := by
  obtain ⟨r1, e1, n1, b1⟩ := h1 args
  obtain ⟨r2, e2, n2, b2⟩ := h2 r1.args
  obtain ⟨r3, e3, n3, b3⟩ := h3 r2.args
  have hdone : ∀ (u : List Nat) (r : CommandResult),
      Stage.done { state := s, uart := u, hibernate := false } = Stage.done r →
      r.state = s ∧ r.hibernate = false ∧ (command.length ≤ 11 → r.overrun = false) := by
    intro u r h
    simp only [Stage.done.injEq] at h
    subst h
    exact ⟨rfl, rfl, fun _ => rfl⟩
  unfold setFamily
  simp only [e1, if_neg n1]
  by_cases f1 : r1.error &&& ERROR_PARTIAL = 0 ∧ r1.error &&& ERROR_FORMAT ≠ 0
  · rw [if_pos f1]; exact ⟨_, rfl, hdone _⟩
  · rw [if_neg f1]
    simp only [e2, if_neg n2]
    by_cases f2 : r2.error &&& ERROR_PARTIAL = 0 ∧ r2.error &&& ERROR_FORMAT ≠ 0
    · rw [if_pos f2]; exact ⟨_, rfl, hdone _⟩
    · rw [if_neg f2]
      simp only [e3, if_neg n3]
      by_cases f3 : r3.error &&& ERROR_PARTIAL = 0 ∧ r3.error &&& ERROR_FORMAT ≠ 0
      · rw [if_pos f3]; exact ⟨_, rfl, hdone _⟩
      · rw [if_neg f3]
        have hpe := notePartial_le _ _ _
          (notePartial_le _ _ _ (notePartial_le 0 _ (command.length + 4) (by omega) b1) b2) b3
        obtain ⟨st, e, h⟩ := familyEnd_returns stack command s _
          "\r\nUsage: SET DATE <YYYY/MM/DD> Or SET ALARM|TIME <HH:MM:SS>\r\n" r3.args
          (uart ++ r1.uart ++ r2.uart ++ r3.uart)
          (by omega :
            notePartial (notePartial (notePartial 0 r1.error) r2.error) r3.error + 18 ≤ 253)
        exact ⟨st, e, fun r hr => ⟨(h r hr).1, (h r hr).2.1,
          fun hc => (h r hr).2.2 hc hpe (by decide)⟩⟩

/-- The code that `ParseCommand` returns on a line for one content of `args[0]` is the code it
returns for every content. -/
theorem ParseCommand_code_any_args (oob : Int → Nat) (fuel : Nat) (p command : List Nat)
    (args0 : datetime_t) (c : Nat)
    (h : (ParseCommand oob fuel p command args0).map (fun r => r.error) = some c) :
    ∀ a, ∃ r, ParseCommand oob fuel p command a = some r ∧ r.error = c := by
  intro a
  have h1 := ParseCommand_error oob fuel p command a
  rw [ParseCommand_error] at h
  rw [h] at h1
  cases hr : ParseCommand oob fuel p command a with
  | none => rw [hr] at h1; cases h1
  | some r =>
    rw [hr] at h1
    simp only [Option.map_some', Option.some.injEq] at h1
    exact ⟨r, rfl, h1⟩

/-- On a line that the three templates of the SET family match in part, the family ends in
the diagnostic block, with the largest of the three offsets. -/
theorem setFamily_diagnostic (oob : Int → Nat) (stack : Nat → Nat) (fuel : Nat)
    (command : List Nat) (s : State) (args : datetime_t) (uart : List Nat) (c1 c2 c3 : Nat)
    (h1 : ∀ a, ∃ r, ParseCommand oob fuel (bytes "SET DATE $D") command a = some r ∧
      r.error = c1)
    (h2 : ∀ a, ∃ r, ParseCommand oob fuel (bytes "SET TIME $T") command a = some r ∧
      r.error = c2)
    (h3 : ∀ a, ∃ r, ParseCommand oob fuel (bytes "SET ALARM $T") command a = some r ∧
      r.error = c3)
    (p1 : c1 &&& ERROR_PARTIAL ≠ 0) (p2 : c2 &&& ERROR_PARTIAL ≠ 0)
    (p3 : c3 &&& ERROR_PARTIAL ≠ 0) :
    ∃ a u, setFamily oob stack fuel command s args uart =
      familyEnd stack command s (notePartial (notePartial (notePartial 0 c1) c2) c3)
        "\r\nUsage: SET DATE <YYYY/MM/DD> Or SET ALARM|TIME <HH:MM:SS>\r\n" a u := by
  obtain ⟨r1, e1, q1⟩ := h1 args
  obtain ⟨r2, e2, q2⟩ := h2 r1.args
  obtain ⟨r3, e3, q3⟩ := h3 r2.args
  subst q1 q2 q3
  unfold setFamily
  simp only [e1]
  rw [if_neg (partial_bit_ne_success _ p1), if_neg (fun h => p1 h.1)]
  simp only [e2]
  rw [if_neg (partial_bit_ne_success _ p2), if_neg (fun h => p2 h.1)]
  simp only [e3]
  rw [if_neg (partial_bit_ne_success _ p3), if_neg (fun h => p3 h.1)]
  exact ⟨_, _, rfl⟩

/-- A line that none of the eleven templates accepts, in an array that fits `command`, with
any content of the uninitialised arrays and enough fuel: `ProcessCommand` returns.  When the
diagnostic block has stored inside `buffer` only, the state it leaves is the state it started
in (date, time of day, alarm time, mode, `alarming`, edit buffer and restart request among
it) and no hibernation is requested; this is so for every array of at most 11 bytes. -/
theorem unmatched_line_within_buffer (oob : Int → Nat) (stack : Nat → Nat) (fuel : Nat)
    (command : List Nat) (args args0 : datetime_t) (s : State)
    (hlen : command.length ≤ 128) (hfuel : command.length + 2 ≤ fuel)
    (hfail : ∀ p ∈ commandTemplates,
      (ParseCommand oob fuel p command args0).map (fun r => r.error) ≠ some ERROR_SUCCESS) :
    ∃ res, ProcessCommand oob stack fuel command args s = some res ∧
      (res.overrun = false → res.state = s ∧ res.hibernate = false) ∧
      (command.length ≤ 11 → res.overrun = false) := by
  have H : ∀ p ∈ commandTemplates, ∀ a, ∃ r, ParseCommand oob fuel p command a = some r ∧
      r.error ≠ ERROR_SUCCESS ∧ r.error &&& 0x00ff ≤ command.length + 4 := by
    intro p hp a
    obtain ⟨r, hr, hb⟩ := ParseCommand_returns oob fuel p command a (by omega) hfuel
    refine ⟨r, hr, fun hs => hfail p hp ?_, hb⟩
    have h1 := ParseCommand_error oob fuel p command a
    have h2 := ParseCommand_error oob fuel p command args0
    rw [h2, ← h1, hr, Option.map_some', hs]
  have m : ∀ n, n < 11 → commandTemplates.get! n ∈ commandTemplates := by decide
  obtain ⟨r0, e0, n0, _⟩ := H (bytes "?") (m 0 (by decide)) args
  obtain ⟨r1, e1, n1, _⟩ := H (bytes "MUTE") (m 1 (by decide)) r0.args
  obtain ⟨st1, g1, d1⟩ := clockFamily_fails oob stack fuel command s r1.args (r0.uart ++ r1.uart)
    hlen (H _ (m 2 (by decide))) (H _ (m 3 (by decide))) (H _ (m 4 (by decide)))
  unfold ProcessCommand
  simp only [e0, e1, if_neg n0, if_neg n1, g1]
  cases st1 with
  | done r => exact ⟨r, rfl, fun _ => ⟨(d1 r rfl).1, (d1 r rfl).2.1⟩, (d1 r rfl).2.2⟩
  | more a1 u1 =>
    obtain ⟨st2, g2, d2⟩ := getFamily_fails oob stack fuel command s a1 u1
      hlen (H _ (m 5 (by decide))) (H _ (m 6 (by decide))) (H _ (m 7 (by decide)))
    simp only [g2]
    cases st2 with
    | done r => exact ⟨r, rfl, fun _ => ⟨(d2 r rfl).1, (d2 r rfl).2.1⟩, (d2 r rfl).2.2⟩
    | more a2 u2 =>
      obtain ⟨st3, g3, d3⟩ := setFamily_fails oob stack fuel command s a2 u2
        hlen (H _ (m 8 (by decide))) (H _ (m 9 (by decide))) (H _ (m 10 (by decide)))
      simp only [g3]
      cases st3 with
      | done r => exact ⟨r, rfl, fun _ => ⟨(d3 r rfl).1, (d3 r rfl).2.1⟩, (d3 r rfl).2.2⟩
      | more a3 u3 => exact ⟨_, rfl, fun _ => ⟨rfl, rfl⟩, fun _ => rfl⟩

set_option maxRecDepth 100000 in
/-- Lines that no template accepts and whose diagnostic stays inside `buffer`, in the Display
state with the alarm active: `SET DATE 2024/13/01` (format error), `CLOCK X` (partial match,
85 bytes of text) and `HELLO` (no match) leave the state as it was. -/
theorem unmatched_line_within_buffer_examples :
    (∃ res, ProcessCommand (fun _ => 0) (fun _ => 0) 32 (bytes "SET DATE 2024/13/01")
        { month := 1, day := 2, year := 3, time := 4 } { displayExample with alarming := 1 } =
        some res ∧ res.overrun = false ∧
      res.state = { displayExample with alarming := 1 } ∧ res.hibernate = false) ∧
    (∃ res, ProcessCommand (fun _ => 0) (fun _ => 0) 32 (bytes "CLOCK X")
        { month := 1, day := 2, year := 3, time := 4 } { displayExample with alarming := 1 } =
        some res ∧ res.overrun = false ∧ res.uart.length = 85 ∧
      res.state = { displayExample with alarming := 1 } ∧ res.hibernate = false) ∧
    (∃ res, ProcessCommand (fun _ => 0) (fun _ => 0) 32 (bytes "HELLO")
        { month := 1, day := 2, year := 3, time := 4 } { displayExample with alarming := 1 } =
        some res ∧ res.overrun = false ∧
      res.state = { displayExample with alarming := 1 } ∧ res.hibernate = false) :=
  ⟨⟨_, rfl, rfl, rfl, rfl⟩, ⟨_, rfl, rfl, rfl, rfl, rfl⟩, ⟨_, rfl, rfl, rfl, rfl⟩⟩

set_option maxRecDepth 100000 in
/-- Claim C23 fails on the line `SET DAT 2024/06/18`, for every state and every content of
the stack.  None of the eleven templates returns `ERROR_SUCCESS` on it: the eight templates
without placeholder give `ERROR_NOT_MATCH`, and `SET DATE $D`, `SET TIME $T` and
`SET ALARM $T` give `ERROR_PARTIAL` with the offsets 7, 4 and 4.  The diagnostic block of the
SET family then builds its text in the array `buffer` of 128 cells: 38 bytes of echo, the
marker line up to cell 73, and the usage hint of 61 bytes with its NUL, the last store at
cell 135.  `ProcessCommand` ends with a store behind `buffer` recorded. -/
theorem unmatched_line_overruns_buffer (oob : Int → Nat) (stack : Nat → Nat) (s : State) :
    commandTemplates.map (fun p =>
        (ParseCommand oob 32 p (bytes "SET DAT 2024/06/18")
          { month := 0, day := 0, year := 0, time := 0 }).map (fun r => r.error)) =
      [some ERROR_NOT_MATCH, some ERROR_NOT_MATCH, some ERROR_NOT_MATCH, some ERROR_NOT_MATCH,
        some ERROR_NOT_MATCH, some ERROR_NOT_MATCH, some ERROR_NOT_MATCH, some ERROR_NOT_MATCH,
        some (ERROR_PARTIAL ||| 7), some (ERROR_PARTIAL ||| 4), some (ERROR_PARTIAL ||| 4)] ∧
    partialDiagnostic stack (bytes "SET DAT 2024/06/18") 7
        (bytes "\r\nUsage: SET DATE <YYYY/MM/DD> Or SET ALARM|TIME <HH:MM:SS>\r\n") =
      some (.overrun 135) ∧
    (ProcessCommand oob stack 32 (bytes "SET DAT 2024/06/18")
        { month := 0, day := 0, year := 0, time := 0 } s).map (fun r => r.overrun) =
      some true := by
  have hb : partialDiagnostic stack (bytes "SET DAT 2024/06/18") 7
      (bytes "\r\nUsage: SET DATE <YYYY/MM/DD> Or SET ALARM|TIME <HH:MM:SS>\r\n") =
        some (.overrun 135) :=
    partialDiagnostic_overrun stack (bytes "SET DAT 2024/06/18") 7
      (bytes "\r\nUsage: SET DATE <YYYY/MM/DD> Or SET ALARM|TIME <HH:MM:SS>\r\n") 22
      (by decide) (by decide) (fun _ => rfl) (by decide) (by decide)
  have hq : ∀ q ∈ placeholderFreeTemplates, ∀ a,
      ∃ r, ParseCommand oob 32 q (bytes "SET DAT 2024/06/18") a = some r ∧ r.error = 1024 := by
    intro q hq
    simp only [placeholderFreeTemplates, List.mem_cons, List.mem_singleton, List.not_mem_nil,
      or_false] at hq
    rcases hq with h | h | h | h | h | h | h | h <;> subst h <;>
      exact ParseCommand_code_any_args oob 32 _ _
        { month := 0, day := 0, year := 0, time := 0 } 1024 rfl
  obtain ⟨a, u, e⟩ := ProcessCommand_of_setFamily oob stack 32 (bytes "SET DAT 2024/06/18")
    { month := 0, day := 0, year := 0, time := 0 } s hq
  obtain ⟨a', u', e'⟩ := setFamily_diagnostic oob stack 32 (bytes "SET DAT 2024/06/18") s a u
    2055 2052 2052
    (ParseCommand_code_any_args oob 32 _ _ { month := 0, day := 0, year := 0, time := 0 } _ rfl)
    (ParseCommand_code_any_args oob 32 _ _ { month := 0, day := 0, year := 0, time := 0 } _ rfl)
    (ParseCommand_code_any_args oob 32 _ _ { month := 0, day := 0, year := 0, time := 0 } _ rfl)
    (by decide) (by decide) (by decide)
  refine ⟨rfl, hb, ?_⟩
  rw [e, e', show notePartial (notePartial (notePartial 0 2055) 2052) 2052 = 7 by decide]
  unfold familyEnd
  rw [if_pos (by decide), hb]
  rfl

/-! ### Serial input and the bytes behind a line -/

/-- One received byte is stored at the cursor, and the only other cell written is the one
before the cursor; the cursor advances by at most one. -/
theorem receiveByte_cells (u : UartState) (b : Nat) :
    (∀ k, u.uart_receive_cmd_cur < k → (receiveByte u b).command k = u.command k) ∧
    (receiveByte u b).uart_receive_cmd_cur ≤ u.uart_receive_cmd_cur + 1 := by
  unfold receiveByte
  simp only
  split_ifs
  · refine ⟨fun k hk => ?_, by simp⟩
    simp only
    rw [Function.update_noteq (by omega), Function.update_noteq (by omega),
      Function.update_noteq (by omega)]
  · refine ⟨fun k hk => ?_, by simp⟩
    simp only
    rw [Function.update_noteq (by omega)]
  · refine ⟨fun k hk => ?_, ?_⟩
    · simp only
      rw [Function.update_noteq (by omega)]
    · simp only
      exact Nat.le_trans (Nat.mod_le _ _) (Nat.le_refl _)

/-- As long as the bytes received since the last complete line are at most 128,
`UART0_Handler` leaves the memory behind the array `command` alone. -/
theorem UART0_Handler_within (fifo : List Nat) :
    ∀ u : UartState, u.uart_receive_cmd_cur + fifo.length ≤ 128 →
      (∀ k, 128 ≤ k → (UART0_Handler u fifo).command k = u.command k) ∧
        (UART0_Handler u fifo).uart_receive_cmd_cur ≤ u.uart_receive_cmd_cur + fifo.length := by
  induction fifo with
  | nil => intro u _; exact ⟨fun _ _ => rfl, Nat.le_refl _⟩
  | cons b fifo ih =>
    intro u h
    simp only [List.length_cons] at h
    have h1 := receiveByte_cells u b
    have h2 := ih (receiveByte u b) (by omega)
    simp only [UART0_Handler, List.foldl_cons, List.length_cons] at h2 ⊢
    refine ⟨fun k hk => ?_, by omega⟩
    rw [h2.1 k hk, h1.1 k (by omega)]

set_option maxRecDepth 100000 in
/-- Claim C31 fails on a line of 129 bytes: from the start state, after 129 bytes `A` without
CR LF the handler has stored the last one at index 128, behind the array `command[128]`, and
the cursor stands at 129; and after 130 bytes `A`, CR and LF the cells 128 and 129 hold `A`,
the NULs that replace CR and LF are in the cells 130 and 131, and `command_ready` is set:
the overlong line is marked ready as a command. -/
theorem UART0_Handler_writes_behind_command :
    uartStart.command 128 = 0 ∧
    (UART0_Handler uartStart (List.replicate 129 65)).command 128 = 65 ∧
    (UART0_Handler uartStart (List.replicate 129 65)).uart_receive_cmd_cur = 129 ∧
    (UART0_Handler uartStart (List.replicate 130 65 ++ [13, 10])).command 128 = 65 ∧
    (UART0_Handler uartStart (List.replicate 130 65 ++ [13, 10])).command 129 = 65 ∧
    (UART0_Handler uartStart (List.replicate 130 65 ++ [13, 10])).command 130 = 0 ∧
    (UART0_Handler uartStart (List.replicate 130 65 ++ [13, 10])).command_ready = 1 ∧
    (UART0_Handler uartStart (List.replicate 130 65 ++ [13, 10])).uart_receive_cmd_cur = 0 := by
  decide

/-- On a template without placeholder the loop of `ParseCommand` reads the input up to its
first NUL only: two arrays that agree up to and including the first NUL give the same
result. -/
theorem ParseCommandLoop_reads_line (oob : Int → Nat) (pattern c c' : List Nat) (n : Nat)
    (hn : n ≤ 255) (h0 : byteAt c n = 0) (hagree : ∀ k ≤ n, byteAt c' k = byteAt c k)
    (h36 : ∀ k, byteAt pattern k ≠ 36) (fuel : Nat) :
    ∀ (i j sk hs cur : Nat) (args : datetime_t), i ≤ n →
      ParseCommandLoop oob pattern c' fuel i j sk hs cur args =
        ParseCommandLoop oob pattern c fuel i j sk hs cur args := by
  induction fuel with
  | zero => intros; rfl
  | succ fuel ih =>
    intro i j sk hs cur args hi
    unfold ParseCommandLoop
    simp only
    rw [hagree i hi]
    by_cases h1 : byteAt c i ≠ 0 ∧ byteAt pattern j ≠ 0
    · have hlt : i < n := by
        rcases Nat.lt_or_ge i n with h | h
        · exact h
        · have : i = n := by omega
          rw [this] at h1
          exact absurd h0 h1.1
      have e1 : (i + 1) % 256 = i + 1 := Nat.mod_eq_of_lt (by omega)
      have h3 : ¬ ToUpperCase (byteAt pattern j) = 36 := by
        rw [ToUpperCase_eq_iff _ 36 (by omega)]; exact h36 j
      rw [if_pos h1, if_pos h1, if_neg h3, if_neg h3, e1]
      split_ifs <;> first | rfl | exact ih _ _ _ _ _ _ (by omega)
    · rw [if_neg h1, if_neg h1]

/-- On a template without placeholder `ParseCommand` reads the input up to its first NUL
only. -/
theorem ParseCommand_reads_line (oob : Int → Nat) (fuel : Nat) (pattern c c' : List Nat)
    (args : datetime_t) (n : Nat) (hn : n ≤ 255) (h0 : byteAt c n = 0)
    (hagree : ∀ k ≤ n, byteAt c' k = byteAt c k) (h36 : ∀ k, byteAt pattern k ≠ 36) :
    ParseCommand oob fuel pattern c' args = ParseCommand oob fuel pattern c args :=
  ParseCommandLoop_reads_line oob pattern c c' n hn h0 hagree h36 fuel 0 0 0 0 0 args
    (Nat.zero_le _)

set_option maxRecDepth 100000 in
/-- Claim C32 fails on the line `SET TIME 12:00:00` received after the longer line
`SET  ALARM  12:00:00`: the handler leaves in `command` the line, the two NULs in place of CR
and LF, and at index 19 the `0` of the earlier line.  On this array `ParseCommand` with the
template `SET TIME $T` returns `ERROR_PARTIAL` with offset 19, the index of a byte two places
behind the first NUL; on the same line with zeros behind it, it returns `ERROR_SUCCESS`. -/
theorem stale_byte_behind_line_changes_result :
    commandCells (UART0_Handler (UART0_Handler uartStart (bytes "SET  ALARM  12:00:00\r\n"))
      (bytes "SET TIME 12:00:00\r\n")) 24 =
      bytes "SET TIME 12:00:00" ++ [0, 0, 48, 0, 0, 0, 0] ∧
    cstring (bytes "SET TIME 12:00:00" ++ [0, 0, 48, 0, 0, 0, 0]) = bytes "SET TIME 12:00:00" ∧
    cstring (bytes "SET TIME 12:00:00" ++ [0, 0, 0, 0, 0, 0, 0]) = bytes "SET TIME 12:00:00" ∧
    ParseCommand (fun _ => 0) 32 (bytes "SET TIME $T")
      (bytes "SET TIME 12:00:00" ++ [0, 0, 48, 0, 0, 0, 0])
      { month := 0, day := 0, year := 0, time := 0 } =
      some { error := ERROR_PARTIAL ||| 19
             args := { month := 0, day := 0, year := 0, time := 43200 }, uart := [] } ∧
    ParseCommand (fun _ => 0) 32 (bytes "SET TIME $T")
      (bytes "SET TIME 12:00:00" ++ [0, 0, 0, 0, 0, 0, 0])
      { month := 0, day := 0, year := 0, time := 0 } =
      some { error := ERROR_SUCCESS
             args := { month := 0, day := 0, year := 0, time := 43200 }, uart := [] } := by
  decide

/-! ### Empty groups of a placeholder -/

/-- The key-configuration statement of `main` changes the mode byte of UP and DOWN only, and
clears every bit of it but `KEY_CONFIG_PRESS`, which it leaves as DOWN had it. -/
theorem configureKeys_config (ks : Fin 8 → keystate_t) (k : Fin 8) :
    (configureKeys ks k).config =
      if k = BUTTON_UP ∨ k = BUTTON_DOWN then (ks BUTTON_DOWN).config &&& KEY_CONFIG_PRESS
      else (ks k).config := by
  unfold configureKeys
  simp only
  split_ifs <;> simp_all

set_option maxRecDepth 100000 in
/-- Claim C34 fails on the zero-initialised key state: after the key-configuration statement
of `main` the bit `KEY_CONFIG_PRESS` is clear for all eight buttons, UP and DOWN included
(`0 & KEY_CONFIG_PRESS` is 0), so `DetectKey` takes its one-shot branch for UP: held down from
the released state, the flag being consumed after every sample, UP is pending after the
first sample and not after the 21st, where a Hold-repeat button (mode byte 1) is pending
again. -/
theorem key_configuration_leaves_UP_and_DOWN_momentary :
    (∀ k : Fin 8, (defaultState.keystate k).config = 0) ∧
    (∀ k : Fin 8, (configureKeys defaultState.keystate k).config &&& KEY_CONFIG_PRESS = 0) ∧
    pending (DetectKey 0xef (sampledAndConsumed (fun _ => 0xef) BUTTON_UP
      (configureKeys defaultState.keystate) 0)) BUTTON_UP = true ∧
    pending (DetectKey 0xef (sampledAndConsumed (fun _ => 0xef) BUTTON_UP
      (configureKeys defaultState.keystate) 20)) BUTTON_UP = false ∧
    pending (DetectKey 0xef (sampledAndConsumed (fun _ => 0xef) BUTTON_UP
      (fun _ => { config := 1, state := 0, timer := 0, flag := 0 }) 20)) BUTTON_UP = true := by
  decide

/-- The scroll speed stays in `-2..2` under `ProcDisplay`: LEFT adds one up to 2, RIGHT takes
one off down to -2. -/
theorem displayKeys_flow_speed (s : State) (h : -2 ≤ s.flow_speed ∧ s.flow_speed ≤ 2) :
    -2 ≤ (displayKeys s).flow_speed ∧ (displayKeys s).flow_speed ≤ 2 := by
  unfold displayKeys
  simp only
  split_ifs <;> (try simp only [toInt8]) <;> omega

/-- The 500 ms tick keeps a scroll offset in `0..15` in range: one place forward for the
speed 1, one place backward for the speed -1, modulo 16. -/
theorem tick500ms_flow_offset (s : State) (ho : s.flow_offset < 16) :
    (tick500ms s).flow_offset < 16 ∧
    (s.mode = MODE_DISPLAY → s.flow_speed = 1 →
      (tick500ms s).flow_offset = (s.flow_offset + 1) % 16) ∧
    (s.mode = MODE_DISPLAY → s.flow_speed = -1 →
      (tick500ms s).flow_offset = (s.flow_offset + 15) % 16) := by
  have e1 : toUInt8 (cmod ((s.flow_offset : Int) + 1) 16) = (s.flow_offset + 1) % 16 := by
    unfold toUInt8 cmod
    rw [Int.tmod_eq_emod (by omega) (by omega)]
    omega
  have e2 : toUInt8 (cmod ((s.flow_offset : Int) - 1 + 16) 16) = (s.flow_offset + 15) % 16 := by
    unfold toUInt8 cmod
    rw [Int.tmod_eq_emod (by omega) (by omega)]
    omega
  unfold tick500ms
  refine ⟨?_, fun hm hs => ?_, fun hm hs => ?_⟩
  · split_ifs
    · simp only [e1]; exact Nat.mod_lt _ (by omega)
    · simp only [e2]; exact Nat.mod_lt _ (by omega)
    · exact ho
    · exact ho
  · rw [if_pos hm, if_pos hs]; exact e1
  · rw [if_pos hm, if_neg (by rw [hs]; decide), if_pos hs]; exact e2

/-- The 250 ms tick moves the scroll offset one place forward modulo 16 for the speed 2, and
one place backward for the speed -2 when the offset is not 0. -/
theorem tick250ms_flow_offset (s : State) (ho : s.flow_offset < 16) (hm : s.mode = MODE_DISPLAY) :
    (s.flow_speed = 2 → (tick250ms s).flow_offset = (s.flow_offset + 1) % 16) ∧
    (s.flow_speed = -2 → 0 < s.flow_offset → (tick250ms s).flow_offset = s.flow_offset - 1) ∧
    (s.flow_speed = -2 → s.flow_offset = 0 → (tick250ms s).flow_offset = 255) := by
  have e1 : toUInt8 (cmod ((s.flow_offset : Int) + 1) 16) = (s.flow_offset + 1) % 16 := by
    unfold toUInt8 cmod
    rw [Int.tmod_eq_emod (by omega) (by omega)]
    omega
  have hfo : ∀ t : State, (if t.alarming = 1 then { t with alarming := 2 }
      else if t.alarming = 2 then { t with alarming := 1 } else t).flow_offset =
        t.flow_offset := by
    intro t; split_ifs <;> rfl
  unfold tick250ms
  simp only [hfo]
  refine ⟨fun hs => ?_, fun hs hp => ?_, fun hs h0 => ?_⟩
  · rw [if_pos hm, if_pos hs]; exact e1
  · rw [if_pos hm, if_neg (by rw [hs]; decide), if_pos hs]
    simp only
    unfold toUInt8 cmod
    rw [Int.tmod_eq_emod (by omega) (by omega)]
    omega
  · rw [if_pos hm, if_neg (by rw [hs]; decide), if_pos hs]
    simp only
    rw [h0]
    decide

/-- Claim C35 fails for the speed -2 at the offset 0.  From the start state (Display mode,
speed 1, offset 0) three RIGHT events bring the speed to -2 with the offset still 0, and the
next 250 ms tick stores 255 in `flow_offset`, outside `0..15`: `(flow_offset - 1) % 16` is -1
in C, and the `uint8_t` takes it as 255.  The 500 ms tick for the speed -1 goes from 0
to 15. -/
theorem fast_backward_scroll_leaves_range :
    (ProcDisplay { ProcDisplay { ProcDisplay { defaultState with
        keystate := setFlag defaultState.keystate BUTTON_RIGHT } with
        keystate := setFlag defaultState.keystate BUTTON_RIGHT } with
        keystate := setFlag defaultState.keystate BUTTON_RIGHT }).flow_speed = -2 ∧
    (ProcDisplay { ProcDisplay { ProcDisplay { defaultState with
        keystate := setFlag defaultState.keystate BUTTON_RIGHT } with
        keystate := setFlag defaultState.keystate BUTTON_RIGHT } with
        keystate := setFlag defaultState.keystate BUTTON_RIGHT }).flow_offset = 0 ∧
    (ProcDisplay { ProcDisplay { ProcDisplay { defaultState with
        keystate := setFlag defaultState.keystate BUTTON_RIGHT } with
        keystate := setFlag defaultState.keystate BUTTON_RIGHT } with
        keystate := setFlag defaultState.keystate BUTTON_RIGHT }).mode = MODE_DISPLAY ∧
    (tick250ms (ProcDisplay { ProcDisplay { ProcDisplay { defaultState with
        keystate := setFlag defaultState.keystate BUTTON_RIGHT } with
        keystate := setFlag defaultState.keystate BUTTON_RIGHT } with
        keystate := setFlag defaultState.keystate BUTTON_RIGHT })).flow_offset = 255 ∧
    (tick500ms { defaultState with flow_speed := -1 }).flow_offset = 15 := by
  decide

end Clock
